import Mathlib

/-!
# Reactive core of vue-2.6.14-study: dependency tracking and the update scheduler

A shallow embedding of `src/core/observer/{dep,watcher,scheduler,index,array}.js`.

* Watchers and Deps are identified with their `id` (both are allocated from
  `uid` counters, so ids are unique per object).
* JavaScript arrays are lists in array order.
* Code of the caller (a watcher's getter, its callback, `update()` seen from
  `Dep.notify`, `run()` seen from the scheduler) is an argument of the embedded
  function that receives it.
* A function of index.js or array.js has the result `none` when the call does not
  return normally: a nested call does not return within the call depth given, or
  the platform refuses a write with a `TypeError`.
-/

namespace Vue

/-! ## Values -/

/-- JavaScript values as far as the reactive core inspects them. -/
inductive Val where
  | undefined
  | null
  | bool (b : Bool)
  | num (n : Int)
  | nan
  | str (s : String)
  | ref (a : Nat)
  deriving DecidableEq, Repr

instance : Inhabited Val := ⟨Val.undefined⟩

/-- The conversion `ToBoolean`. -/
def truthy : Val → Bool
  | Val.undefined => false
  | Val.null => false
  | Val.bool b => b
  | Val.num n => n != 0
  | Val.nan => false
  | Val.str s => s != ""
  | Val.ref _ => true

/-- The strict equality `a === b`: `NaN` differs from itself, objects are compared by reference. -/
def strictEq : Val → Val → Bool
  | Val.nan, _ => false
  | _, Val.nan => false
  | a, b => decide (a = b)

/-- Modelled from the spec: `isObject` of `../util/index` (not under src/), true of
container values (`obj !== null && typeof obj === 'object'`). -/
def isObject : Val → Bool
  | Val.ref _ => true
  | _ => false

/-- Modelled from the spec: `remove(arr, item)` of `../util/index` (not under src/):
"removes node if present. No-op if absent" (one `indexOf` + `splice(index, 1)`). -/
def remove (arr : List Nat) (item : Nat) : List Nat :=
  arr.erase item

/-! ## Deps and watchers (dep.js, watcher.js) -/

/-- The fields of a `Watcher` object (watcher.js 35-51); its `id` is its key in `World.watchers`.
`depIds` and `newDepIds` are the `Set`s of dep ids, kept as duplicate-free lists. -/
structure Watcher where
  vm : Nat
  deep : Bool
  user : Bool
  lazy : Bool
  sync : Bool
  dirty : Bool
  active : Bool
  deps : List Nat
  newDeps : List Nat
  depIds : List Nat
  newDepIds : List Nat
  value : Val
  deriving DecidableEq, Repr

/-- The fields of a component instance that watcher.js touches. -/
structure Vm where
  _watcher : Option Nat
  _watchers : List Nat
  _isBeingDestroyed : Bool
  deriving DecidableEq, Repr

/-- The program state seen by dep.js and watcher.js.
`subs d` is `dep.subs` of the Dep with id `d`; `target` is `Dep.target` and
`targetStack` the module array of dep.js, top of the stack first.
`errors` records the calls of `handleError`, `cbCalls` the calls of watcher callbacks
`(watcher, value, oldValue)`, `queued` the calls of `queueWatcher` made by `update()`. -/
structure World where
  subs : Nat → List Nat
  watchers : Nat → Watcher
  uid : Nat
  vms : Nat → Vm
  target : Option Nat
  targetStack : List (Option Nat)
  errors : List Val
  cbCalls : List (Nat × Val × Val)
  queued : List Nat

/-- A watcher object before its constructor ran. -/
def Watcher.blank : Watcher :=
  { vm := 0, deep := false, user := false, lazy := false, sync := false, dirty := false,
    active := false, deps := [], newDeps := [], depIds := [], newDepIds := [],
    value := Val.undefined }

/-- The state at module load: no subscriptions, `uid = 0`, `Dep.target = null`. -/
def World.init : World :=
  { subs := fun _ => [], watchers := fun _ => Watcher.blank, uid := 0,
    vms := fun _ => { _watcher := none, _watchers := [], _isBeingDestroyed := false },
    target := none, targetStack := [], errors := [], cbCalls := [], queued := [] }

/-- Replace `dep.subs` of Dep `d`. -/
def World.setSubs (s : World) (d : Nat) (l : List Nat) : World :=
  { s with subs := fun x => if x = d then l else s.subs x }

/-- Replace the fields of watcher `w`. -/
def World.setWatcher (s : World) (w : Nat) (W : Watcher) : World :=
  { s with watchers := fun x => if x = w then W else s.watchers x }

/-- Replace the fields of component `v`. -/
def World.setVm (s : World) (v : Nat) (V : Vm) : World :=
  { s with vms := fun x => if x = v then V else s.vms x }

/-- `Set.prototype.add` on a set of ids. -/
def setAdd (ids : List Nat) (id : Nat) : List Nat :=
  if id ∈ ids then ids else ids ++ [id]

/-- `Dep.addSub` (dep.js 25-27): `this.subs.push(sub)`. -/
def Dep.addSub (s : World) (d sub : Nat) : World :=
  s.setSubs d (s.subs d ++ [sub])

/-- `Dep.removeSub` (dep.js 30-32): `remove(this.subs, sub)`. -/
def Dep.removeSub (s : World) (d sub : Nat) : World :=
  s.setSubs d (remove (s.subs d) sub)

/-- `Watcher.addDep` (watcher.js 132-143). -/
def Watcher.addDep (s : World) (w d : Nat) : World :=
  let W := s.watchers w
  if d ∈ W.newDepIds then s
  else
    let s1 := s.setWatcher w { W with newDepIds := setAdd W.newDepIds d, newDeps := W.newDeps ++ [d] }
    if d ∈ W.depIds then s1 else Dep.addSub s1 d w

/-- `Dep.depend` (dep.js 37-42): `if (Dep.target) Dep.target.addDep(this)`. -/
def Dep.depend (s : World) (d : Nat) : World :=
  match s.target with
  | some w => Watcher.addDep s w d
  | none => s

/-- `pushTarget` (dep.js 65-68). -/
def pushTarget (s : World) (t : Option Nat) : World :=
  { s with targetStack := t :: s.targetStack, target := t }

/-- `popTarget` (dep.js 71-74): pop, then `Dep.target = targetStack[targetStack.length - 1]`
(`undefined` on an empty stack). -/
def popTarget (s : World) : World :=
  { s with targetStack := s.targetStack.tail, target := (s.targetStack.tail.head?).join }

/-- `Watcher.cleanupDeps` (watcher.js 151-170). The `while (i--)` loop visits `deps` from
the last entry to the first, which is the order of `List.foldr`. -/
def Watcher.cleanupDeps (s : World) (w : Nat) : World :=
  let W := s.watchers w
  let s1 := W.deps.foldr (fun d acc => if d ∈ W.newDepIds then acc else Dep.removeSub acc d w) s
  s1.setWatcher w { W with depIds := W.newDepIds, newDepIds := [], deps := W.newDeps, newDeps := [] }

/-- One evaluation of a watcher's getter, as far as the reactive core observes it:
the Deps whose `depend()` ran during `this.getter.call(vm, vm)`, in order; the value returned
(`Except.ok`) or the error thrown (`Except.error`); and the Deps whose `depend()` runs
when `traverse` (`./traverse`, not under src/) walks a value. -/
structure Evaluation where
  reads : List Nat
  outcome : Except Val Val
  traverse : Val → List Nat

/-- `Watcher.get` (watcher.js 103-126) for a getter and a `traverse` that make `depend()`
calls and nothing else (`Watcher.getWith` takes arbitrary ones). Returns the state and the
completion of the call: `Except.ok value` for `return value`, `Except.error e` when the
error is rethrown. -/
def Watcher.get (s : World) (w : Nat) (ev : Evaluation) : World × Except Val Val :=
  let W := s.watchers w
  let s1 := pushTarget s (some w)
  let s2 := ev.reads.foldl Dep.depend s1
  let value : Val := match ev.outcome with
    | Except.ok v => v
    | Except.error _ => Val.undefined
  let s3 : World := match ev.outcome with
    | Except.ok _ => s2
    | Except.error e => if W.user then { s2 with errors := s2.errors ++ [e] } else s2
  let s4 := if W.deep then (ev.traverse value).foldl Dep.depend s3 else s3
  let s5 := popTarget s4
  let s6 := Watcher.cleanupDeps s5 w
  match ev.outcome with
  | Except.ok v => (s6, Except.ok v)
  | Except.error e => if W.user then (s6, Except.ok Val.undefined) else (s6, Except.error e)

/-- `Watcher.run` (watcher.js 197-220). The call of the callback is recorded in `cbCalls`;
the callback is taken to return. -/
def Watcher.run (s : World) (w : Nat) (ev : Evaluation) : World × Except Val Unit :=
  if (s.watchers w).active then
    match Watcher.get s w ev with
    | (s1, Except.error e) => (s1, Except.error e)
    | (s1, Except.ok value) =>
      let W := s1.watchers w
      if !(strictEq value W.value) || isObject value || W.deep then
        let oldValue := W.value
        let s2 := s1.setWatcher w { W with value := value }
        ({ s2 with cbCalls := s2.cbCalls ++ [(w, value, oldValue)] }, Except.ok ())
      else (s1, Except.ok ())
  else (s, Except.ok ())

/-- `Watcher.evaluate` (watcher.js 226-229). -/
def Watcher.evaluate (s : World) (w : Nat) (ev : Evaluation) : World × Except Val Unit :=
  match Watcher.get s w ev with
  | (s1, Except.error e) => (s1, Except.error e)
  | (s1, Except.ok value) =>
    (s1.setWatcher w { s1.watchers w with value := value, dirty := false }, Except.ok ())

/-- `Watcher.depend` (watcher.js 235-240). -/
def Watcher.depend (s : World) (w : Nat) : World :=
  (s.watchers w).deps.foldr (fun d acc => Dep.depend acc d) s

/-- `Watcher.teardown` (watcher.js 247-263). -/
def Watcher.teardown (s : World) (w : Nat) : World :=
  let W := s.watchers w
  if W.active then
    let V := s.vms W.vm
    let s1 := if !V._isBeingDestroyed then s.setVm W.vm { V with _watchers := remove V._watchers w } else s
    let s2 := W.deps.foldr (fun d acc => Dep.removeSub acc d w) s1
    s2.setWatcher w { s2.watchers w with active := false }
  else s

/-- The `options` argument of the `Watcher` constructor. -/
structure WatcherOptions where
  deep : Bool
  user : Bool
  lazy : Bool
  sync : Bool
  deriving DecidableEq, Repr

/-- The `Watcher` constructor (watcher.js 53-98): returns the state and the new watcher's id. -/
def Watcher.new (s : World) (vm : Nat) (options : Option WatcherOptions) (isRenderWatcher : Bool)
    (ev : Evaluation) : World × Nat × Except Val Unit :=
  let V := s.vms vm
  let id := s.uid + 1
  let V1 : Vm := if isRenderWatcher then { V with _watcher := some id } else V
  let s1 := s.setVm vm { V1 with _watchers := V1._watchers ++ [id] }
  let o : WatcherOptions := match options with
    | some o => o
    | none => { deep := false, user := false, lazy := false, sync := false }
  let W : Watcher :=
    { vm := vm, deep := o.deep, user := o.user, lazy := o.lazy, sync := o.sync, dirty := o.lazy,
      active := true, deps := [], newDeps := [], depIds := [], newDepIds := [],
      value := Val.undefined }
  let s2 := { s1.setWatcher id W with uid := id }
  if o.lazy then (s2, id, Except.ok ())
  else
    match Watcher.get s2 id ev with
    | (s3, Except.error e) => (s3, id, Except.error e)
    | (s3, Except.ok value) => (s3.setWatcher id { s3.watchers id with value := value }, id, Except.ok ())

/-- `Watcher.update` (watcher.js 178-189); `ev` is the evaluation performed if the watcher
is `sync` and runs in place. -/
def Watcher.update (s : World) (w : Nat) (ev : Evaluation) : World × Except Val Unit :=
  let W := s.watchers w
  if W.lazy then (s.setWatcher w { W with dirty := true }, Except.ok ())
  else if W.sync then Watcher.run s w ev
  else ({ s with queued := s.queued ++ [w] }, Except.ok ())

/-- The Deps whose `depend()` runs while watcher `w` is `Dep.target` in `w.get()`:
those read by the getter and, for a `deep` watcher, those touched by `traverse(value)`. -/
def Evaluation.touched (ev : Evaluation) (deep : Bool) : List Nat :=
  let value : Val := match ev.outcome with
    | Except.ok v => v
    | Except.error _ => Val.undefined
  ev.reads ++ (if deep then ev.traverse value else [])

/-- Watcher `w` is consistent between two evaluations: it is in the `subs` of exactly the Deps
of its `deps` list (once in each), `depIds` is the id set of `deps`, and the scratch
collections `newDeps` / `newDepIds` are empty. -/
def Consistent (s : World) (w : Nat) : Prop :=
  (∀ d, w ∈ s.subs d ↔ d ∈ (s.watchers w).deps) ∧
  (s.watchers w).newDeps = [] ∧ (s.watchers w).newDepIds = [] ∧
  (∀ d, d ∈ (s.watchers w).depIds ↔ d ∈ (s.watchers w).deps) ∧
  (∀ d, (s.subs d).count w ≤ 1)

/-- Watcher `w` has been constructed: ids are handed out from `++uid`. -/
def World.constructed (s : World) (w : Nat) : Prop :=
  1 ≤ w ∧ w ≤ s.uid

/-- The states reachable from module load by constructing watchers and calling the methods
of constructed watchers, in any order and at any nesting: `pushTarget` / `popTarget` /
`Dep.depend` are steps of their own, so the states in the middle of a `get()` are covered,
and `Watcher.addDep` is only entered through `Dep.depend`. -/
inductive Reachable : World → Prop where
  | init : Reachable World.init
  | construct (s : World) (vm : Nat) (options : Option WatcherOptions) (isRenderWatcher : Bool)
      (ev : Evaluation) :
      Reachable s → Reachable (Watcher.new s vm options isRenderWatcher ev).1
  | get (s : World) (w : Nat) (ev : Evaluation) :
      Reachable s → s.constructed w → Reachable (Watcher.get s w ev).1
  | run (s : World) (w : Nat) (ev : Evaluation) :
      Reachable s → s.constructed w → Reachable (Watcher.run s w ev).1
  | evaluate (s : World) (w : Nat) (ev : Evaluation) :
      Reachable s → s.constructed w → Reachable (Watcher.evaluate s w ev).1
  | update (s : World) (w : Nat) (ev : Evaluation) :
      Reachable s → s.constructed w → Reachable (Watcher.update s w ev).1
  | depend (s : World) (w : Nat) :
      Reachable s → s.constructed w → Reachable (Watcher.depend s w)
  | cleanupDeps (s : World) (w : Nat) :
      Reachable s → s.constructed w → Reachable (Watcher.cleanupDeps s w)
  | teardown (s : World) (w : Nat) :
      Reachable s → s.constructed w → Reachable (Watcher.teardown s w)
  | depDepend (s : World) (d : Nat) :
      Reachable s → Reachable (Dep.depend s d)
  | pushTarget (s : World) (w : Nat) :
      Reachable s → s.constructed w → Reachable (pushTarget s (some w))
  | pushNoTarget (s : World) :
      Reachable s → Reachable (pushTarget s none)
  | popTarget (s : World) :
      Reachable s → Reachable (popTarget s)

/-- A state with one watcher (id 1) that subscribed to Deps 1 and 2 in its last run. -/
def World.sample : World :=
  { World.init with
    subs := fun d => if d = 1 ∨ d = 2 then [1] else [],
    watchers := fun x =>
      if x = 1 then { Watcher.blank with active := true, deps := [1, 2], depIds := [1, 2] }
      else Watcher.blank,
    uid := 1 }

/-- An evaluation that reads Deps 2 and 3 (Dep 2 twice) and returns `7`. -/
def Evaluation.sample : Evaluation :=
  { reads := [2, 3, 2], outcome := Except.ok (Val.num 7), traverse := fun _ => [] }

/-- The representation invariant of dep.js / watcher.js that keeps subscriber lists free of
duplicates: a watcher is at most once in any `subs`; it is only in the `subs` of Deps recorded
in `depIds` or `newDepIds`; the id sets mirror the dep arrays; watchers not yet constructed
are subscribed nowhere; `Dep.target` and the target stack hold constructed watchers. -/
def World.WF (s : World) : Prop :=
  (∀ w d, (s.subs d).count w ≤ 1) ∧
  (∀ w d, w ∈ s.subs d → d ∈ (s.watchers w).depIds ∨ d ∈ (s.watchers w).newDepIds) ∧
  (∀ w d, d ∈ (s.watchers w).depIds ↔ d ∈ (s.watchers w).deps) ∧
  (∀ w d, d ∈ (s.watchers w).newDepIds ↔ d ∈ (s.watchers w).newDeps) ∧
  (∀ w d, s.uid < w → w ∉ s.subs d) ∧
  (∀ w, s.target = some w → s.constructed w) ∧
  (∀ w, some w ∈ s.targetStack → s.constructed w)

/-- An evaluation that reads Dep 1, Dep 2 and Dep 1 again and returns `1`. -/
def Evaluation.first : Evaluation :=
  { reads := [1, 2, 1], outcome := Except.ok (Val.num 1), traverse := fun _ => [] }

/-- The loop of `Dep.notify` (dep.js 50-52) over the copied array `subs`, from index `i`
with `n` iterations left: `for (let i = 0, l = subs.length; i < l; i++) subs[i].update()`.
`update w` is `subs[i].update()`, code of the caller of this loop: the state it leaves and
whether it returns (`Except.ok`) or throws (`Except.error`); a throw ends the loop, which
has no handler. The list records the `update()` calls made, in order. -/
def Dep.notifyLoop (update : Nat → World → World × Except Val Unit) (subs : List Nat) :
    Nat → Nat → World × List Nat → World × List Nat × Except Val Unit
  | 0, _, (s, calls) => (s, calls, Except.ok ())
  | n + 1, i, (s, calls) =>
    match subs[i]? with
    | some w =>
      match update w s with
      | (s1, Except.ok _) => Dep.notifyLoop update subs n (i + 1) (s1, calls ++ [w])
      | (s1, Except.error e) => (s1, calls ++ [w], Except.error e)
    | none => (s, calls, Except.ok ())

/-- `Dep.notify` (dep.js 46-53): `const subs = this.subs.slice()`, then the loop. Returns the
state, the `update()` calls made, and the completion of the call. -/
def Dep.notify (update : Nat → World → World × Except Val Unit) (s : World) (d : Nat) :
    World × List Nat × Except Val Unit :=
  let subs := s.subs d
  Dep.notifyLoop update subs subs.length 0 (s, [])

/-- An `update()` that mutates the notifying Dep 0 and returns: the first subscriber called
unsubscribes the watcher after it (watcher 2) and subscribes a new one (watcher 9). -/
def updateMutating (w : Nat) (s : World) : World × Except Val Unit :=
  if w = 1 then (Dep.addSub (Dep.removeSub s 0 2) 0 9, Except.ok ()) else (s, Except.ok ())

/-- A state in which Dep 0 has the subscribers 1, 2, 3. -/
def World.threeSubs : World :=
  { World.init with subs := fun d => if d = 0 then [1, 2, 3] else [], uid := 3 }

/-! ## The scheduler (scheduler.js) -/

/-- `MAX_UPDATE_COUNT` (scheduler.js 15). -/
def MAX_UPDATE_COUNT : Nat := 100

/-- An entry of the `has` object: no entry, `true`, or `null`. -/
inductive HasMark where
  | undefined
  | yes
  | null
  deriving DecidableEq, Repr

/-- The module state of scheduler.js (17-22); watchers are identified with their ids.
`ticks` counts the calls `nextTick(flushSchedulerQueue)` made so far (`nextTick` is
`../util/index`, not under src/). -/
structure Sched where
  queue : List Nat
  activatedChildren : List Nat
  has : Nat → HasMark
  waiting : Bool
  flushing : Bool
  index : Nat
  ticks : Nat

/-- The scheduler state at module load. -/
def Sched.init : Sched :=
  { queue := [], activatedChildren := [], has := fun _ => HasMark.undefined,
    waiting := false, flushing := false, index := 0, ticks := 0 }

/-- `resetSchedulerState` (scheduler.js 27-31). -/
def resetSchedulerState (s : Sched) : Sched :=
  { s with index := 0, queue := [], activatedChildren := [],
           has := fun _ => HasMark.undefined, waiting := false, flushing := false }

/-- The assignment `has[id] = m`. -/
def Sched.setHas (s : Sched) (id : Nat) (m : HasMark) : Sched :=
  { s with has := fun x => if x = id then m else s.has x }

/-- The backward scan of `queueWatcher` (scheduler.js 165-169),
`let i = queue.length - 1; while (i > index && queue[i].id > watcher.id) i--`,
as a function of `i + 1`: `scanBack queue index id (i + 1)` is the value of `i + 1` when the
loop ends, the position passed to `splice`. -/
def scanBack (queue : List Nat) (index id : Nat) : Nat → Nat
  | 0 => 0
  | i + 1 =>
    if index < i ∧ id < queue.getD i 0 then scanBack queue index id i else i + 1

/-- `queue.splice(pos, 0, watcher)`. -/
def spliceIn (queue : List Nat) (pos watcher : Nat) : List Nat :=
  queue.take pos ++ watcher :: queue.drop pos

/-- `queueWatcher` (scheduler.js 152-178). -/
def queueWatcher (s : Sched) (watcher : Nat) : Sched :=
  let id := watcher
  if s.has id ≠ HasMark.yes then
    let s1 := s.setHas id HasMark.yes
    let s2 : Sched :=
      if !s1.flushing then { s1 with queue := s1.queue ++ [watcher] }
      else { s1 with queue := spliceIn s1.queue (scanBack s1.queue s1.index id s1.queue.length) watcher }
    if !s2.waiting then { s2 with waiting := true, ticks := s2.ticks + 1 } else s2
  else s

/-- `queueActivatedComponent` (scheduler.js 131-136), as far as the scheduler state goes. -/
def queueActivatedComponent (s : Sched) (vm : Nat) : Sched :=
  { s with activatedChildren := s.activatedChildren ++ [vm] }

/-- The code the scheduler calls back into, with its own state `ε`: each call leaves a new
state and the `queueWatcher` calls it made, in order. `before w` is `watcher.before()`
(nothing when the watcher has none), `run w` is `watcher.run()`; `beforeThrows w e` and
`runThrows w e` tell whether that call, made in state `e`, ends by throwing instead of
returning (`run()` rethrows the error of the getter or of the callback of a watcher that is
not a user watcher, watcher.js 114 and 216). `activated vm` is
`activateChildComponent(vm, true)` and `updated w` one iteration of `callUpdatedHooks` (the
`updated` hook of the watcher's vm when its guard passes); both go through `callHook`
(`../instance/lifecycle`, not under src/), which reports the error of a hook without
propagating it. -/
structure Jobs (ε : Type) where
  before : Nat → ε → ε × List Nat
  run : Nat → ε → ε × List Nat
  activated : Nat → ε → ε × List Nat
  updated : Nat → ε → ε × List Nat
  beforeThrows : Nat → ε → Bool := fun _ _ => false
  runThrows : Nat → ε → Bool := fun _ _ => false

/-- The state of a flush in progress: scheduler state, state of the called code, the
watchers whose `run()` has been called, in order, and whether a call has thrown, which ends
`flushSchedulerQueue` there and then (the loop has no handler). -/
structure FlushState (ε : Type) where
  sched : Sched
  env : ε
  ran : List Nat
  thrown : Bool := false

/-- The start of `flushSchedulerQueue` (scheduler.js 71-88): `flushing = true`, the queue is
sorted by ascending id, `index = 0`. -/
def flushStart (s : Sched) : Sched :=
  { s with flushing := true, queue := s.queue.insertionSort (· ≤ ·), index := 0 }

/-- One body of the flush loop (scheduler.js 89-97) for `watcher = queue[index]`. When
`watcher.before()` throws, `has[id] = null` and `watcher.run()` are not reached. -/
def flushBody {ε : Type} (J : Jobs ε) (st : FlushState ε) (watcher : Nat) : FlushState ε :=
  let b := J.before watcher st.env
  let s1 := b.2.foldl queueWatcher st.sched
  if J.beforeThrows watcher st.env then { sched := s1, env := b.1, ran := st.ran, thrown := true }
  else
    let s2 := s1.setHas watcher HasMark.null
    let r := J.run watcher b.1
    let s3 := r.2.foldl queueWatcher s2
    { sched := s3, env := r.1, ran := st.ran ++ [watcher], thrown := J.runThrows watcher b.1 }

/-- The first `n` iterations of `for (index = 0; index < queue.length; index++)`
(fewer when the loop exits before, or when a call throws: `index++` is then not reached
and nothing more is run). -/
def flushIter {ε : Type} (J : Jobs ε) : Nat → FlushState ε → FlushState ε
  | 0, st => st
  | n + 1, st =>
    if st.thrown then st
    else
      match st.sched.queue[st.sched.index]? with
      | none => st
      | some watcher =>
        let st1 := flushBody J st watcher
        if st1.thrown then st1
        else flushIter J n { st1 with sched := { st1.sched with index := st1.sched.index + 1 } }

/-- The flush loop with `fuel` iterations at most: `none` when a call has thrown or the
loop has not exited by then. -/
def flushLoop {ε : Type} (J : Jobs ε) (fuel : Nat) (st : FlushState ε) : Option (FlushState ε) :=
  let st1 := flushIter J fuel st
  if st1.thrown then none
  else if st1.sched.index < st1.sched.queue.length then none else some st1

/-- What a completed `flushSchedulerQueue` leaves: the watchers run, in order; the scheduler
state when the first post-flush hook is invoked; the copies handed to the hooks; the
final states. -/
structure FlushResult (ε : Type) where
  ran : List Nat
  atHooks : Sched
  activatedQueue : List Nat
  updatedQueue : List Nat
  sched : Sched
  env : ε

/-- A post-flush hook loop: each hook runs and its `queueWatcher` calls take effect. -/
def callHooks {ε : Type} (hook : Nat → ε → ε × List Nat) (items : List Nat) (st : Sched × ε) :
    Sched × ε :=
  items.foldl (fun acc x => ((hook x acc.2).2.foldl queueWatcher acc.1, (hook x acc.2).1)) st

/-- `flushSchedulerQueue` (scheduler.js 67-113); `callUpdatedHooks` walks its queue from the
last entry to the first. The result is `none` when the call does not return: a `before()`
or a `run()` throws, or the loop has not exited within `fuel` iterations. -/
def flushSchedulerQueue {ε : Type} (J : Jobs ε) (fuel : Nat) (s : Sched) (e : ε) :
    Option (FlushResult ε) :=
  match flushLoop J fuel { sched := flushStart s, env := e, ran := [] } with
  | none => none
  | some st =>
    let activatedQueue := st.sched.activatedChildren
    let updatedQueue := st.sched.queue
    let s1 := resetSchedulerState st.sched
    let h1 := callHooks J.activated activatedQueue (s1, st.env)
    let h2 := callHooks J.updated updatedQueue.reverse h1
    some { ran := st.ran, atHooks := s1, activatedQueue := activatedQueue,
           updatedQueue := updatedQueue, sched := h2.1, env := h2.2 }

/-- Watchers only call back into `run()`: no `before`, no hooks, no state of their own. -/
def Jobs.ofRun (run : Nat → List Nat) : Jobs Unit :=
  { before := fun _ e => (e, []), run := fun w e => (e, run w),
    activated := fun _ e => (e, []), updated := fun _ e => (e, []) }

/-- Watchers whose `run()` enqueues nothing and whose `before()` hook makes the
`queueWatcher` calls `before w` (a `beforeUpdate` hook that writes reactive state). -/
def Jobs.ofBefore (before : Nat → List Nat) : Jobs Unit :=
  { before := fun w e => (e, before w), run := fun _ e => (e, []),
    activated := fun _ e => (e, []), updated := fun _ e => (e, []) }

/-- Every `queueWatcher` call made in the first `n` iterations of the flush loop is for a
watcher that is still waiting in the queue: at or after the cursor for a call from
`before()`, after the cursor for a call from `run()`. -/
def onlyRetriggersWaiting {ε : Type} (J : Jobs ε) : Nat → FlushState ε → Bool
  | 0, _ => true
  | n + 1, st =>
    match st.sched.queue[st.sched.index]? with
    | none => true
    | some watcher =>
      let st1 := flushBody J st watcher
      (J.before watcher st.env).2.all (fun r => decide (r ∈ st.sched.queue.drop st.sched.index)) &&
      (J.run watcher (J.before watcher st.env).1).2.all
        (fun r => decide (r ∈ st.sched.queue.drop (st.sched.index + 1))) &&
      onlyRetriggersWaiting J n { st1 with sched := { st1.sched with index := st1.sched.index + 1 } }

/-- The scenario of the spec: watcher 2 (B) re-triggers watcher 3 (C) when it runs. -/
def Jobs.retriggerNext : Jobs Unit :=
  Jobs.ofRun (fun w => if w = 2 then [3] else [])

/-- Watchers whose `run()` enqueues nothing. -/
def Jobs.quiet : Jobs Unit :=
  Jobs.ofRun (fun _ => [])

/-- Watchers whose `run()` unconditionally calls `queueWatcher` on themselves (a getter that
sets the value it reads). -/
def Jobs.selfTrigger : Jobs Unit :=
  Jobs.ofRun (fun w => [w])

/-- Watchers that enqueue nothing, of which watcher `w0` has a `run()` that throws (the
getter of a watcher that is not a user watcher throws). -/
def Jobs.throwsAt (w0 : Nat) : Jobs Unit :=
  { before := fun _ e => (e, []), run := fun _ e => (e, []),
    activated := fun _ e => (e, []), updated := fun _ e => (e, []),
    runThrows := fun w _ => decide (w = w0) }

/-- Where the scheduler is: outside a flush (which includes the post-flush hooks, run after
the reset); in a flush at the head of the loop body, where `watcher.before()` runs; in a
flush inside `watcher.run()`, after `has[id] = null`. -/
inductive Phase where
  | idle
  | head
  | running
  deriving DecidableEq, Repr

/-- The scheduler states reachable through `queueWatcher` and `flushSchedulerQueue`, the
flush taken statement by statement so that the states in the middle of a flush, with the
`queueWatcher` calls made from `before()` and from `run()`, are covered. -/
inductive SchedReachable : Phase → Sched → Prop where
  | init : SchedReachable Phase.idle Sched.init
  | queueIdle (s : Sched) (w : Nat) :
      SchedReachable Phase.idle s → SchedReachable Phase.idle (queueWatcher s w)
  | flushStart (s : Sched) :
      SchedReachable Phase.idle s → SchedReachable Phase.head (flushStart s)
  | queueBefore (s : Sched) (w : Nat) :
      SchedReachable Phase.head s → s.index < s.queue.length →
      SchedReachable Phase.head (queueWatcher s w)
  | runStart (s : Sched) (w : Nat) :
      SchedReachable Phase.head s → s.queue[s.index]? = some w →
      SchedReachable Phase.running (s.setHas w HasMark.null)
  | queueRunning (s : Sched) (w : Nat) :
      SchedReachable Phase.running s → SchedReachable Phase.running (queueWatcher s w)
  | runEnd (s : Sched) :
      SchedReachable Phase.running s → SchedReachable Phase.head { s with index := s.index + 1 }
  | flushEnd (s : Sched) :
      SchedReachable Phase.head s → s.queue.length ≤ s.index →
      SchedReachable Phase.idle (resetSchedulerState s)

/-- The queue entries whose `run()` is still to come: the whole queue outside a flush, the
entries from the cursor on at the head of the loop body, the entries after the cursor while
the watcher at the cursor runs. -/
def Sched.pending (s : Sched) : Phase → List Nat
  | Phase.idle => s.queue
  | Phase.head => s.queue.drop s.index
  | Phase.running => s.queue.drop (s.index + 1)

/-- The state inside the first `run()` of a flush of the single watcher 1, after that
`run()` has called `queueWatcher` on watcher 1 itself. -/
def Sched.selfRequeued : Sched :=
  queueWatcher ((flushStart (queueWatcher Sched.init 1)).setHas 1 HasMark.null) 1

/-- The scheduler invariant, by phase: `flushing` tells whether a flush is in progress; the
watcher at the cursor exists while it runs; the pending entries are pairwise distinct and
marked present in `has`. -/
def Sched.Inv (s : Sched) (p : Phase) : Prop :=
  (s.flushing = true ↔ p ≠ Phase.idle) ∧
  (p = Phase.running → s.index < s.queue.length) ∧
  (s.pending p).Nodup ∧
  (∀ r ∈ s.pending p, s.has r = HasMark.yes)

/-! ## Observed values (index.js)

Objects live in a heap and are referred to by address (`Val.ref`). A property is a data slot
or an accessor slot; the accessor functions are those of the caller (`Fn.user`) or the
`reactiveGetter` / `reactiveSetter` pair of one `defineReactive` call (`Fn.reactive c`),
whose captured variables are the closure `c`. -/

/-- What `Array.isArray`, `isPlainObject` and `instanceof VNode` tell about an object. -/
inductive ObjKind where
  | plain
  | array
  | vnode
  | other
  deriving DecidableEq, Repr

/-- An accessor function stored in a property descriptor. -/
inductive Fn where
  | user (n : Nat)
  | reactive (c : Nat)
  deriving DecidableEq, Repr

/-- An own property. -/
inductive Slot where
  | data (value : Val) (enumerable configurable : Bool)
  | accessor (get set : Option Fn) (enumerable configurable : Bool)
  deriving DecidableEq, Repr

/-- An object: `ob` is its own `__ob__` when that holds an `Observer` (the observer's index),
`isVue` its `_isVue` flag, `augmented` whether `protoAugment` / `copyAugment` installed the
intercepted array methods, `props` its own string-keyed properties in creation order and
`elems` the elements of an array, which has no holes. `extensible`, `writable` and
`elemsConfigurable` are what `Object.preventExtensions`, `Object.seal` and `Object.freeze`
change: whether properties and elements can be added; whether the own data properties and,
for an array, the elements and `length` are writable (`freeze` clears it); whether the
elements of an array can be deleted (`seal` and `freeze` clear it). An own `__ob__` or
`_isVue` that holds another value than the Observer or a truthy flag is an entry of
`props`. -/
structure Obj where
  kind : ObjKind
  extensible : Bool
  isVue : Bool
  ob : Option Nat
  augmented : Bool
  props : List (String × Slot)
  elems : List Val
  writable : Bool := true
  elemsConfigurable : Bool := true
  deriving DecidableEq, Repr

/-- The variables captured by the accessors that one `defineReactive` call installs
(index.js 160-177): `childOb` is `none` for `false` / `undefined`. -/
structure Closure where
  dep : Nat
  val : Val
  childOb : Option Nat
  getter : Option Fn
  setter : Option Fn
  shallow : Bool
  deriving DecidableEq, Repr

/-- An `Observer` instance (index.js 34-46). -/
structure Observer where
  value : Nat
  dep : Nat
  vmCount : Nat
  deriving DecidableEq, Repr

/-- The state seen by index.js. `depUid` is the `uid` counter of dep.js; `hasTarget` tells
whether `Dep.target` is set. Code of the caller is a pre-existing accessor pair `Fn.user n`,
taken to read and write the store `userStore n`. The lists `touched`, `notified`, `getCalls`
and `setCalls` record, in order, the calls of `dep.depend()` made with a target, of
`dep.notify()`, and of the `get` and `set` functions of pre-existing accessor pairs. -/
structure Heap where
  objs : List Obj
  closures : List Closure
  observers : List Observer
  depUid : Nat
  shouldObserve : Bool
  serverRendering : Bool
  hasTarget : Bool
  userStore : Nat → Val
  touched : List Nat
  notified : List Nat
  getCalls : List Fn
  setCalls : List (Fn × Val)

/-- The functions index.js reaches through a recursive or a dynamically dispatched call, at
some remaining call depth: `observe(value, asRootData)`, a call of an accessor function, and
`dependArray(value)`. `none` stands for a call that has not returned within the depth. -/
structure Calls where
  observe : Heap → Val → Bool → Option (Heap × Option Nat)
  callGet : Heap → Fn → Option (Heap × Val)
  callSet : Heap → Fn → Val → Option Heap
  dependArray : Heap → Nat → Option Heap

/-- `new Dep()`: the id is `uid++`. -/
def Heap.newDep (h : Heap) : Heap × Nat :=
  ({ h with depUid := h.depUid + 1 }, h.depUid)

/-- `dep.depend()` (dep.js 37-42) as index.js sees it. -/
def Heap.depend (h : Heap) (dep : Nat) : Heap :=
  if h.hasTarget then { h with touched := h.touched ++ [dep] } else h

/-- Replace the object at address `a`. -/
def Heap.setObj (h : Heap) (a : Nat) (o : Obj) : Heap :=
  { h with objs := h.objs.set a o }

/-- Replace the closure `c`. -/
def Heap.setClosure (h : Heap) (c : Nat) (cl : Closure) : Heap :=
  { h with closures := h.closures.set c cl }

/-- Define or redefine the own property `key`. -/
def setProp (props : List (String × Slot)) (key : String) (slot : Slot) : List (String × Slot) :=
  if (props.lookup key).isSome then props.map (fun p => if p.1 = key then (key, slot) else p)
  else props ++ [(key, slot)]

/-- The `enumerable` attribute of a property. -/
def Slot.enumerable : Slot → Bool
  | Slot.data _ e _ => e
  | Slot.accessor _ _ e _ => e

/-- The `configurable` attribute of a property. -/
def Slot.configurable : Slot → Bool
  | Slot.data _ _ c => c
  | Slot.accessor _ _ _ c => c

/-- The `get` function of a property descriptor. -/
def Slot.getter : Slot → Option Fn
  | Slot.data _ _ _ => none
  | Slot.accessor g _ _ _ => g

/-- The `set` function of a property descriptor. -/
def Slot.setter : Slot → Option Fn
  | Slot.data _ _ _ => none
  | Slot.accessor _ s _ _ => s

/-- `Object.keys(obj)`: an `__ob__` that holds an Observer is not enumerable. -/
def Obj.keys (o : Obj) : List String :=
  o.props.filterMap
    (fun p => if p.2.enumerable && !(p.1 == "__ob__" && o.ob.isSome) then some p.1 else none)

/-- The read `obj[key]` of an own property. -/
def readProp (r : Calls) (h : Heap) (a : Nat) (key : String) : Option (Heap × Val) :=
  match h.objs[a]? with
  | none => some (h, Val.undefined)
  | some o =>
    match o.props.lookup key with
    | none => some (h, Val.undefined)
    | some (Slot.data v _ _) => some (h, v)
    | some (Slot.accessor none _ _ _) => some (h, Val.undefined)
    | some (Slot.accessor (some g) _ _ _) => r.callGet h g

/-- `defineReactive(obj, key, val, customSetter, shallow)` (index.js 153-220) up to the
installation of the accessors; `val = none` is the call with two arguments. The result is
`none` when the call does not return normally: a nested call does not return, or
`Object.defineProperty` refuses a new property of a non-extensible object (a `TypeError`). -/
def defineReactive (r : Calls) (h : Heap) (a : Nat) (key : String) (val : Option Val)
    (shallow : Bool) : Option Heap :=
  let (h1, dep) := h.newDep
  match h1.objs[a]? with
  | none => some h1
  | some o =>
    let property := o.props.lookup key
    if (property.map Slot.configurable) = some false then some h1
    else
      let getter := property.bind Slot.getter
      let setter := property.bind Slot.setter
      let read : Option (Heap × Val) :=
        match val with
        | some v => some (h1, v)
        | none =>
          if getter.isNone || setter.isSome then readProp r h1 a key else some (h1, Val.undefined)
      match read with
      | none => none
      | some (h2, v) =>
        let observed : Option (Heap × Option Nat) :=
          if shallow then some (h2, none) else r.observe h2 v false
        match observed with
        | none => none
        | some (h3, childOb) =>
          let c := h3.closures.length
          let h4 : Heap := { h3 with closures := h3.closures ++
            [{ dep := dep, val := v, childOb := childOb, getter := getter, setter := setter,
               shallow := shallow }] }
          match h4.objs[a]? with
          | none => some h4
          | some o4 =>
            if (o4.props.lookup key).isNone && !o4.extensible then none
            else
              let slot := Slot.accessor (some (Fn.reactive c)) (some (Fn.reactive c)) true true
              let props4 := setProp o4.props key slot
              some (h4.setObj a { o4 with props := props4 })

/-- `Observer.walk` (index.js 74-79). -/
def Observer.walk (r : Calls) (h : Heap) (a : Nat) : Option Heap :=
  match h.objs[a]? with
  | none => some h
  | some o => o.keys.foldlM (fun acc key => defineReactive r acc a key none false) h

/-- `Observer.observeArray` (index.js 84-88): `items[i]` is read when its turn comes. -/
def Observer.observeArray (r : Calls) (h : Heap) (a : Nat) : Option Heap :=
  match h.objs[a]? with
  | none => some h
  | some o =>
    (List.range o.elems.length).foldlM
      (fun acc i =>
        match acc.objs[a]? with
        | none => some acc
        | some oi => (r.observe acc (oi.elems.getD i Val.undefined) false).map Prod.fst)
      h

/-- `new Observer(value)` (index.js 39-67): returns the state and the new observer. An
array gets the intercepted methods (`augmented`) before its items are observed. -/
def Observer.new (r : Calls) (h : Heap) (a : Nat) : Option (Heap × Nat) :=
  match h.objs[a]? with
  | none => none
  | some o =>
    let (h1, dep) := h.newDep
    let b := h1.observers.length
    let h2 : Heap := { h1 with observers := h1.observers ++ [{ value := a, dep := dep, vmCount := 0 }] }
    if o.kind = ObjKind.array then
      let h3 := h2.setObj a { o with ob := some b, augmented := true }
      (Observer.observeArray r h3 a).map (fun h5 => (h5, b))
    else
      let h3 := h2.setObj a { o with ob := some b }
      (Observer.walk r h3 a).map (fun h5 => (h5, b))

/-- `observe(value, asRootData)` (index.js 120-148). -/
def observeBody (r : Calls) (h : Heap) (value : Val) (asRootData : Bool) :
    Option (Heap × Option Nat) :=
  match value with
  | Val.ref a =>
    match h.objs[a]? with
    | none => some (h, none)
    | some o =>
      if o.kind = ObjKind.vnode then some (h, none)
      else
        let found : Option (Heap × Option Nat) :=
          match o.ob with
          | some b => some (h, some b)
          | none =>
            if h.shouldObserve && !h.serverRendering &&
                (o.kind = ObjKind.array || o.kind = ObjKind.plain) && o.extensible && !o.isVue
            then (Observer.new r h a).map (fun p => (p.1, some p.2))
            else some (h, none)
        match found with
        | none => none
        | some (h1, none) => some (h1, none)
        | some (h1, some b) =>
          if asRootData then
            match h1.observers[b]? with
            | none => some (h1, some b)
            | some o1 =>
              some ({ h1 with observers := h1.observers.set b { o1 with vmCount := o1.vmCount + 1 } },
                some b)
          else some (h1, some b)
  | _ => some (h, none)

/-- `dependArray(value)` (index.js 297-305) for the array at address `a`. -/
def dependArrayBody (r : Calls) (h : Heap) (a : Nat) : Option Heap :=
  match h.objs[a]? with
  | none => some h
  | some o =>
    o.elems.foldlM
      (fun acc e =>
        match e with
        | Val.ref ea =>
          match acc.objs[ea]? with
          | none => some acc
          | some eo =>
            let acc1 : Heap :=
              match eo.ob.bind (fun b => acc.observers[b]?) with
              | some obs => acc.depend obs.dep
              | none => acc
            if eo.kind = ObjKind.array then r.dependArray acc1 ea else some acc1
        | _ => some acc)
      h

/-- The value `getter ? getter.call(obj) : val` of a closure. -/
def currentValue (r : Calls) (h : Heap) (cl : Closure) : Option (Heap × Val) :=
  match cl.getter with
  | some g => r.callGet h g
  | none => some (h, cl.val)

/-- `reactiveGetter` (index.js 181-197) of closure `c`. -/
def reactiveGetter (r : Calls) (h : Heap) (c : Nat) : Option (Heap × Val) :=
  match h.closures[c]? with
  | none => none
  | some cl =>
    match currentValue r h cl with
    | none => none
    | some (h1, value) =>
      if h1.hasTarget then
        let h2 := h1.depend cl.dep
        match (h2.closures[c]?).bind (fun cl2 => cl2.childOb) with
        | none => some (h2, value)
        | some b =>
          let h3 : Heap :=
            match h2.observers[b]? with
            | some obs => h2.depend obs.dep
            | none => h2
          match value with
          | Val.ref va =>
            match h3.objs[va]? with
            | some vo =>
              if vo.kind = ObjKind.array then (r.dependArray h3 va).map (fun h4 => (h4, value))
              else some (h3, value)
            | none => some (h3, value)
          | _ => some (h3, value)
      else some (h1, value)

/-- `reactiveSetter` (index.js 198-218) of closure `c`. -/
def reactiveSetter (r : Calls) (h : Heap) (c : Nat) (newVal : Val) : Option Heap :=
  match h.closures[c]? with
  | none => none
  | some cl =>
    match currentValue r h cl with
    | none => none
    | some (h1, value) =>
      if strictEq newVal value || (!(strictEq newVal newVal) && !(strictEq value value)) then some h1
      else if cl.getter.isSome && cl.setter.isNone then some h1
      else
        let written : Option Heap :=
          match cl.setter with
          | some f => r.callSet h1 f newVal
          | none =>
            match h1.closures[c]? with
            | some cl1 => some (h1.setClosure c { cl1 with val := newVal })
            | none => some h1
        match written with
        | none => none
        | some h2 =>
          let observed : Option (Heap × Option Nat) :=
            if cl.shallow then some (h2, none) else r.observe h2 newVal false
          match observed with
          | none => none
          | some (h3, childOb) =>
            let h4 : Heap :=
              match h3.closures[c]? with
              | some cl3 => h3.setClosure c { cl3 with childOb := childOb }
              | none => h3
            some { h4 with notified := h4.notified ++ [cl.dep] }

/-- A call `f.call(obj)` of a captured `get` function. -/
def callGetBody (r : Calls) (h : Heap) (f : Fn) : Option (Heap × Val) :=
  let h0 : Heap := { h with getCalls := h.getCalls ++ [f] }
  match f with
  | Fn.user n => some (h0, h0.userStore n)
  | Fn.reactive c => reactiveGetter r h0 c

/-- A call `f.call(obj, newVal)` of a captured `set` function. -/
def callSetBody (r : Calls) (h : Heap) (f : Fn) (newVal : Val) : Option Heap :=
  let h0 : Heap := { h with setCalls := h.setCalls ++ [(f, newVal)] }
  match f with
  | Fn.user n => some { h0 with userStore := fun x => if x = n then newVal else h0.userStore x }
  | Fn.reactive c => reactiveSetter r h0 c newVal

/-- The calls that return within `depth` nested calls. -/
def Calls.within : Nat → Calls
  | 0 =>
    { observe := fun _ _ _ => none, callGet := fun _ _ => none, callSet := fun _ _ _ => none,
      dependArray := fun _ _ => none }
  | depth + 1 =>
    { observe := observeBody (Calls.within depth),
      callGet := callGetBody (Calls.within depth),
      callSet := callSetBody (Calls.within depth),
      dependArray := dependArrayBody (Calls.within depth) }

/-- `observe(value, asRootData)`, returning within `depth` nested calls. -/
def observe (depth : Nat) (h : Heap) (value : Val) (asRootData : Bool) :
    Option (Heap × Option Nat) :=
  (Calls.within depth).observe h value asRootData

/-- The assignment `obj[key] = newVal` to the reactive property of closure `c`: its
`reactiveSetter`, the calls it makes returning within `depth` nested calls. -/
def assignReactive (depth : Nat) (h : Heap) (c : Nat) (newVal : Val) : Option Heap :=
  reactiveSetter (Calls.within depth) h c newVal

/-- The read `obj[key]` of the reactive property of closure `c`: its `reactiveGetter`. -/
def readReactive (depth : Nat) (h : Heap) (c : Nat) : Option (Heap × Val) :=
  reactiveGetter (Calls.within depth) h c

/-- `toggleObserving(value)` (index.js 24-26). -/
def toggleObserving (h : Heap) (value : Bool) : Heap :=
  { h with shouldObserve := value }

/-- An empty heap with observation switched on and no `Dep.target`. -/
def Heap.empty : Heap :=
  { objs := [], closures := [], observers := [], depUid := 0, shouldObserve := true,
    serverRendering := false, hasTarget := false, userStore := fun _ => Val.undefined,
    touched := [], notified := [], getCalls := [], setCalls := [] }

/-- A plain extensible object with the given data properties. -/
def Obj.plainOf (props : List (String × Val)) : Obj :=
  { kind := ObjKind.plain, extensible := true, isVue := false, ob := none, augmented := false,
    props := props.map (fun p => (p.1, Slot.data p.2 true true)), elems := [] }

/-- A heap with the object `{ a: 1, b: { c: NaN } }` at address 0 (the inner one at 1). -/
def Heap.sample : Heap :=
  { Heap.empty with objs :=
      [Obj.plainOf [("a", Val.num 1), ("b", Val.ref 1)], Obj.plainOf [("c", Val.nan)]] }

/-- `h1` differs from `h` at most in the records of `depend()` calls and of getter calls:
what a read leaves behind. -/
def Heap.SameButReads (h h1 : Heap) : Prop :=
  h1.objs = h.objs ∧ h1.closures = h.closures ∧ h1.observers = h.observers ∧
  h1.depUid = h.depUid ∧ h1.shouldObserve = h.shouldObserve ∧
  h1.serverRendering = h.serverRendering ∧ h1.hasTarget = h.hasTarget ∧
  h1.userStore = h.userStore ∧ h1.notified = h.notified ∧ h1.setCalls = h.setCalls

/-- The getter calls and `dependArray` of a `Calls` record only read. -/
def Calls.ReadsOnly (r : Calls) : Prop :=
  (∀ h f h1 v, r.callGet h f = some (h1, v) → h.SameButReads h1) ∧
  (∀ h a h1, r.dependArray h a = some h1 → h.SameButReads h1)

/-- The sample heap after `observe` of the object at address 0 as root data: closure 0 is
the property `a` (value 1), closure 1 the property `c` (value NaN), closure 2 the
property `b`. -/
def Heap.observedSample : Heap :=
  ((observe 10 Heap.sample (Val.ref 0) true).map Prod.fst).getD Heap.empty

/-- A heap with one object whose property `x` is an accessor with a getter (returning 5)
and no setter, after `observe` of that object: closure 0 is the property `x`. -/
def Heap.getterOnly : Heap :=
  ((observe 10
    { Heap.empty with
      objs := [{ kind := ObjKind.plain, extensible := true, isVue := false, ob := none,
                 augmented := false,
                 props := [("x", Slot.accessor (some (Fn.user 7)) none true true)], elems := [] }],
      userStore := fun n => if n = 7 then Val.num 5 else Val.undefined }
    (Val.ref 0) false).map Prod.fst).getD Heap.empty

/-- The objects of `h` are still there in `g`, each of the kind it was and carrying the
observer it carried in `h`: `g` is a later state as far as instrumentation goes. -/
def Heap.KeepsObservers (h g : Heap) : Prop :=
  ∀ (a : Nat) (o : Obj), h.objs[a]? = some o →
    ∃ o1 : Obj, g.objs[a]? = some o1 ∧ o1.kind = o.kind ∧ (∀ b, o.ob = some b → o1.ob = some b)

/-- The `observe` and setter calls of a `Calls` record keep the observers of all objects. -/
def Calls.KeepObservers (r : Calls) : Prop :=
  (∀ h v root h1 ob, r.observe h v root = some (h1, ob) → h.KeepsObservers h1) ∧
  (∀ h f v h1, r.callSet h f v = some h1 → h.KeepsObservers h1)

/-- The errors an evaluation hands to `handleError` in `Watcher.get` (watcher.js 108-110). -/
def Evaluation.reported (ev : Evaluation) (user : Bool) : List Val :=
  match ev.outcome with
  | Except.ok _ => []
  | Except.error e => if user then [e] else []

/-- State `t` differs from `s` at most in dependency bookkeeping: subscriber lists, the
`deps` / `newDeps` / `depIds` / `newDepIds` of watchers, `Dep.target` and its stack. -/
def World.SameButDeps (s t : World) : Prop :=
  t.errors = s.errors ∧ t.cbCalls = s.cbCalls ∧ t.queued = s.queued ∧ t.vms = s.vms ∧
  t.uid = s.uid ∧
  ∀ x : Nat, (t.watchers x).value = (s.watchers x).value ∧
    (t.watchers x).active = (s.watchers x).active ∧
    (t.watchers x).deep = (s.watchers x).deep ∧
    (t.watchers x).user = (s.watchers x).user ∧
    (t.watchers x).lazy = (s.watchers x).lazy ∧
    (t.watchers x).sync = (s.watchers x).sync ∧
    (t.watchers x).dirty = (s.watchers x).dirty ∧
    (t.watchers x).vm = (s.watchers x).vm

/-- The test of `run()` (watcher.js 201-207) on the value `get()` returned, for a watcher
whose stored value is `stored`. -/
def Watcher.mustCall (value stored : Val) (deep : Bool) : Bool :=
  !(strictEq value stored) || isObject value || deep

/-- An evaluation whose getter throws the string `boom` after reading Dep 2. -/
def Evaluation.throwing : Evaluation :=
  { reads := [2], outcome := Except.error (Val.str "boom"), traverse := fun _ => [] }

/-- The state inside the first `run()` of a flush of watchers 1 and 3, after that `run()`
(of watcher 1) has called `queueWatcher` on watcher 2: the queue is `[1, 2, 3]`, the cursor
at 0. -/
def Sched.midFlush : Sched :=
  queueWatcher ((flushStart (queueWatcher (queueWatcher Sched.init 3) 1)).setHas 1 HasMark.null) 2

/-- The state inside the `run()` of watcher 5 in a flush of watchers 1 and 5, after that
`run()` has called `queueWatcher` on watcher 1, which ran before: the queue is `[1, 5, 1]`,
the cursor at 1. -/
def Sched.afterRerun : Sched :=
  let a1 := flushStart (queueWatcher (queueWatcher Sched.init 1) 5)
  let a2 := a1.setHas 1 HasMark.null
  let a3 : Sched := { a2 with index := a2.index + 1 }
  queueWatcher (a3.setHas 5 HasMark.null) 1

/-! ## Structural changes: array.js and `set` (index.js 222-260)

A call that does not return normally has the result `none`: a nested call does not return
within the call depth, or the platform refuses a write with a `TypeError` (a new property
or a new element of a non-extensible object, a write to a property, an element or the
`length` of a frozen object, the removal of an element of a sealed array: the modules are
strict code) or with a `RangeError` (an array length above `2^32 - 1`). An array inherits
from `Array.prototype` (through `arrayMethods` once it is observed), which inherits from
`Object.prototype`; every other object inherits from `Object.prototype` only. No value of
the model is a function, so the call of a property value throws. -/

/-- The methods array.js intercepts (array.js 15-23). -/
inductive ArrayMethod where
  | push
  | pop
  | shift
  | unshift
  | splice
  | sort
  | reverse
  deriving DecidableEq, Repr

/-- The conversion of an argument to an integer (`ToIntegerOrInfinity`) on the values of the
model: numbers are integers, a string counts when it is a decimal numeral. -/
def toInteger : Val → Int
  | Val.num n => n
  | Val.bool true => 1
  | Val.str s => (s.toInt?).getD 0
  | _ => 0

/-- The start position of `splice`: counted from the end when negative, at most the length. -/
def relativeStart (start : Int) (len : Nat) : Nat :=
  if start < 0 then ((len : Int) + start).toNat else min start.toNat len

/-- A new array holding `elems`, not observed. -/
def Obj.arrayOf (elems : List Val) : Obj :=
  { kind := ObjKind.array, extensible := true, isVue := false, ob := none, augmented := false,
    props := [], elems := elems }

/-- The largest length of an array, `2^32 - 1`. -/
def maxArrayLength : Nat := 4294967295

/-- The native method `Array.prototype[method]` applied to the array at address `a`, as
ECMAScript specifies it: the state it leaves and its result. `sorted` is the order `sort`
produces with the comparison function it was passed. A method throws when it would write an
element or `length` of an array that is not writable (`push`, `pop`, `shift`, `unshift` and
`splice` always set `length`; `sort` writes back every element, `reverse` swaps pairs),
remove an element that is not configurable, add an element to a non-extensible array, or
leave more than `2^32 - 1` elements. The array `splice` returns is allocated at the end of
the heap. -/
def arrayProto (sorted : List Val → List Val) (method : ArrayMethod) (h : Heap) (a : Nat)
    (args : List Val) : Option (Heap × Val) :=
  match h.objs[a]? with
  | none => none
  | some o =>
    let len := o.elems.length
    let write (writes : Bool) (elems : List Val) (result : Heap → Heap × Val) :
        Option (Heap × Val) :=
      if writes && !o.writable then none
      else if elems.length < len && !o.elemsConfigurable then none
      else if len < elems.length && !o.extensible then none
      else if maxArrayLength < elems.length then none
      else some (result (h.setObj a { o with elems := elems }))
    match method with
    | ArrayMethod.push =>
      write true (o.elems ++ args) (fun g => (g, Val.num (len + args.length)))
    | ArrayMethod.pop =>
      write true o.elems.dropLast (fun g => (g, (o.elems.getLast?).getD Val.undefined))
    | ArrayMethod.shift =>
      write true o.elems.tail (fun g => (g, (o.elems.head?).getD Val.undefined))
    | ArrayMethod.unshift =>
      write true (args ++ o.elems) (fun g => (g, Val.num (len + args.length)))
    | ArrayMethod.splice =>
      let start : Nat :=
        match args with
        | [] => 0
        | s :: _ => relativeStart (toInteger s) len
      let deleteCount : Nat :=
        match args with
        | [] => 0
        | [_] => len - start
        | _ :: d :: _ => min (toInteger d).toNat (len - start)
      write true (o.elems.take start ++ args.drop 2 ++ o.elems.drop (start + deleteCount))
        (fun g => ({ g with objs := g.objs ++
                      [Obj.arrayOf ((o.elems.drop start).take deleteCount)] },
                   Val.ref g.objs.length))
    | ArrayMethod.sort => write (decide (1 ≤ len)) (sorted o.elems) (fun g => (g, Val.ref a))
    | ArrayMethod.reverse => write (decide (2 ≤ len)) o.elems.reverse (fun g => (g, Val.ref a))

/-- `Observer.observeArray(items)` (index.js 84-88) for an array that no code but the caller
holds: the argument list of an intercepted method. -/
def Observer.observeItems (r : Calls) (h : Heap) (items : List Val) : Option Heap :=
  items.foldlM (fun acc v => (r.observe acc v false).map Prod.fst) h

/-- The elements an intercepted method inserts (array.js 35-44); `none` is `undefined`. -/
def insertedOf (method : ArrayMethod) (args : List Val) : Option (List Val) :=
  match method with
  | ArrayMethod.push => some args
  | ArrayMethod.unshift => some args
  | ArrayMethod.splice => some (args.drop 2)
  | _ => none

/-- The function `mutator` that array.js installs for `method` (array.js 32-50), called on
the array at address `a` with the arguments `args`; `original` is `arrayProto[method]`.
Without an `__ob__` on the array the call throws. -/
def mutator (r : Calls) (original : Heap → Nat → List Val → Option (Heap × Val))
    (method : ArrayMethod) (h : Heap) (a : Nat) (args : List Val) : Option (Heap × Val) :=
  match original h a args with
  | none => none
  | some (h1, result) =>
    match ((h1.objs[a]?).bind (fun o => o.ob)).bind (fun b => h1.observers[b]?) with
    | none => none
    | some ob =>
      let observed : Option Heap :=
        match insertedOf method args with
        | some inserted => Observer.observeItems r h1 inserted
        | none => some h1
      match observed with
      | none => none
      | some h2 => some ({ h2 with notified := h2.notified ++ [ob.dep] }, result)

/-- A property key as `set` tells them apart: one for which `isValidArrayIndex` holds, with
its numeric value `n` (the number `n`, or a decimal numeral of it), or another property
name, for which it does not hold. -/
inductive Key where
  | index (n : Nat)
  | name (s : String)
  deriving DecidableEq, Repr

/-- The property name a key stands for. -/
def Key.propertyName : Key → String
  | Key.index n => toString n
  | Key.name s => s

/-- The property names of `Object.prototype`. -/
def objectPrototypeKeys : List String :=
  ["constructor", "__defineGetter__", "__defineSetter__", "hasOwnProperty",
   "__lookupGetter__", "__lookupSetter__", "isPrototypeOf", "propertyIsEnumerable",
   "toString", "valueOf", "__proto__", "toLocaleString"]

/-- The property names of `Array.prototype` (ECMAScript 2023); the object `arrayMethods` of
array.js, from which an observed array inherits first, has seven of them. -/
def arrayPrototypeKeys : List String :=
  ["length", "constructor", "at", "concat", "copyWithin", "fill", "find", "findIndex",
   "findLast", "findLastIndex", "lastIndexOf", "pop", "push", "reverse", "shift", "unshift",
   "slice", "sort", "splice", "includes", "indexOf", "join", "keys", "entries", "values",
   "forEach", "filter", "flat", "flatMap", "map", "every", "some", "reduce", "reduceRight",
   "toLocaleString", "toString", "toReversed", "toSorted", "toSpliced", "with"]

/-- Whether `key`, which is no array index, is an own property of the object: an entry of
`props`, the `__ob__` that holds an Observer, the `_isVue` flag, or the `length` of an
array. -/
def hasOwn (o : Obj) (key : String) : Bool :=
  (o.props.lookup key).isSome || (decide (key = "__ob__") && o.ob.isSome) ||
  (decide (key = "_isVue") && o.isVue) ||
  (decide (o.kind = ObjKind.array) && decide (key = "length"))

/-- `key in obj` for a key that is no array index: an own property, or one inherited from
`Array.prototype` (by an array) or from `Object.prototype`. -/
def hasProperty (o : Obj) (key : String) : Bool :=
  hasOwn o key || (decide (o.kind = ObjKind.array) && decide (key ∈ arrayPrototypeKeys)) ||
  decide (key ∈ objectPrototypeKeys)

/-- The number a value assigned to `length` stands for, when it is an array length (the
assignment throws a `RangeError` otherwise); a string counts when it is a decimal numeral.
An object is converted by its `valueOf` or `toString`, code the model does not hold: it
gets no result. -/
def toArrayLength : Val → Option Nat
  | Val.num n => if 0 ≤ n ∧ n ≤ (maxArrayLength : Int) then some n.toNat else none
  | Val.null => some 0
  | Val.bool b => some (if b then 1 else 0)
  | Val.str s =>
    if s = "" then some 0
    else (s.toNat?).bind (fun n => if n ≤ maxArrayLength then some n else none)
  | _ => none

/-- The assignment `target[key] = val` of `set`, for a key that is no array index. An own
`__ob__` holding the Observer and a set `_isVue` flag are writable data properties, as is
the `length` of an array, which cuts or extends the elements. Any other own property: an
accessor calls its setter (and throws without one), a data property takes the value. A key
that is no own property: `__proto__` is an accessor of `Object.prototype`, whose setter
ignores a value that is neither an object nor `null` (and replaces the prototype by one that
is: the object leaves the model, the result is `none`); otherwise a plain data property is
created, unless the object is non-extensible. A write to a data property of an object that
is not writable throws. -/
def assignProp (r : Calls) (h : Heap) (a : Nat) (key : String) (val : Val) : Option Heap :=
  match h.objs[a]? with
  | none => none
  | some o =>
    if key = "__ob__" ∧ o.ob.isSome then
      if o.writable
      then some (h.setObj a
        { o with ob := none, props := setProp o.props key (Slot.data val false true) })
      else none
    else if key = "_isVue" ∧ o.isVue then
      if !o.writable then none
      else if truthy val then some h
      else some (h.setObj a
        { o with isVue := false, props := setProp o.props key (Slot.data val true true) })
    else if key = "length" ∧ o.kind = ObjKind.array then
      match toArrayLength val with
      | none => none
      | some n =>
        if !o.writable then none
        else if n < o.elems.length && !o.elemsConfigurable then none
        else some (h.setObj a
          { o with elems := o.elems.take n ++ List.replicate (n - o.elems.length) Val.undefined })
    else
      match o.props.lookup key with
      | some (Slot.data _ e c) =>
        if o.writable
        then some (h.setObj a { o with props := setProp o.props key (Slot.data val e c) })
        else none
      | some (Slot.accessor _ (some f) _ _) => r.callSet h f val
      | some (Slot.accessor _ none _ _) => none
      | none =>
        if key = "__proto__" then
          match val with
          | Val.ref _ => none
          | Val.null => none
          | _ => some h
        else if o.extensible
        then some (h.setObj a { o with props := setProp o.props key (Slot.data val true true) })
        else none

/-- What the read `target.__ob__` gives: an Observer, or another value. -/
inductive ObRead where
  | observer (x : Observer)
  | other (v : Val)

/-- The read `target.__ob__` of `set` (index.js 244): the Observer of the field `ob`, or
what the read of an own property `__ob__` gives, `undefined` without one. -/
def readOb (r : Calls) (h : Heap) (a : Nat) : Option (Heap × ObRead) :=
  match h.objs[a]? with
  | none => none
  | some o =>
    match o.ob.bind (fun b => h.observers[b]?) with
    | some x => some (h, ObRead.observer x)
    | none => (readProp r h a "__ob__").map (fun p => (p.1, ObRead.other p.2))

/-- The test `target._isVue` of `set` (index.js 245): the flag, or the truth value of what
the read of an own property `_isVue` gives. -/
def readIsVue (r : Calls) (h : Heap) (a : Nat) : Option (Heap × Bool) :=
  match h.objs[a]? with
  | none => none
  | some o =>
    if o.isVue then some (h, true)
    else (readProp r h a "_isVue").map (fun p => (p.1, truthy p.2))

/-- `set(target, key, val)` (index.js 227-260) for the object at address `target`. The
assignment to `target.length` throws for a frozen array and for a length above `2^32 - 1`.
`target.splice` is the intercepted method when the array was augmented by an Observer, the
native one otherwise, unless an own property `splice` hides both. A `target.__ob__` that is
a truthy value but no Observer is passed on as if it were one: the call returns when its
`vmCount` is truthy, and throws otherwise, at the latest in `ob.dep.notify()`. -/
def set (r : Calls) (sorted : List Val → List Val) (h : Heap) (target : Nat) (key : Key)
    (val : Val) : Option (Heap × Val) :=
  match h.objs[target]? with
  | none => none
  | some o =>
    let arrayIndex : Option Nat :=
      match key with
      | Key.index n => if o.kind = ObjKind.array then some n else none
      | Key.name _ => none
    match arrayIndex with
    | some n =>
      if !o.writable then none
      else if maxArrayLength < max o.elems.length n then none
      else if (o.props.lookup "splice").isSome then none
      else
        let h1 := h.setObj target
          { o with elems := o.elems ++ List.replicate (n - o.elems.length) Val.undefined }
        let args := [Val.num n, Val.num 1, val]
        let spliced : Option (Heap × Val) :=
          if o.augmented
          then mutator r (arrayProto sorted ArrayMethod.splice) ArrayMethod.splice h1 target args
          else arrayProto sorted ArrayMethod.splice h1 target args
        spliced.map (fun p => (p.1, val))
    | none =>
      let k := key.propertyName
      if hasProperty o k && !decide (k ∈ objectPrototypeKeys) then
        (assignProp r h target k val).map (fun h1 => (h1, val))
      else
        match readOb r h target with
        | none => none
        | some (h1, ob) =>
          match readIsVue r h1 target with
          | none => none
          | some (h2, isVue) =>
            match ob with
            | ObRead.observer x =>
              if isVue || decide (x.vmCount ≠ 0) then some (h2, val)
              else
                match defineReactive r h2 x.value k (some val) false with
                | none => none
                | some h3 => some ({ h3 with notified := h3.notified ++ [x.dep] }, val)
            | ObRead.other v =>
              if isVue then some (h2, val)
              else if !truthy v then (assignProp r h2 target k val).map (fun h3 => (h3, val))
              else
                match v with
                | Val.ref x =>
                  match readProp r h2 x "vmCount" with
                  | none => none
                  | some (h3, count) => if truthy count then some (h3, val) else none
                | _ => none

/-- State `g` follows `h` by observation only: nothing was notified and the switches are as
they were; every object of `h` is still there with its kind, elements and flags; every
Observer of `h` is still there, for the same value and with the same Dep. -/
def Heap.Instruments (h g : Heap) : Prop :=
  g.notified = h.notified ∧ g.shouldObserve = h.shouldObserve ∧
  g.serverRendering = h.serverRendering ∧
  (∀ (a : Nat) (o : Obj), h.objs[a]? = some o →
    ∃ o1 : Obj, g.objs[a]? = some o1 ∧ o1.kind = o.kind ∧ o1.elems = o.elems ∧
      o1.extensible = o.extensible ∧ o1.isVue = o.isVue) ∧
  (∀ (b : Nat) (x : Observer), h.observers[b]? = some x →
    ∃ x1 : Observer, g.observers[b]? = some x1 ∧ x1.dep = x.dep ∧ x1.value = x.value)

/-- The array `[1, 2, 3]` at address 0, observed, and a plain object `{}` at address 1 that
is not extensible. -/
def Heap.arraySample : Heap :=
  ((observe 10
    { Heap.empty with
      objs := [Obj.arrayOf [Val.num 1, Val.num 2, Val.num 3],
               { Obj.plainOf [] with extensible := false }] }
    (Val.ref 0) false).map Prod.fst).getD Heap.empty

/-- The `observe` calls of a `Calls` record change the state by observation only. -/
def Calls.ObservesOnly (r : Calls) : Prop :=
  ∀ h v root h1 ob, r.observe h v root = some (h1, ob) → h.Instruments h1

/-- The observed sample array with one more object, the plain extensible `{}` at address
2, and observation switched off. -/
def Heap.arraySampleOff : Heap :=
  toggleObserving
    { Heap.arraySample with objs := Heap.arraySample.objs ++ [Obj.plainOf []] } false

/-- The elements `set` leaves in an array with the elements `l`, for the index `n`: the
array is first grown to the length `max(length, n)`, then `splice(n, 1, val)` is applied. -/
def replaceAt (l : List Val) (n : Nat) (val : Val) : List Val :=
  let p := l ++ List.replicate (n - l.length) Val.undefined
  p.take n ++ [val] ++ p.drop (n + min 1 (p.length - n))

/-- A heap with one object flagged `_isVue`, without properties and without `__ob__`. -/
def Heap.vueInstance : Heap :=
  { Heap.empty with objs := [{ Obj.plainOf [] with isVue := true }] }

/-- Two watchers constructed one after the other (ids 1 and 2, each reading Deps 1, 2, 1),
in the middle of an evaluation of watcher 1: `pushTarget(watcher 1)` has run. -/
def World.nested : World :=
  pushTarget
    (Watcher.new (Watcher.new World.init 0 none false Evaluation.first).1 0 none false
      Evaluation.first).1
    (some 1)

/-- A call of `update()`, `run()` or `depend()` on a watcher; `ev` is the evaluation that
takes place if the call reaches `get()`. -/
inductive WatcherCall where
  | update (ev : Evaluation)
  | run (ev : Evaluation)
  | depend

/-- The state after a call of `update()`, `run()` or `depend()` on watcher `w`. -/
def Watcher.call (s : World) (w : Nat) : WatcherCall → World
  | WatcherCall.update ev => (Watcher.update s w ev).1
  | WatcherCall.run ev => (Watcher.run s w ev).1
  | WatcherCall.depend => Watcher.depend s w

/-- A lazy watcher (id 1, the watcher of a computed property) after `teardown()`: it was
never evaluated, so it is subscribed nowhere. -/
def World.lazyTornDown : World :=
  Watcher.teardown
    (Watcher.new World.init 0 (some { deep := false, user := false, lazy := true, sync := false })
      false Evaluation.first).1 1

/-- The scheduler states between two resets: from the state `resetSchedulerState` leaves
(the state at module load is one: `s0 = Sched.init`) through `queueWatcher` calls and the
statements of the flush loop, the next `resetSchedulerState` excluded. -/
inductive SinceReset (s0 : Sched) : Phase → Sched → Prop where
  | reset : SinceReset s0 Phase.idle (resetSchedulerState s0)
  | queueIdle (s : Sched) (w : Nat) :
      SinceReset s0 Phase.idle s → SinceReset s0 Phase.idle (queueWatcher s w)
  | flushStart (s : Sched) :
      SinceReset s0 Phase.idle s → SinceReset s0 Phase.head (flushStart s)
  | queueBefore (s : Sched) (w : Nat) :
      SinceReset s0 Phase.head s → s.index < s.queue.length →
      SinceReset s0 Phase.head (queueWatcher s w)
  | runStart (s : Sched) (w : Nat) :
      SinceReset s0 Phase.head s → s.queue[s.index]? = some w →
      SinceReset s0 Phase.running (s.setHas w HasMark.null)
  | queueRunning (s : Sched) (w : Nat) :
      SinceReset s0 Phase.running s → SinceReset s0 Phase.running (queueWatcher s w)
  | runEnd (s : Sched) :
      SinceReset s0 Phase.running s → SinceReset s0 Phase.head { s with index := s.index + 1 }

/-- The state at the head of the flush loop after `i` turns of a flush started in state `s`
(the state after the loop if it exits before). -/
def flushAt {ε : Type} (J : Jobs ε) (s : Sched) (e : ε) (i : Nat) : FlushState ε :=
  flushIter J i { sched := flushStart s, env := e, ran := [] }

/-- The `queueWatcher` calls made by the `run()` of watcher `c` in the turn that starts in
`st`, in order. -/
def runCalls {ε : Type} (J : Jobs ε) (st : FlushState ε) (c : Nat) : List Nat :=
  (J.run c (J.before c st.env).1).2

/-- The scheduler state in which `watcher.run()` of watcher `c` is entered in the turn that
starts in `st`: `watcher.before()` has run and `has[id] = null` is done
(scheduler.js 90-95). -/
def runStartState {ε : Type} (J : Jobs ε) (st : FlushState ε) (c : Nat) : Sched :=
  ((J.before c st.env).2.foldl queueWatcher st.sched).setHas c HasMark.null

/-- A watcher (id 1) whose first `run()` calls `queueWatcher` on itself twice (it reads two
properties it has just written), and whose later runs change nothing; the state of the jobs
counts the runs. -/
def Jobs.retriggerTwice : Jobs Nat :=
  { before := fun _ n => (n, []), run := fun _ n => (n + 1, if n = 0 then [1, 1] else []),
    activated := fun _ n => (n, []), updated := fun _ n => (n, []) }

/-- Three watchers (ids 1, 2, 3) constructed one after the other, each subscribed to Deps 1
and 2 by its first evaluation; watcher 2 is `sync`. -/
def World.syncSecond : World :=
  (Watcher.new
    (Watcher.new (Watcher.new World.init 0 none false Evaluation.first).1 0
      (some { deep := false, user := false, lazy := false, sync := true }) false
      Evaluation.first).1
    0 none false Evaluation.first).1

/-- The `update()` methods of watchers whose getters return, except that of watcher 2, whose
getter throws. -/
def updateThrowing (w : Nat) (s : World) : World × Except Val Unit :=
  Watcher.update s w (if w = 2 then Evaluation.throwing else Evaluation.first)

/-- The value `get()` goes on with after the `try` statement: the result of the getter, or
`undefined` when the getter threw. -/
def Watcher.valueOf (r : Except Val Val) : Val :=
  match r with
  | Except.ok v => v
  | Except.error _ => Val.undefined

/-- The state in which `get()` of watcher `w` enters its `finally` clause
(watcher.js 104-116): `pushTarget(this)`, the getter, and `handleError` when the getter of
a user watcher threw. `getter t` is `this.getter.call(vm, vm)` called in state `t`, code of
the caller: the state it leaves and its completion. -/
def Watcher.atFinally (s : World) (w : Nat) (getter : World → World × Except Val Val) : World :=
  let g := getter (pushTarget s (some w))
  match g.2 with
  | Except.ok _ => g.1
  | Except.error e =>
    if (g.1.watchers w).user then { g.1 with errors := g.1.errors ++ [e] } else g.1

/-- `Watcher.get` (watcher.js 103-126) with the getter and `traverse` (`./traverse`, not
under src/) as code of the caller, each an arbitrary state transformer, so that a getter
that calls back into watchers (through a write and `dep.notify()`, or directly) is covered.
`Watcher.get s w ev` is the case of a getter and a `traverse` that make `depend()` calls and
nothing else. -/
def Watcher.getWith (s : World) (w : Nat) (getter : World → World × Except Val Val)
    (traverse : Val → World → World) : World × Except Val Val :=
  let g := getter (pushTarget s (some w))
  let s3 := Watcher.atFinally s w getter
  let s4 := if (s3.watchers w).deep then traverse (Watcher.valueOf g.2) s3 else s3
  let s6 := Watcher.cleanupDeps (popTarget s4) w
  match g.2 with
  | Except.ok v => (s6, Except.ok v)
  | Except.error e =>
    if (g.1.watchers w).user then (s6, Except.ok Val.undefined) else (s6, Except.error e)

/-- What code that runs during an evaluation of watcher `w` leaves as it found it when it
calls neither `get()` (nor `run()`, `evaluate()`), nor `cleanupDeps()`, nor `teardown()`,
nor `addDep()` of `w`: `Dep.target` and the target stack, the dependency collections of
`w`, and the entries of `w` in every `subs`. -/
def World.Undisturbed (w : Nat) (s t : World) : Prop :=
  t.target = s.target ∧ t.targetStack = s.targetStack ∧
  (t.watchers w).deps = (s.watchers w).deps ∧ (t.watchers w).newDeps = (s.watchers w).newDeps ∧
  (t.watchers w).depIds = (s.watchers w).depIds ∧
  (t.watchers w).newDepIds = (s.watchers w).newDepIds ∧
  ∀ d, (t.subs d).count w = (s.subs d).count w

/-- Code that runs during an evaluation of watcher `w` and takes the state from `s` to `t`:
a sequence of `dep.depend()` calls, for the Deps `reads` in this order, with other code
before, between and after them that leaves the dependency bookkeeping of `w` undisturbed. -/
inductive Evaluates (w : Nat) : World → List Nat → World → Prop where
  | done (s : World) : Evaluates w s [] s
  | depend (s : World) (d : Nat) (reads : List Nat) (t : World) :
      Evaluates w (Dep.depend s d) reads t → Evaluates w s (d :: reads) t
  | call (s s1 : World) (reads : List Nat) (t : World) :
      World.Undisturbed w s s1 → Evaluates w s1 reads t → Evaluates w s reads t

/-- A sync watcher (id 1) constructed reading Deps 10 and 11. -/
def World.syncReader : World :=
  (Watcher.new World.init 0 (some { deep := false, user := false, lazy := false, sync := true })
    false { reads := [10, 11], outcome := Except.ok (Val.num 1), traverse := fun _ => [] }).1

/-- A getter of watcher 1 that reads Deps 10 and 11, then writes the property of Dep 10 (its
`notify()` calls `update()` of the subscriber, watcher 1, which is `sync` and runs in place:
the nested evaluation reads Deps 10 and 11 and writes nothing), then reads Dep 12. -/
def getterRewriting (t : World) : World × Except Val Val :=
  (Dep.depend
    (Watcher.update (Dep.depend (Dep.depend t 10) 11) 1
      { reads := [10, 11], outcome := Except.ok (Val.num 2), traverse := fun _ => [] }).1 12,
   Except.ok (Val.num 2))

/-- Two watchers constructed one after the other: watcher 1 reading Deps 1 and 2, watcher 2,
which is `sync`, reading Dep 5. -/
def World.withSync : World :=
  (Watcher.new (Watcher.new World.init 0 none false Evaluation.first).1 0
    (some { deep := false, user := false, lazy := false, sync := true }) false
    { reads := [5], outcome := Except.ok (Val.num 1), traverse := fun _ => [] }).1

/-- A getter of watcher 1 that reads Dep 2, then writes a property watcher 2 is subscribed
to (watcher 2 is `sync` and runs in place, reading Deps 5 and 6), then reads Dep 3. -/
def getterNotifying (t : World) : World × Except Val Val :=
  (Dep.depend
    (Watcher.update (Dep.depend t 2) 2
      { reads := [5, 6], outcome := Except.ok (Val.num 2), traverse := fun _ => [] }).1 3,
   Except.ok (Val.num 7))

/-- A property whose read calls no reactive getter: a data property, or an accessor whose
`get` function, if any, is code of the caller. -/
def Slot.plain : Slot → Bool
  | Slot.accessor (some (Fn.reactive _)) _ _ _ => false
  | _ => true

/-- Every object without an Observer holds plain properties under distinct names, none of
them named `__ob__` or `_isVue`: what data looks like before Vue has touched it. -/
def Heap.PlainData (h : Heap) : Prop :=
  ∀ o ∈ h.objs, o.ob = none →
    (∀ p ∈ o.props, p.2.plain = true) ∧ (o.props.map Prod.fst).Nodup ∧
    o.props.lookup "__ob__" = none ∧ o.props.lookup "_isVue" = none

instance (h : Heap) : Decidable h.PlainData := by
  unfold Heap.PlainData
  exact inferInstance

/-- The number of objects without an Observer. -/
def Heap.unobserved (h : Heap) : Nat :=
  h.objs.countP (fun o => o.ob.isNone)

/-- State `g` follows `h` by `observe` calls: no object was added, and every object other
than `skip` (the object whose properties are being converted) is as it was, or carried no
Observer and carries one now. -/
def Heap.Grows (skip : Option Nat) (h g : Heap) : Prop :=
  g.objs.length = h.objs.length ∧
  ∀ (a : Nat) (o : Obj), some a ≠ skip → h.objs[a]? = some o →
    g.objs[a]? = some o ∨ (o.ob = none ∧ ∃ o1 : Obj, g.objs[a]? = some o1 ∧ o1.ob ≠ none)

/-- The read `obj[key]` calls no getter and finds nothing truthy: the object has no own
property `key`, or a data property that holds a falsy value. -/
def Obj.unset (o : Obj) (key : String) : Bool :=
  match o.props.lookup key with
  | none => true
  | some (Slot.data v _ _) => !truthy v
  | some (Slot.accessor _ _ _ _) => false

/-- The array `[1, 2, 3]` at address 0, observed, and the plain object `{ a: 1 }` at
address 1, which is extensible and not observed. -/
def Heap.arrayAndObject : Heap :=
  ((observe 10
    { Heap.empty with
      objs := [Obj.arrayOf [Val.num 1, Val.num 2, Val.num 3], Obj.plainOf [("a", Val.num 1)]] }
    (Val.ref 0) false).map Prod.fst).getD Heap.empty

/-- The state after the native `push` of the object at address 1 onto the observed array of
`Heap.arrayAndObject`. -/
def Heap.objectPushed : Heap :=
  ((arrayProto id ArrayMethod.push Heap.arrayAndObject 0 [Val.ref 1]).map Prod.fst).getD
    Heap.empty

/-- A heap with one array `[1, 2, 3]`, not observed, with the given integrity flags and own
properties. -/
def Heap.arrayWith (extensible writable elemsConfigurable : Bool)
    (props : List (String × Slot)) : Heap :=
  { Heap.empty with
    objs := [{ Obj.arrayOf [Val.num 1, Val.num 2, Val.num 3] with
      extensible := extensible, writable := writable, elemsConfigurable := elemsConfigurable,
      props := props }] }

/-- The observed sample array after `set(arr, "__ob__", 5)`: the assignment has replaced the
Observer in `__ob__`. -/
def Heap.observerOverwritten : Heap :=
  ((set (Calls.within 5) id Heap.arraySample 0 (Key.name "__ob__") (Val.num 5)).map
    Prod.fst).getD Heap.empty

end Vue

/-! # Theorems -/

namespace Vue

/-! ## Frame lemmas for the state updates -/

@[simp] theorem subs_setSubs (s : World) (d : Nat) (l : List Nat) (x : Nat) :
    (s.setSubs d l).subs x = if x = d then l else s.subs x := rfl

@[simp] theorem watchers_setSubs (s : World) (d : Nat) (l : List Nat) :
    (s.setSubs d l).watchers = s.watchers := rfl

@[simp] theorem target_setSubs (s : World) (d : Nat) (l : List Nat) :
    (s.setSubs d l).target = s.target := rfl

@[simp] theorem subs_setWatcher (s : World) (w : Nat) (W : Watcher) :
    (s.setWatcher w W).subs = s.subs := rfl

@[simp] theorem watchers_setWatcher (s : World) (w : Nat) (W : Watcher) (x : Nat) :
    (s.setWatcher w W).watchers x = if x = w then W else s.watchers x := rfl

@[simp] theorem target_setWatcher (s : World) (w : Nat) (W : Watcher) :
    (s.setWatcher w W).target = s.target := rfl

@[simp] theorem subs_setVm (s : World) (v : Nat) (V : Vm) :
    (s.setVm v V).subs = s.subs := rfl

@[simp] theorem watchers_setVm (s : World) (v : Nat) (V : Vm) :
    (s.setVm v V).watchers = s.watchers := rfl

theorem mem_setAdd (ids : List Nat) (id x : Nat) : x ∈ setAdd ids id ↔ x ∈ ids ∨ x = id := by
  unfold setAdd
  split
  · constructor
    · intro h; exact Or.inl h
    · rintro (h | h)
      · exact h
      · subst h; assumption
  · simp

/-! ## `addDep` -/

theorem subs_addDep (s : World) (w d x : Nat) :
    (Watcher.addDep s w d).subs x =
      if d ∉ (s.watchers w).newDepIds ∧ d ∉ (s.watchers w).depIds ∧ x = d
      then s.subs d ++ [w] else s.subs x := by
  unfold Watcher.addDep
  by_cases h1 : d ∈ (s.watchers w).newDepIds
  · simp [h1]
  · by_cases h2 : d ∈ (s.watchers w).depIds
    · simp [h1, h2]
    · by_cases h3 : x = d
      · subst h3; simp [h1, h2, Dep.addSub]
      · simp [h1, h2, h3, Dep.addSub]

theorem watchers_addDep (s : World) (w d x : Nat) :
    (Watcher.addDep s w d).watchers x =
      if x = w ∧ d ∉ (s.watchers w).newDepIds
      then { s.watchers w with newDepIds := setAdd (s.watchers w).newDepIds d,
                               newDeps := (s.watchers w).newDeps ++ [d] }
      else s.watchers x := by
  unfold Watcher.addDep
  by_cases h1 : d ∈ (s.watchers w).newDepIds
  · simp [h1]
  · by_cases h2 : d ∈ (s.watchers w).depIds
    · by_cases h3 : x = w <;> simp [h1, h2, h3]
    · by_cases h3 : x = w <;> simp [h1, h2, h3, Dep.addSub]

theorem target_addDep (s : World) (w d : Nat) : (Watcher.addDep s w d).target = s.target := by
  unfold Watcher.addDep
  by_cases h1 : d ∈ (s.watchers w).newDepIds
  · simp [h1]
  · by_cases h2 : d ∈ (s.watchers w).depIds
    · simp [h1, h2]
    · simp [h1, h2, Dep.addSub]

theorem count_subs_addDep (s : World) (w d x y : Nat) :
    ((Watcher.addDep s w d).subs y).count x =
      (s.subs y).count x +
        (if d ∉ (s.watchers w).newDepIds ∧ d ∉ (s.watchers w).depIds ∧ y = d ∧ x = w
         then 1 else 0) := by
  rw [subs_addDep]
  by_cases h1 : d ∈ (s.watchers w).newDepIds
  · simp [h1]
  · by_cases h2 : d ∈ (s.watchers w).depIds
    · simp [h1, h2]
    · by_cases h3 : y = d
      · subst h3
        by_cases h4 : x = w
        · subst h4; simp [h1, h2, List.count_append]
        · have h5 : ¬ (w = x) := fun h => h4 h.symm
          simp [h1, h2, h4, h5, List.count_append, List.count_singleton]
      · simp [h1, h2, h3]

/-- One `dep.depend()` while `w` is `Dep.target`, tracked against the set `R` of Deps
already touched in the running evaluation. -/
theorem depend_step_track (w a : Nat) (s : World) (R : List Nat)
    (ht : s.target = some w)
    (hc : ∀ d, (s.subs d).count w ≤ 1)
    (hm : ∀ d, w ∈ s.subs d ↔ d ∈ (s.watchers w).deps ∨ d ∈ R)
    (hi : ∀ d, d ∈ (s.watchers w).depIds ↔ d ∈ (s.watchers w).deps)
    (hn : ∀ d, d ∈ (s.watchers w).newDepIds ↔ d ∈ R)
    (hl : ∀ d, d ∈ (s.watchers w).newDeps ↔ d ∈ R) :
    (Dep.depend s a).target = some w ∧
    (∀ d, ((Dep.depend s a).subs d).count w ≤ 1) ∧
    (∀ d, w ∈ (Dep.depend s a).subs d ↔ d ∈ (s.watchers w).deps ∨ d ∈ R ++ [a]) ∧
    ((Dep.depend s a).watchers w).deps = (s.watchers w).deps ∧
    ((Dep.depend s a).watchers w).depIds = (s.watchers w).depIds ∧
    (∀ d, d ∈ ((Dep.depend s a).watchers w).newDepIds ↔ d ∈ R ++ [a]) ∧
    (∀ d, d ∈ ((Dep.depend s a).watchers w).newDeps ↔ d ∈ R ++ [a]) := by
  have hdep : Dep.depend s a = Watcher.addDep s w a := by
    unfold Dep.depend; rw [ht]
  rw [hdep]
  have hcnt : ∀ d, w ∈ s.subs d ↔ 1 ≤ (s.subs d).count w := fun d => List.one_le_count_iff.symm
  refine ⟨by rw [target_addDep]; exact ht, ?_, ?_, ?_, ?_, ?_, ?_⟩
  · intro d
    rw [count_subs_addDep]
    split
    · rename_i h
      obtain ⟨h1, h2, h3, _⟩ := h
      subst h3
      have : ¬ (w ∈ s.subs d) := by
        rw [hm]; rintro (h | h)
        · exact h2 ((hi d).2 h)
        · exact h1 ((hn d).2 h)
      have := List.count_eq_zero.2 this
      omega
    · have := hc d; omega
  · intro d
    rw [← List.one_le_count_iff, count_subs_addDep]
    by_cases hd : d = a
    · subst hd
      by_cases h1 : d ∈ (s.watchers w).newDepIds
      · have : w ∈ s.subs d := (hm d).2 (Or.inr ((hn d).1 h1))
        have h5 := (hcnt d).1 this
        simp [h1, h5]
      · by_cases h2 : d ∈ (s.watchers w).depIds
        · have : w ∈ s.subs d := (hm d).2 (Or.inl ((hi d).1 h2))
          have h5 := (hcnt d).1 this
          simp [h1, h2, h5]
        · simp [h1, h2]
    · have : ¬ (a = d) := fun h => hd h.symm
      simp [hd, List.one_le_count_iff, hm d]
  · rw [watchers_addDep]; split <;> rfl
  · rw [watchers_addDep]; split <;> rfl
  · intro d
    rw [watchers_addDep]
    by_cases h1 : a ∈ (s.watchers w).newDepIds
    · simp [h1, hn d]
      intro h; subst h; exact (hn d).1 h1
    · simp [h1, mem_setAdd, hn d]
  · intro d
    rw [watchers_addDep]
    by_cases h1 : a ∈ (s.watchers w).newDepIds
    · simp [h1, hl d]
      intro h; subst h; exact (hn d).1 h1
    · simp [h1, hl d]

/-- A run of `dep.depend()` calls while `w` is `Dep.target`. -/
theorem depend_fold_track (w : Nat) (D I : List Nat) (hi : ∀ d, d ∈ I ↔ d ∈ D) (L : List Nat) :
    ∀ (s : World) (R : List Nat),
    s.target = some w →
    (∀ d, (s.subs d).count w ≤ 1) →
    (∀ d, w ∈ s.subs d ↔ d ∈ D ∨ d ∈ R) →
    (s.watchers w).deps = D →
    (s.watchers w).depIds = I →
    (∀ d, d ∈ (s.watchers w).newDepIds ↔ d ∈ R) →
    (∀ d, d ∈ (s.watchers w).newDeps ↔ d ∈ R) →
    (L.foldl Dep.depend s).target = some w ∧
    (∀ d, ((L.foldl Dep.depend s).subs d).count w ≤ 1) ∧
    (∀ d, w ∈ (L.foldl Dep.depend s).subs d ↔ d ∈ D ∨ d ∈ R ++ L) ∧
    ((L.foldl Dep.depend s).watchers w).deps = D ∧
    ((L.foldl Dep.depend s).watchers w).depIds = I ∧
    (∀ d, d ∈ ((L.foldl Dep.depend s).watchers w).newDepIds ↔ d ∈ R ++ L) ∧
    (∀ d, d ∈ ((L.foldl Dep.depend s).watchers w).newDeps ↔ d ∈ R ++ L) := by
  induction L with
  | nil =>
    intro s R ht hc hm hd hI hn hl
    simp only [List.foldl_nil, List.append_nil]
    exact ⟨ht, hc, hm, hd, hI, hn, hl⟩
  | cons a L ih =>
    intro s R ht hc hm hd hI hn hl
    have hm0 : ∀ d, w ∈ s.subs d ↔ d ∈ (s.watchers w).deps ∨ d ∈ R := by
      intro d; rw [hd]; exact hm d
    have hi0 : ∀ d, d ∈ (s.watchers w).depIds ↔ d ∈ (s.watchers w).deps := by
      intro d; rw [hd, hI]; exact hi d
    obtain ⟨t1, c1, m1, d1, i1, n1, l1⟩ := depend_step_track w a s R ht hc hm0 hi0 hn hl
    rw [hd] at m1 d1
    rw [hI] at i1
    have := ih (Dep.depend s a) (R ++ [a]) t1 c1 m1 d1 i1 n1 l1
    simpa [List.append_assoc] using this

/-! ## `cleanupDeps` and `teardown`: the unsubscribe loops -/

theorem subs_removeSub (s : World) (d w x : Nat) :
    (Dep.removeSub s d w).subs x = if x = d then (s.subs d).erase w else s.subs x := rfl

/-- The loop of `cleanupDeps` (`N = newDepIds`) and of `teardown` (`N = []`): what it
leaves in each `subs`, counted per watcher. -/
theorem count_subs_removeLoop (w : Nat) (N L : List Nat) (s : World) (x y : Nat) :
    ((L.foldr (fun d acc => if d ∈ N then acc else Dep.removeSub acc d w) s).subs y).count x =
      if x = w ∧ y ∉ N then (s.subs y).count x - L.count y else (s.subs y).count x := by
  induction L with
  | nil => simp
  | cons a L ih =>
    simp only [List.foldr_cons]
    by_cases ha : a ∈ N
    · simp only [ha, if_true]
      rw [ih]
      by_cases hy : y = a
      · subst hy; simp [ha]
      · have : ¬ (a = y) := fun h => hy h.symm
        simp [List.count_cons, this]
    · simp only [ha, if_false]
      rw [subs_removeSub]
      by_cases hy : y = a
      · subst hy
        simp only [if_true]
        by_cases hx : x = w
        · subst hx
          rw [List.count_erase_self, ih]
          simp [ha, List.count_cons]
          omega
        · rw [List.count_erase_of_ne hx, ih]
          simp [hx]
      · have : ¬ (a = y) := fun h => hy h.symm
        simp only [hy, if_false]
        rw [ih]
        simp [List.count_cons, this]

theorem watchers_removeLoop (w : Nat) (N L : List Nat) (s : World) :
    (L.foldr (fun d acc => if d ∈ N then acc else Dep.removeSub acc d w) s).watchers
      = s.watchers := by
  induction L with
  | nil => rfl
  | cons a L ih =>
    simp only [List.foldr_cons]
    by_cases ha : a ∈ N
    · simp only [ha, if_true]; exact ih
    · simp only [ha, if_false]; exact ih

theorem count_subs_cleanupDeps (s : World) (w x y : Nat) :
    ((Watcher.cleanupDeps s w).subs y).count x =
      if x = w ∧ y ∉ (s.watchers w).newDepIds
      then (s.subs y).count x - (s.watchers w).deps.count y else (s.subs y).count x := by
  unfold Watcher.cleanupDeps
  simp only [subs_setWatcher]
  exact count_subs_removeLoop w _ _ s x y

theorem watchers_cleanupDeps (s : World) (w x : Nat) :
    (Watcher.cleanupDeps s w).watchers x =
      if x = w then { s.watchers w with depIds := (s.watchers w).newDepIds, newDepIds := [],
                                        deps := (s.watchers w).newDeps, newDeps := [] }
      else s.watchers x := by
  unfold Watcher.cleanupDeps
  simp only [watchers_setWatcher, watchers_removeLoop]

/-! ## `Watcher.get` -/

/-- The state just before `this.cleanupDeps()` in `get()`. -/
theorem get_before_cleanup (s : World) (w : Nat) (ev : Evaluation) (h : Consistent s w) :
    ∃ s5 : World, (Watcher.get s w ev).1 = Watcher.cleanupDeps s5 w ∧
      (∀ d, (s5.subs d).count w ≤ 1) ∧
      (∀ d, w ∈ s5.subs d ↔ d ∈ (s.watchers w).deps ∨ d ∈ ev.touched (s.watchers w).deep) ∧
      (s5.watchers w).deps = (s.watchers w).deps ∧
      (∀ d, d ∈ (s5.watchers w).newDepIds ↔ d ∈ ev.touched (s.watchers w).deep) ∧
      (∀ d, d ∈ (s5.watchers w).newDeps ↔ d ∈ ev.touched (s.watchers w).deep) := by
  obtain ⟨hm, hnd, hni, hi, hc⟩ := h
  have hm0 : ∀ d, w ∈ (pushTarget s (some w)).subs d ↔ d ∈ (s.watchers w).deps ∨ d ∈ [] := by
    intro d; simpa [pushTarget] using hm d
  have hn0 : ∀ d, d ∈ ((pushTarget s (some w)).watchers w).newDepIds ↔ d ∈ ([] : List Nat) := by
    intro d; simp [pushTarget, hni]
  have hl0 : ∀ d, d ∈ ((pushTarget s (some w)).watchers w).newDeps ↔ d ∈ ([] : List Nat) := by
    intro d; simp [pushTarget, hnd]
  obtain ⟨t2, c2, m2, d2, i2, n2, l2⟩ :=
    depend_fold_track w (s.watchers w).deps (s.watchers w).depIds hi ev.reads
      (pushTarget s (some w)) [] rfl hc hm0 rfl rfl hn0 hl0
  simp only [List.nil_append] at m2 n2 l2
  -- the state after the catch clause
  obtain ⟨s3, hs3, t3, c3, m3, d3, i3, n3, l3⟩ : ∃ s3 : World,
      (Watcher.get s w ev).1 = Watcher.cleanupDeps (popTarget
        (if (s.watchers w).deep then
          ((ev.traverse (match ev.outcome with
            | Except.ok v => v
            | Except.error _ => Val.undefined)).foldl Dep.depend s3) else s3)) w ∧
      s3.target = some w ∧ (∀ d, (s3.subs d).count w ≤ 1) ∧
      (∀ d, w ∈ s3.subs d ↔ d ∈ (s.watchers w).deps ∨ d ∈ ev.reads) ∧
      (s3.watchers w).deps = (s.watchers w).deps ∧
      (s3.watchers w).depIds = (s.watchers w).depIds ∧
      (∀ d, d ∈ (s3.watchers w).newDepIds ↔ d ∈ ev.reads) ∧
      (∀ d, d ∈ (s3.watchers w).newDeps ↔ d ∈ ev.reads) := by
    cases ho : ev.outcome with
    | ok v =>
      refine ⟨_, ?_, t2, c2, m2, d2, i2, n2, l2⟩
      simp [Watcher.get, ho]
    | error e =>
      by_cases hu : (s.watchers w).user
      · refine ⟨{ (ev.reads.foldl Dep.depend (pushTarget s (some w))) with
            errors := (ev.reads.foldl Dep.depend (pushTarget s (some w))).errors ++ [e] },
          ?_, t2, c2, m2, d2, i2, n2, l2⟩
        simp [Watcher.get, ho, hu]
      · refine ⟨_, ?_, t2, c2, m2, d2, i2, n2, l2⟩
        simp [Watcher.get, ho, hu]
  by_cases hdeep : (s.watchers w).deep
  · obtain ⟨_, c4, m4, d4, _, n4, l4⟩ :=
      depend_fold_track w (s.watchers w).deps (s.watchers w).depIds hi
        (ev.traverse (match ev.outcome with
            | Except.ok v => v
            | Except.error _ => Val.undefined))
        s3 ev.reads t3 c3 m3 d3 i3 n3 l3
    refine ⟨_, hs3, ?_, ?_, ?_, ?_, ?_⟩
    · simpa [hdeep, popTarget] using c4
    · simpa [hdeep, popTarget, Evaluation.touched] using m4
    · simpa [hdeep, popTarget] using d4
    · simpa [hdeep, popTarget, Evaluation.touched] using n4
    · simpa [hdeep, popTarget, Evaluation.touched] using l4
  · refine ⟨_, hs3, ?_, ?_, ?_, ?_, ?_⟩
    · simpa [hdeep, popTarget] using c3
    · simpa [hdeep, popTarget, Evaluation.touched] using m3
    · simpa [hdeep, popTarget] using d3
    · simpa [hdeep, popTarget, Evaluation.touched] using n3
    · simpa [hdeep, popTarget, Evaluation.touched] using l3

/-- What `get()` does to a consistent watcher, in any state. -/
theorem get_of_consistent (s : World) (w : Nat) (ev : Evaluation)
    (h : Consistent s w) :
    (∀ d, w ∈ (Watcher.get s w ev).1.subs d ↔ d ∈ ev.touched (s.watchers w).deep) ∧
    (∀ d, d ∈ ((Watcher.get s w ev).1.watchers w).deps ↔ d ∈ ev.touched (s.watchers w).deep) ∧
    (∀ d, d ∈ ((Watcher.get s w ev).1.watchers w).depIds ↔ d ∈ ev.touched (s.watchers w).deep) ∧
    (∀ d, d ∈ (s.watchers w).deps → d ∉ ev.touched (s.watchers w).deep →
      w ∉ (Watcher.get s w ev).1.subs d) ∧
    (∀ d, d ∉ (s.watchers w).deps → d ∈ ev.touched (s.watchers w).deep →
      w ∈ (Watcher.get s w ev).1.subs d) ∧
    Consistent (Watcher.get s w ev).1 w := by
  obtain ⟨s5, hs5, c5, m5, d5, n5, l5⟩ := get_before_cleanup s w ev h
  rw [hs5]
  have hcount : ∀ d, ((Watcher.cleanupDeps s5 w).subs d).count w =
      if d ∈ ev.touched (s.watchers w).deep then (s5.subs d).count w else 0 := by
    intro d
    rw [count_subs_cleanupDeps]
    by_cases hd : d ∈ ev.touched (s.watchers w).deep
    · simp [hd, (n5 d).2 hd]
    · have hn : d ∉ (s5.watchers w).newDepIds := fun hh => hd ((n5 d).1 hh)
      simp only [hn, hd, not_false_eq_true, and_self, if_true, if_false]
      by_cases hD : d ∈ (s.watchers w).deps
      · have h1 : 1 ≤ (s5.watchers w).deps.count d := by
          rw [d5]; exact List.one_le_count_iff.2 hD
        have := c5 d
        omega
      · have : w ∉ s5.subs d := by
          rw [m5]; rintro (hh | hh)
          · exact hD hh
          · exact hd hh
        have := List.count_eq_zero.2 this
        omega
  have hmem : ∀ d, w ∈ (Watcher.cleanupDeps s5 w).subs d ↔
      d ∈ ev.touched (s.watchers w).deep := by
    intro d
    rw [← List.one_le_count_iff, hcount]
    by_cases hd : d ∈ ev.touched (s.watchers w).deep
    · simp only [hd, if_true, iff_true]
      exact List.one_le_count_iff.2 ((m5 d).2 (Or.inr hd))
    · simp [hd]
  have hdeps : ∀ d, d ∈ ((Watcher.cleanupDeps s5 w).watchers w).deps ↔
      d ∈ ev.touched (s.watchers w).deep := by
    intro d; rw [watchers_cleanupDeps]; simpa using l5 d
  have hids : ∀ d, d ∈ ((Watcher.cleanupDeps s5 w).watchers w).depIds ↔
      d ∈ ev.touched (s.watchers w).deep := by
    intro d; rw [watchers_cleanupDeps]; simpa using n5 d
  refine ⟨hmem, hdeps, hids, ?_, ?_, ?_⟩
  · intro d _ hd hw; exact hd ((hmem d).1 hw)
  · intro d _ hd; exact (hmem d).2 hd
  · refine ⟨?_, ?_, ?_, ?_, ?_⟩
    · intro d; rw [hmem, hdeps]
    · rw [watchers_cleanupDeps]; simp
    · rw [watchers_cleanupDeps]; simp
    · intro d; rw [hids, hdeps]
    · intro d
      rw [hcount]
      split
      · exact c5 d
      · exact Nat.zero_le 1

theorem sample_consistent : Consistent World.sample 1 := by
  refine ⟨?_, rfl, rfl, ?_, ?_⟩
  · intro d
    by_cases h1 : d = 1
    · subst h1; simp [World.sample]
    · by_cases h2 : d = 2
      · subst h2; simp [World.sample]
      · simp [World.sample, h1, h2]
  · intro d; simp [World.sample]
  · intro d
    by_cases h : d = 1 ∨ d = 2
    · simp [World.sample, h]
    · simp [World.sample, h]

/-- The sample run: subscribed to Deps 1 and 2 before, reading 2, 3, 2, the watcher ends up
in the `subs` of Deps 2 and 3 only, with `deps = [2, 3]`. -/
theorem get_sample_run :
    (Watcher.get World.sample 1 Evaluation.sample).1.subs 1 = [] ∧
    (Watcher.get World.sample 1 Evaluation.sample).1.subs 2 = [1] ∧
    (Watcher.get World.sample 1 Evaluation.sample).1.subs 3 = [1] ∧
    ((Watcher.get World.sample 1 Evaluation.sample).1.watchers 1).deps = [2, 3] := by
  decide

/-! ## The duplicate-freedom invariant -/

theorem addDep_frame (s : World) (w d : Nat) :
    (Watcher.addDep s w d).uid = s.uid ∧ (Watcher.addDep s w d).targetStack = s.targetStack := by
  unfold Watcher.addDep
  by_cases h1 : d ∈ (s.watchers w).newDepIds
  · simp [h1]
  · by_cases h2 : d ∈ (s.watchers w).depIds
    · simp [h1, h2, World.setWatcher]
    · simp [h1, h2, Dep.addSub, World.setWatcher, World.setSubs]

theorem removeLoop_frame (w : Nat) (N L : List Nat) (s : World) :
    (L.foldr (fun d acc => if d ∈ N then acc else Dep.removeSub acc d w) s).uid = s.uid ∧
    (L.foldr (fun d acc => if d ∈ N then acc else Dep.removeSub acc d w) s).target = s.target ∧
    (L.foldr (fun d acc => if d ∈ N then acc else Dep.removeSub acc d w) s).targetStack
      = s.targetStack ∧
    (L.foldr (fun d acc => if d ∈ N then acc else Dep.removeSub acc d w) s).vms = s.vms := by
  induction L with
  | nil => exact ⟨rfl, rfl, rfl, rfl⟩
  | cons a L ih =>
    simp only [List.foldr_cons]
    by_cases ha : a ∈ N
    · simp only [ha, if_true]; exact ih
    · simp only [ha, if_false]; exact ih

/-- States that agree on the subscriber lists, the dependency fields of every watcher, `uid`
and the target stack agree on the invariant. -/
theorem WF_congr (s t : World) (h : s.WF)
    (h1 : t.subs = s.subs)
    (h2 : ∀ w, (t.watchers w).deps = (s.watchers w).deps ∧
      (t.watchers w).newDeps = (s.watchers w).newDeps ∧
      (t.watchers w).depIds = (s.watchers w).depIds ∧
      (t.watchers w).newDepIds = (s.watchers w).newDepIds)
    (h3 : t.uid = s.uid) (h4 : t.target = s.target) (h5 : t.targetStack = s.targetStack) :
    t.WF := by
  obtain ⟨a1, a2, a3, a4, a5, a6, a7⟩ := h
  refine ⟨?_, ?_, ?_, ?_, ?_, ?_, ?_⟩
  · intro w d; rw [h1]; exact a1 w d
  · intro w d; rw [h1, (h2 w).2.2.1, (h2 w).2.2.2]; exact a2 w d
  · intro w d; rw [(h2 w).1, (h2 w).2.2.1]; exact a3 w d
  · intro w d; rw [(h2 w).2.1, (h2 w).2.2.2]; exact a4 w d
  · intro w d; rw [h1, h3]; exact a5 w d
  · intro w; rw [h4]; unfold World.constructed; rw [h3]; exact a6 w
  · intro w; rw [h5]; unfold World.constructed; rw [h3]; exact a7 w

theorem WF_addDep (s : World) (w d : Nat) (h : s.WF) (hw : s.constructed w) :
    (Watcher.addDep s w d).WF := by
  obtain ⟨a1, a2, a3, a4, a5, a6, a7⟩ := h
  obtain ⟨f1, f2⟩ := addDep_frame s w d
  refine ⟨?_, ?_, ?_, ?_, ?_, ?_, ?_⟩
  · intro x y
    rw [count_subs_addDep]
    split
    · rename_i hc
      obtain ⟨h1, h2, h3, h4⟩ := hc
      subst h3; subst h4
      have : x ∉ s.subs y := fun hm => by
        rcases a2 x y hm with hh | hh
        · exact h2 hh
        · exact h1 hh
      have := List.count_eq_zero.2 this
      omega
    · exact a1 x y
  · intro x y hxy
    rw [← List.one_le_count_iff, count_subs_addDep] at hxy
    rw [watchers_addDep]
    by_cases hc : d ∉ (s.watchers w).newDepIds ∧ d ∉ (s.watchers w).depIds ∧ y = d ∧ x = w
    · obtain ⟨h1, h2, h3, h4⟩ := hc
      subst h3; subst h4
      simp [h1, mem_setAdd]
    · simp only [hc, if_false, Nat.add_zero] at hxy
      have hm := a2 x y (List.one_le_count_iff.1 hxy)
      by_cases hx : x = w ∧ d ∉ (s.watchers w).newDepIds
      · obtain ⟨hx1, hx2⟩ := hx
        subst hx1
        simp only [hx2, not_false_eq_true, and_self, if_true, mem_setAdd]
        rcases hm with hh | hh
        · exact Or.inl hh
        · exact Or.inr (Or.inl hh)
      · simp only [hx, if_false]; exact hm
  · intro x y
    rw [watchers_addDep]
    split
    · exact a3 w y
    · exact a3 x y
  · intro x y
    rw [watchers_addDep]
    split
    · rename_i hx
      simp only [mem_setAdd, List.mem_append, List.mem_singleton]
      rw [a4 w y]
    · exact a4 x y
  · intro x y hx
    rw [f1] at hx
    rw [← List.one_le_count_iff, count_subs_addDep]
    have hne : x ≠ w := by
      intro e; subst e; have := hw.2; omega
    have := List.count_eq_zero.2 (a5 x y hx)
    simp [hne, this]
  · intro x hx
    rw [target_addDep] at hx
    unfold World.constructed; rw [f1]; exact a6 x hx
  · intro x hx
    rw [f2] at hx
    unfold World.constructed; rw [f1]; exact a7 x hx

theorem WF_depDepend (s : World) (d : Nat) (h : s.WF) : (Dep.depend s d).WF := by
  unfold Dep.depend
  cases ht : s.target with
  | none => exact h
  | some w => exact WF_addDep s w d h (h.2.2.2.2.2.1 w ht)

theorem WF_foldl_depend (L : List Nat) : ∀ (s : World), s.WF → (L.foldl Dep.depend s).WF := by
  induction L with
  | nil => intro s h; exact h
  | cons a L ih => intro s h; exact ih _ (WF_depDepend s a h)

theorem WF_foldr_depend (L : List Nat) (s : World) (h : s.WF) :
    (L.foldr (fun d acc => Dep.depend acc d) s).WF := by
  induction L with
  | nil => exact h
  | cons a L ih => exact WF_depDepend _ a ih

theorem WF_pushTarget (s : World) (w : Nat) (h : s.WF) (hw : s.constructed w) :
    (pushTarget s (some w)).WF := by
  obtain ⟨a1, a2, a3, a4, a5, a6, a7⟩ := h
  refine ⟨a1, a2, a3, a4, a5, ?_, ?_⟩
  · intro x hx
    simp only [pushTarget, Option.some.injEq] at hx
    subst hx; exact hw
  · intro x hx
    simp only [pushTarget, List.mem_cons, Option.some.injEq] at hx
    rcases hx with hx | hx
    · subst hx; exact hw
    · exact a7 x hx

theorem WF_pushNoTarget (s : World) (h : s.WF) : (pushTarget s none).WF := by
  obtain ⟨a1, a2, a3, a4, a5, a6, a7⟩ := h
  refine ⟨a1, a2, a3, a4, a5, ?_, ?_⟩
  · intro x hx
    simp [pushTarget] at hx
  · intro x hx
    simp only [pushTarget, List.mem_cons] at hx
    rcases hx with hx | hx
    · cases hx
    · exact a7 x hx

theorem WF_popTarget (s : World) (h : s.WF) : (popTarget s).WF := by
  obtain ⟨a1, a2, a3, a4, a5, a6, a7⟩ := h
  refine ⟨a1, a2, a3, a4, a5, ?_, ?_⟩
  · intro x hx
    apply a7
    cases hst : s.targetStack with
    | nil => simp [popTarget, hst] at hx
    | cons a l =>
      cases l with
      | nil => simp [popTarget, hst] at hx
      | cons b l =>
        simp [popTarget, hst] at hx
        rw [hx]; simp
  · intro x hx
    apply a7
    simp only [popTarget] at hx
    exact List.mem_of_mem_tail hx

theorem WF_cleanupDeps (s : World) (w : Nat) (h : s.WF) : (Watcher.cleanupDeps s w).WF := by
  obtain ⟨a1, a2, a3, a4, a5, a6, a7⟩ := h
  have hle : ∀ x y, ((Watcher.cleanupDeps s w).subs y).count x ≤ (s.subs y).count x := by
    intro x y; rw [count_subs_cleanupDeps]; split
    · exact Nat.sub_le _ _
    · exact Nat.le_refl _
  have hfr := removeLoop_frame w (s.watchers w).newDepIds (s.watchers w).deps s
  have huid : (Watcher.cleanupDeps s w).uid = s.uid := hfr.1
  have htg : (Watcher.cleanupDeps s w).target = s.target := hfr.2.1
  have hst : (Watcher.cleanupDeps s w).targetStack = s.targetStack := hfr.2.2.1
  refine ⟨?_, ?_, ?_, ?_, ?_, ?_, ?_⟩
  · intro x y; exact Nat.le_trans (hle x y) (a1 x y)
  · intro x y hxy
    have hxy1 := List.one_le_count_iff.2 hxy
    have hold : x ∈ s.subs y := List.one_le_count_iff.1 (Nat.le_trans hxy1 (hle x y))
    rw [watchers_cleanupDeps]
    by_cases hx : x = w
    · subst hx
      simp only [if_true]
      left
      by_contra hN
      rw [count_subs_cleanupDeps] at hxy1
      simp only [hN, not_false_eq_true, and_self, if_true] at hxy1
      have hd : y ∈ (s.watchers x).deps := by
        rcases a2 x y hold with hh | hh
        · exact (a3 x y).1 hh
        · exact absurd hh hN
      have := List.one_le_count_iff.2 hd
      have := a1 x y
      omega
    · simp only [hx, if_false]; exact a2 x y hold
  · intro x y
    rw [watchers_cleanupDeps]
    split
    · exact a4 w y
    · exact a3 x y
  · intro x y
    rw [watchers_cleanupDeps]
    split
    · simp
    · exact a4 x y
  · intro x y hx
    rw [huid] at hx
    have := List.count_eq_zero.2 (a5 x y hx)
    have := hle x y
    exact List.count_eq_zero.1 (by omega)
  · intro x hx; rw [htg] at hx
    unfold World.constructed; rw [huid]; exact a6 x hx
  · intro x hx; rw [hst] at hx
    unfold World.constructed; rw [huid]; exact a7 x hx

/-- Removing subscribers, with the dependency fields of the watchers untouched, keeps the
invariant. -/
theorem WF_of_subs_le (s t : World) (h : s.WF)
    (h1 : ∀ x y, (t.subs y).count x ≤ (s.subs y).count x)
    (h2 : ∀ w, (t.watchers w).deps = (s.watchers w).deps ∧
      (t.watchers w).newDeps = (s.watchers w).newDeps ∧
      (t.watchers w).depIds = (s.watchers w).depIds ∧
      (t.watchers w).newDepIds = (s.watchers w).newDepIds)
    (h3 : t.uid = s.uid) (h4 : t.target = s.target) (h5 : t.targetStack = s.targetStack) :
    t.WF := by
  obtain ⟨a1, a2, a3, a4, a5, a6, a7⟩ := h
  have hmem : ∀ x y, x ∈ t.subs y → x ∈ s.subs y := fun x y hxy =>
    List.one_le_count_iff.1 (Nat.le_trans (List.one_le_count_iff.2 hxy) (h1 x y))
  refine ⟨?_, ?_, ?_, ?_, ?_, ?_, ?_⟩
  · intro w d; exact Nat.le_trans (h1 w d) (a1 w d)
  · intro w d hwd; rw [(h2 w).2.2.1, (h2 w).2.2.2]; exact a2 w d (hmem w d hwd)
  · intro w d; rw [(h2 w).1, (h2 w).2.2.1]; exact a3 w d
  · intro w d; rw [(h2 w).2.1, (h2 w).2.2.2]; exact a4 w d
  · intro w d hw hwd; rw [h3] at hw; exact a5 w d hw (hmem w d hwd)
  · intro w; rw [h4]; unfold World.constructed; rw [h3]; exact a6 w
  · intro w; rw [h5]; unfold World.constructed; rw [h3]; exact a7 w

theorem teardown_loop_eq (w : Nat) (L : List Nat) (s : World) :
    L.foldr (fun d acc => Dep.removeSub acc d w) s =
      L.foldr (fun d acc => if d ∈ ([] : List Nat) then acc else Dep.removeSub acc d w) s := by
  simp

theorem WF_teardown (s : World) (w : Nat) (h : s.WF) : (Watcher.teardown s w).WF := by
  unfold Watcher.teardown
  by_cases hact : (s.watchers w).active
  · simp only [hact, if_true]
    rw [teardown_loop_eq]
    by_cases hb : (s.vms (s.watchers w).vm)._isBeingDestroyed
    · simp only [hb, Bool.not_true, Bool.false_eq_true, if_false]
      apply WF_of_subs_le s _ h
      · intro x y
        simp only [subs_setWatcher]
        rw [count_subs_removeLoop]; split
        · exact Nat.sub_le _ _
        · exact Nat.le_refl _
      · intro x
        simp only [watchers_setWatcher, watchers_removeLoop]
        split
        · rename_i hx; subst hx; exact ⟨rfl, rfl, rfl, rfl⟩
        · exact ⟨rfl, rfl, rfl, rfl⟩
      · exact (removeLoop_frame w [] _ s).1
      · exact (removeLoop_frame w [] _ s).2.1
      · exact (removeLoop_frame w [] _ s).2.2.1
    · simp only [hb, Bool.not_false, if_true]
      apply WF_of_subs_le s _ h
      · intro x y
        simp only [subs_setWatcher]
        rw [count_subs_removeLoop]; split
        · exact Nat.sub_le _ _
        · exact Nat.le_refl _
      · intro x
        simp only [watchers_setWatcher, watchers_removeLoop, watchers_setVm]
        split
        · rename_i hx; subst hx; exact ⟨rfl, rfl, rfl, rfl⟩
        · exact ⟨rfl, rfl, rfl, rfl⟩
      · exact (removeLoop_frame w [] _ _).1
      · exact (removeLoop_frame w [] _ _).2.1
      · exact (removeLoop_frame w [] _ _).2.2.1
  · simp only [hact, if_false]; exact h

/-- The state `get()` leaves, as the composition of its steps; `s3` is the state after the
`catch` clause, which differs from the state after the getter by the error report only. -/
theorem get_fst (s : World) (w : Nat) (ev : Evaluation) :
    ∃ s3 : World,
      (Watcher.get s w ev).1 = Watcher.cleanupDeps (popTarget
        (if (s.watchers w).deep then
          ((ev.traverse (match ev.outcome with
            | Except.ok v => v
            | Except.error _ => Val.undefined)).foldl Dep.depend s3) else s3)) w ∧
      s3.subs = (ev.reads.foldl Dep.depend (pushTarget s (some w))).subs ∧
      s3.watchers = (ev.reads.foldl Dep.depend (pushTarget s (some w))).watchers ∧
      s3.uid = (ev.reads.foldl Dep.depend (pushTarget s (some w))).uid ∧
      s3.target = (ev.reads.foldl Dep.depend (pushTarget s (some w))).target ∧
      s3.targetStack = (ev.reads.foldl Dep.depend (pushTarget s (some w))).targetStack := by
  cases ho : ev.outcome with
  | ok v =>
    refine ⟨_, ?_, rfl, rfl, rfl, rfl, rfl⟩
    simp [Watcher.get, ho]
  | error e =>
    by_cases hu : (s.watchers w).user
    · refine ⟨{ (ev.reads.foldl Dep.depend (pushTarget s (some w))) with
          errors := (ev.reads.foldl Dep.depend (pushTarget s (some w))).errors ++ [e] },
        ?_, rfl, rfl, rfl, rfl, rfl⟩
      simp [Watcher.get, ho, hu]
    · refine ⟨_, ?_, rfl, rfl, rfl, rfl, rfl⟩
      simp [Watcher.get, ho, hu]

theorem WF_get (s : World) (w : Nat) (ev : Evaluation) (h : s.WF) (hw : s.constructed w) :
    (Watcher.get s w ev).1.WF := by
  obtain ⟨s3, hs3, e1, e2, e3, e4, e5⟩ := get_fst s w ev
  rw [hs3]
  have h2 : (ev.reads.foldl Dep.depend (pushTarget s (some w))).WF :=
    WF_foldl_depend _ _ (WF_pushTarget s w h hw)
  have h3 : s3.WF :=
    WF_congr _ s3 h2 e1 (fun x => by rw [e2]; exact ⟨rfl, rfl, rfl, rfl⟩) e3 e4 e5
  apply WF_cleanupDeps
  apply WF_popTarget
  split
  · exact WF_foldl_depend _ _ h3
  · exact h3

theorem uid_foldl_depend (L : List Nat) : ∀ (s : World), (L.foldl Dep.depend s).uid = s.uid := by
  induction L with
  | nil => intro s; rfl
  | cons a L ih =>
    intro s
    simp only [List.foldl_cons]
    rw [ih]
    unfold Dep.depend
    cases s.target with
    | none => rfl
    | some w => exact (addDep_frame s w a).1

theorem uid_get (s : World) (w : Nat) (ev : Evaluation) : (Watcher.get s w ev).1.uid = s.uid := by
  obtain ⟨s3, hs3, _, _, e3, _, _⟩ := get_fst s w ev
  rw [hs3]
  have h1 : ∀ t : World, (Watcher.cleanupDeps t w).uid = t.uid := fun t =>
    (removeLoop_frame w (t.watchers w).newDepIds (t.watchers w).deps t).1
  rw [h1]
  have h2 : ∀ t : World, (popTarget t).uid = t.uid := fun _ => rfl
  rw [h2]
  split
  · rw [uid_foldl_depend, e3, uid_foldl_depend]; rfl
  · rw [e3, uid_foldl_depend]; rfl

/-- Writing the fields of a watcher that are not dependency bookkeeping keeps the invariant. -/
theorem WF_setWatcher_other (s : World) (w : Nat) (W : Watcher) (h : s.WF)
    (hd : W.deps = (s.watchers w).deps) (hn : W.newDeps = (s.watchers w).newDeps)
    (hi : W.depIds = (s.watchers w).depIds) (hni : W.newDepIds = (s.watchers w).newDepIds) :
    (s.setWatcher w W).WF := by
  refine WF_congr s _ h rfl ?_ rfl rfl rfl
  intro x
  simp only [watchers_setWatcher]
  split
  · rename_i hx; subst hx; exact ⟨hd, hn, hi, hni⟩
  · exact ⟨rfl, rfl, rfl, rfl⟩

theorem WF_run (s : World) (w : Nat) (ev : Evaluation) (h : s.WF) (hw : s.constructed w) :
    (Watcher.run s w ev).1.WF := by
  unfold Watcher.run
  by_cases hact : (s.watchers w).active
  · simp only [hact, if_true]
    have hg := WF_get s w ev h hw
    cases hres : Watcher.get s w ev with
    | mk s1 r =>
      rw [hres] at hg
      cases r with
      | error e => exact hg
      | ok value =>
        simp only
        split
        · have h1 := WF_setWatcher_other s1 w { s1.watchers w with value := value } hg
            rfl rfl rfl rfl
          exact WF_congr _ _ h1 rfl (fun _ => ⟨rfl, rfl, rfl, rfl⟩) rfl rfl rfl
        · exact hg
  · simp only [hact, if_false]; exact h

theorem WF_evaluate (s : World) (w : Nat) (ev : Evaluation) (h : s.WF) (hw : s.constructed w) :
    (Watcher.evaluate s w ev).1.WF := by
  unfold Watcher.evaluate
  have hg := WF_get s w ev h hw
  cases hres : Watcher.get s w ev with
  | mk s1 r =>
    rw [hres] at hg
    cases r with
    | error e => exact hg
    | ok value => exact WF_setWatcher_other s1 w _ hg rfl rfl rfl rfl

theorem WF_update (s : World) (w : Nat) (ev : Evaluation) (h : s.WF) (hw : s.constructed w) :
    (Watcher.update s w ev).1.WF := by
  unfold Watcher.update
  by_cases hl : (s.watchers w).lazy
  · simp only [hl, if_true]
    exact WF_setWatcher_other s w _ h rfl rfl rfl rfl
  · by_cases hs : (s.watchers w).sync
    · simp only [hl, hs, if_true, if_false]
      exact WF_run s w ev h hw
    · simp only [hl, hs, if_false]
      exact WF_congr s _ h rfl (fun _ => ⟨rfl, rfl, rfl, rfl⟩) rfl rfl rfl

theorem WF_new_tail (t : World) (id : Nat) (ev : Evaluation) (ht : t.WF)
    (hid : t.constructed id) :
    (match Watcher.get t id ev with
      | (s3, Except.error e) => ((s3, id, Except.error e) : World × Nat × Except Val Unit)
      | (s3, Except.ok value) =>
        (s3.setWatcher id { s3.watchers id with value := value }, id, Except.ok ())).1.WF := by
  have hg := WF_get t id ev ht hid
  cases hres : Watcher.get t id ev with
  | mk s3 r =>
    rw [hres] at hg
    cases r with
    | error e => exact hg
    | ok value => exact WF_setWatcher_other s3 id _ hg rfl rfl rfl rfl

theorem WF_new (s : World) (vm : Nat) (options : Option WatcherOptions) (isRenderWatcher : Bool)
    (ev : Evaluation) (h : s.WF) : (Watcher.new s vm options isRenderWatcher ev).1.WF := by
  obtain ⟨a1, a2, a3, a4, a5, a6, a7⟩ := h
  -- the state once the fields of the new watcher are written
  have key : ∀ (V : Vm) (W : Watcher), W.deps = [] → W.newDeps = [] → W.depIds = [] →
      W.newDepIds = [] →
      ({ (s.setVm vm V).setWatcher (s.uid + 1) W with uid := s.uid + 1 } : World).WF := by
    intro V W hd hn hi hni
    refine ⟨a1, ?_, ?_, ?_, ?_, ?_, ?_⟩
    · intro x y hxy
      have hne : x ≠ s.uid + 1 := by
        intro e; subst e; exact a5 _ y (Nat.lt_succ_self _) hxy
      have := a2 x y hxy
      simpa [World.setWatcher, World.setVm, hne] using this
    · intro x y
      by_cases hx : x = s.uid + 1
      · simp [World.setWatcher, World.setVm, hx, hd, hi]
      · simpa [World.setWatcher, World.setVm, hx] using a3 x y
    · intro x y
      by_cases hx : x = s.uid + 1
      · simp [World.setWatcher, World.setVm, hx, hn, hni]
      · simpa [World.setWatcher, World.setVm, hx] using a4 x y
    · intro x y hx
      exact a5 x y (by simp only at hx; omega)
    · intro x hx
      have := a6 x hx
      exact ⟨this.1, Nat.le_succ_of_le this.2⟩
    · intro x hx
      have := a7 x hx
      exact ⟨this.1, Nat.le_succ_of_le this.2⟩
  unfold Watcher.new
  simp only
  split
  · exact key _ _ rfl rfl rfl rfl
  · exact WF_new_tail _ _ ev (key _ _ rfl rfl rfl rfl) ⟨Nat.succ_pos _, Nat.le_refl _⟩

theorem WF_init : World.init.WF := by
  refine ⟨?_, ?_, ?_, ?_, ?_, ?_, ?_⟩
  · intro w d; simp [World.init]
  · intro w d h; simp [World.init] at h
  · intro w d; simp [World.init, Watcher.blank]
  · intro w d; simp [World.init, Watcher.blank]
  · intro w d _; simp [World.init]
  · intro w h; simp [World.init] at h
  · intro w h; simp [World.init] at h

theorem reachable_WF (s : World) (h : Reachable s) : s.WF := by
  induction h with
  | init => exact WF_init
  | construct s vm options isRenderWatcher ev _ ih => exact WF_new s vm options isRenderWatcher ev ih
  | get s w ev _ hw ih => exact WF_get s w ev ih hw
  | run s w ev _ hw ih => exact WF_run s w ev ih hw
  | evaluate s w ev _ hw ih => exact WF_evaluate s w ev ih hw
  | update s w ev _ hw ih => exact WF_update s w ev ih hw
  | depend s w _ _ ih => exact WF_foldr_depend _ s ih
  | cleanupDeps s w _ _ ih => exact WF_cleanupDeps s w ih
  | teardown s w _ _ ih => exact WF_teardown s w ih
  | depDepend s d _ ih => exact WF_depDepend s d ih
  | pushTarget s w _ hw ih => exact WF_pushTarget s w ih hw
  | pushNoTarget s _ ih => exact WF_pushNoTarget s ih
  | popTarget s _ ih => exact WF_popTarget s ih

/-- In a reachable state, the condition of the data model on a watcher between two runs
(it is in the `subs` of exactly the Deps of `deps`, the scratch collections are empty) is
all of `Consistent`: the other two clauses hold in every reachable state. -/
theorem consistent_of_reachable (s : World) (w : Nat) (hr : Reachable s)
    (h1 : ∀ d, w ∈ s.subs d ↔ d ∈ (s.watchers w).deps)
    (h2 : (s.watchers w).newDeps = []) (h3 : (s.watchers w).newDepIds = []) :
    Consistent s w :=
  ⟨h1, h2, h3, fun d => (reachable_WF s hr).2.2.1 w d, fun d => (reachable_WF s hr).1 w d⟩

/-- The watcher constructed first, reading Deps 1, 2, 1, is consistent after its
constructor. -/
theorem first_constructed_consistent :
    Consistent (Watcher.new World.init 0 none false Evaluation.first).1 1 := by
  have h0 : Consistent
      ({ (World.init.setVm 0
            { _watcher := none, _watchers := [1], _isBeingDestroyed := false }).setWatcher 1
          { Watcher.blank with active := true } with uid := 1 } : World) 1 := by
    refine ⟨?_, rfl, rfl, ?_, ?_⟩
    · intro d; simp [World.init, World.setVm, World.setWatcher, Watcher.blank]
    · intro d; simp [World.init, World.setVm, World.setWatcher, Watcher.blank]
    · intro d; simp [World.init, World.setVm, World.setWatcher]
  exact (get_of_consistent _ 1 Evaluation.first h0).2.2.2.2.2

/-- C7. In every state reachable by constructing watchers and calling `get()`, `run()`,
`evaluate()`, `update()`, `depend()`, `cleanupDeps()` and `teardown()` of constructed
watchers, with `addDep` entered through `Dep.depend()` only, each watcher appears at most once
in the `subs` list of any Dep. -/
theorem subscriber_at_most_once_per_dep (s : World) (h : Reachable s) (d w : Nat) :
    (s.subs d).count w ≤ 1 :=
  (reachable_WF s h).1 w d

/-- Witness of C7: a watcher constructed reading Deps 1, 2, 1 and then re-evaluated reading
Deps 2, 3, 2 is once in the subscriber list of Dep 2. -/
theorem subscriber_at_most_once_per_dep_witness :
    Reachable (Watcher.get (Watcher.new World.init 0 none false Evaluation.first).1 1
      Evaluation.sample).1 ∧
    ((Watcher.get (Watcher.new World.init 0 none false Evaluation.first).1 1
      Evaluation.sample).1.subs 2).count 1 ≤ 1 :=
  ⟨Reachable.get _ 1 Evaluation.sample
      (Reachable.construct World.init 0 none false Evaluation.first Reachable.init)
      ⟨by decide, by decide⟩,
   subscriber_at_most_once_per_dep _
    (Reachable.get _ 1 Evaluation.sample
      (Reachable.construct World.init 0 none false Evaluation.first Reachable.init)
      ⟨by decide, by decide⟩) 2 1⟩

theorem construct_then_get_subs :
    (Watcher.get (Watcher.new World.init 0 none false Evaluation.first).1 1
      Evaluation.sample).1.subs 2 = [1] ∧
    (Watcher.new World.init 0 none false Evaluation.first).1.subs 1 = [1] ∧
    (Watcher.get (Watcher.new World.init 0 none false Evaluation.first).1 1
      Evaluation.sample).1.subs 1 = [] := by
  decide

/-! ## `Dep.addSub` -/

theorem addDep_of_recorded (t : World) (w d : Nat) (h : d ∈ (t.watchers w).newDepIds) :
    Watcher.addDep t w d = t := by
  unfold Watcher.addDep
  simp [h]

/-- C8, as the claim states it, fails: `addSub` pushes unconditionally, so a second
`addSub(w)` on a Dep that already holds `w` leaves `w` twice in `subs`. -/
theorem addSub_twice_duplicates :
    1 ∈ (Dep.addSub World.init 0 1).subs 0 ∧
    (Dep.addSub (Dep.addSub World.init 0 1) 0 1).subs 0 = [1, 1] ∧
    (Dep.addSub (Dep.addSub World.init 0 1) 0 1).subs 0 ≠ (Dep.addSub World.init 0 1).subs 0 := by
  decide

/-- C8 as amended. `Dep.addSub(w)` appends `w` to the end of `subs` whether or not `w` is
already there, and touches no other Dep. The idempotent operation is its only caller
`Watcher.addDep`: a second `addDep(dep)` changes nothing at all, and a first one subscribes
only when the Dep is in neither `newDepIds` nor `depIds`. -/
theorem addSub_appends_addDep_idempotent (s : World) (d w : Nat) :
    (Dep.addSub s d w).subs d = s.subs d ++ [w] ∧
    (∀ x, x ≠ d → (Dep.addSub s d w).subs x = s.subs x) ∧
    Watcher.addDep (Watcher.addDep s w d) w d = Watcher.addDep s w d ∧
    ((Watcher.addDep s w d).subs d =
      if d ∉ (s.watchers w).newDepIds ∧ d ∉ (s.watchers w).depIds
      then s.subs d ++ [w] else s.subs d) := by
  refine ⟨by simp [Dep.addSub], ?_, ?_, ?_⟩
  · intro x hx; simp [Dep.addSub, hx]
  · have hmem : d ∈ ((Watcher.addDep s w d).watchers w).newDepIds := by
      rw [watchers_addDep]
      by_cases h1 : d ∈ (s.watchers w).newDepIds
      · simp [h1]
      · simp [h1, mem_setAdd]
    exact addDep_of_recorded _ w d hmem
  · rw [subs_addDep]; simp

/-! ## `Dep.notify` -/

/-- The loop of `Dep.notify` from index `i`: the calls made are the first entries of the
rest of the copied array, the state is the one these calls leave; all of the rest is called
when every call returns; the loop ends with the first call that throws. -/
theorem notifyLoop_spec (update : Nat → World → World × Except Val Unit) (subs : List Nat)
    (n : Nat) :
    ∀ (i : Nat) (s : World) (calls : List Nat), i + n = subs.length →
      (∃ m, (Dep.notifyLoop update subs n i (s, calls)).2.1 = calls ++ (subs.drop i).take m ∧
        (Dep.notifyLoop update subs n i (s, calls)).1
          = ((subs.drop i).take m).foldl (fun acc w => (update w acc).1) s) ∧
      ((∀ k w, (subs.drop i)[k]? = some w →
          (update w (((subs.drop i).take k).foldl (fun acc w => (update w acc).1) s)).2
            = Except.ok ()) →
        (Dep.notifyLoop update subs n i (s, calls)).2.1 = calls ++ subs.drop i ∧
        (Dep.notifyLoop update subs n i (s, calls)).2.2 = Except.ok ()) ∧
      (∀ k w e, (subs.drop i)[k]? = some w →
        (∀ j x, j < k → (subs.drop i)[j]? = some x →
          (update x (((subs.drop i).take j).foldl (fun acc w => (update w acc).1) s)).2
            = Except.ok ()) →
        (update w (((subs.drop i).take k).foldl (fun acc w => (update w acc).1) s)).2
          = Except.error e →
        (Dep.notifyLoop update subs n i (s, calls)).2.1 = calls ++ (subs.drop i).take (k + 1) ∧
        (Dep.notifyLoop update subs n i (s, calls)).2.2 = Except.error e) := by
  induction n with
  | zero =>
    intro i s calls h
    have hd : subs.drop i = [] := List.drop_eq_nil_of_le (by omega)
    rw [hd]
    refine ⟨⟨0, by simp [Dep.notifyLoop], by simp [Dep.notifyLoop]⟩, ?_, ?_⟩
    · intro _; simp [Dep.notifyLoop]
    · intro k w e hk; simp at hk
  | succ n ih =>
    intro i s calls h
    have hi : i < subs.length := by omega
    have hget : subs[i]? = some subs[i] := List.getElem?_eq_getElem hi
    have hdrop : subs.drop i = subs[i] :: subs.drop (i + 1) := List.drop_eq_getElem_cons hi
    rw [hdrop]
    unfold Dep.notifyLoop
    rw [hget]
    simp only
    cases hu : update subs[i] s with
    | mk s1 res =>
      cases res with
      | error e0 =>
        simp only
        generalize subs[i] = w0 at hu ⊢
        generalize List.drop (i + 1) subs = rest
        refine ⟨⟨1, by simp, by simp [hu]⟩, ?_, ?_⟩
        · intro hall
          have := hall 0 w0 (by simp)
          simp [hu] at this
        · intro k w e hk hbefore hthrow
          cases k with
          | zero =>
            simp at hk
            subst hk
            simp [hu] at hthrow
            subst hthrow
            simp
          | succ k =>
            have := hbefore 0 w0 (by omega) (by simp)
            simp [hu] at this
      | ok u =>
        simp only
        obtain ⟨⟨m, hm1, hm2⟩, hall, hfirst⟩ := ih (i + 1) s1 (calls ++ [subs[i]]) (by omega)
        generalize Dep.notifyLoop update subs n (i + 1) (s1, calls ++ [subs[i]]) = R
          at hm1 hm2 hall hfirst ⊢
        generalize subs[i] = w0 at hu hm1 hm2 hall hfirst ⊢
        generalize List.drop (i + 1) subs = rest at hm1 hm2 hall hfirst ⊢
        have hs1 : (update w0 s).1 = s1 := by rw [hu]
        refine ⟨⟨m + 1, by rw [hm1]; simp, by rw [hm2]; simp [hs1]⟩, ?_, ?_⟩
        · intro hok
          have := hall (fun k w hk => by
            have h2 := hok (k + 1) w (by simpa using hk)
            simpa [hs1] using h2)
          rw [this.1, this.2]
          simp
        · intro k w e hk hbefore hthrow
          cases k with
          | zero =>
            simp at hk
            subst hk
            simp [hu] at hthrow
          | succ k =>
            have := hfirst k w e (by simpa using hk)
              (fun j x hj hx => by
                have h2 := hbefore (j + 1) x (by omega) (by simpa using hx)
                simpa [hs1] using h2)
              (by simpa [hs1] using hthrow)
            rw [this.1, this.2]
            simp

/-- C9 as amended. `Dep.notify()` calls `update()` on watchers that were in `subs` when it
began, in `subs` order from the first on, and leaves the state these calls leave, whatever
they do to the state (to this Dep's `subs` in particular). When every one of these calls
returns, all of them are called, once per entry, and `notify()` returns: a watcher that was
not in `subs` at the start is not called, also when an `update()` adds it; a watcher that
was in `subs` is called, also when an earlier `update()` removed it; with the duplicate-free
`subs` of the data model, each exactly once. When a call throws, it is the last call made
and `notify()` throws its error: the entries behind it are not called. -/
theorem notify_calls_snapshot (update : Nat → World → World × Except Val Unit) (s : World)
    (d : Nat) :
    (Dep.notify update s d).2.1 <+: s.subs d ∧
    (Dep.notify update s d).1
      = (Dep.notify update s d).2.1.foldl (fun acc w => (update w acc).1) s ∧
    ((∀ k w, (s.subs d)[k]? = some w →
        (update w (((s.subs d).take k).foldl (fun acc w => (update w acc).1) s)).2
          = Except.ok ()) →
      (Dep.notify update s d).2.1 = s.subs d ∧
      (Dep.notify update s d).2.2 = Except.ok () ∧
      (Dep.notify update s d).1 = (s.subs d).foldl (fun acc w => (update w acc).1) s ∧
      (∀ w, w ∉ s.subs d → w ∉ (Dep.notify update s d).2.1) ∧
      (∀ w, w ∈ s.subs d → w ∈ (Dep.notify update s d).2.1) ∧
      (∀ w, (Dep.notify update s d).2.1.count w = (s.subs d).count w) ∧
      ((s.subs d).Nodup → ∀ w, w ∈ s.subs d → (Dep.notify update s d).2.1.count w = 1)) ∧
    (∀ k w e, (s.subs d)[k]? = some w →
      (∀ j x, j < k → (s.subs d)[j]? = some x →
        (update x (((s.subs d).take j).foldl (fun acc w => (update w acc).1) s)).2
          = Except.ok ()) →
      (update w (((s.subs d).take k).foldl (fun acc w => (update w acc).1) s)).2
        = Except.error e →
      (Dep.notify update s d).2.1 = (s.subs d).take (k + 1) ∧
      (Dep.notify update s d).2.2 = Except.error e) := by
  obtain ⟨⟨m, hm1, hm2⟩, hall, hfirst⟩ :=
    notifyLoop_spec update (s.subs d) (s.subs d).length 0 s [] (by omega)
  simp only [List.drop_zero, List.nil_append] at hm1 hm2 hall hfirst
  have hcalls : (Dep.notify update s d).2.1 = (s.subs d).take m := hm1
  have hstate : (Dep.notify update s d).1
      = ((s.subs d).take m).foldl (fun acc w => (update w acc).1) s := hm2
  refine ⟨by rw [hcalls]; exact List.take_prefix _ _, by rw [hstate, hcalls], ?_, ?_⟩
  · intro hok
    have h := hall hok
    have h1 : (Dep.notify update s d).2.1 = s.subs d := h.1
    have h2 : (Dep.notify update s d).2.2 = Except.ok () := h.2
    refine ⟨h1, h2, ?_, ?_, ?_, ?_, ?_⟩
    · rw [hstate, ← hcalls, h1]
    · intro w hw; rw [h1]; exact hw
    · intro w hw; rw [h1]; exact hw
    · intro w; rw [h1]
    · intro hnd w hw; rw [h1]; exact List.count_eq_one_of_mem hnd hw
  · intro k w e hk hbefore hthrow
    exact hfirst k w e hk hbefore hthrow

/-- C9, as the claim states it, fails: with the subscribers 1, 2, 3 of Dep 1, of which
watcher 2 is `sync` and has a getter that throws, `notify()` calls `update()` on watchers 1
and 2 and throws the error of watcher 2; `update()` of watcher 3, which was in `subs` when
`notify()` began, is not called (only watcher 1 has been handed to `queueWatcher`). -/
theorem notify_stops_at_throwing_update :
    World.syncSecond.subs 1 = [1, 2, 3] ∧
    (Dep.notify updateThrowing World.syncSecond 1).2.1 = [1, 2] ∧
    (Dep.notify updateThrowing World.syncSecond 1).2.2 = Except.error (Val.str "boom") ∧
    (Dep.notify updateThrowing World.syncSecond 1).1.queued = [1] := by
  refine ⟨by decide, by decide, ?_, by decide⟩
  rfl

/-- With subscribers 1, 2, 3 and an `update()` of watcher 1 that removes watcher 2 from the
Dep and adds watcher 9 to it, `notify()` still calls 1, 2, 3, while `subs` ends as 1, 3, 9. -/
theorem notify_under_mutation :
    (Dep.notify updateMutating World.threeSubs 0).2.1 = [1, 2, 3] ∧
    (Dep.notify updateMutating World.threeSubs 0).1.subs 0 = [1, 3, 9] := by
  decide

/-! ## The scheduler: `queueWatcher` before a flush -/

theorem queueWatcher_of_present (s : Sched) (w : Nat) (h : s.has w = HasMark.yes) :
    queueWatcher s w = s := by
  unfold queueWatcher
  simp [h]

theorem foldl_queueWatcher_of_present (reqs : List Nat) (s : Sched)
    (h : ∀ r ∈ reqs, s.has r = HasMark.yes) : reqs.foldl queueWatcher s = s := by
  induction reqs with
  | nil => rfl
  | cons a l ih =>
    simp only [List.foldl_cons]
    rw [queueWatcher_of_present s a (h a (List.mem_cons_self _ _))]
    exact ih (fun r hr => h r (List.mem_cons_of_mem _ hr))

/-- Outside a flush `queueWatcher` appends a watcher that is not marked present. -/
theorem queueWatcher_idle (s : Sched) (w : Nat) (hf : s.flushing = false) :
    (queueWatcher s w).flushing = false ∧
    (queueWatcher s w).queue = (if s.has w = HasMark.yes then s.queue else s.queue ++ [w]) ∧
    (∀ x, (queueWatcher s w).has x = (if x = w then HasMark.yes else s.has x)) := by
  unfold queueWatcher
  by_cases h : s.has w = HasMark.yes
  · simp only [h, ne_eq, not_true_eq_false, if_false, if_true]
    refine ⟨hf, trivial, ?_⟩
    intro x; split
    · rename_i hx; rw [hx, h]
    · rfl
  · by_cases hw : s.waiting <;> simp [h, hf, hw, Sched.setHas]

/-- The queue built by `queueWatcher` calls outside a flush: duplicate-free, marked present
exactly for its members. -/
theorem foldl_queueWatcher_idle (calls : List Nat) : ∀ (s : Sched), s.flushing = false →
    s.queue.Nodup → (∀ r, s.has r = HasMark.yes ↔ r ∈ s.queue) →
    (calls.foldl queueWatcher s).flushing = false ∧
    (calls.foldl queueWatcher s).queue.Nodup ∧
    (∀ r, (calls.foldl queueWatcher s).has r = HasMark.yes ↔ r ∈ (calls.foldl queueWatcher s).queue) ∧
    (∀ r, r ∈ (calls.foldl queueWatcher s).queue ↔ r ∈ s.queue ∨ r ∈ calls) ∧
    (calls.foldl queueWatcher s).queue.length ≤ s.queue.length + calls.length := by
  induction calls with
  | nil => intro s hf hn hh; exact ⟨hf, hn, hh, by simp, by simp⟩
  | cons a l ih =>
    intro s hf hn hh
    obtain ⟨f1, q1, h1⟩ := queueWatcher_idle s a hf
    have hn1 : (queueWatcher s a).queue.Nodup := by
      rw [q1]; split
      · exact hn
      · rename_i hna
        have : a ∉ s.queue := fun hm => hna ((hh a).2 hm)
        exact List.Nodup.append hn (List.nodup_singleton a) (by simpa using this)
    have hh1 : ∀ r, (queueWatcher s a).has r = HasMark.yes ↔ r ∈ (queueWatcher s a).queue := by
      intro r
      rw [h1, q1]
      by_cases hr : r = a
      · subst hr
        by_cases hp : s.has r = HasMark.yes
        · simp [hp, (hh r).1 hp]
        · simp [hp]
      · by_cases hp : s.has a = HasMark.yes
        · simp [hr, hp, hh r]
        · simp [hr, hp, hh r]
    obtain ⟨f2, n2, h2, m2, l2⟩ := ih (queueWatcher s a) f1 hn1 hh1
    simp only [List.foldl_cons]
    refine ⟨f2, n2, h2, ?_, ?_⟩
    · intro r
      rw [m2, q1]
      by_cases hp : s.has a = HasMark.yes
      · simp only [hp, if_true, List.mem_cons]
        constructor
        · rintro (h | h)
          · exact Or.inl h
          · exact Or.inr (Or.inr h)
        · rintro (h | h | h)
          · exact Or.inl h
          · subst h; exact Or.inl ((hh r).1 hp)
          · exact Or.inr h
      · simp only [hp, if_false, List.mem_append, List.mem_singleton, List.mem_cons]
        tauto
    · have : (queueWatcher s a).queue.length ≤ s.queue.length + 1 := by
        rw [q1]; split <;> simp
      simp only [List.length_cons]
      omega

/-! ## The flush loop: calls that throw -/

theorem flushBody_thrown {ε : Type} (J : Jobs ε) (st : FlushState ε) (c : Nat) :
    (flushBody J st c).thrown
      = (J.beforeThrows c st.env || J.runThrows c (J.before c st.env).1) := by
  unfold flushBody
  by_cases h : J.beforeThrows c st.env <;> simp [h]

/-- One body of the flush loop when `watcher.before()` returns. -/
theorem flushBody_of_returns {ε : Type} (J : Jobs ε) (st : FlushState ε) (c : Nat)
    (hb : J.beforeThrows c st.env = false) :
    flushBody J st c =
      { sched := (J.run c (J.before c st.env).1).2.foldl queueWatcher
          (((J.before c st.env).2.foldl queueWatcher st.sched).setHas c HasMark.null),
        env := (J.run c (J.before c st.env).1).1,
        ran := st.ran ++ [c],
        thrown := J.runThrows c (J.before c st.env).1 } := by
  unfold flushBody
  simp [hb]

theorem flushBody_not_thrown {ε : Type} (J : Jobs ε) (st : FlushState ε) (c : Nat)
    (h : (flushBody J st c).thrown = false) :
    J.beforeThrows c st.env = false ∧ J.runThrows c (J.before c st.env).1 = false := by
  rw [flushBody_thrown] at h
  simpa using h

/-- Once a call has thrown, nothing more happens. -/
theorem flushIter_of_thrown {ε : Type} (J : Jobs ε) (n : Nat) (st : FlushState ε)
    (h : st.thrown = true) : flushIter J n st = st := by
  cases n with
  | zero => rfl
  | succ n => unfold flushIter; simp [h]

/-- An iteration of the flush loop in which both calls return. -/
theorem flushIter_succ {ε : Type} (J : Jobs ε) (n : Nat) (st : FlushState ε) (c : Nat)
    (hnt : st.thrown = false) (hget : st.sched.queue[st.sched.index]? = some c)
    (hb : (flushBody J st c).thrown = false) :
    flushIter J (n + 1) st = flushIter J n
      { flushBody J st c with
        sched := { (flushBody J st c).sched with index := (flushBody J st c).sched.index + 1 } } := by
  conv_lhs => unfold flushIter
  simp [hnt, hget, hb]

/-- An iteration of the flush loop in which a call throws. -/
theorem flushIter_succ_thrown {ε : Type} (J : Jobs ε) (n : Nat) (st : FlushState ε) (c : Nat)
    (hnt : st.thrown = false) (hget : st.sched.queue[st.sched.index]? = some c)
    (hb : (flushBody J st c).thrown = true) :
    flushIter J (n + 1) st = flushBody J st c := by
  conv_lhs => unfold flushIter
  simp [hnt, hget, hb]

theorem flushIter_done {ε : Type} (J : Jobs ε) (n : Nat) (st : FlushState ε)
    (h : st.sched.queue[st.sched.index]? = none) : flushIter J n st = st := by
  cases n with
  | zero => rfl
  | succ n => unfold flushIter; rw [h]; simp

/-- No call has thrown after `n + 1` iterations: none had before, and none does in the
first of them. -/
theorem flushIter_not_thrown {ε : Type} (J : Jobs ε) (n : Nat) (st : FlushState ε)
    (h : (flushIter J (n + 1) st).thrown = false) :
    st.thrown = false ∧
    ∀ c, st.sched.queue[st.sched.index]? = some c →
      (flushBody J st c).thrown = false ∧
      (flushIter J n
        { flushBody J st c with
          sched := { (flushBody J st c).sched with
                     index := (flushBody J st c).sched.index + 1 } }).thrown = false := by
  have h0 : st.thrown = false := by
    by_contra hc
    have ht : st.thrown = true := by simpa using hc
    rw [flushIter_of_thrown J _ st ht] at h
    rw [h] at ht
    cases ht
  refine ⟨h0, ?_⟩
  intro c hget
  have hb : (flushBody J st c).thrown = false := by
    by_contra hc
    have ht : (flushBody J st c).thrown = true := by simpa using hc
    rw [flushIter_succ_thrown J n st c h0 hget ht] at h
    rw [h] at ht
    cases ht
  refine ⟨hb, ?_⟩
  rw [flushIter_succ J n st c h0 hget hb] at h
  exact h

/-- The flush loop has a result when no call has thrown and the loop has exited. -/
theorem flushLoop_some {ε : Type} (J : Jobs ε) (fuel : Nat) (st st1 : FlushState ε)
    (h : flushLoop J fuel st = some st1) :
    st1 = flushIter J fuel st ∧ (flushIter J fuel st).thrown = false ∧
    (flushIter J fuel st).sched.queue.length ≤ (flushIter J fuel st).sched.index := by
  unfold flushLoop at h
  simp only at h
  split at h
  · cases h
  · rename_i ht
    split at h
    · cases h
    · rename_i hexit
      simp only [Option.some.injEq] at h
      exact ⟨h.symm, by simpa using ht, by omega⟩

/-- Jobs whose calls never throw: no iteration of the flush loop throws. -/
theorem flushIter_never_thrown {ε : Type} (J : Jobs ε)
    (hb : ∀ w e, J.beforeThrows w e = false) (hr : ∀ w e, J.runThrows w e = false) (n : Nat) :
    ∀ st : FlushState ε, st.thrown = false → (flushIter J n st).thrown = false := by
  induction n with
  | zero => intro st h; exact h
  | succ n ih =>
    intro st h
    cases hget : st.sched.queue[st.sched.index]? with
    | none => rw [flushIter_done J _ st hget]; exact h
    | some c =>
      have hbody : (flushBody J st c).thrown = false := by
        rw [flushBody_thrown, hb, hr]; rfl
      rw [flushIter_succ J n st c h hget hbody]
      exact ih _ hbody

/-! ## The flush loop when every re-trigger is for a waiting watcher -/

theorem getElem_not_mem_drop_succ (Q : List Nat) (i : Nat) (hi : i < Q.length) (hn : Q.Nodup) :
    Q[i] ∉ Q.drop (i + 1) := by
  have h1 : (Q.drop i).Nodup := List.Nodup.sublist (List.drop_sublist i Q) hn
  rw [List.drop_eq_getElem_cons hi] at h1
  exact (List.nodup_cons.1 h1).1

theorem flushIter_only_waiting {ε : Type} (J : Jobs ε) (Q : List Nat) (hn : Q.Nodup) (n : Nat) :
    ∀ (st : FlushState ε), st.sched.queue = Q →
      (∀ r ∈ Q.drop st.sched.index, st.sched.has r = HasMark.yes) →
      st.sched.index ≤ Q.length → st.ran = Q.take st.sched.index →
      onlyRetriggersWaiting J n st = true → Q.length ≤ st.sched.index + n →
      (flushIter J n st).thrown = false →
      (flushIter J n st).sched.queue = Q ∧ (flushIter J n st).sched.index = Q.length ∧
      (flushIter J n st).ran = Q := by
  induction n with
  | zero =>
    intro st hq _ hle hr _ hfuel _
    have hi : st.sched.index = Q.length := by omega
    refine ⟨hq, hi, ?_⟩
    simp only [flushIter]
    rw [hr, hi, List.take_length]
  | succ n ih =>
    intro st hq hh hle hr hw hfuel hnt
    obtain ⟨hnt0, hstep⟩ := flushIter_not_thrown J n st hnt
    by_cases hi : st.sched.index < Q.length
    · have hget : st.sched.queue[st.sched.index]? = some Q[st.sched.index] := by
        rw [List.getElem?_eq_some_iff]; exact ⟨by rw [hq]; exact hi, by simp [hq]⟩
      simp only [onlyRetriggersWaiting, hget, Bool.and_eq_true, List.all_eq_true,
        decide_eq_true_eq] at hw
      obtain ⟨⟨hb, hrun⟩, hrest⟩ := hw
      rw [hq] at hb hrun
      -- the calls from `before()` change nothing
      have e1 : (J.before Q[st.sched.index] st.env).2.foldl queueWatcher st.sched = st.sched :=
        foldl_queueWatcher_of_present _ _ (fun r hr => hh r (hb r hr))
      -- nor do the calls from `run()`
      have e2 : (J.run Q[st.sched.index] (J.before Q[st.sched.index] st.env).1).2.foldl queueWatcher
          (st.sched.setHas Q[st.sched.index] HasMark.null)
            = st.sched.setHas Q[st.sched.index] HasMark.null := by
        apply foldl_queueWatcher_of_present
        intro r hr
        have hmem := hrun r hr
        have hne : r ≠ Q[st.sched.index] := by
          intro e; rw [e] at hmem
          exact getElem_not_mem_drop_succ Q _ hi hn hmem
        simp only [Sched.setHas, hne, if_false]
        exact hh r (List.mem_of_mem_drop (by
          have : Q.drop (st.sched.index + 1) = (Q.drop st.sched.index).drop 1 := by
            rw [List.drop_drop]
          rw [this] at hmem
          exact hmem))
      obtain ⟨hbt, hnt1⟩ := hstep _ hget
      obtain ⟨t1, t2⟩ := flushBody_not_thrown J st _ hbt
      have hbody : flushBody J st Q[st.sched.index] =
          { sched := st.sched.setHas Q[st.sched.index] HasMark.null,
            env := (J.run Q[st.sched.index] (J.before Q[st.sched.index] st.env).1).1,
            ran := st.ran ++ [Q[st.sched.index]] } := by
        rw [flushBody_of_returns J st _ t1, e1, e2, t2]
      rw [flushIter_succ J n st _ hnt0 hget hbt]
      rw [hbody] at hrest hnt1 ⊢
      refine ih _ ?_ ?_ ?_ ?_ hrest ?_ hnt1
      · simp only [Sched.setHas]; exact hq
      · intro r hr
        simp only [Sched.setHas] at hr ⊢
        have hne : r ≠ Q[st.sched.index] := by
          intro e; rw [e] at hr
          exact getElem_not_mem_drop_succ Q _ hi hn hr
        simp only [hne, if_false]
        apply hh r
        have : Q.drop (st.sched.index + 1) = (Q.drop st.sched.index).drop 1 := by
          rw [List.drop_drop]
        rw [this] at hr
        exact List.mem_of_mem_drop hr
      · simp only [Sched.setHas]; omega
      · simp only [Sched.setHas]
        rw [hr, List.take_succ, List.getElem?_eq_getElem hi]
        rfl
      · simp only [Sched.setHas]; omega
    · have hi2 : st.sched.index = Q.length := by omega
      have hget : st.sched.queue[st.sched.index]? = none := by
        rw [List.getElem?_eq_none_iff]; rw [hq]; omega
      rw [flushIter_done J _ st hget]
      refine ⟨hq, hi2, ?_⟩
      rw [hr, hi2, List.take_length]

/-- A flush in which every re-trigger is for a waiting watcher runs the sorted queue. -/
theorem flush_of_only_waiting {ε : Type} (J : Jobs ε) (s : Sched) (e : ε) (fuel : Nat)
    (hn : s.queue.Nodup) (hh : ∀ r ∈ s.queue, s.has r = HasMark.yes)
    (hfuel : s.queue.length ≤ fuel)
    (hw : onlyRetriggersWaiting J fuel { sched := flushStart s, env := e, ran := [] } = true)
    (hnt : (flushIter J fuel { sched := flushStart s, env := e, ran := [] }).thrown = false) :
    ∃ r, flushSchedulerQueue J fuel s e = some r ∧ r.ran = s.queue.insertionSort (· ≤ ·) := by
  have hperm := List.perm_insertionSort (· ≤ ·) s.queue
  have hnQ : (s.queue.insertionSort (· ≤ ·)).Nodup := hperm.nodup_iff.2 hn
  obtain ⟨h1, h2, h3⟩ := flushIter_only_waiting J (s.queue.insertionSort (· ≤ ·)) hnQ fuel
    { sched := flushStart s, env := e, ran := [] } rfl
    (by
      intro r hr
      simp only [flushStart, List.drop_zero] at hr ⊢
      exact hh r (hperm.mem_iff.1 hr))
    (Nat.zero_le _) (by simp [flushStart]) hw
    (by simp only [flushStart]; rw [hperm.length_eq]; omega) hnt
  have hloop : flushLoop J fuel { sched := flushStart s, env := e, ran := [] } =
      some (flushIter J fuel { sched := flushStart s, env := e, ran := [] }) := by
    unfold flushLoop
    simp [hnt, h1, h2]
  unfold flushSchedulerQueue
  rw [hloop]
  exact ⟨_, rfl, h3⟩

theorem reset_idle (s : Sched) :
    (resetSchedulerState s).flushing = false ∧ (resetSchedulerState s).queue.Nodup ∧
    (∀ r, (resetSchedulerState s).has r = HasMark.yes ↔ r ∈ (resetSchedulerState s).queue) := by
  refine ⟨rfl, List.nodup_nil, ?_⟩
  intro r; simp [resetSchedulerState]

/-- C3, as the claim states it, fails. First, the flush loop also calls `watcher.before()`,
and a `queueWatcher` call made there counts like any other: watchers 1 and 2 are enqueued,
no `run()` re-triggers anything, the `before()` hook of watcher 2 calls `queueWatcher` on
watcher 1, which has run already: watcher 1 is run a second time in the same flush.
Second, a `run()` that throws ends the flush: watchers 1 and 2 are enqueued, no call
enqueues anything, the `run()` of watcher 1 throws: `flushSchedulerQueue` does not return,
watcher 2 is never run, and the scheduler state is left as it was in the loop (`flushing`
and `waiting` set, watcher 2 marked present). -/
theorem before_hook_reruns_watcher :
    (∀ (w : Nat) (e : Unit),
      ((Jobs.ofBefore (fun w => if w = 2 then [1] else [])).run w e).2 = []) ∧
    (flushSchedulerQueue (Jobs.ofBefore (fun w => if w = 2 then [1] else [])) 5
      (([1, 2] : List Nat).foldl queueWatcher (resetSchedulerState Sched.init)) ()).map
        (fun r => r.ran) = some [1, 2, 1] ∧
    ([1, 2, 1] : List Nat).count 1 = 2 ∧
    (∀ (w : Nat) (e : Unit), ((Jobs.throwsAt 1).run w e).2 = [] ∧
      ((Jobs.throwsAt 1).before w e).2 = []) ∧
    (∀ fuel : Nat, (flushSchedulerQueue (Jobs.throwsAt 1) fuel
      (([1, 2] : List Nat).foldl queueWatcher (resetSchedulerState Sched.init)) ()).isNone
        = true) ∧
    (flushIter (Jobs.throwsAt 1) 5
      { sched := flushStart (([1, 2] : List Nat).foldl queueWatcher
          (resetSchedulerState Sched.init)), env := (), ran := [] }).thrown = true ∧
    (flushIter (Jobs.throwsAt 1) 5
      { sched := flushStart (([1, 2] : List Nat).foldl queueWatcher
          (resetSchedulerState Sched.init)), env := (), ran := [] }).ran = [1] ∧
    (flushIter (Jobs.throwsAt 1) 5
      { sched := flushStart (([1, 2] : List Nat).foldl queueWatcher
          (resetSchedulerState Sched.init)), env := (), ran := [] }).sched.flushing = true ∧
    (flushIter (Jobs.throwsAt 1) 5
      { sched := flushStart (([1, 2] : List Nat).foldl queueWatcher
          (resetSchedulerState Sched.init)), env := (), ran := [] }).sched.waiting = true ∧
    (flushIter (Jobs.throwsAt 1) 5
      { sched := flushStart (([1, 2] : List Nat).foldl queueWatcher
          (resetSchedulerState Sched.init)), env := (), ran := [] }).sched.has 2
        = HasMark.yes :=
  ⟨fun _ _ => rfl, by decide, by decide, fun _ _ => ⟨rfl, rfl⟩,
   fun fuel => by cases fuel <;> rfl,
   by decide, by decide, by decide, by decide, by decide⟩

/-- C3 as amended. From the reset scheduler state, after any sequence `calls` of
`queueWatcher` calls, a flush in which every `queueWatcher` call, from a `run()` or from a
watcher's `before()` hook, is for a watcher still waiting in the queue, and in which no
`run()` and no `before()` throws, completes, and calls `run()` exactly once for each
distinct watcher of `calls` and for no other. -/
theorem flush_runs_each_queued_watcher_once {ε : Type} (J : Jobs ε) (e : ε) (s : Sched)
    (calls : List Nat) (fuel : Nat) (hfuel : calls.length ≤ fuel)
    (hw : onlyRetriggersWaiting J fuel
      { sched := flushStart (calls.foldl queueWatcher (resetSchedulerState s)),
        env := e, ran := [] } = true)
    (hnt : (flushIter J fuel
      { sched := flushStart (calls.foldl queueWatcher (resetSchedulerState s)),
        env := e, ran := [] }).thrown = false) :
    ∃ r, flushSchedulerQueue J fuel (calls.foldl queueWatcher (resetSchedulerState s)) e = some r ∧
      ∀ w, r.ran.count w = if w ∈ calls then 1 else 0 := by
  obtain ⟨i1, i2, i3⟩ := reset_idle s
  obtain ⟨_, n2, h2, m2, l2⟩ := foldl_queueWatcher_idle calls (resetSchedulerState s) i1 i2 i3
  have hlen : (calls.foldl queueWatcher (resetSchedulerState s)).queue.length ≤ fuel := by
    have : (resetSchedulerState s).queue.length = 0 := rfl
    omega
  obtain ⟨r, hr, hran⟩ :=
    flush_of_only_waiting J _ e fuel n2 (fun r hr => (h2 r).2 hr) hlen hw hnt
  refine ⟨r, hr, ?_⟩
  intro w
  have hperm := List.perm_insertionSort (· ≤ ·)
    (calls.foldl queueWatcher (resetSchedulerState s)).queue
  have hmem : w ∈ r.ran ↔ w ∈ calls := by
    rw [hran, hperm.mem_iff, m2]
    simp [resetSchedulerState]
  have hnd : r.ran.Nodup := by rw [hran]; exact hperm.nodup_iff.2 n2
  by_cases hc : w ∈ calls
  · simp only [hc, if_true]
    exact List.count_eq_one_of_mem hnd (hmem.2 hc)
  · simp only [hc, if_false]
    exact List.count_eq_zero.2 (fun h => hc (hmem.1 h))

/-- Witness of C3 as amended: C, B, B, C are enqueued (watchers 3, 2, 2, 3) and B's run
re-triggers C; the flush runs B once, then C once. -/
theorem flush_runs_each_queued_watcher_once_witness :
    ([3, 2, 2, 3] : List Nat).length ≤ 4 ∧
    onlyRetriggersWaiting Jobs.retriggerNext 4
      { sched := flushStart (([3, 2, 2, 3] : List Nat).foldl queueWatcher
          (resetSchedulerState Sched.init)), env := (), ran := [] } = true ∧
    (flushIter Jobs.retriggerNext 4
      { sched := flushStart (([3, 2, 2, 3] : List Nat).foldl queueWatcher
          (resetSchedulerState Sched.init)), env := (), ran := [] }).thrown = false ∧
    ∃ r, flushSchedulerQueue Jobs.retriggerNext 4
        (([3, 2, 2, 3] : List Nat).foldl queueWatcher (resetSchedulerState Sched.init)) () = some r ∧
      ∀ w, r.ran.count w = if w ∈ ([3, 2, 2, 3] : List Nat) then 1 else 0 :=
  ⟨by decide, by decide, by decide,
   flush_runs_each_queued_watcher_once Jobs.retriggerNext () Sched.init [3, 2, 2, 3] 4
    (by decide) (by decide) (by decide)⟩

theorem flush_retrigger_scenario :
    (flushSchedulerQueue Jobs.retriggerNext 4
      (([3, 2, 2, 3] : List Nat).foldl queueWatcher Sched.init) ()).map (fun r => r.ran)
      = some [2, 3] := by
  decide

theorem onlyRetriggersWaiting_of_quiet {ε : Type} (J : Jobs ε)
    (hb : ∀ w e, (J.before w e).2 = []) (hr : ∀ w e, (J.run w e).2 = []) (n : Nat) :
    ∀ st : FlushState ε, onlyRetriggersWaiting J n st = true := by
  induction n with
  | zero => intro st; rfl
  | succ n ih =>
    intro st
    unfold onlyRetriggersWaiting
    split
    · rfl
    · simp only [hb, hr, List.all_nil, Bool.true_and]
      exact ih _

/-- C4, as the claim states it, fails. First, with watchers 1, 2, 3 enqueued and no `run()`
enqueueing anything, the `before()` hook of watcher 3 calls `queueWatcher` on watcher 2,
which is then run again after watcher 3: the run order 1, 2, 3, 2 is not ascending.
Second, with watchers 1, 2, 3 enqueued and nothing enqueued by any call, the `run()` of
watcher 2 throws: `flushSchedulerQueue` does not return, and `run()` has been invoked on
watchers 1 and 2 only, never on watcher 3. -/
theorem before_hook_breaks_ascending_order :
    (∀ (w : Nat) (e : Unit),
      ((Jobs.ofBefore (fun w => if w = 3 then [2] else [])).run w e).2 = []) ∧
    (flushSchedulerQueue (Jobs.ofBefore (fun w => if w = 3 then [2] else [])) 6
      (([3, 1, 2] : List Nat).foldl queueWatcher (resetSchedulerState Sched.init)) ()).map
        (fun r => r.ran) = some [1, 2, 3, 2] ∧
    ¬ ([1, 2, 3, 2] : List Nat).Sorted (· < ·) ∧
    (∀ (w : Nat) (e : Unit), ((Jobs.throwsAt 2).run w e).2 = [] ∧
      ((Jobs.throwsAt 2).before w e).2 = []) ∧
    (∀ fuel : Nat, 2 ≤ fuel →
      (flushSchedulerQueue (Jobs.throwsAt 2) fuel
        (([3, 1, 2] : List Nat).foldl queueWatcher (resetSchedulerState Sched.init)) ()).isNone
          = true ∧
      (flushIter (Jobs.throwsAt 2) fuel
        { sched := flushStart (([3, 1, 2] : List Nat).foldl queueWatcher
            (resetSchedulerState Sched.init)), env := (), ran := [] }).thrown = true ∧
      (flushIter (Jobs.throwsAt 2) fuel
        { sched := flushStart (([3, 1, 2] : List Nat).foldl queueWatcher
            (resetSchedulerState Sched.init)), env := (), ran := [] }).ran = [1, 2]) :=
  ⟨fun _ _ => rfl, by decide, by decide, fun _ _ => ⟨rfl, rfl⟩,
   fun fuel h => by
    obtain ⟨k, rfl⟩ : ∃ k, fuel = k + 2 := ⟨fuel - 2, by omega⟩
    exact ⟨rfl, rfl, rfl⟩⟩

/-- C4 as amended. From the reset scheduler state, after the watchers of `calls` are
enqueued in any order, a flush during which nothing is enqueued, neither by a `run()` nor
by a `before()` hook, and in which no `run()` and no `before()` throws, completes and calls
`run()` on exactly those watchers in strictly ascending id order, which is their creation
order (`this.id = ++uid`). -/
theorem flush_runs_in_ascending_id_order {ε : Type} (J : Jobs ε) (e : ε) (s : Sched)
    (calls : List Nat) (fuel : Nat) (hfuel : calls.length ≤ fuel)
    (hb : ∀ w e, (J.before w e).2 = []) (hr : ∀ w e, (J.run w e).2 = [])
    (hnt : (flushIter J fuel
      { sched := flushStart (calls.foldl queueWatcher (resetSchedulerState s)),
        env := e, ran := [] }).thrown = false) :
    ∃ r, flushSchedulerQueue J fuel (calls.foldl queueWatcher (resetSchedulerState s)) e = some r ∧
      r.ran.Sorted (· < ·) ∧ ∀ w, w ∈ r.ran ↔ w ∈ calls := by
  obtain ⟨i1, i2, i3⟩ := reset_idle s
  obtain ⟨_, n2, h2, m2, l2⟩ := foldl_queueWatcher_idle calls (resetSchedulerState s) i1 i2 i3
  have hlen : (calls.foldl queueWatcher (resetSchedulerState s)).queue.length ≤ fuel := by
    have : (resetSchedulerState s).queue.length = 0 := rfl
    omega
  obtain ⟨r, hres, hran⟩ := flush_of_only_waiting J _ e fuel n2 (fun r hr => (h2 r).2 hr) hlen
    (onlyRetriggersWaiting_of_quiet J hb hr fuel _) hnt
  have hperm := List.perm_insertionSort (· ≤ ·)
    (calls.foldl queueWatcher (resetSchedulerState s)).queue
  refine ⟨r, hres, ?_, ?_⟩
  · rw [hran]
    exact List.Sorted.lt_of_le (List.sorted_insertionSort (· ≤ ·) _) (hperm.nodup_iff.2 n2)
  · intro w
    rw [hran, hperm.mem_iff, m2]
    simp [resetSchedulerState]

/-- Witness of C4 as amended: watchers C, A, B (ids 3, 1, 2) enqueued in that order run as
A, B, C. -/
theorem flush_runs_in_ascending_id_order_witness :
    ([3, 1, 2] : List Nat).length ≤ 3 ∧
    (∀ (w : Nat) (e : Unit), (Jobs.quiet.before w e).2 = []) ∧
    (∀ (w : Nat) (e : Unit), (Jobs.quiet.run w e).2 = []) ∧
    (flushIter Jobs.quiet 3
      { sched := flushStart (([3, 1, 2] : List Nat).foldl queueWatcher
          (resetSchedulerState Sched.init)), env := (), ran := [] }).thrown = false ∧
    ∃ r, flushSchedulerQueue Jobs.quiet 3
        (([3, 1, 2] : List Nat).foldl queueWatcher (resetSchedulerState Sched.init)) () = some r ∧
      r.ran.Sorted (· < ·) ∧ ∀ w, w ∈ r.ran ↔ w ∈ ([3, 1, 2] : List Nat) :=
  ⟨by decide, fun _ _ => rfl, fun _ _ => rfl, by decide,
   flush_runs_in_ascending_id_order Jobs.quiet () Sched.init [3, 1, 2] 3 (by decide)
    (fun _ _ => rfl) (fun _ _ => rfl) (by decide)⟩

theorem flush_order_scenario :
    (flushSchedulerQueue Jobs.quiet 3
      (([3, 1, 2] : List Nat).foldl queueWatcher Sched.init) ()).map (fun r => r.ran)
      = some [1, 2, 3] := by
  decide

/-! ## `queueWatcher` in general -/

theorem queueWatcher_frame (s : Sched) (w : Nat) :
    (queueWatcher s w).flushing = s.flushing ∧ (queueWatcher s w).index = s.index ∧
    (queueWatcher s w).activatedChildren = s.activatedChildren := by
  unfold queueWatcher
  by_cases h : s.has w = HasMark.yes
  · simp [h]
  · by_cases hf : s.flushing <;> by_cases hw : s.waiting <;> simp [h, hf, hw, Sched.setHas]

theorem queueWatcher_queue (s : Sched) (w : Nat) :
    (queueWatcher s w).queue =
      if s.has w = HasMark.yes then s.queue
      else if s.flushing then spliceIn s.queue (scanBack s.queue s.index w s.queue.length) w
      else s.queue ++ [w] := by
  unfold queueWatcher
  by_cases h : s.has w = HasMark.yes
  · simp [h]
  · by_cases hf : s.flushing <;> by_cases hw : s.waiting <;> simp [h, hf, hw, Sched.setHas]

theorem queueWatcher_has (s : Sched) (w x : Nat) :
    (queueWatcher s w).has x = if x = w then HasMark.yes else s.has x := by
  unfold queueWatcher
  by_cases h : s.has w = HasMark.yes
  · simp only [h, ne_eq, not_true_eq_false, if_false]
    split
    · rename_i hx; rw [hx, h]
    · rfl
  · by_cases hf : s.flushing <;> by_cases hw : s.waiting <;> simp [h, hf, hw, Sched.setHas]

theorem scanBack_le (queue : List Nat) (index id : Nat) (n : Nat) :
    scanBack queue index id n ≤ n := by
  induction n with
  | zero => simp [scanBack]
  | succ i ih =>
    unfold scanBack
    split
    · exact Nat.le_succ_of_le ih
    · exact Nat.le_refl _

theorem lt_scanBack (queue : List Nat) (index id : Nat) (n : Nat) (h : index < n) :
    index < scanBack queue index id n := by
  induction n with
  | zero => omega
  | succ i ih =>
    unfold scanBack
    split
    · rename_i hc; exact ih hc.1
    · exact h

/-- Splicing a watcher in at a position at or after `k` adds it to the entries from `k` on. -/
theorem drop_spliceIn_perm (q : List Nat) (j k w : Nat) (hk : k ≤ j) (hj : j ≤ q.length) :
    List.Perm ((spliceIn q j w).drop k) (w :: q.drop k) := by
  have hlen : (q.take j).length = j := by simp [hj]
  have h1 : (spliceIn q j w).drop k = (q.take j).drop k ++ w :: q.drop j := by
    unfold spliceIn
    rw [List.drop_append_of_le_length (by omega)]
  have h2 : q.drop k = (q.take j).drop k ++ q.drop j := by
    conv_lhs => rw [← List.take_append_drop j q]
    rw [List.drop_append_of_le_length (by omega)]
  rw [h1, h2]
  exact List.perm_middle

/-! ## The scheduler invariant -/

theorem length_spliceIn (q : List Nat) (j w : Nat) :
    (spliceIn q j w).length = q.length + 1 := by
  unfold spliceIn
  have := List.take_append_drop j q
  have h2 : (q.take j).length + (q.drop j).length = q.length := by
    rw [← List.length_append, this]
  simp only [List.length_append, List.length_cons]
  omega

/-- A `queueWatcher` call during a flush, seen from any position `k` up to just after the
cursor: the entries from `k` on stay pairwise distinct and marked present. -/
theorem queueWatcher_in_flush (s : Sched) (w k : Nat) (hf : s.flushing = true)
    (hk : k ≤ s.index + 1) (hlt : s.index < s.queue.length)
    (hnd : (s.queue.drop k).Nodup) (hm : ∀ r ∈ s.queue.drop k, s.has r = HasMark.yes) :
    ((queueWatcher s w).queue.drop k).Nodup ∧
    (∀ r ∈ (queueWatcher s w).queue.drop k, (queueWatcher s w).has r = HasMark.yes) ∧
    s.index < (queueWatcher s w).queue.length := by
  by_cases hp : s.has w = HasMark.yes
  · rw [queueWatcher_of_present s w hp]
    exact ⟨hnd, hm, hlt⟩
  · have hq := queueWatcher_queue s w
    simp only [hp, hf, if_true, if_false] at hq
    have hj1 := lt_scanBack s.queue s.index w s.queue.length hlt
    have hj2 := scanBack_le s.queue s.index w s.queue.length
    have hperm := drop_spliceIn_perm s.queue (scanBack s.queue s.index w s.queue.length) k w
      (by omega) hj2
    have hnot : w ∉ s.queue.drop k := fun hmem => hp (hm w hmem)
    rw [hq]
    refine ⟨?_, ?_, ?_⟩
    · rw [hperm.nodup_iff]
      exact List.nodup_cons.2 ⟨hnot, hnd⟩
    · intro r hr
      rw [queueWatcher_has]
      rw [hperm.mem_iff] at hr
      by_cases hrw : r = w
      · simp [hrw]
      · simp only [hrw, if_false]
        rcases List.mem_cons.1 hr with h | h
        · exact absurd h hrw
        · exact hm r h
    · rw [length_spliceIn]; omega

theorem inv_of_reachable (p : Phase) (s : Sched) (h : SchedReachable p s) : s.Inv p := by
  induction h with
  | init =>
    refine ⟨by simp [Sched.init], by simp, ?_, ?_⟩
    · simp [Sched.pending, Sched.init]
    · intro r hr; simp [Sched.pending, Sched.init] at hr
  | queueIdle s w _ ih =>
    obtain ⟨a1, _, a3, a4⟩ := ih
    have hf : s.flushing = false := by
      cases hfl : s.flushing with
      | false => rfl
      | true => exact absurd rfl (a1.1 hfl)
    obtain ⟨f1, q1, h1⟩ := queueWatcher_idle s w hf
    simp only [Sched.pending] at a3 a4 ⊢
    refine ⟨by simp [f1], by simp, ?_, ?_⟩
    · simp only [Sched.pending]
      rw [q1]; split
      · exact a3
      · rename_i hp
        have : w ∉ s.queue := fun hm => hp (a4 w hm)
        exact List.Nodup.append a3 (List.nodup_singleton w) (by simpa using this)
    · intro r hr
      simp only [Sched.pending] at hr
      rw [h1]
      by_cases hrw : r = w
      · simp [hrw]
      · simp only [hrw, if_false]
        rw [q1] at hr
        split at hr
        · exact a4 r hr
        · rcases List.mem_append.1 hr with h | h
          · exact a4 r h
          · exact absurd (List.mem_singleton.1 h) hrw
  | flushStart s _ ih =>
    obtain ⟨_, _, a3, a4⟩ := ih
    simp only [Sched.pending] at a3 a4
    have hperm := List.perm_insertionSort (· ≤ ·) s.queue
    refine ⟨by simp [flushStart], by simp, ?_, ?_⟩
    · simp only [Sched.pending, flushStart, List.drop_zero]
      exact hperm.nodup_iff.2 a3
    · intro r hr
      simp only [Sched.pending, flushStart, List.drop_zero] at hr
      exact a4 r (hperm.mem_iff.1 hr)
  | queueBefore s w _ hlt ih =>
    obtain ⟨a1, _, a3, a4⟩ := ih
    have hf : s.flushing = true := a1.2 (by simp)
    simp only [Sched.pending] at a3 a4
    obtain ⟨b1, b2, _⟩ := queueWatcher_in_flush s w s.index hf (by omega) hlt a3 a4
    obtain ⟨f1, f2, _⟩ := queueWatcher_frame s w
    refine ⟨by simp [f1, hf], by simp, ?_, ?_⟩
    · simp only [Sched.pending]; rw [f2]; exact b1
    · intro r hr; simp only [Sched.pending] at hr; rw [f2] at hr; exact b2 r hr
  | runStart s w _ hget ih =>
    obtain ⟨a1, _, a3, a4⟩ := ih
    have hf : s.flushing = true := a1.2 (by simp)
    simp only [Sched.pending] at a3 a4
    obtain ⟨hlt, hw⟩ := List.getElem?_eq_some_iff.1 hget
    have hdrop : s.queue.drop s.index = w :: s.queue.drop (s.index + 1) := by
      rw [List.drop_eq_getElem_cons hlt, hw]
    rw [hdrop] at a3 a4
    obtain ⟨hnot, hnd⟩ := List.nodup_cons.1 a3
    refine ⟨by simp [Sched.setHas, hf], fun _ => hlt, hnd, ?_⟩
    intro r hr
    simp only [Sched.pending, Sched.setHas] at hr ⊢
    have hne : r ≠ w := fun e => hnot (e ▸ hr)
    simp only [hne, if_false]
    exact a4 r (List.mem_cons_of_mem _ hr)
  | queueRunning s w _ ih =>
    obtain ⟨a1, a2, a3, a4⟩ := ih
    have hf : s.flushing = true := a1.2 (by simp)
    have hlt := a2 rfl
    simp only [Sched.pending] at a3 a4
    obtain ⟨b1, b2, b3⟩ := queueWatcher_in_flush s w (s.index + 1) hf (Nat.le_refl _) hlt a3 a4
    obtain ⟨f1, f2, _⟩ := queueWatcher_frame s w
    refine ⟨by simp [f1, hf], fun _ => by rw [f2]; exact b3, ?_, ?_⟩
    · simp only [Sched.pending]; rw [f2]; exact b1
    · intro r hr; simp only [Sched.pending] at hr; rw [f2] at hr; exact b2 r hr
  | runEnd s _ ih =>
    obtain ⟨a1, _, a3, a4⟩ := ih
    have hf : s.flushing = true := a1.2 (by simp)
    exact ⟨by simp [hf], by simp, a3, a4⟩
  | flushEnd s _ _ _ =>
    refine ⟨by simp [resetSchedulerState], by simp, ?_, ?_⟩
    · simp [Sched.pending, resetSchedulerState]
    · intro r hr; simp [Sched.pending, resetSchedulerState] at hr

/-- C6, as the claim states it, fails: when the watcher being run re-enqueues itself, the
`queue` array holds its id twice, once at the cursor and once after it. -/
theorem queue_array_holds_rerun_watcher_twice :
    SchedReachable Phase.running Sched.selfRequeued ∧
    Sched.selfRequeued.queue = [1, 1] ∧ ¬ Sched.selfRequeued.queue.Nodup :=
  ⟨SchedReachable.queueRunning _ 1
      (SchedReachable.runStart _ 1
        (SchedReachable.flushStart _ (SchedReachable.queueIdle _ 1 SchedReachable.init))
        (by decide)),
   by decide, by decide⟩

/-- C6 as amended. In every scheduler state reachable through `queueWatcher` and
`flushSchedulerQueue`, calls of `queueWatcher` from inside a flush included, no watcher id
occurs more than once among the queue entries still to be run: the whole queue outside a
flush, the entries from the cursor on at the head of the loop body, the entries after the
cursor while a watcher runs. -/
theorem pending_entries_distinct (p : Phase) (s : Sched) (h : SchedReachable p s) :
    (s.pending p).Nodup :=
  (inv_of_reachable p s h).2.2.1

/-- Witness of C6 as amended, at the state in which watcher 1 has re-enqueued itself. -/
theorem pending_entries_distinct_witness :
    SchedReachable Phase.running Sched.selfRequeued ∧
    (Sched.selfRequeued.pending Phase.running).Nodup :=
  ⟨SchedReachable.queueRunning _ 1
      (SchedReachable.runStart _ 1
        (SchedReachable.flushStart _ (SchedReachable.queueIdle _ 1 SchedReachable.init))
        (by decide)),
   pending_entries_distinct Phase.running Sched.selfRequeued
    (SchedReachable.queueRunning _ 1
      (SchedReachable.runStart _ 1
        (SchedReachable.flushStart _ (SchedReachable.queueIdle _ 1 SchedReachable.init))
        (by decide)))⟩

/-! ## The flush function moves through reachable states -/

theorem length_le_queueWatcher (s : Sched) (w : Nat) :
    s.queue.length ≤ (queueWatcher s w).queue.length := by
  rw [queueWatcher_queue]
  split
  · exact Nat.le_refl _
  · split
    · rw [length_spliceIn]; omega
    · simp

theorem reachable_foldl_idle (reqs : List Nat) : ∀ s : Sched, SchedReachable Phase.idle s →
    SchedReachable Phase.idle (reqs.foldl queueWatcher s) := by
  induction reqs with
  | nil => intro s h; exact h
  | cons a l ih => intro s h; exact ih _ (SchedReachable.queueIdle s a h)

theorem reachable_foldl_head (reqs : List Nat) : ∀ s : Sched, SchedReachable Phase.head s →
    s.index < s.queue.length →
    SchedReachable Phase.head (reqs.foldl queueWatcher s) ∧
    (reqs.foldl queueWatcher s).index = s.index ∧
    s.queue.length ≤ (reqs.foldl queueWatcher s).queue.length := by
  induction reqs with
  | nil => intro s h _; exact ⟨h, rfl, Nat.le_refl _⟩
  | cons a l ih =>
    intro s h hlt
    have h1 := length_le_queueWatcher s a
    have h2 := (queueWatcher_frame s a).2.1
    obtain ⟨r1, r2, r3⟩ := ih _ (SchedReachable.queueBefore s a h hlt) (by omega)
    exact ⟨r1, by rw [List.foldl_cons, r2, h2], by rw [List.foldl_cons]; omega⟩

theorem reachable_foldl_running (reqs : List Nat) : ∀ s : Sched,
    SchedReachable Phase.running s →
    SchedReachable Phase.running (reqs.foldl queueWatcher s) ∧
    (reqs.foldl queueWatcher s).index = s.index := by
  induction reqs with
  | nil => intro s h; exact ⟨h, rfl⟩
  | cons a l ih =>
    intro s h
    obtain ⟨r1, r2⟩ := ih _ (SchedReachable.queueRunning s a h)
    exact ⟨r1, by rw [List.foldl_cons, r2, (queueWatcher_frame s a).2.1]⟩

/-- Every iteration of the flush loop in which no call throws, as the function `flushIter`
computes it, moves between states of `SchedReachable`. -/
theorem reachable_flushIter {ε : Type} (J : Jobs ε) (n : Nat) : ∀ st : FlushState ε,
    SchedReachable Phase.head st.sched → (flushIter J n st).thrown = false →
    SchedReachable Phase.head (flushIter J n st).sched := by
  induction n with
  | zero => intro st h _; exact h
  | succ n ih =>
    intro st h hnt
    obtain ⟨hnt0, hstep⟩ := flushIter_not_thrown J n st hnt
    cases hget : st.sched.queue[st.sched.index]? with
    | none => rw [flushIter_done J _ st hget]; exact h
    | some watcher =>
      obtain ⟨hbt, hnt1⟩ := hstep watcher hget
      rw [flushIter_succ J n st watcher hnt0 hget hbt]
      apply ih _ _ hnt1
      rw [flushBody_of_returns J st watcher (flushBody_not_thrown J st watcher hbt).1]
      obtain ⟨hlt, _⟩ := List.getElem?_eq_some_iff.1 hget
      obtain ⟨r1, r2, r3⟩ := reachable_foldl_head (J.before watcher st.env).2 st.sched h hlt
      have hget1 : ((J.before watcher st.env).2.foldl queueWatcher st.sched).queue[
          ((J.before watcher st.env).2.foldl queueWatcher st.sched).index]? = some watcher := by
        rw [r2]
        -- entries at or before the cursor are not moved by `queueWatcher`
        have key : ∀ (reqs : List Nat) (s : Sched), s.flushing = true →
            s.queue[s.index]? = some watcher →
            (reqs.foldl queueWatcher s).queue[s.index]? = some watcher ∧
            (reqs.foldl queueWatcher s).flushing = true ∧
            (reqs.foldl queueWatcher s).index = s.index := by
          intro reqs
          induction reqs with
          | nil => intro s hf hg; exact ⟨hg, hf, rfl⟩
          | cons a l ihl =>
            intro s hf hg
            obtain ⟨f1, f2, _⟩ := queueWatcher_frame s a
            have hlt1 : s.index < s.queue.length := (List.getElem?_eq_some_iff.1 hg).1
            have hq : (queueWatcher s a).queue[s.index]? = some watcher := by
              rw [queueWatcher_queue]
              by_cases hp : s.has a = HasMark.yes
              · rw [if_pos hp]; exact hg
              · rw [if_neg hp, if_pos hf]
                have hj := lt_scanBack s.queue s.index a s.queue.length hlt1
                have hj2 := scanBack_le s.queue s.index a s.queue.length
                unfold spliceIn
                rw [List.getElem?_append_left (by simp; omega)]
                rw [List.getElem?_take_of_lt hj]
                exact hg
            obtain ⟨k1, k2, k3⟩ := ihl (queueWatcher s a) (by rw [f1]; exact hf)
              (by rw [f2]; exact hq)
            rw [f2] at k1 k3
            exact ⟨k1, k2, k3⟩
        exact (key _ st.sched ((inv_of_reachable _ _ h).1.2 (by simp)) hget).1
      have h2 := SchedReachable.runStart _ watcher r1 hget1
      obtain ⟨r4, _⟩ := reachable_foldl_running
        (J.run watcher (J.before watcher st.env).1).2 _ h2
      exact SchedReachable.runEnd _ r4

/-- A call of `flushSchedulerQueue` from a reachable idle state ends in a reachable idle
state, and invokes its hooks in one. -/
theorem reachable_flushSchedulerQueue {ε : Type} (J : Jobs ε) (fuel : Nat) (s : Sched) (e : ε)
    (r : FlushResult ε) (h : SchedReachable Phase.idle s)
    (hr : flushSchedulerQueue J fuel s e = some r) :
    SchedReachable Phase.idle r.atHooks ∧ SchedReachable Phase.idle r.sched := by
  unfold flushSchedulerQueue at hr
  cases hl : flushLoop J fuel { sched := flushStart s, env := e, ran := [] } with
  | none => rw [hl] at hr; cases hr
  | some st =>
    rw [hl] at hr
    simp only [Option.some.injEq] at hr
    obtain ⟨hst, hthrown, hexit⟩ := flushLoop_some J fuel _ st hl
    · have h1 := reachable_flushIter J fuel { sched := flushStart s, env := e, ran := [] }
        (SchedReachable.flushStart s h) hthrown
      rw [← hst] at h1 hexit
      have h2 := SchedReachable.flushEnd _ h1 hexit
      have hooks : ∀ (hook : Nat → ε → ε × List Nat) (items : List Nat) (a : Sched × ε),
          SchedReachable Phase.idle a.1 →
          SchedReachable Phase.idle (callHooks hook items a).1 := by
        intro hook items
        induction items with
        | nil => intro a ha; exact ha
        | cons x l ihl =>
          intro a ha
          unfold callHooks
          simp only [List.foldl_cons]
          exact ihl _ (reachable_foldl_idle _ _ ha)
      subst hr
      exact ⟨h2, hooks _ _ _ (hooks _ _ _ h2)⟩

/-! ## A watcher that re-enqueues itself on every run -/

/-- One `queueWatcher(w)` from inside the run of `w`, with `w` alone in the queue `k + 1`
times and the cursor on the last entry: `w` is appended once more. -/
theorem queueWatcher_self (s : Sched) (w k : Nat) (hq : s.queue = List.replicate (k + 1) w)
    (hi : s.index = k) (hf : s.flushing = true) :
    (queueWatcher (s.setHas w HasMark.null) w).queue = List.replicate (k + 2) w ∧
    (queueWatcher (s.setHas w HasMark.null) w).index = k ∧
    (queueWatcher (s.setHas w HasMark.null) w).flushing = true := by
  obtain ⟨f1, f2, _⟩ := queueWatcher_frame (s.setHas w HasMark.null) w
  refine ⟨?_, by rw [f2]; exact hi, by rw [f1]; exact hf⟩
  rw [queueWatcher_queue]
  have h1 : (s.setHas w HasMark.null).has w ≠ HasMark.yes := by simp [Sched.setHas]
  have h2 : (s.setHas w HasMark.null).flushing = true := hf
  have h3 : (s.setHas w HasMark.null).queue = List.replicate (k + 1) w := hq
  have h4 : (s.setHas w HasMark.null).index = k := hi
  rw [if_neg h1, if_pos h2, h3, h4]
  have hscan : scanBack (List.replicate (k + 1) w) k w (List.replicate (k + 1) w).length = k + 1 := by
    rw [List.length_replicate]
    unfold scanBack
    simp
  rw [hscan]
  unfold spliceIn
  rw [List.take_of_length_le (by simp), List.drop_of_length_le (by simp)]
  exact (List.replicate_succ' (k + 1) w).symm

theorem flushIter_selfTrigger (w n : Nat) : ∀ (k : Nat) (st : FlushState Unit),
    st.sched.queue = List.replicate (k + 1) w → st.sched.index = k →
    st.sched.flushing = true → st.ran = List.replicate k w → st.thrown = false →
    (flushIter Jobs.selfTrigger n st).sched.queue = List.replicate (k + n + 1) w ∧
    (flushIter Jobs.selfTrigger n st).sched.index = k + n ∧
    (flushIter Jobs.selfTrigger n st).ran = List.replicate (k + n) w ∧
    (flushIter Jobs.selfTrigger n st).thrown = false := by
  induction n with
  | zero => intro k st hq hi _ hr ht; exact ⟨hq, hi, hr, ht⟩
  | succ n ih =>
    intro k st hq hi hf hr ht
    have hget : st.sched.queue[st.sched.index]? = some w := by
      rw [hq, hi]; exact List.getElem?_replicate_of_lt (Nat.lt_succ_self k)
    obtain ⟨q1, i1, f1⟩ := queueWatcher_self st.sched w k hq hi hf
    have hbody : flushBody Jobs.selfTrigger st w =
        { sched := queueWatcher (st.sched.setHas w HasMark.null) w, env := (),
          ran := st.ran ++ [w], thrown := false } := by
      rw [flushBody_of_returns _ _ _ rfl]
      rfl
    rw [flushIter_succ _ n st w ht hget (by rw [hbody]), hbody]
    have := ih (k + 1)
      { sched := { queueWatcher (st.sched.setHas w HasMark.null) w with
          index := (queueWatcher (st.sched.setHas w HasMark.null) w).index + 1 },
        env := (), ran := st.ran ++ [w], thrown := false }
      q1 (by show _ + 1 = k + 1; rw [i1]) f1
      (by show st.ran ++ [w] = _; rw [hr, List.replicate_succ']) rfl
    have e1 : k + 1 + n + 1 = k + (n + 1) + 1 := by omega
    have e2 : k + 1 + n = k + (n + 1) := by omega
    rw [e1, e2] at this
    exact this

/-- C5 on the code: a watcher whose `run()` calls `queueWatcher` on itself is run again and
again. After any number `fuel` of iterations of the flush loop the watcher has run `fuel`
times and is in the queue once more, no call having thrown, so the loop never exits (the
flush has no result for any `fuel`) and the number of runs passes `MAX_UPDATE_COUNT`. -/
theorem self_triggering_watcher_never_leaves_flush (w fuel : Nat) :
    flushSchedulerQueue Jobs.selfTrigger fuel (queueWatcher Sched.init w) () = none ∧
    (flushIter Jobs.selfTrigger fuel
      { sched := flushStart (queueWatcher Sched.init w), env := (), ran := [] }).ran
        = List.replicate fuel w ∧
    MAX_UPDATE_COUNT <
      (flushIter Jobs.selfTrigger (MAX_UPDATE_COUNT + 1)
        { sched := flushStart (queueWatcher Sched.init w), env := (), ran := [] }).ran.count w ∧
    (flushIter Jobs.selfTrigger fuel
      { sched := flushStart (queueWatcher Sched.init w), env := (), ran := [] }).thrown
        = false ∧
    (flushIter Jobs.selfTrigger fuel
      { sched := flushStart (queueWatcher Sched.init w), env := (), ran := [] }).sched.index
      < (flushIter Jobs.selfTrigger fuel
      { sched := flushStart (queueWatcher Sched.init w), env := (), ran := [] }).sched.queue.length := by
  have hstart : ∀ n, (flushIter Jobs.selfTrigger n
        { sched := flushStart (queueWatcher Sched.init w), env := (), ran := [] }).sched.queue
          = List.replicate (0 + n + 1) w ∧
      (flushIter Jobs.selfTrigger n
        { sched := flushStart (queueWatcher Sched.init w), env := (), ran := [] }).sched.index
          = 0 + n ∧
      (flushIter Jobs.selfTrigger n
        { sched := flushStart (queueWatcher Sched.init w), env := (), ran := [] }).ran
          = List.replicate (0 + n) w ∧
      (flushIter Jobs.selfTrigger n
        { sched := flushStart (queueWatcher Sched.init w), env := (), ran := [] }).thrown
          = false := by
    intro n
    apply flushIter_selfTrigger w n 0
    · simp [flushStart, queueWatcher, Sched.init, Sched.setHas]
    · rfl
    · rfl
    · rfl
    · rfl
  refine ⟨?_, ?_, ?_, (hstart fuel).2.2.2, ?_⟩
  · obtain ⟨h1, h2, _, h4⟩ := hstart fuel
    unfold flushSchedulerQueue flushLoop
    simp only [h1, h2, h4, List.length_replicate]
    simp
  · have := (hstart fuel).2.2.1
    simpa using this
  · have := (hstart (MAX_UPDATE_COUNT + 1)).2.2.1
    rw [this]
    simp [MAX_UPDATE_COUNT]
  · obtain ⟨h1, h2, _, _⟩ := hstart fuel
    rw [h1, h2, List.length_replicate]
    omega

/-! ## Observed values: reads change nothing but the read records -/

theorem foldlM_option_rel {α σ : Type} (R : σ → σ → Prop) (hrefl : ∀ s, R s s)
    (htrans : ∀ a b c, R a b → R b c → R a c) (f : σ → α → Option σ)
    (l : List α) (hf : ∀ s a s1, a ∈ l → f s a = some s1 → R s s1) :
    ∀ s s1, l.foldlM f s = some s1 → R s s1 := by
  induction l with
  | nil =>
    intro s s1 h
    simp only [List.foldlM_nil] at h
    cases h
    exact hrefl s
  | cons a l ih =>
    intro s s1 h
    simp only [List.foldlM_cons] at h
    cases hfa : f s a with
    | none => rw [hfa] at h; cases h
    | some s2 =>
      rw [hfa] at h
      exact htrans _ _ _ (hf s a s2 (List.mem_cons_self _ _) hfa)
        (ih (fun s a s1 ha => hf s a s1 (List.mem_cons_of_mem _ ha)) s2 s1 h)

theorem sameButReads_refl (h : Heap) : h.SameButReads h :=
  ⟨rfl, rfl, rfl, rfl, rfl, rfl, rfl, rfl, rfl, rfl⟩

theorem sameButReads_trans (a b c : Heap) (h1 : a.SameButReads b) (h2 : b.SameButReads c) :
    a.SameButReads c := by
  obtain ⟨a1, a2, a3, a4, a5, a6, a7, a8, a9, a10⟩ := h1
  obtain ⟨b1, b2, b3, b4, b5, b6, b7, b8, b9, b10⟩ := h2
  exact ⟨b1.trans a1, b2.trans a2, b3.trans a3, b4.trans a4, b5.trans a5, b6.trans a6,
    b7.trans a7, b8.trans a8, b9.trans a9, b10.trans a10⟩

theorem sameButReads_depend (h : Heap) (dep : Nat) : h.SameButReads (h.depend dep) := by
  unfold Heap.depend
  split
  · exact ⟨rfl, rfl, rfl, rfl, rfl, rfl, rfl, rfl, rfl, rfl⟩
  · exact sameButReads_refl h

theorem currentValue_readsOnly (r : Calls) (hr : r.ReadsOnly) (h h1 : Heap) (cl : Closure)
    (v : Val) (hv : currentValue r h cl = some (h1, v)) : h.SameButReads h1 := by
  unfold currentValue at hv
  cases hg : cl.getter with
  | none =>
    rw [hg] at hv
    simp only [Option.some.injEq, Prod.mk.injEq] at hv
    rw [← hv.1]; exact sameButReads_refl h
  | some g =>
    rw [hg] at hv
    exact hr.1 h g h1 v hv

theorem dependArrayBody_readsOnly (r : Calls) (hr : r.ReadsOnly) (h h1 : Heap) (a : Nat)
    (hd : dependArrayBody r h a = some h1) : h.SameButReads h1 := by
  unfold dependArrayBody at hd
  cases ho : h.objs[a]? with
  | none =>
    rw [ho] at hd
    simp only [Option.some.injEq] at hd
    rw [← hd]; exact sameButReads_refl h
  | some o =>
    rw [ho] at hd
    simp only at hd
    refine foldlM_option_rel Heap.SameButReads sameButReads_refl sameButReads_trans _ o.elems ?_
      h h1 hd
    intro s e s1 _ hstep
    cases e with
    | ref ea =>
      simp only at hstep
      cases hea : s.objs[ea]? with
      | none =>
        rw [hea] at hstep
        simp only [Option.some.injEq] at hstep
        rw [← hstep]; exact sameButReads_refl s
      | some eo =>
        rw [hea] at hstep
        simp only at hstep
        have hacc1 : s.SameButReads
            (match eo.ob.bind (fun b => s.observers[b]?) with
              | some obs => s.depend obs.dep
              | none => s) := by
          split
          · exact sameButReads_depend s _
          · exact sameButReads_refl s
        split at hstep
        · exact sameButReads_trans _ _ _ hacc1 (hr.2 _ _ _ hstep)
        · simp only [Option.some.injEq] at hstep
          rw [← hstep]; exact hacc1
    | undefined => simp only [Option.some.injEq] at hstep; rw [← hstep]; exact sameButReads_refl s
    | null => simp only [Option.some.injEq] at hstep; rw [← hstep]; exact sameButReads_refl s
    | bool b => simp only [Option.some.injEq] at hstep; rw [← hstep]; exact sameButReads_refl s
    | num n => simp only [Option.some.injEq] at hstep; rw [← hstep]; exact sameButReads_refl s
    | nan => simp only [Option.some.injEq] at hstep; rw [← hstep]; exact sameButReads_refl s
    | str t => simp only [Option.some.injEq] at hstep; rw [← hstep]; exact sameButReads_refl s

theorem reactiveGetter_readsOnly (r : Calls) (hr : r.ReadsOnly) (h h1 : Heap) (c : Nat) (v : Val)
    (hg : reactiveGetter r h c = some (h1, v)) : h.SameButReads h1 := by
  unfold reactiveGetter at hg
  cases hc : h.closures[c]? with
  | none => rw [hc] at hg; cases hg
  | some cl =>
    rw [hc] at hg
    simp only at hg
    cases hcv : currentValue r h cl with
    | none => rw [hcv] at hg; cases hg
    | some p =>
      obtain ⟨h2, value⟩ := p
      rw [hcv] at hg
      have s1 := currentValue_readsOnly r hr h h2 cl value hcv
      simp only at hg
      split at hg
      · have s2 := sameButReads_trans _ _ _ s1 (sameButReads_depend h2 cl.dep)
        split at hg
        · simp only [Option.some.injEq, Prod.mk.injEq] at hg
          rw [← hg.1]; exact s2
        · rename_i b _
          have s3 : h.SameButReads
              (match (h2.depend cl.dep).observers[b]? with
                | some obs => (h2.depend cl.dep).depend obs.dep
                | none => h2.depend cl.dep) := by
            split
            · exact sameButReads_trans _ _ _ s2 (sameButReads_depend _ _)
            · exact s2
          split at hg
          · split at hg
            · split at hg
              · cases hda : r.dependArray _ _ with
                | none => rw [hda] at hg; cases hg
                | some h4 =>
                  rw [hda] at hg
                  simp only [Option.map_some', Option.some.injEq, Prod.mk.injEq] at hg
                  rw [← hg.1]
                  exact sameButReads_trans _ _ _ s3 (hr.2 _ _ _ hda)
              · simp only [Option.some.injEq, Prod.mk.injEq] at hg
                rw [← hg.1]; exact s3
            · simp only [Option.some.injEq, Prod.mk.injEq] at hg
              rw [← hg.1]; exact s3
          · simp only [Option.some.injEq, Prod.mk.injEq] at hg
            rw [← hg.1]; exact s3
      · simp only [Option.some.injEq, Prod.mk.injEq] at hg
        rw [← hg.1]; exact s1

theorem callGetBody_readsOnly (r : Calls) (hr : r.ReadsOnly) (h h1 : Heap) (f : Fn) (v : Val)
    (hg : callGetBody r h f = some (h1, v)) : h.SameButReads h1 := by
  have h0 : h.SameButReads { h with getCalls := h.getCalls ++ [f] } :=
    ⟨rfl, rfl, rfl, rfl, rfl, rfl, rfl, rfl, rfl, rfl⟩
  unfold callGetBody at hg
  cases f with
  | user n =>
    simp only [Option.some.injEq, Prod.mk.injEq] at hg
    rw [← hg.1]; exact h0
  | reactive c =>
    exact sameButReads_trans _ _ _ h0 (reactiveGetter_readsOnly r hr _ h1 c v hg)

theorem within_readsOnly (depth : Nat) : (Calls.within depth).ReadsOnly := by
  induction depth with
  | zero =>
    refine ⟨?_, ?_⟩
    · intro h f h1 v hg; simp [Calls.within] at hg
    · intro h a h1 hg; simp [Calls.within] at hg
  | succ n ih =>
    refine ⟨?_, ?_⟩
    · intro h f h1 v hg
      exact callGetBody_readsOnly _ ih h h1 f v hg
    · intro h a h1 hg
      exact dependArrayBody_readsOnly _ ih h h1 a hg

/-! ## `reactiveSetter` -/

/-- C2. For a property installed by `defineReactive` (closure `c`), with `value` the current
value `getter ? getter.call(obj) : val`: assigning `newVal` when `newVal === value`, when both
are `NaN`, or when the property has an underlying getter and no underlying setter returns
straight after the comparison. `dep.notify()` is not called, no underlying setter is called,
and the stored value (closure variables, the store behind the underlying accessor) and the
child observer are what they were; the state `h1` is the one the read of the current value
left. -/
theorem reactiveSetter_noop (depth : Nat) (h h1 : Heap) (c : Nat) (cl : Closure)
    (newVal value : Val)
    (hc : h.closures[c]? = some cl)
    (hv : currentValue (Calls.within depth) h cl = some (h1, value))
    (hnoop : strictEq newVal value = true ∨ (newVal = Val.nan ∧ value = Val.nan) ∨
      (cl.getter.isSome = true ∧ cl.setter.isNone = true)) :
    assignReactive depth h c newVal = some h1 ∧
    h1.notified = h.notified ∧ h1.setCalls = h.setCalls ∧ h1.userStore = h.userStore ∧
    h1.closures = h.closures ∧ h1.closures[c]? = some cl ∧
    h1.observers = h.observers ∧ h1.objs = h.objs := by
  obtain ⟨e1, e2, e3, _, _, _, _, e8, e9, e10⟩ :=
    currentValue_readsOnly _ (within_readsOnly depth) h h1 cl value hv
  refine ⟨?_, e9, e10, e8, e2, by rw [e2]; exact hc, e3, e1⟩
  unfold assignReactive reactiveSetter
  rw [hc]
  simp only [hv]
  rcases hnoop with hs | ⟨hn1, hn2⟩ | ⟨hg1, hg2⟩
  · simp [hs]
  · subst hn1; subst hn2
    simp [strictEq]
  · simp [hg1, hg2]

theorem observedSample_closures :
    Heap.observedSample.closures =
      [{ dep := 1, val := Val.num 1, childOb := none, getter := none, setter := none,
         shallow := false },
       { dep := 4, val := Val.nan, childOb := none, getter := none, setter := none,
         shallow := false },
       { dep := 2, val := Val.ref 1, childOb := some 1, getter := none, setter := none,
         shallow := false }] := by
  rfl

/-- Witness of C2: on the observed `{ a: 1, b: { c: NaN } }`, the assignments `a = 1`
(closure 0) and `b.c = NaN` (closure 1); on the observed object with a getter-only accessor
`x`, the assignment `x = 9` (the getter returns 5). -/
theorem reactiveSetter_noop_witness :
    (strictEq (Val.num 1) (Val.num 1) = true ∧
      assignReactive 10 Heap.observedSample 0 (Val.num 1) = some Heap.observedSample) ∧
    (strictEq Val.nan Val.nan = false ∧
      assignReactive 10 Heap.observedSample 1 Val.nan = some Heap.observedSample) ∧
    (strictEq (Val.num 9) (Val.num 5) = false ∧
      assignReactive 10 Heap.getterOnly 0 (Val.num 9) =
        some { Heap.getterOnly with getCalls := Heap.getterOnly.getCalls ++ [Fn.user 7] } ∧
      ({ Heap.getterOnly with getCalls := Heap.getterOnly.getCalls ++ [Fn.user 7] } : Heap).notified
        = Heap.getterOnly.notified ∧
      ({ Heap.getterOnly with getCalls := Heap.getterOnly.getCalls ++ [Fn.user 7] } : Heap).setCalls
        = Heap.getterOnly.setCalls) :=
  ⟨⟨rfl, (reactiveSetter_noop 10 Heap.observedSample Heap.observedSample 0
        { dep := 1, val := Val.num 1, childOb := none, getter := none, setter := none,
          shallow := false }
        (Val.num 1) (Val.num 1) rfl rfl (Or.inl rfl)).1⟩,
   ⟨rfl, (reactiveSetter_noop 10 Heap.observedSample Heap.observedSample 1
        { dep := 4, val := Val.nan, childOb := none, getter := none, setter := none,
          shallow := false }
        Val.nan Val.nan rfl rfl (Or.inr (Or.inl ⟨rfl, rfl⟩))).1⟩,
   ⟨rfl,
    (reactiveSetter_noop 10 Heap.getterOnly
        { Heap.getterOnly with getCalls := Heap.getterOnly.getCalls ++ [Fn.user 7] } 0
        { dep := 1, val := Val.undefined, childOb := none, getter := some (Fn.user 7),
          setter := none, shallow := false }
        (Val.num 9) (Val.num 5) rfl rfl (Or.inr (Or.inr ⟨rfl, rfl⟩))).1,
    (reactiveSetter_noop 10 Heap.getterOnly
        { Heap.getterOnly with getCalls := Heap.getterOnly.getCalls ++ [Fn.user 7] } 0
        { dep := 1, val := Val.undefined, childOb := none, getter := some (Fn.user 7),
          setter := none, shallow := false }
        (Val.num 9) (Val.num 5) rfl rfl (Or.inr (Or.inr ⟨rfl, rfl⟩))).2.1,
    (reactiveSetter_noop 10 Heap.getterOnly
        { Heap.getterOnly with getCalls := Heap.getterOnly.getCalls ++ [Fn.user 7] } 0
        { dep := 1, val := Val.undefined, childOb := none, getter := some (Fn.user 7),
          setter := none, shallow := false }
        (Val.num 9) (Val.num 5) rfl rfl (Or.inr (Or.inr ⟨rfl, rfl⟩))).2.2.1⟩⟩

/-- An assignment that does change the value notifies: `a = 2` on the observed sample stores
2 and calls `notify()` on the property's Dep (id 1). -/
theorem reactiveSetter_changed_value :
    (assignReactive 10 Heap.observedSample 0 (Val.num 2)).map
        (fun g => (g.closures[0]?.map Closure.val, g.notified)) =
      some (some (Val.num 2), [1]) := by
  rfl

/-! ## Observed values: an observer, once attached, stays -/

theorem keeps_refl (h : Heap) : h.KeepsObservers h := by
  intro _ o ho
  exact ⟨o, ho, rfl, fun _ hb => hb⟩

theorem keeps_trans (a b c : Heap) (h1 : a.KeepsObservers b) (h2 : b.KeepsObservers c) :
    a.KeepsObservers c := by
  intro x o ho
  obtain ⟨o1, e1, k1, b1⟩ := h1 x o ho
  obtain ⟨o2, e2, k2, b2⟩ := h2 x o1 e1
  exact ⟨o2, e2, k2.trans k1, fun b hb => b2 b (b1 b hb)⟩

theorem keeps_of_objs_eq (h g : Heap) (he : g.objs = h.objs) : h.KeepsObservers g := by
  intro x o ho
  exact ⟨o, by rw [he]; exact ho, rfl, fun _ hb => hb⟩

theorem keeps_of_reads (h g : Heap) (hs : h.SameButReads g) : h.KeepsObservers g :=
  keeps_of_objs_eq h g hs.1

theorem keeps_setObj (h : Heap) (a : Nat) (o o1 : Obj) (ho : h.objs[a]? = some o)
    (hk : o1.kind = o.kind) (hb : ∀ b, o.ob = some b → o1.ob = some b) :
    h.KeepsObservers (h.setObj a o1) := by
  intro x ox hx
  simp only [Heap.setObj, List.getElem?_set]
  by_cases hax : a = x
  · subst hax
    rw [ho] at hx
    simp only [Option.some.injEq] at hx
    subst hx
    have hlt : a < h.objs.length := (List.getElem?_eq_some_iff.1 ho).1
    exact ⟨o1, by simp [hlt], hk, hb⟩
  · exact ⟨ox, by simp [hax, hx], rfl, fun _ h => h⟩

theorem readProp_keeps (r : Calls) (hr : r.ReadsOnly) (h h1 : Heap) (a : Nat) (key : String)
    (v : Val) (hp : readProp r h a key = some (h1, v)) : h.KeepsObservers h1 := by
  unfold readProp at hp
  split at hp
  · simp only [Option.some.injEq, Prod.mk.injEq] at hp; rw [← hp.1]; exact keeps_refl h
  · split at hp
    · simp only [Option.some.injEq, Prod.mk.injEq] at hp; rw [← hp.1]; exact keeps_refl h
    · simp only [Option.some.injEq, Prod.mk.injEq] at hp; rw [← hp.1]; exact keeps_refl h
    · simp only [Option.some.injEq, Prod.mk.injEq] at hp; rw [← hp.1]; exact keeps_refl h
    · exact keeps_of_reads _ _ (hr.1 _ _ _ _ hp)

theorem defineReactive_keeps (r : Calls) (hr : r.ReadsOnly) (hk : r.KeepObservers)
    (h h1 : Heap) (a : Nat) (key : String) (val : Option Val) (shallow : Bool)
    (hd : defineReactive r h a key val shallow = some h1) : h.KeepsObservers h1 := by
  unfold defineReactive at hd
  simp only [Heap.newDep] at hd
  have k0 : h.KeepsObservers { h with depUid := h.depUid + 1 } := keeps_of_objs_eq _ _ rfl
  split at hd
  · simp only [Option.some.injEq] at hd; rw [← hd]; exact k0
  · rename_i o ho
    split at hd
    · simp only [Option.some.injEq] at hd; rw [← hd]; exact k0
    · split at hd
      · cases hd
      · rename_i h2 v hread
        have k2 : h.KeepsObservers h2 := by
          apply keeps_trans _ _ _ k0
          cases val with
          | some v0 =>
            simp only [Option.some.injEq, Prod.mk.injEq] at hread
            rw [← hread.1]; exact keeps_refl _
          | none =>
            simp only at hread
            split at hread
            · exact readProp_keeps r hr _ _ _ _ _ hread
            · simp only [Option.some.injEq, Prod.mk.injEq] at hread
              rw [← hread.1]; exact keeps_refl _
        split at hd
        · cases hd
        · rename_i h3 childOb hobs
          have k3 : h.KeepsObservers h3 := by
            apply keeps_trans _ _ _ k2
            by_cases hsh : shallow
            · simp only [hsh, if_true, Option.some.injEq, Prod.mk.injEq] at hobs
              rw [← hobs.1]; exact keeps_refl _
            · simp only [hsh, Bool.false_eq_true, if_false] at hobs
              exact hk.1 _ _ _ _ _ hobs
          have k4 : h.KeepsObservers { h3 with closures := h3.closures ++
              [{ dep := h.depUid, val := v, childOb := childOb,
                 getter := (o.props.lookup key).bind Slot.getter,
                 setter := (o.props.lookup key).bind Slot.setter, shallow := shallow }] } :=
            keeps_trans _ _ _ k3 (keeps_of_objs_eq _ _ rfl)
          split at hd
          · simp only [Option.some.injEq] at hd; rw [← hd]; exact k4
          · rename_i o4 ho4
            split at hd
            · cases hd
            · simp only [Option.some.injEq] at hd
              rw [← hd]
              exact keeps_trans _ _ _ k4 (keeps_setObj _ a o4 _ ho4 rfl (fun _ hb => hb))

theorem walk_keeps (r : Calls) (hr : r.ReadsOnly) (hk : r.KeepObservers) (h h1 : Heap) (a : Nat)
    (hw : Observer.walk r h a = some h1) : h.KeepsObservers h1 := by
  unfold Observer.walk at hw
  split at hw
  · simp only [Option.some.injEq] at hw; rw [← hw]; exact keeps_refl h
  · rename_i o _
    exact foldlM_option_rel Heap.KeepsObservers keeps_refl keeps_trans _ o.keys
      (fun s key s1 _ hstep => defineReactive_keeps r hr hk s s1 a key none false hstep) h h1 hw

theorem observeArray_keeps (r : Calls) (hk : r.KeepObservers) (h h1 : Heap) (a : Nat)
    (hw : Observer.observeArray r h a = some h1) : h.KeepsObservers h1 := by
  unfold Observer.observeArray at hw
  split at hw
  · simp only [Option.some.injEq] at hw; rw [← hw]; exact keeps_refl h
  · rename_i o _
    refine foldlM_option_rel Heap.KeepsObservers keeps_refl keeps_trans _ _ ?_ h h1 hw
    intro s i s1 _ hstep
    simp only at hstep
    split at hstep
    · simp only [Option.some.injEq] at hstep; rw [← hstep]; exact keeps_refl s
    · rename_i oi _
      cases hobs : r.observe s (oi.elems.getD i Val.undefined) false with
      | none => rw [hobs] at hstep; cases hstep
      | some p =>
        rw [hobs] at hstep
        simp only [Option.map_some', Option.some.injEq] at hstep
        rw [← hstep]
        exact hk.1 _ _ _ _ _ hobs

/-- `new Observer(value)` on an object without observer: the object carries the new observer
afterwards, and every other object keeps its own. -/
theorem observerNew_keeps (r : Calls) (hr : r.ReadsOnly) (hk : r.KeepObservers) (h h1 : Heap)
    (a b : Nat) (o : Obj) (ho : h.objs[a]? = some o) (hnone : o.ob = none)
    (hn : Observer.new r h a = some (h1, b)) :
    h.KeepsObservers h1 ∧ ∃ o1, h1.objs[a]? = some o1 ∧ o1.ob = some b ∧ o1.kind = o.kind := by
  unfold Observer.new at hn
  rw [ho] at hn
  simp only [Heap.newDep] at hn
  have hlt : a < h.objs.length := (List.getElem?_eq_some_iff.1 ho).1
  -- the state once `__ob__` is defined, for either value of `augmented`
  have mid : ∀ (aug : Bool) (h5 : Heap),
      (({ h with depUid := h.depUid + 1,
                 observers := h.observers ++ [{ value := a, dep := h.depUid, vmCount := 0 }] } :
          Heap).setObj a { o with ob := some h.observers.length, augmented := aug }).KeepsObservers h5 →
      h.KeepsObservers h5 ∧
        ∃ o1, h5.objs[a]? = some o1 ∧ o1.ob = some h.observers.length ∧ o1.kind = o.kind := by
    intro aug h5 k5
    have k3 : h.KeepsObservers
        (({ h with depUid := h.depUid + 1,
                   observers := h.observers ++ [{ value := a, dep := h.depUid, vmCount := 0 }] } :
            Heap).setObj a { o with ob := some h.observers.length, augmented := aug }) := by
      refine keeps_trans h _ _ (keeps_of_objs_eq h
        ({ h with depUid := h.depUid + 1,
                  observers := h.observers ++ [{ value := a, dep := h.depUid, vmCount := 0 }] } :
          Heap) rfl) ?_
      exact keeps_setObj _ a o _ ho rfl (fun b hb => by rw [hnone] at hb; cases hb)
    refine ⟨keeps_trans _ _ _ k3 k5, ?_⟩
    obtain ⟨o1, e1, e2, e3⟩ := k5 a { o with ob := some h.observers.length, augmented := aug }
      (by simp [Heap.setObj, hlt])
    exact ⟨o1, e1, e3 _ rfl, e2⟩
  by_cases hkind : o.kind = ObjKind.array
  · rw [if_pos hkind] at hn
    cases hoa : Observer.observeArray r _ a with
    | none => rw [hoa] at hn; cases hn
    | some h5 =>
      rw [hoa] at hn
      simp only [Option.map_some', Option.some.injEq, Prod.mk.injEq] at hn
      obtain ⟨e1, e2⟩ := hn
      subst e1; subst e2
      exact mid true h5 (observeArray_keeps r hk _ _ a hoa)
  · rw [if_neg hkind] at hn
    cases hoa : Observer.walk r _ a with
    | none => rw [hoa] at hn; cases hn
    | some h5 =>
      rw [hoa] at hn
      simp only [Option.map_some', Option.some.injEq, Prod.mk.injEq] at hn
      obtain ⟨e1, e2⟩ := hn
      subst e1; subst e2
      exact mid o.augmented h5 (walk_keeps r hr hk _ _ a hoa)

/-- What a returning `observe` call leaves: every object keeps its observer, and a returned
observer is the `__ob__` of the value, which is an object and not a VNode. -/
theorem observeBody_spec (r : Calls) (hr : r.ReadsOnly) (hk : r.KeepObservers) (h h1 : Heap)
    (value : Val) (root : Bool) (res : Option Nat)
    (hob : observeBody r h value root = some (h1, res)) :
    h.KeepsObservers h1 ∧
    (∀ ob, res = some ob → ∃ a o1, value = Val.ref a ∧ h1.objs[a]? = some o1 ∧
      o1.ob = some ob ∧ o1.kind ≠ ObjKind.vnode) := by
  have trivial_case : ∀ g : Heap, (some (h, (none : Option Nat)) = some (g, res)) →
      h.KeepsObservers g ∧
      (∀ ob, res = some ob → ∃ a o1, value = Val.ref a ∧ g.objs[a]? = some o1 ∧
        o1.ob = some ob ∧ o1.kind ≠ ObjKind.vnode) := by
    intro g hg
    simp only [Option.some.injEq, Prod.mk.injEq] at hg
    obtain ⟨e1, e2⟩ := hg
    subst e1; subst e2
    exact ⟨keeps_refl h, fun ob hh => by cases hh⟩
  unfold observeBody at hob
  cases value with
  | ref a =>
    simp only at hob
    cases ho : h.objs[a]? with
    | none => rw [ho] at hob; exact trivial_case h1 hob
    | some o =>
      rw [ho] at hob
      simp only at hob
      by_cases hv : o.kind = ObjKind.vnode
      · rw [if_pos hv] at hob; exact trivial_case h1 hob
      · rw [if_neg hv] at hob
        -- the observer found or created
        have found_spec : ∀ (h2 : Heap) (fr : Option Nat),
            (match o.ob with
              | some b => some (h, some b)
              | none =>
                if (h.shouldObserve && !h.serverRendering &&
                    (decide (o.kind = ObjKind.array) || decide (o.kind = ObjKind.plain)) &&
                    o.extensible && !o.isVue) = true
                then (Observer.new r h a).map (fun p => (p.1, some p.2))
                else some (h, none)) = some (h2, fr) →
            h.KeepsObservers h2 ∧
            (∀ ob, fr = some ob → ∃ o1, h2.objs[a]? = some o1 ∧ o1.ob = some ob ∧
              o1.kind = o.kind) := by
          intro h2 fr hf
          cases hb : o.ob with
          | some b =>
            rw [hb] at hf
            simp only [Option.some.injEq, Prod.mk.injEq] at hf
            obtain ⟨e1, e2⟩ := hf
            subst e1; subst e2
            exact ⟨keeps_refl h, fun ob hh => ⟨o, ho, by rw [hb]; exact hh, rfl⟩⟩
          | none =>
            rw [hb] at hf
            simp only at hf
            split at hf
            · cases hnew : Observer.new r h a with
              | none => rw [hnew] at hf; cases hf
              | some p =>
                obtain ⟨h5, b⟩ := p
                rw [hnew] at hf
                simp only [Option.map_some', Option.some.injEq, Prod.mk.injEq] at hf
                obtain ⟨e1, e2⟩ := hf
                subst e1; subst e2
                obtain ⟨k, o1, q1, q2, q3⟩ := observerNew_keeps r hr hk h h5 a b o ho hb hnew
                exact ⟨k, fun ob hh => by
                  simp only [Option.some.injEq] at hh
                  subst hh
                  exact ⟨o1, q1, q2, q3⟩⟩
            · simp only [Option.some.injEq, Prod.mk.injEq] at hf
              obtain ⟨e1, e2⟩ := hf
              subst e1; subst e2
              exact ⟨keeps_refl h, fun ob hh => by cases hh⟩
        split at hob
        · cases hob
        · rename_i h2 hfound
          obtain ⟨k, _⟩ := found_spec h2 none hfound
          simp only [Option.some.injEq, Prod.mk.injEq] at hob
          obtain ⟨e1, e2⟩ := hob
          subst e1; subst e2
          exact ⟨k, fun ob hh => by cases hh⟩
        · rename_i h2 b hfound
          obtain ⟨k, hlink⟩ := found_spec h2 (some b) hfound
          obtain ⟨o1, q1, q2, q3⟩ := hlink b rfl
          have fin : ∀ g : Heap, g.objs = h2.objs → some (g, some b) = some (h1, res) →
              h.KeepsObservers h1 ∧
              (∀ ob, res = some ob → ∃ a1 o2, Val.ref a = Val.ref a1 ∧ h1.objs[a1]? = some o2 ∧
                o2.ob = some ob ∧ o2.kind ≠ ObjKind.vnode) := by
            intro g hg hres
            simp only [Option.some.injEq, Prod.mk.injEq] at hres
            obtain ⟨e1, e2⟩ := hres
            subst e1; subst e2
            refine ⟨keeps_trans _ _ _ k (keeps_of_objs_eq _ _ hg), ?_⟩
            intro ob hh
            simp only [Option.some.injEq] at hh
            subst hh
            exact ⟨a, o1, rfl, by rw [hg]; exact q1, q2, by rw [q3]; exact hv⟩
          split at hob
          · split at hob
            · refine fin _ ?_ hob; rfl
            · refine fin _ ?_ hob; rfl
          · refine fin _ ?_ hob; rfl
  | undefined => exact trivial_case h1 hob
  | null => exact trivial_case h1 hob
  | bool b => exact trivial_case h1 hob
  | num n => exact trivial_case h1 hob
  | nan => exact trivial_case h1 hob
  | str t => exact trivial_case h1 hob

theorem keeps_setClosure (h : Heap) (c : Nat) (cl : Closure) :
    h.KeepsObservers (h.setClosure c cl) :=
  keeps_of_objs_eq _ _ rfl

theorem reactiveSetter_tail_keeps (r : Calls) (hk : r.KeepObservers) (h2 h1 : Heap) (c dep : Nat)
    (shallow : Bool) (newVal : Val)
    (hs : (match (if shallow then some (h2, none) else r.observe h2 newVal false :
              Option (Heap × Option Nat)) with
          | none => none
          | some (h3, childOb) =>
            some { (match h3.closures[c]? with
                    | some cl3 => h3.setClosure c { cl3 with childOb := childOb }
                    | none => h3) with
                   notified := (match h3.closures[c]? with
                    | some cl3 => h3.setClosure c { cl3 with childOb := childOb }
                    | none => h3).notified ++ [dep] }) = some h1) :
    h2.KeepsObservers h1 := by
  split at hs
  · cases hs
  · rename_i h3 childOb hobs
    have k3 : h2.KeepsObservers h3 := by
      split at hobs
      · simp only [Option.some.injEq, Prod.mk.injEq] at hobs
        rw [← hobs.1]; exact keeps_refl _
      · exact hk.1 _ _ _ _ _ hobs
    simp only [Option.some.injEq] at hs
    rw [← hs]
    apply keeps_trans _ _ _ k3
    apply keeps_of_objs_eq
    split <;> rfl

theorem reactiveSetter_keeps (r : Calls) (hr : r.ReadsOnly) (hk : r.KeepObservers)
    (h h1 : Heap) (c : Nat) (newVal : Val) (hs : reactiveSetter r h c newVal = some h1) :
    h.KeepsObservers h1 := by
  unfold reactiveSetter at hs
  cases hc : h.closures[c]? with
  | none => rw [hc] at hs; cases hs
  | some cl =>
    rw [hc] at hs
    simp only at hs
    cases hcv : currentValue r h cl with
    | none => rw [hcv] at hs; cases hs
    | some p =>
      obtain ⟨h2, value⟩ := p
      rw [hcv] at hs
      simp only at hs
      have k2 : h.KeepsObservers h2 :=
        keeps_of_reads _ _ (currentValue_readsOnly r hr h h2 cl value hcv)
      by_cases hsame : (strictEq newVal value ||
          (!(strictEq newVal newVal) && !(strictEq value value))) = true
      · rw [if_pos hsame] at hs
        simp only [Option.some.injEq] at hs; rw [← hs]; exact k2
      · rw [if_neg hsame] at hs
        by_cases hgs : (cl.getter.isSome && cl.setter.isNone) = true
        · rw [if_pos hgs] at hs
          simp only [Option.some.injEq] at hs; rw [← hs]; exact k2
        · rw [if_neg hgs] at hs
          cases hset : cl.setter with
          | some f =>
            rw [hset] at hs
            simp only at hs
            cases hw : r.callSet h2 f newVal with
            | none => rw [hw] at hs; cases hs
            | some h3 =>
              rw [hw] at hs
              exact keeps_trans _ _ _ k2 (keeps_trans _ _ _ (hk.2 _ _ _ _ hw)
                (reactiveSetter_tail_keeps r hk h3 h1 c cl.dep cl.shallow newVal hs))
          | none =>
            rw [hset] at hs
            simp only at hs
            cases hc2 : h2.closures[c]? with
            | some cl1 =>
              rw [hc2] at hs
              exact keeps_trans _ _ _ k2 (keeps_trans _ _ _ (keeps_setClosure _ _ _)
                (reactiveSetter_tail_keeps r hk _ h1 c cl.dep cl.shallow newVal hs))
            | none =>
              rw [hc2] at hs
              exact keeps_trans _ _ _ k2
                (reactiveSetter_tail_keeps r hk _ h1 c cl.dep cl.shallow newVal hs)

theorem callSetBody_keeps (r : Calls) (hr : r.ReadsOnly) (hk : r.KeepObservers)
    (h h1 : Heap) (f : Fn) (newVal : Val) (hs : callSetBody r h f newVal = some h1) :
    h.KeepsObservers h1 := by
  unfold callSetBody at hs
  cases f with
  | user n =>
    simp only [Option.some.injEq] at hs
    rw [← hs]; exact keeps_of_objs_eq _ _ rfl
  | reactive c =>
    simp only at hs
    exact keeps_trans _ _ _
      (keeps_of_objs_eq h { h with setCalls := h.setCalls ++ [(Fn.reactive c, newVal)] } rfl)
      (reactiveSetter_keeps r hr hk _ h1 c newVal hs)

theorem within_keeps (depth : Nat) : (Calls.within depth).KeepObservers := by
  induction depth with
  | zero =>
    refine ⟨?_, ?_⟩
    · intro h v root h1 ob hh; simp [Calls.within] at hh
    · intro h f v h1 hh; simp [Calls.within] at hh
  | succ n ih =>
    refine ⟨?_, ?_⟩
    · intro h v root h1 ob hh
      exact (observeBody_spec _ (within_readsOnly n) ih h h1 v root ob hh).1
    · intro h f v h1 hh
      exact callSetBody_keeps _ (within_readsOnly n) ih h h1 f v hh

/-- A later `observe` call, of any value, keeps the observers attached so far. -/
theorem observe_keeps (depth : Nat) (h h1 : Heap) (v : Val) (root : Bool) (res : Option Nat)
    (ho : observe depth h v root = some (h1, res)) : h.KeepsObservers h1 :=
  (within_keeps depth).1 h v root h1 res ho

/-- An assignment to a reactive property keeps the observers attached so far. -/
theorem assignReactive_keeps (depth : Nat) (h h1 : Heap) (c : Nat) (newVal : Val)
    (hs : assignReactive depth h c newVal = some h1) : h.KeepsObservers h1 :=
  reactiveSetter_keeps _ (within_readsOnly depth) (within_keeps depth) h h1 c newVal hs

/-- A read of a reactive property keeps the observers attached so far. -/
theorem readReactive_keeps (depth : Nat) (h h1 : Heap) (c : Nat) (v : Val)
    (hs : readReactive depth h c = some (h1, v)) : h.KeepsObservers h1 :=
  keeps_of_reads _ _ (reactiveGetter_readsOnly _ (within_readsOnly depth) h h1 c v hs)

/-- `toggleObserving` keeps the observers attached so far. -/
theorem toggleObserving_keeps (h : Heap) (value : Bool) :
    h.KeepsObservers (toggleObserving h value) :=
  keeps_of_objs_eq _ _ rfl

/-- C10. Once `observe(v)` has returned an Observer `ob`, every later `observe(v)` (in any
state `g` that followed by `observe` calls, assignments to and reads of reactive properties
and `toggleObserving`, hence whatever `shouldObserve` is by then) returns that same `ob`
and constructs nothing: objects with their `__ob__` and property accessors, closures, the
Dep counter and the number of Observers are unchanged; only `ob.vmCount` is incremented when
the call passes `asRootData`. -/
theorem observe_idempotent (depth : Nat) (h h1 : Heap) (v : Val) (root : Bool) (ob : Nat)
    (hfirst : observe depth h v root = some (h1, some ob))
    (g : Heap) (hlater : h1.KeepsObservers g) (depth2 : Nat) (root2 : Bool) :
    ∃ g1 : Heap, observe (depth2 + 1) g v root2 = some (g1, some ob) ∧
      g1.objs = g.objs ∧ g1.closures = g.closures ∧ g1.depUid = g.depUid ∧
      g1.observers.length = g.observers.length ∧
      (∀ b : Nat, (g1.observers[b]?).map (fun (x : Observer) => (x.value, x.dep)) =
        (g.observers[b]?).map (fun (x : Observer) => (x.value, x.dep))) ∧
      (root2 = false → g1 = g) := by
  cases depth with
  | zero => simp [observe, Calls.within] at hfirst
  | succ n =>
    obtain ⟨_, hlink⟩ := observeBody_spec _ (within_readsOnly n) (within_keeps n) h h1 v root
      (some ob) hfirst
    obtain ⟨a, o1, hv, ho1, hob1, hkind1⟩ := hlink ob rfl
    obtain ⟨o2, ho2, hkind2, hob2⟩ := hlater a o1 ho1
    have hob := hob2 ob hob1
    have hkind : o2.kind ≠ ObjKind.vnode := by rw [hkind2]; exact hkind1
    subst hv
    cases root2 with
    | false =>
      refine ⟨g, ?_, rfl, rfl, rfl, rfl, fun _ => rfl, fun _ => rfl⟩
      simp [observe, Calls.within, observeBody, ho2, hkind, hob]
    | true =>
      cases hobs : g.observers[ob]? with
      | none =>
        refine ⟨g, ?_, rfl, rfl, rfl, rfl, fun _ => rfl, fun hh => by cases hh⟩
        simp [observe, Calls.within, observeBody, ho2, hkind, hob, hobs]
      | some rec =>
        refine ⟨{ g with observers := g.observers.set ob { rec with vmCount := rec.vmCount + 1 } },
          ?_, rfl, rfl, rfl, by simp, ?_, fun hh => by cases hh⟩
        · simp [observe, Calls.within, observeBody, ho2, hkind, hob, hobs]
        · intro b
          simp only [List.getElem?_set]
          by_cases hb : ob = b
          · subst hb
            have hlt : ob < g.observers.length := (List.getElem?_eq_some_iff.1 hobs).1
            simp [hlt, hobs]
          · simp [hb]

/-- Witness of C10: the sample object is observed as root data, observation is then switched
off, and a second `observe` of it returns the same Observer 0 and leaves the state as it is. -/
theorem observe_idempotent_witness :
    observe 10 Heap.sample (Val.ref 0) true = some (Heap.observedSample, some 0) ∧
    Heap.observedSample.KeepsObservers (toggleObserving Heap.observedSample false) ∧
    ∃ g1 : Heap, observe (0 + 1) (toggleObserving Heap.observedSample false) (Val.ref 0) false
        = some (g1, some 0) ∧
      g1.objs = (toggleObserving Heap.observedSample false).objs ∧
      g1.closures = (toggleObserving Heap.observedSample false).closures ∧
      g1.depUid = (toggleObserving Heap.observedSample false).depUid ∧
      g1.observers.length = (toggleObserving Heap.observedSample false).observers.length ∧
      (∀ b : Nat, (g1.observers[b]?).map (fun (x : Observer) => (x.value, x.dep)) =
        ((toggleObserving Heap.observedSample false).observers[b]?).map
          (fun (x : Observer) => (x.value, x.dep))) ∧
      (false = false → g1 = toggleObserving Heap.observedSample false) :=
  ⟨rfl, toggleObserving_keeps _ _,
   observe_idempotent 10 Heap.sample Heap.observedSample (Val.ref 0) true 0 rfl
    (toggleObserving Heap.observedSample false) (toggleObserving_keeps _ _) 0 false⟩

/-- With observation switched off, a value that was never observed gets no Observer, while
the observed sample object still returns its own. -/
theorem observe_after_toggle_examples :
    (observe 5 (toggleObserving Heap.sample false) (Val.ref 0) false).map Prod.snd = some none ∧
    (observe 5 (toggleObserving Heap.observedSample false) (Val.ref 0) false).map Prod.snd
      = some (some 0) ∧
    (observe 5 (toggleObserving Heap.observedSample false) (Val.ref 1) false).map Prod.snd
      = some (some 1) := by
  decide

/-! ## Values `observe` declines -/

/-- C11. `observe(v)` returns `undefined` and changes nothing at all (the state after the
call is the state before it: no `__ob__`, no converted property, no new Dep or Observer)
whenever `v` is not an object, is a VNode, or carries no Observer and is non-extensible, or
flagged `_isVue`, or neither an array nor a plain object, or `shouldObserve` is off. -/
theorem observe_declines (depth : Nat) (h : Heap) (v : Val) (asRootData : Bool)
    (hv : isObject v = false ∨
      ∃ (a : Nat) (o : Obj), v = Val.ref a ∧ h.objs[a]? = some o ∧
        (o.kind = ObjKind.vnode ∨
          (o.ob = none ∧ (o.extensible = false ∨ o.isVue = true ∨
            (o.kind ≠ ObjKind.array ∧ o.kind ≠ ObjKind.plain) ∨ h.shouldObserve = false)))) :
    observe (depth + 1) h v asRootData = some (h, none) := by
  rcases hv with hv | ⟨a, o, rfl, ho, hcase⟩
  · cases v <;> simp [isObject] at hv <;> simp [observe, Calls.within, observeBody]
  · simp only [observe, Calls.within, observeBody, ho]
    by_cases hk : o.kind = ObjKind.vnode
    · simp [hk]
    · rcases hcase with hc | ⟨hob, hc⟩
      · exact absurd hc hk
      · rw [if_neg hk, hob]
        rcases hc with hc | hc | hc | hc
        · simp [hc]
        · simp [hc]
        · simp [hc.1, hc.2]
        · simp [hc]

/-- Witness of C11: with observation switched off the sample object gets no Observer and
the state is left as it was. -/
theorem observe_declines_witness :
    observe (0 + 1) (toggleObserving Heap.sample false) (Val.ref 0) true
      = some (toggleObserving Heap.sample false, none) :=
  observe_declines 0 (toggleObserving Heap.sample false) (Val.ref 0) true
    (Or.inr ⟨0, Obj.plainOf [("a", Val.num 1), ("b", Val.ref 1)], rfl, rfl,
      Or.inr ⟨rfl, Or.inr (Or.inr (Or.inr rfl))⟩⟩)

/-! ## `teardown` -/

/-- On a watcher that is not active `teardown()` does nothing. -/
theorem teardown_of_inactive (s : World) (w : Nat) (h : (s.watchers w).active = false) :
    Watcher.teardown s w = s := by
  unfold Watcher.teardown
  simp [h]

/-- What `teardown()` of an active watcher leaves in each `subs`, counted per watcher. -/
theorem count_subs_teardown (s : World) (w x y : Nat) (hact : (s.watchers w).active = true) :
    ((Watcher.teardown s w).subs y).count x =
      if x = w then (s.subs y).count x - (s.watchers w).deps.count y
      else (s.subs y).count x := by
  unfold Watcher.teardown
  simp only [hact, if_true]
  rw [teardown_loop_eq]
  simp only [subs_setWatcher]
  rw [count_subs_removeLoop]
  by_cases hb : (s.vms (s.watchers w).vm)._isBeingDestroyed <;> simp [hb, World.setVm]

/-- After `teardown()` of an active watcher its `active` flag is false. -/
theorem active_teardown (s : World) (w : Nat) :
    ((Watcher.teardown s w).watchers w).active = false := by
  unfold Watcher.teardown
  by_cases hact : (s.watchers w).active
  · simp only [hact, if_true, watchers_setWatcher]
  · simp only [hact]
    simpa using hact

/-- C12. In a reachable state, for an active watcher that is in the `subs` of exactly the
Deps of its `deps` list: after `teardown()` the watcher is in no Dep's `subs`, its `active`
flag is false and the subscriptions of the other watchers are as they were; a second
`teardown()` leaves the whole state (the watcher, every `subs`, every `vm._watchers`) as
the first left it. -/
theorem teardown_unsubscribes_and_is_idempotent (s : World) (w : Nat) (hr : Reachable s)
    (hact : (s.watchers w).active = true)
    (hsubs : ∀ d, w ∈ s.subs d ↔ d ∈ (s.watchers w).deps) :
    (∀ d, w ∉ (Watcher.teardown s w).subs d) ∧
    ((Watcher.teardown s w).watchers w).active = false ∧
    (∀ d x, x ≠ w → ((Watcher.teardown s w).subs d).count x = (s.subs d).count x) ∧
    Watcher.teardown (Watcher.teardown s w) w = Watcher.teardown s w := by
  refine ⟨?_, active_teardown s w, ?_, teardown_of_inactive _ w (active_teardown s w)⟩
  · intro d
    rw [← List.count_eq_zero, count_subs_teardown s w w d hact]
    simp only [if_true]
    have h1 := (reachable_WF s hr).1 w d
    by_cases hm : w ∈ s.subs d
    · have := List.count_pos_iff.2 ((hsubs d).1 hm)
      omega
    · rw [List.count_eq_zero.2 hm]
      omega
  · intro d x hx
    rw [count_subs_teardown s w x d hact]
    simp [hx]

/-- Witness of C12: the watcher constructed first, reading Deps 1, 2, 1, is torn down. -/
theorem teardown_unsubscribes_and_is_idempotent_witness :
    Reachable (Watcher.new World.init 0 none false Evaluation.first).1 ∧
    ((Watcher.new World.init 0 none false Evaluation.first).1.watchers 1).active = true ∧
    (∀ d, 1 ∉ (Watcher.teardown (Watcher.new World.init 0 none false Evaluation.first).1 1).subs d) ∧
    ((Watcher.teardown (Watcher.new World.init 0 none false Evaluation.first).1 1).watchers 1).active
      = false ∧
    Watcher.teardown (Watcher.teardown (Watcher.new World.init 0 none false Evaluation.first).1 1) 1
      = Watcher.teardown (Watcher.new World.init 0 none false Evaluation.first).1 1 :=
  ⟨Reachable.construct World.init 0 none false Evaluation.first Reachable.init, rfl,
   (teardown_unsubscribes_and_is_idempotent _ 1
      (Reachable.construct World.init 0 none false Evaluation.first Reachable.init) rfl
      first_constructed_consistent.1).1,
   (teardown_unsubscribes_and_is_idempotent _ 1
      (Reachable.construct World.init 0 none false Evaluation.first Reachable.init) rfl
      first_constructed_consistent.1).2.1,
   (teardown_unsubscribes_and_is_idempotent _ 1
      (Reachable.construct World.init 0 none false Evaluation.first Reachable.init) rfl
      first_constructed_consistent.1).2.2.2⟩

/-! ## What `get()` leaves alone -/

theorem sameButDeps_refl (s : World) : s.SameButDeps s :=
  ⟨rfl, rfl, rfl, rfl, rfl, fun _ => ⟨rfl, rfl, rfl, rfl, rfl, rfl, rfl, rfl⟩⟩

theorem sameButDeps_trans (s t u : World) (h1 : s.SameButDeps t) (h2 : t.SameButDeps u) :
    s.SameButDeps u := by
  obtain ⟨a1, a2, a3, a4, a5, a6⟩ := h1
  obtain ⟨b1, b2, b3, b4, b5, b6⟩ := h2
  refine ⟨b1.trans a1, b2.trans a2, b3.trans a3, b4.trans a4, b5.trans a5, fun x => ?_⟩
  obtain ⟨c1, c2, c3, c4, c5, c6, c7, c8⟩ := a6 x
  obtain ⟨d1, d2, d3, d4, d5, d6, d7, d8⟩ := b6 x
  exact ⟨d1.trans c1, d2.trans c2, d3.trans c3, d4.trans c4, d5.trans c5, d6.trans c6,
    d7.trans c7, d8.trans c8⟩

theorem sameButDeps_addDep (s : World) (w d : Nat) : s.SameButDeps (Watcher.addDep s w d) := by
  unfold Watcher.addDep
  by_cases h1 : d ∈ (s.watchers w).newDepIds
  · simp only [h1, if_true]; exact sameButDeps_refl s
  · simp only [h1, if_false]
    have hw : s.SameButDeps (s.setWatcher w
        { s.watchers w with newDepIds := setAdd (s.watchers w).newDepIds d,
                            newDeps := (s.watchers w).newDeps ++ [d] }) := by
      refine ⟨rfl, rfl, rfl, rfl, rfl, fun x => ?_⟩
      simp only [watchers_setWatcher]
      split
      · rename_i hx; subst hx; exact ⟨rfl, rfl, rfl, rfl, rfl, rfl, rfl, rfl⟩
      · exact ⟨rfl, rfl, rfl, rfl, rfl, rfl, rfl, rfl⟩
    by_cases h2 : d ∈ (s.watchers w).depIds
    · simp only [h2, if_true]; exact hw
    · simp only [h2, if_false]
      exact sameButDeps_trans _ _ _ hw
        ⟨rfl, rfl, rfl, rfl, rfl, fun _ => ⟨rfl, rfl, rfl, rfl, rfl, rfl, rfl, rfl⟩⟩

theorem sameButDeps_depend (s : World) (d : Nat) : s.SameButDeps (Dep.depend s d) := by
  unfold Dep.depend
  cases s.target with
  | none => exact sameButDeps_refl s
  | some w => exact sameButDeps_addDep s w d

theorem sameButDeps_foldl_depend (L : List Nat) :
    ∀ s : World, s.SameButDeps (L.foldl Dep.depend s) := by
  induction L with
  | nil => intro s; exact sameButDeps_refl s
  | cons a L ih =>
    intro s
    exact sameButDeps_trans _ _ _ (sameButDeps_depend s a) (ih _)

theorem sameButDeps_removeLoop (w : Nat) (N L : List Nat) (s : World) :
    s.SameButDeps (L.foldr (fun d acc => if d ∈ N then acc else Dep.removeSub acc d w) s) := by
  induction L with
  | nil => exact sameButDeps_refl s
  | cons a L ih =>
    simp only [List.foldr_cons]
    by_cases ha : a ∈ N
    · simp only [ha, if_true]; exact ih
    · simp only [ha, if_false]
      exact sameButDeps_trans _ _ _ ih
        ⟨rfl, rfl, rfl, rfl, rfl, fun _ => ⟨rfl, rfl, rfl, rfl, rfl, rfl, rfl, rfl⟩⟩

theorem sameButDeps_cleanupDeps (s : World) (w : Nat) :
    s.SameButDeps (Watcher.cleanupDeps s w) := by
  unfold Watcher.cleanupDeps
  refine sameButDeps_trans _ _ _
    (sameButDeps_removeLoop w (s.watchers w).newDepIds (s.watchers w).deps s) ?_
  refine ⟨rfl, rfl, rfl, rfl, rfl, fun x => ?_⟩
  simp only [watchers_setWatcher, watchers_removeLoop]
  split
  · rename_i hx; subst hx; exact ⟨rfl, rfl, rfl, rfl, rfl, rfl, rfl, rfl⟩
  · exact ⟨rfl, rfl, rfl, rfl, rfl, rfl, rfl, rfl⟩

/-- The state `get()` leaves differs from the state with the error report added (if the
getter threw in a `user` watcher) in dependency bookkeeping only. -/
theorem get_frame (s : World) (w : Nat) (ev : Evaluation) :
    World.SameButDeps
      { s with errors := s.errors ++ ev.reported (s.watchers w).user }
      (Watcher.get s w ev).1 := by
  have hpush : ∀ (t : World) (x : Option Nat), t.SameButDeps (pushTarget t x) := fun _ _ =>
    ⟨rfl, rfl, rfl, rfl, rfl, fun _ => ⟨rfl, rfl, rfl, rfl, rfl, rfl, rfl, rfl⟩⟩
  have hpop : ∀ t : World, t.SameButDeps (popTarget t) := fun _ =>
    ⟨rfl, rfl, rfl, rfl, rfl, fun _ => ⟨rfl, rfl, rfl, rfl, rfl, rfl, rfl, rfl⟩⟩
  have herr : ∀ (t u : World) (l : List Val), t.SameButDeps u →
      World.SameButDeps { t with errors := t.errors ++ l } { u with errors := u.errors ++ l } := by
    intro t u l h
    obtain ⟨a1, a2, a3, a4, a5, a6⟩ := h
    exact ⟨by show u.errors ++ l = t.errors ++ l; rw [a1], a2, a3, a4, a5, a6⟩
  have htail : ∀ (t : World) (L : List Nat) (b : Bool),
      t.SameButDeps (Watcher.cleanupDeps (popTarget (if b then L.foldl Dep.depend t else t)) w) := by
    intro t L b
    refine sameButDeps_trans _ _ _ ?_ (sameButDeps_cleanupDeps _ w)
    refine sameButDeps_trans _ _ _ ?_ (hpop _)
    cases b
    · exact sameButDeps_refl t
    · exact sameButDeps_foldl_depend L t
  have hhead : s.SameButDeps (ev.reads.foldl Dep.depend (pushTarget s (some w))) :=
    sameButDeps_trans _ _ _ (hpush s (some w)) (sameButDeps_foldl_depend _ _)
  cases ho : ev.outcome with
  | ok v =>
    have e1 : (Watcher.get s w ev).1 = Watcher.cleanupDeps (popTarget
        (if (s.watchers w).deep then (ev.traverse v).foldl Dep.depend
          (ev.reads.foldl Dep.depend (pushTarget s (some w)))
         else ev.reads.foldl Dep.depend (pushTarget s (some w)))) w := by
      simp [Watcher.get, ho]
    rw [e1]
    have e2 : ({ s with errors := s.errors ++ ev.reported (s.watchers w).user } : World) = s := by
      simp [Evaluation.reported, ho]
    rw [e2]
    exact sameButDeps_trans _ _ _ hhead (htail _ _ _)
  | error e =>
    by_cases hu : (s.watchers w).user
    · have e1 : (Watcher.get s w ev).1 = Watcher.cleanupDeps (popTarget
          (if (s.watchers w).deep then (ev.traverse Val.undefined).foldl Dep.depend
            { (ev.reads.foldl Dep.depend (pushTarget s (some w))) with
              errors := (ev.reads.foldl Dep.depend (pushTarget s (some w))).errors ++ [e] }
           else { (ev.reads.foldl Dep.depend (pushTarget s (some w))) with
              errors := (ev.reads.foldl Dep.depend (pushTarget s (some w))).errors ++ [e] })) w := by
        simp [Watcher.get, ho, hu]
      rw [e1]
      have e2 : ev.reported (s.watchers w).user = [e] := by simp [Evaluation.reported, ho, hu]
      rw [e2]
      exact sameButDeps_trans _ _ _ (herr _ _ [e] hhead) (htail _ _ _)
    · have e1 : (Watcher.get s w ev).1 = Watcher.cleanupDeps (popTarget
          (if (s.watchers w).deep then (ev.traverse Val.undefined).foldl Dep.depend
            (ev.reads.foldl Dep.depend (pushTarget s (some w)))
           else ev.reads.foldl Dep.depend (pushTarget s (some w)))) w := by
        simp [Watcher.get, ho, hu]
      rw [e1]
      have e2 : ({ s with errors := s.errors ++ ev.reported (s.watchers w).user } : World) = s := by
        simp [Evaluation.reported, ho, hu]
      rw [e2]
      exact sameButDeps_trans _ _ _ hhead (htail _ _ _)

/-- What `get()` returns or throws. -/
theorem get_snd (s : World) (w : Nat) (ev : Evaluation) :
    (Watcher.get s w ev).2 =
      match ev.outcome with
      | Except.ok v => Except.ok v
      | Except.error e => if (s.watchers w).user then Except.ok Val.undefined else Except.error e := by
  cases ho : ev.outcome with
  | ok v => simp [Watcher.get, ho]
  | error e =>
    by_cases hu : (s.watchers w).user <;> simp [Watcher.get, ho, hu]

/-! ## `run()` and the errors of `get()` -/

/-- C13. `run()` on a watcher that is not active returns with the state as it was (no
evaluation, no callback, stored value unchanged). On an active watcher whose `get()` returns
`value`, the callback is called if and only if `value !== this.value`, or `value` is an
object, or `deep` is set, and then exactly once, with `(value, previous value)`, and `value`
is stored; otherwise neither. If `get()` throws, `run()` throws the same error and calls
nothing. -/
theorem run_calls_back_iff (s : World) (w : Nat) (ev : Evaluation) :
    ((s.watchers w).active = false → Watcher.run s w ev = (s, Except.ok ())) ∧
    ((s.watchers w).active = true → ∀ value : Val, (Watcher.get s w ev).2 = Except.ok value →
      (Watcher.run s w ev).2 = Except.ok () ∧
      (Watcher.run s w ev).1.cbCalls = s.cbCalls ++
        (if Watcher.mustCall value (s.watchers w).value (s.watchers w).deep
         then [(w, value, (s.watchers w).value)] else []) ∧
      ((Watcher.run s w ev).1.watchers w).value =
        (if Watcher.mustCall value (s.watchers w).value (s.watchers w).deep
         then value else (s.watchers w).value)) ∧
    ((s.watchers w).active = true → ∀ e : Val, (Watcher.get s w ev).2 = Except.error e →
      (Watcher.run s w ev).2 = Except.error e ∧
      (Watcher.run s w ev).1.cbCalls = s.cbCalls ∧
      ((Watcher.run s w ev).1.watchers w).value = (s.watchers w).value) := by
  obtain ⟨_, f2, _, _, _, f6⟩ := get_frame s w ev
  obtain ⟨g1, _, g3, _⟩ := f6 w
  have f2 : (Watcher.get s w ev).1.cbCalls = s.cbCalls := f2
  have g1 : ((Watcher.get s w ev).1.watchers w).value = (s.watchers w).value := g1
  have g3 : ((Watcher.get s w ev).1.watchers w).deep = (s.watchers w).deep := g3
  refine ⟨?_, ?_, ?_⟩
  · intro hact
    unfold Watcher.run
    simp [hact]
  · intro hact value hv
    unfold Watcher.run
    simp only [hact, if_true]
    cases hres : Watcher.get s w ev with
    | mk s1 r =>
      rw [hres] at hv f2 g1 g3
      simp only at hv f2 g1 g3
      subst hv
      simp only
      rw [g1, g3]
      unfold Watcher.mustCall
      split
      · exact ⟨rfl, by simp [World.setWatcher, f2], by simp⟩
      · exact ⟨rfl, by simp [f2], g1⟩
  · intro hact e hv
    unfold Watcher.run
    simp only [hact, if_true]
    cases hres : Watcher.get s w ev with
    | mk s1 r =>
      rw [hres] at hv f2 g1 g3
      simp only at hv f2 g1 g3
      subst hv
      exact ⟨rfl, f2, g1⟩

/-- Witness of C13: the sample watcher (stored value `undefined`) re-evaluates to `7`, and
its callback is called once with `(7, undefined)`. -/
theorem run_calls_back_iff_witness :
    (World.sample.watchers 1).active = true ∧
    (Watcher.get World.sample 1 Evaluation.sample).2 = Except.ok (Val.num 7) ∧
    (Watcher.run World.sample 1 Evaluation.sample).2 = Except.ok () ∧
    (Watcher.run World.sample 1 Evaluation.sample).1.cbCalls = World.sample.cbCalls ++
      (if Watcher.mustCall (Val.num 7) (World.sample.watchers 1).value
          (World.sample.watchers 1).deep
       then [(1, Val.num 7, (World.sample.watchers 1).value)] else []) ∧
    ((Watcher.run World.sample 1 Evaluation.sample).1.watchers 1).value =
      (if Watcher.mustCall (Val.num 7) (World.sample.watchers 1).value
          (World.sample.watchers 1).deep
       then Val.num 7 else (World.sample.watchers 1).value) :=
  ⟨rfl, rfl, (run_calls_back_iff World.sample 1 Evaluation.sample).2.1 rfl (Val.num 7) rfl⟩

/-- C14. When the getter throws `e` during `get()`: in a `user` watcher `e` is handed to
`handleError` (once, nothing else is) and `get()` returns `undefined`; otherwise `get()`
throws `e` and nothing is handed to `handleError`. `get()` throws if and only if the getter
throws and `user` is false, and what it throws is what the getter threw. -/
theorem get_throws_iff (s : World) (w : Nat) (ev : Evaluation) :
    (∀ e : Val, ev.outcome = Except.error e → (s.watchers w).user = true →
      (Watcher.get s w ev).2 = Except.ok Val.undefined ∧
      (Watcher.get s w ev).1.errors = s.errors ++ [e]) ∧
    (∀ e : Val, ev.outcome = Except.error e → (s.watchers w).user = false →
      (Watcher.get s w ev).2 = Except.error e ∧ (Watcher.get s w ev).1.errors = s.errors) ∧
    (∀ e : Val, (Watcher.get s w ev).2 = Except.error e ↔
      (ev.outcome = Except.error e ∧ (s.watchers w).user = false)) := by
  have herr : (Watcher.get s w ev).1.errors = s.errors ++ ev.reported (s.watchers w).user :=
    (get_frame s w ev).1
  have hsnd := get_snd s w ev
  refine ⟨?_, ?_, ?_⟩
  · intro e he hu
    rw [herr, hsnd]
    simp [he, hu, Evaluation.reported]
  · intro e he hu
    rw [herr, hsnd]
    simp [he, hu, Evaluation.reported]
  · intro e
    rw [hsnd]
    cases ho : ev.outcome with
    | ok v => simp
    | error e1 =>
      by_cases hu : (s.watchers w).user <;> simp [hu]

/-- Witness of C14: the sample watcher is not a `user` watcher, so the error of its getter
comes out of `get()`. -/
theorem get_throws_iff_witness :
    Evaluation.throwing.outcome = Except.error (Val.str "boom") ∧
    (World.sample.watchers 1).user = false ∧
    (Watcher.get World.sample 1 Evaluation.throwing).2 = Except.error (Val.str "boom") ∧
    (Watcher.get World.sample 1 Evaluation.throwing).1.errors = World.sample.errors :=
  ⟨rfl, rfl, (get_throws_iff World.sample 1 Evaluation.throwing).2.1 (Val.str "boom") rfl rfl⟩

/-! ## The entries behind the cursor stay sorted -/

/-- Every entry from the position the scan of `queueWatcher` stops at has a greater id. -/
theorem scanBack_gt (q : List Nat) (index w : Nat) :
    ∀ n i, scanBack q index w n ≤ i → i < n → w < q.getD i 0 := by
  intro n
  induction n with
  | zero => intro i _ h; omega
  | succ n ih =>
    intro i h1 h2
    unfold scanBack at h1
    split at h1
    · rename_i hc
      by_cases hi : i = n
      · subst hi; exact hc.2
      · exact ih i h1 (by omega)
    · omega

/-- The scan of `queueWatcher` stops just behind the cursor, or behind an entry whose id is
not greater. -/
theorem scanBack_stop (q : List Nat) (index w : Nat) :
    ∀ n, index < n →
      scanBack q index w n = index + 1 ∨ q.getD (scanBack q index w n - 1) 0 ≤ w := by
  intro n
  induction n with
  | zero => intro h; omega
  | succ n ih =>
    intro h
    unfold scanBack
    split
    · rename_i hc; exact ih hc.1
    · rename_i hc
      by_cases hi : index = n
      · left; omega
      · right
        have hlt : index < n := by omega
        simp only [Nat.add_sub_cancel]
        by_contra hcon
        exact hc ⟨hlt, by omega⟩

theorem sorted_getD (T : List Nat) (hs : T.Pairwise (· ≤ ·)) (a b : Nat) (hab : a ≤ b)
    (hb : b < T.length) : T.getD a 0 ≤ T.getD b 0 := by
  by_cases he : a = b
  · rw [he]
  · have h := List.pairwise_iff_getElem.1 hs a b (by omega) hb (by omega)
    rw [List.getD_eq_getElem _ _ (by omega : a < T.length), List.getD_eq_getElem _ _ hb]
    exact h

theorem getD_drop_nat (q : List Nat) (n i : Nat) : (q.drop n).getD i 0 = q.getD (n + i) 0 := by
  simp [List.getD_eq_getElem?_getD, List.getElem?_drop]

theorem mem_getD (T : List Nat) (a : Nat) (h : a ∈ T) : ∃ i, i < T.length ∧ T.getD i 0 = a := by
  obtain ⟨i, hi, he⟩ := List.mem_iff_getElem.1 h
  exact ⟨i, hi, by rw [List.getD_eq_getElem _ _ hi]; exact he⟩

/-- The `splice` of `queueWatcher` keeps the entries behind the cursor sorted. -/
theorem tail_sorted_spliceIn (q : List Nat) (index w : Nat) (hlt : index < q.length)
    (hs : (q.drop (index + 1)).Pairwise (· ≤ ·)) :
    ((spliceIn q (scanBack q index w q.length) w).drop (index + 1)).Pairwise (· ≤ ·) := by
  have hj1 := lt_scanBack q index w q.length hlt
  have hj2 := scanBack_le q index w q.length
  have hgt := scanBack_gt q index w q.length
  have hstop := scanBack_stop q index w q.length hlt
  generalize scanBack q index w q.length = j at hj1 hj2 hgt hstop
  have hlen : (q.take j).length = j := by simp [hj2]
  have h1 : (spliceIn q j w).drop (index + 1) = (q.take j).drop (index + 1) ++ w :: q.drop j := by
    unfold spliceIn
    rw [List.drop_append_of_le_length (by omega)]
  have h2 : q.drop (index + 1) = (q.take j).drop (index + 1) ++ q.drop j := by
    conv_lhs => rw [← List.take_append_drop j q]
    rw [List.drop_append_of_le_length (by omega)]
  have hs0 := hs
  rw [h2] at hs
  obtain ⟨hA, hB, hAB⟩ := List.pairwise_append.1 hs
  have hwB : ∀ b ∈ q.drop j, w ≤ b := by
    intro b hb
    obtain ⟨i, hi, rfl⟩ := mem_getD _ b hb
    rw [getD_drop_nat]
    rw [List.length_drop] at hi
    exact Nat.le_of_lt (hgt (j + i) (by omega) (by omega))
  have hAw : ∀ a ∈ (q.take j).drop (index + 1), a ≤ w := by
    intro a ha
    rcases hstop with hst | hst
    · rw [hst, List.drop_eq_nil_of_le (List.length_take_le _ _)] at ha
      cases ha
    · obtain ⟨i, hi, rfl⟩ := mem_getD _ a ha
      rw [List.length_drop, hlen] at hi
      have e1 : ((q.take j).drop (index + 1)).getD i 0 = (q.drop (index + 1)).getD i 0 := by
        rw [h2, List.getD_append _ _ _ _ (by rw [List.length_drop, hlen]; exact hi)]
      have e2 : q.getD (j - 1) 0 = (q.drop (index + 1)).getD (j - 1 - (index + 1)) 0 := by
        rw [getD_drop_nat]; congr 1; omega
      rw [e1]
      rw [e2] at hst
      refine Nat.le_trans (sorted_getD _ hs0 i (j - 1 - (index + 1)) (by omega) ?_) hst
      rw [List.length_drop]; omega
  rw [h1]
  refine List.pairwise_append.2 ⟨hA, List.pairwise_cons.2 ⟨hwB, hB⟩, ?_⟩
  intro a ha b hb
  rcases List.mem_cons.1 hb with hb | hb
  · subst hb; exact hAw a ha
  · exact hAB a ha b hb

/-- The `splice` of `queueWatcher` leaves the entries up to the cursor where they are. -/
theorem take_spliceIn (q : List Nat) (index w : Nat) (hlt : index < q.length) :
    (spliceIn q (scanBack q index w q.length) w).take (index + 1) = q.take (index + 1) := by
  have hj1 := lt_scanBack q index w q.length hlt
  have hj2 := scanBack_le q index w q.length
  unfold spliceIn
  rw [List.take_append_of_le_length (by simp; omega), List.take_take]
  congr 1
  omega

/-- A `queueWatcher` call during a flush keeps the entries behind the cursor sorted and
the entries up to the cursor in place. -/
theorem queueWatcher_tail_sorted (s : Sched) (w : Nat) (hf : s.flushing = true)
    (hlt : s.index < s.queue.length) (hs : (s.queue.drop (s.index + 1)).Pairwise (· ≤ ·)) :
    ((queueWatcher s w).queue.drop (s.index + 1)).Pairwise (· ≤ ·) ∧
    (queueWatcher s w).queue.take (s.index + 1) = s.queue.take (s.index + 1) := by
  rw [queueWatcher_queue]
  by_cases hp : s.has w = HasMark.yes
  · rw [if_pos hp]; exact ⟨hs, rfl⟩
  · rw [if_neg hp, if_pos hf]
    exact ⟨tail_sorted_spliceIn s.queue s.index w hlt hs, take_spliceIn s.queue s.index w hlt⟩

theorem tail_sorted_of_reachable (p : Phase) (s : Sched) (h : SchedReachable p s) :
    p ≠ Phase.idle → (s.queue.drop (s.index + 1)).Pairwise (· ≤ ·) := by
  induction h with
  | init => intro h; exact absurd rfl h
  | queueIdle s w _ _ => intro h; exact absurd rfl h
  | flushStart s _ _ =>
    intro _
    exact List.Pairwise.sublist (List.drop_sublist _ _) (List.sorted_insertionSort (· ≤ ·) s.queue)
  | queueBefore s w hs hlt ih =>
    intro _
    have hf : s.flushing = true := (inv_of_reachable _ _ hs).1.2 (by simp)
    rw [(queueWatcher_frame s w).2.1]
    exact (queueWatcher_tail_sorted s w hf hlt (ih (by simp))).1
  | runStart s w _ _ ih => intro _; exact ih (by simp)
  | queueRunning s w hs ih =>
    intro _
    have hinv := inv_of_reachable _ _ hs
    have hf : s.flushing = true := hinv.1.2 (by simp)
    rw [(queueWatcher_frame s w).2.1]
    exact (queueWatcher_tail_sorted s w hf (hinv.2.1 rfl) (ih (by simp))).1
  | runEnd s _ ih =>
    intro _
    exact List.Pairwise.sublist (List.drop_sublist_drop_left _ (Nat.le_succ _)) (ih (by simp))
  | flushEnd s _ _ _ => intro h; exact absurd rfl h

/-- During a flush the entries behind the cursor are in strictly ascending id order. -/
theorem tail_strict_of_reachable (p : Phase) (s : Sched) (h : SchedReachable p s)
    (hp : p ≠ Phase.idle) : (s.queue.drop (s.index + 1)).Sorted (· < ·) := by
  have h1 : (s.queue.drop (s.index + 1)).Sorted (· ≤ ·) := tail_sorted_of_reachable p s h hp
  have hinv := inv_of_reachable p s h
  have hnd : (s.queue.drop (s.index + 1)).Nodup := by
    cases p with
    | idle => exact absurd rfl hp
    | head =>
      exact List.Nodup.sublist (List.drop_sublist_drop_left _ (Nat.le_succ _)) hinv.2.2.1
    | running => exact hinv.2.2.1
  exact h1.lt_of_le hnd

/-- C20. In every scheduler state reachable inside a flush (from the sort on, at the head
of the loop body or inside a `run()`), the queue entries at positions greater than the
cursor are in ascending id order; a `queueWatcher` call made there, with the cursor at a
watcher, leaves them so, adds the watcher to them if it was not marked present, and leaves
every entry at or before the cursor, and the cursor, unchanged. -/
theorem flush_tail_stays_sorted (p : Phase) (s : Sched) (h : SchedReachable p s)
    (hp : p ≠ Phase.idle) :
    (s.queue.drop (s.index + 1)).Sorted (· < ·) ∧
    ∀ w : Nat, s.index < s.queue.length →
      ((queueWatcher s w).queue.drop (s.index + 1)).Sorted (· < ·) ∧
      (queueWatcher s w).queue.take (s.index + 1) = s.queue.take (s.index + 1) ∧
      (queueWatcher s w).index = s.index ∧
      (s.has w ≠ HasMark.yes →
        List.Perm ((queueWatcher s w).queue.drop (s.index + 1)) (w :: s.queue.drop (s.index + 1))) := by
  refine ⟨tail_strict_of_reachable p s h hp, ?_⟩
  intro w hlt
  have hf : s.flushing = true := (inv_of_reachable p s h).1.2 hp
  have hidx := (queueWatcher_frame s w).2.1
  have hnext : SchedReachable p (queueWatcher s w) := by
    cases p with
    | idle => exact absurd rfl hp
    | head => exact SchedReachable.queueBefore s w h hlt
    | running => exact SchedReachable.queueRunning s w h
  have hsorted := tail_strict_of_reachable p _ hnext hp
  rw [hidx] at hsorted
  refine ⟨hsorted,
    (queueWatcher_tail_sorted s w hf hlt (tail_sorted_of_reachable p s h hp)).2, hidx, ?_⟩
  intro hnp
  rw [queueWatcher_queue, if_neg hnp, if_pos hf]
  exact drop_spliceIn_perm s.queue _ (s.index + 1) w
    (lt_scanBack s.queue s.index w s.queue.length hlt) (scanBack_le _ _ _ _)

/-- Witness of C20: inside the run of watcher 1, with watchers 2 and 3 behind the cursor. -/
theorem flush_tail_stays_sorted_witness :
    SchedReachable Phase.running Sched.midFlush ∧ Phase.running ≠ Phase.idle ∧
    (Sched.midFlush.queue.drop (Sched.midFlush.index + 1)).Sorted (· < ·) :=
  ⟨SchedReachable.queueRunning _ 2
      (SchedReachable.runStart _ 1
        (SchedReachable.flushStart _
          (SchedReachable.queueIdle _ 1 (SchedReachable.queueIdle _ 3 SchedReachable.init)))
        (by decide)),
   by decide,
   (flush_tail_stays_sorted Phase.running Sched.midFlush
    (SchedReachable.queueRunning _ 2
      (SchedReachable.runStart _ 1
        (SchedReachable.flushStart _
          (SchedReachable.queueIdle _ 1 (SchedReachable.queueIdle _ 3 SchedReachable.init)))
        (by decide)))
    (by decide)).1⟩

theorem midFlush_queue :
    Sched.midFlush.queue = [1, 2, 3] ∧ Sched.midFlush.index = 0 ∧
    (queueWatcher Sched.midFlush 1).queue = [1, 1, 2, 3] := by
  decide

/-! ## Where `queueWatcher` inserts during a flush -/

/-- C19, as the claim states it, fails: in a flush of watchers 1 and 5, the run of watcher 5
(cursor 1) re-enqueues watcher 1, which lands behind the cursor; a `queueWatcher` of
watcher 3 (not marked present, id below that of the watcher at the cursor) is then
inserted at position 3, behind watcher 1, and watcher 1 is the next to run. -/
theorem lower_id_entry_comes_first :
    SchedReachable Phase.running Sched.afterRerun ∧
    Sched.afterRerun.flushing = true ∧
    Sched.afterRerun.queue = [1, 5, 1] ∧
    Sched.afterRerun.queue[Sched.afterRerun.index]? = some 5 ∧
    Sched.afterRerun.has 3 ≠ HasMark.yes ∧
    (queueWatcher Sched.afterRerun 3).queue = [1, 5, 1, 3] ∧
    (queueWatcher Sched.afterRerun 3).queue[Sched.afterRerun.index + 1]? = some 1 ∧
    (flushSchedulerQueue (Jobs.ofRun (fun w => if w = 5 then [1, 3] else [])) 10
      (queueWatcher (queueWatcher Sched.init 1) 5) ()).map (fun r => r.ran)
      = some [1, 5, 1, 3] :=
  ⟨SchedReachable.queueRunning _ 1
      (SchedReachable.runStart _ 5
        (SchedReachable.runEnd _
          (SchedReachable.runStart _ 1
            (SchedReachable.flushStart _
              (SchedReachable.queueIdle _ 5 (SchedReachable.queueIdle _ 1 SchedReachable.init)))
            (by decide)))
        (by decide)),
   by decide, by decide, by decide, by decide, by decide, by decide, by decide⟩

/-- The scan of `queueWatcher` ends right behind the last entry behind the cursor whose id
is not greater than the new watcher's. -/
theorem scanBack_eq (q : List Nat) (index w j : Nat) (hij : index < j) (hj : j < q.length)
    (hle : q.getD j 0 ≤ w) (hgt : ∀ k, j < k → k < q.length → w < q.getD k 0) :
    scanBack q index w q.length = j + 1 := by
  have hlt : index < q.length := by omega
  have h1 := scanBack_gt q index w q.length
  have h2 := scanBack_stop q index w q.length hlt
  have h3 := scanBack_le q index w q.length
  by_contra hne
  by_cases hc : scanBack q index w q.length ≤ j
  · have := h1 j hc hj
    omega
  · rcases h2 with h | h
    · omega
    · have := hgt (scanBack q index w q.length - 1) (by omega) (by omega)
      omega

/-- The scan of `queueWatcher` ends right behind the cursor when every entry behind the
cursor has a greater id. -/
theorem scanBack_next (q : List Nat) (index w : Nat) (hlt : index < q.length)
    (htail : ∀ x ∈ q.drop (index + 1), w < x) :
    scanBack q index w q.length = index + 1 := by
  rcases scanBack_stop q index w q.length hlt with h | h
  · exact h
  · have hj1 := lt_scanBack q index w q.length hlt
    have hj2 := scanBack_le q index w q.length
    by_contra hne
    have hmem : q.getD (scanBack q index w q.length - 1) 0 ∈ q.drop (index + 1) := by
      have e : scanBack q index w q.length - 1
          = (index + 1) + (scanBack q index w q.length - 1 - (index + 1)) := by
        omega
      rw [e, ← getD_drop_nat]
      rw [List.getD_eq_getElem _ _ (by rw [List.length_drop]; omega)]
      exact List.getElem_mem _
    have := htail _ hmem
    omega

/-- C19 as amended. During a flush with the cursor at position `index`, `queueWatcher` of a
watcher `w` that is not marked present (whatever its id, so in particular an id less than or
equal to that of the watcher at the cursor) leaves the cursor where it is and inserts `w` at
position `index + 1`, the other entries keeping their order, so that it is the next watcher
the loop reaches, provided every entry behind the cursor has an id greater than that of
`w`. Otherwise `w` is inserted right behind the last entry behind the cursor whose id is
not greater than its own (position `j`), and the entry at position `index + 1` stays the
next the loop reaches. -/
theorem queueWatcher_inserts_next (s : Sched) (w : Nat) (hf : s.flushing = true)
    (hlt : s.index < s.queue.length) (hp : s.has w ≠ HasMark.yes) :
    (queueWatcher s w).index = s.index ∧
    ((∀ x ∈ s.queue.drop (s.index + 1), w < x) →
      (queueWatcher s w).queue = s.queue.take (s.index + 1) ++ w :: s.queue.drop (s.index + 1) ∧
      (queueWatcher s w).queue[s.index + 1]? = some w) ∧
    (∀ j : Nat, s.index < j → j < s.queue.length → s.queue.getD j 0 ≤ w →
      (∀ k, j < k → k < s.queue.length → w < s.queue.getD k 0) →
      (queueWatcher s w).queue = s.queue.take (j + 1) ++ w :: s.queue.drop (j + 1) ∧
      (queueWatcher s w).queue[s.index + 1]? = s.queue[s.index + 1]?) := by
  refine ⟨(queueWatcher_frame s w).2.1, ?_, ?_⟩
  · intro htail
    have hq : (queueWatcher s w).queue
        = s.queue.take (s.index + 1) ++ w :: s.queue.drop (s.index + 1) := by
      rw [queueWatcher_queue, if_neg hp, if_pos hf, scanBack_next s.queue s.index w hlt htail]
      rfl
    refine ⟨hq, ?_⟩
    rw [hq, List.getElem?_append_right (by simp)]
    simp [Nat.min_eq_left (Nat.succ_le_of_lt hlt)]
  · intro j hij hj hle hgt
    have hq : (queueWatcher s w).queue
        = s.queue.take (j + 1) ++ w :: s.queue.drop (j + 1) := by
      rw [queueWatcher_queue, if_neg hp, if_pos hf, scanBack_eq s.queue s.index w j hij hj hle hgt]
      rfl
    refine ⟨hq, ?_⟩
    rw [hq, List.getElem?_append_left (by simp; omega), List.getElem?_take_of_lt (by omega)]

/-- Witness of C19 as amended: inside the run of watcher 1, with watchers 2 and 3 behind
the cursor, watcher 1 re-enqueues itself and is the next to run; inside the run of watcher 5,
with the re-enqueued watcher 1 behind the cursor, watcher 3 is inserted behind watcher 1. -/
theorem queueWatcher_inserts_next_witness :
    (Sched.midFlush.flushing = true ∧
     Sched.midFlush.index < Sched.midFlush.queue.length ∧
     Sched.midFlush.has 1 ≠ HasMark.yes ∧
     (queueWatcher Sched.midFlush 1).queue[Sched.midFlush.index + 1]? = some 1) ∧
    (Sched.afterRerun.flushing = true ∧
     Sched.afterRerun.index < Sched.afterRerun.queue.length ∧
     Sched.afterRerun.has 3 ≠ HasMark.yes ∧
     (queueWatcher Sched.afterRerun 3).queue
       = Sched.afterRerun.queue.take 3 ++ 3 :: Sched.afterRerun.queue.drop 3) :=
  ⟨⟨by decide, by decide, by decide,
    ((queueWatcher_inserts_next Sched.midFlush 1 (by decide) (by decide) (by decide)).2.1
      (by decide)).2⟩,
   ⟨by decide, by decide, by decide,
    ((queueWatcher_inserts_next Sched.afterRerun 3 (by decide) (by decide) (by decide)).2.2
      2 (by decide) (by decide) (by decide)
      (fun k h1 h2 => by
        have hl : Sched.afterRerun.queue.length = 3 := by decide
        omega)).1⟩⟩

/-! ## The post-flush hooks -/

/-- The `queueWatcher` calls made while a watcher is at the cursor leave the entries up to
the cursor, the cursor and `flushing` as they are. -/
theorem foldl_queueWatcher_prefix (reqs : List Nat) : ∀ s : Sched, s.flushing = true →
    s.index < s.queue.length →
    (reqs.foldl queueWatcher s).flushing = true ∧
    (reqs.foldl queueWatcher s).index = s.index ∧
    s.index < (reqs.foldl queueWatcher s).queue.length ∧
    (reqs.foldl queueWatcher s).queue.take (s.index + 1) = s.queue.take (s.index + 1) := by
  induction reqs with
  | nil => intro s hf hlt; exact ⟨hf, rfl, hlt, rfl⟩
  | cons a l ih =>
    intro s hf hlt
    obtain ⟨f1, f2, _⟩ := queueWatcher_frame s a
    have hlen := length_le_queueWatcher s a
    have htake : (queueWatcher s a).queue.take (s.index + 1) = s.queue.take (s.index + 1) := by
      rw [queueWatcher_queue]
      by_cases hp : s.has a = HasMark.yes
      · rw [if_pos hp]
      · rw [if_neg hp, if_pos hf]
        exact take_spliceIn s.queue s.index a hlt
    obtain ⟨r1, r2, r3, r4⟩ := ih (queueWatcher s a) (by rw [f1]; exact hf) (by rw [f2]; omega)
    rw [f2] at r2 r3 r4
    exact ⟨r1, r2, r3, r4.trans htake⟩

/-- At every turn of the flush loop, no call having thrown, the watchers run so far are
the queue entries before the cursor. -/
theorem flushIter_ran {ε : Type} (J : Jobs ε) (n : Nat) : ∀ st : FlushState ε,
    st.sched.flushing = true → st.ran = st.sched.queue.take st.sched.index →
    (flushIter J n st).thrown = false →
    (flushIter J n st).ran = (flushIter J n st).sched.queue.take (flushIter J n st).sched.index := by
  induction n with
  | zero => intro st _ h _; exact h
  | succ n ih =>
    intro st hf hran hnt
    obtain ⟨hnt0, hstep⟩ := flushIter_not_thrown J n st hnt
    cases hget : st.sched.queue[st.sched.index]? with
    | none => rw [flushIter_done J _ st hget]; exact hran
    | some watcher =>
      obtain ⟨hbt, hnt1⟩ := hstep watcher hget
      rw [flushIter_succ J n st watcher hnt0 hget hbt]
      have hbody := flushBody_of_returns J st watcher (flushBody_not_thrown J st watcher hbt).1
      obtain ⟨hlt, hw⟩ := List.getElem?_eq_some_iff.1 hget
      obtain ⟨a1, a2, a3, a4⟩ :=
        foldl_queueWatcher_prefix (J.before watcher st.env).2 st.sched hf hlt
      obtain ⟨b1, b2, b3, b4⟩ :=
        foldl_queueWatcher_prefix (J.run watcher (J.before watcher st.env).1).2
          (((J.before watcher st.env).2.foldl queueWatcher st.sched).setHas watcher HasMark.null)
          a1 (a2.symm ▸ a3 : ((J.before watcher st.env).2.foldl queueWatcher st.sched).index
            < ((J.before watcher st.env).2.foldl queueWatcher st.sched).queue.length)
      have c2 : (flushBody J st watcher).sched.index = st.sched.index := by
        rw [hbody]; exact b2.trans a2
      have c4 : (flushBody J st watcher).sched.queue.take (st.sched.index + 1)
          = st.sched.queue.take (st.sched.index + 1) := by
        have := b4
        rw [show ((((J.before watcher st.env).2.foldl queueWatcher st.sched).setHas watcher
          HasMark.null).index) = st.sched.index from a2] at this
        rw [hbody]
        exact this.trans a4
      have c5 : (flushBody J st watcher).ran = st.ran ++ [watcher] := by rw [hbody]
      apply ih _ _ _ hnt1
      · show (flushBody J st watcher).sched.flushing = true
        rw [hbody]; exact b1
      · show (flushBody J st watcher).ran = (flushBody J st watcher).sched.queue.take
          ((flushBody J st watcher).sched.index + 1)
        rw [c2, c4, c5, hran, List.take_succ, hget]
        rfl

/-- Once a flush has been requested, `queueWatcher` requests no other. -/
theorem queueWatcher_waiting (s : Sched) (w : Nat) (hw : s.waiting = true) :
    (queueWatcher s w).waiting = true ∧ (queueWatcher s w).ticks = s.ticks := by
  unfold queueWatcher
  by_cases h : s.has w = HasMark.yes
  · simp [h, hw]
  · by_cases hf : s.flushing <;> simp [h, hf, hw, Sched.setHas]

theorem foldl_queueWatcher_waiting (calls : List Nat) : ∀ s : Sched, s.waiting = true →
    (calls.foldl queueWatcher s).waiting = true ∧ (calls.foldl queueWatcher s).ticks = s.ticks := by
  induction calls with
  | nil => intro s hw; exact ⟨hw, rfl⟩
  | cons a l ih =>
    intro s hw
    obtain ⟨a1, a2⟩ := queueWatcher_waiting s a hw
    obtain ⟨b1, b2⟩ := ih _ a1
    exact ⟨b1, b2.trans a2⟩

/-- C18. When a call of `flushSchedulerQueue` returns, then at the moment it invoked its
post-flush hooks every entry of the queue it flushed had been run (the list handed to
`callUpdatedHooks` is the list of watchers run, in order) and the scheduler state was the
reset one: `queue` and `activatedChildren` empty, `has` empty, `index = 0`,
`waiting = flushing = false`. A `queueWatcher` call in that state makes the queue hold just
that watcher and requests one `nextTick`; the hooks run from that state on, and whatever
`queueWatcher` calls they make, starting with one of `w`, leave a duplicate-free queue of
exactly the watchers they named, outside a flush, with that one `nextTick` requested. -/
theorem hooks_run_after_reset {ε : Type} (J : Jobs ε) (fuel : Nat) (s : Sched) (e : ε)
    (r : FlushResult ε) (hr : flushSchedulerQueue J fuel s e = some r) :
    r.updatedQueue = r.ran ∧
    r.atHooks.queue = [] ∧ r.atHooks.activatedChildren = [] ∧
    (∀ id, r.atHooks.has id = HasMark.undefined) ∧ r.atHooks.index = 0 ∧
    r.atHooks.waiting = false ∧ r.atHooks.flushing = false ∧
    (∀ w, (queueWatcher r.atHooks w).queue = [w] ∧ (queueWatcher r.atHooks w).waiting = true ∧
      (queueWatcher r.atHooks w).ticks = r.atHooks.ticks + 1) ∧
    (∃ e1 : ε, (r.sched, r.env) = callHooks J.updated r.updatedQueue.reverse
      (callHooks J.activated r.activatedQueue (r.atHooks, e1))) ∧
    (∀ (w : Nat) (rest : List Nat),
      ((w :: rest).foldl queueWatcher r.atHooks).flushing = false ∧
      ((w :: rest).foldl queueWatcher r.atHooks).waiting = true ∧
      ((w :: rest).foldl queueWatcher r.atHooks).ticks = r.atHooks.ticks + 1 ∧
      ((w :: rest).foldl queueWatcher r.atHooks).queue.Nodup ∧
      (∀ x, x ∈ ((w :: rest).foldl queueWatcher r.atHooks).queue ↔ x ∈ w :: rest)) := by
  unfold flushSchedulerQueue at hr
  cases hl : flushLoop J fuel { sched := flushStart s, env := e, ran := [] } with
  | none => rw [hl] at hr; cases hr
  | some st =>
    rw [hl] at hr
    simp only [Option.some.injEq] at hr
    obtain ⟨hst, hthrown, hexit⟩ := flushLoop_some J fuel _ st hl
    · have hran := flushIter_ran J fuel { sched := flushStart s, env := e, ran := [] } rfl rfl
        hthrown
      rw [← hst] at hran hexit
      have hall : st.sched.queue = st.ran := by
        rw [hran, List.take_of_length_le (by omega)]
      subst hr
      refine ⟨hall, rfl, rfl, fun _ => rfl, rfl, rfl, rfl, ?_, ⟨st.env, rfl⟩, ?_⟩
      · intro w
        simp [queueWatcher, resetSchedulerState, Sched.setHas]
      · intro w rest
        have h1 : (queueWatcher (resetSchedulerState st.sched) w).queue = [w] ∧
            (queueWatcher (resetSchedulerState st.sched) w).waiting = true ∧
            (queueWatcher (resetSchedulerState st.sched) w).ticks
              = (resetSchedulerState st.sched).ticks + 1 ∧
            (queueWatcher (resetSchedulerState st.sched) w).flushing = false ∧
            (∀ x, (queueWatcher (resetSchedulerState st.sched) w).has x = HasMark.yes ↔ x = w) := by
          refine ⟨?_, ?_, ?_, ?_, ?_⟩ <;> simp [queueWatcher, resetSchedulerState, Sched.setHas]
        obtain ⟨q1, q2, q3, q4, q5⟩ := h1
        obtain ⟨i1, i2, _, i4, _⟩ := foldl_queueWatcher_idle rest _ q4
          (by rw [q1]; exact List.nodup_singleton w)
          (fun x => by rw [q5 x, q1]; simp)
        obtain ⟨w1, w2⟩ := foldl_queueWatcher_waiting rest _ q2
        simp only [List.foldl_cons]
        refine ⟨i1, w1, by rw [w2, q3], i2, ?_⟩
        intro x
        rw [i4 x, q1]
        simp

/-- Witness of C18: the flush of watchers 3 and 2 in which the run of 2 re-triggers 3. -/
theorem hooks_run_after_reset_witness :
    ∃ r : FlushResult Unit,
      flushSchedulerQueue Jobs.retriggerNext 4
        (([3, 2] : List Nat).foldl queueWatcher Sched.init) () = some r ∧
      r.updatedQueue = r.ran ∧ r.atHooks.queue = [] ∧ r.atHooks.waiting = false :=
  ⟨(flushSchedulerQueue Jobs.retriggerNext 4
      (([3, 2] : List Nat).foldl queueWatcher Sched.init) ()).get (by decide),
   (Option.some_get _).symm,
   (hooks_run_after_reset Jobs.retriggerNext 4 (([3, 2] : List Nat).foldl queueWatcher Sched.init)
      () _ (Option.some_get _).symm).1,
   (hooks_run_after_reset Jobs.retriggerNext 4 (([3, 2] : List Nat).foldl queueWatcher Sched.init)
      () _ (Option.some_get _).symm).2.1,
   (hooks_run_after_reset Jobs.retriggerNext 4 (([3, 2] : List Nat).foldl queueWatcher Sched.init)
      () _ (Option.some_get _).symm).2.2.2.2.2.1⟩

theorem hooks_scenario :
    (flushSchedulerQueue
      { before := fun _ e => (e, []), run := fun _ e => (e, []),
        activated := fun _ e => (e, []), updated := fun w (e : Unit) => (e, [w + 10, 7]) } 4
      (([3, 2] : List Nat).foldl queueWatcher Sched.init) ()).map
        (fun r => (r.ran, r.sched.queue, r.sched.waiting, r.sched.flushing, r.sched.ticks))
      = some ([2, 3], [13, 7, 12], true, false, 2) := by
  decide

/-! ## What `observe` leaves alone: elements, flags, notifications -/

theorem ins_refl (h : Heap) : h.Instruments h :=
  ⟨rfl, rfl, rfl, fun _ o ho => ⟨o, ho, rfl, rfl, rfl, rfl⟩, fun _ x hx => ⟨x, hx, rfl, rfl⟩⟩

theorem ins_trans (a b c : Heap) (h1 : a.Instruments b) (h2 : b.Instruments c) :
    a.Instruments c := by
  obtain ⟨a1, a2, a3, a4, a5⟩ := h1
  obtain ⟨b1, b2, b3, b4, b5⟩ := h2
  refine ⟨b1.trans a1, b2.trans a2, b3.trans a3, ?_, ?_⟩
  · intro x o ho
    obtain ⟨o1, e1, k1, l1, m1, n1⟩ := a4 x o ho
    obtain ⟨o2, e2, k2, l2, m2, n2⟩ := b4 x o1 e1
    exact ⟨o2, e2, k2.trans k1, l2.trans l1, m2.trans m1, n2.trans n1⟩
  · intro x o ho
    obtain ⟨o1, e1, k1, l1⟩ := a5 x o ho
    obtain ⟨o2, e2, k2, l2⟩ := b5 x o1 e1
    exact ⟨o2, e2, k2.trans k1, l2.trans l1⟩

theorem ins_of_eq (h g : Heap) (h1 : g.notified = h.notified)
    (h2 : g.shouldObserve = h.shouldObserve) (h3 : g.serverRendering = h.serverRendering)
    (h4 : g.objs = h.objs) (h5 : g.observers = h.observers) : h.Instruments g :=
  ⟨h1, h2, h3, fun _ o ho => ⟨o, by rw [h4]; exact ho, rfl, rfl, rfl, rfl⟩,
    fun _ x hx => ⟨x, by rw [h5]; exact hx, rfl, rfl⟩⟩

theorem ins_of_reads (h g : Heap) (hs : h.SameButReads g) : h.Instruments g :=
  ins_of_eq h g hs.2.2.2.2.2.2.2.2.1 hs.2.2.2.2.1 hs.2.2.2.2.2.1 hs.1 hs.2.2.1

theorem ins_setObj (h : Heap) (a : Nat) (o o1 : Obj) (ho : h.objs[a]? = some o)
    (hk : o1.kind = o.kind) (he : o1.elems = o.elems) (hx : o1.extensible = o.extensible)
    (hv : o1.isVue = o.isVue) : h.Instruments (h.setObj a o1) := by
  refine ⟨rfl, rfl, rfl, ?_, fun _ x hx => ⟨x, hx, rfl, rfl⟩⟩
  intro x ox hox
  simp only [Heap.setObj, List.getElem?_set]
  by_cases hax : a = x
  · subst hax
    rw [ho] at hox
    simp only [Option.some.injEq] at hox
    subst hox
    have hlt : a < h.objs.length := (List.getElem?_eq_some_iff.1 ho).1
    exact ⟨o1, by simp [hlt], hk, he, hx, hv⟩
  · exact ⟨ox, by simp [hax, hox], rfl, rfl, rfl, rfl⟩

theorem ins_append_observer (h g : Heap) (l : List Observer) (h1 : g.notified = h.notified)
    (h2 : g.shouldObserve = h.shouldObserve) (h3 : g.serverRendering = h.serverRendering)
    (h4 : g.objs = h.objs) (h5 : g.observers = h.observers ++ l) : h.Instruments g := by
  refine ⟨h1, h2, h3, fun _ o ho => ⟨o, by rw [h4]; exact ho, rfl, rfl, rfl, rfl⟩, ?_⟩
  intro b x hx
  have hlt : b < h.observers.length := (List.getElem?_eq_some_iff.1 hx).1
  exact ⟨x, by rw [h5, List.getElem?_append_left hlt]; exact hx, rfl, rfl⟩

theorem ins_bump (h : Heap) (b : Nat) (x : Observer) (n : Nat) :
    h.Instruments { h with observers := h.observers.set b { x with vmCount := n } } ∨
    h.observers[b]? ≠ some x := by
  by_cases hb : h.observers[b]? = some x
  · left
    refine ⟨rfl, rfl, rfl, fun _ o ho => ⟨o, ho, rfl, rfl, rfl, rfl⟩, ?_⟩
    intro c y hy
    simp only [List.getElem?_set]
    by_cases hbc : b = c
    · subst hbc
      rw [hb] at hy
      simp only [Option.some.injEq] at hy
      subst hy
      have hlt : b < h.observers.length := (List.getElem?_eq_some_iff.1 hb).1
      exact ⟨{ x with vmCount := n }, by simp [hlt], rfl, rfl⟩
    · exact ⟨y, by simp [hbc, hy], rfl, rfl⟩
  · right; exact hb

theorem readProp_ins (r : Calls) (hr : r.ReadsOnly) (h h1 : Heap) (a : Nat) (key : String)
    (v : Val) (hp : readProp r h a key = some (h1, v)) : h.Instruments h1 := by
  unfold readProp at hp
  split at hp
  · simp only [Option.some.injEq, Prod.mk.injEq] at hp; rw [← hp.1]; exact ins_refl h
  · split at hp
    · simp only [Option.some.injEq, Prod.mk.injEq] at hp; rw [← hp.1]; exact ins_refl h
    · simp only [Option.some.injEq, Prod.mk.injEq] at hp; rw [← hp.1]; exact ins_refl h
    · simp only [Option.some.injEq, Prod.mk.injEq] at hp; rw [← hp.1]; exact ins_refl h
    · exact ins_of_reads _ _ (hr.1 _ _ _ _ hp)

theorem defineReactive_ins (r : Calls) (hr : r.ReadsOnly) (hk : r.ObservesOnly)
    (h h1 : Heap) (a : Nat) (key : String) (val : Option Val) (shallow : Bool)
    (hd : defineReactive r h a key val shallow = some h1) : h.Instruments h1 := by
  unfold defineReactive at hd
  simp only [Heap.newDep] at hd
  have k0 : h.Instruments { h with depUid := h.depUid + 1 } := ins_of_eq _ _ rfl rfl rfl rfl rfl
  split at hd
  · simp only [Option.some.injEq] at hd; rw [← hd]; exact k0
  · rename_i o ho
    split at hd
    · simp only [Option.some.injEq] at hd; rw [← hd]; exact k0
    · split at hd
      · cases hd
      · rename_i h2 v hread
        have k2 : h.Instruments h2 := by
          apply ins_trans _ _ _ k0
          cases val with
          | some v0 =>
            simp only [Option.some.injEq, Prod.mk.injEq] at hread
            rw [← hread.1]; exact ins_refl _
          | none =>
            simp only at hread
            split at hread
            · exact readProp_ins r hr _ _ _ _ _ hread
            · simp only [Option.some.injEq, Prod.mk.injEq] at hread
              rw [← hread.1]; exact ins_refl _
        split at hd
        · cases hd
        · rename_i h3 childOb hobs
          have k3 : h.Instruments h3 := by
            apply ins_trans _ _ _ k2
            by_cases hsh : shallow
            · simp only [hsh, if_true, Option.some.injEq, Prod.mk.injEq] at hobs
              rw [← hobs.1]; exact ins_refl _
            · simp only [hsh, Bool.false_eq_true, if_false] at hobs
              exact hk _ _ _ _ _ hobs
          have k4 : h.Instruments { h3 with closures := h3.closures ++
              [{ dep := h.depUid, val := v, childOb := childOb,
                 getter := (o.props.lookup key).bind Slot.getter,
                 setter := (o.props.lookup key).bind Slot.setter, shallow := shallow }] } :=
            ins_trans _ _ _ k3 (ins_of_eq _ _ rfl rfl rfl rfl rfl)
          split at hd
          · simp only [Option.some.injEq] at hd; rw [← hd]; exact k4
          · rename_i o4 ho4
            split at hd
            · cases hd
            · simp only [Option.some.injEq] at hd
              rw [← hd]
              exact ins_trans _ _ _ k4 (ins_setObj _ a o4 _ ho4 rfl rfl rfl rfl)

theorem walk_ins (r : Calls) (hr : r.ReadsOnly) (hk : r.ObservesOnly) (h h1 : Heap) (a : Nat)
    (hw : Observer.walk r h a = some h1) : h.Instruments h1 := by
  unfold Observer.walk at hw
  split at hw
  · simp only [Option.some.injEq] at hw; rw [← hw]; exact ins_refl h
  · rename_i o _
    exact foldlM_option_rel Heap.Instruments ins_refl ins_trans _ o.keys
      (fun s key s1 _ hstep => defineReactive_ins r hr hk s s1 a key none false hstep) h h1 hw

theorem observeArray_ins (r : Calls) (hk : r.ObservesOnly) (h h1 : Heap) (a : Nat)
    (hw : Observer.observeArray r h a = some h1) : h.Instruments h1 := by
  unfold Observer.observeArray at hw
  split at hw
  · simp only [Option.some.injEq] at hw; rw [← hw]; exact ins_refl h
  · rename_i o _
    refine foldlM_option_rel Heap.Instruments ins_refl ins_trans _ _ ?_ h h1 hw
    intro s i s1 _ hstep
    simp only at hstep
    split at hstep
    · simp only [Option.some.injEq] at hstep; rw [← hstep]; exact ins_refl s
    · rename_i oi _
      cases hobs : r.observe s (oi.elems.getD i Val.undefined) false with
      | none => rw [hobs] at hstep; cases hstep
      | some p =>
        rw [hobs] at hstep
        simp only [Option.map_some', Option.some.injEq] at hstep
        rw [← hstep]
        exact hk _ _ _ _ _ hobs

theorem observeItems_ins (r : Calls) (hk : r.ObservesOnly) (items : List Val) (h h1 : Heap)
    (hw : Observer.observeItems r h items = some h1) : h.Instruments h1 := by
  unfold Observer.observeItems at hw
  refine foldlM_option_rel Heap.Instruments ins_refl ins_trans _ _ ?_ h h1 hw
  intro s v s1 _ hstep
  cases hobs : r.observe s v false with
  | none => rw [hobs] at hstep; cases hstep
  | some p =>
    rw [hobs] at hstep
    simp only [Option.map_some', Option.some.injEq] at hstep
    rw [← hstep]
    exact hk _ _ _ _ _ hobs

theorem observerNew_ins (r : Calls) (hr : r.ReadsOnly) (hk : r.ObservesOnly) (h h1 : Heap)
    (a b : Nat) (hn : Observer.new r h a = some (h1, b)) : h.Instruments h1 := by
  unfold Observer.new at hn
  cases ho : h.objs[a]? with
  | none => rw [ho] at hn; cases hn
  | some o =>
    rw [ho] at hn
    simp only [Heap.newDep] at hn
    have mid : ∀ aug : Bool, h.Instruments
        (({ h with depUid := h.depUid + 1,
                   observers := h.observers ++ [{ value := a, dep := h.depUid, vmCount := 0 }] } :
            Heap).setObj a { o with ob := some h.observers.length, augmented := aug }) := by
      intro aug
      refine ins_trans h _ _ (ins_append_observer h
        ({ h with depUid := h.depUid + 1,
                  observers := h.observers ++ [{ value := a, dep := h.depUid, vmCount := 0 }] } :
          Heap) _ rfl rfl rfl rfl rfl) ?_
      exact ins_setObj _ a o _ ho rfl rfl rfl rfl
    by_cases hkind : o.kind = ObjKind.array
    · rw [if_pos hkind] at hn
      cases hoa : Observer.observeArray r _ a with
      | none => rw [hoa] at hn; cases hn
      | some h5 =>
        rw [hoa] at hn
        simp only [Option.map_some', Option.some.injEq, Prod.mk.injEq] at hn
        rw [← hn.1]
        exact ins_trans _ _ _ (mid true) (observeArray_ins r hk _ _ a hoa)
    · rw [if_neg hkind] at hn
      cases hoa : Observer.walk r _ a with
      | none => rw [hoa] at hn; cases hn
      | some h5 =>
        rw [hoa] at hn
        simp only [Option.map_some', Option.some.injEq, Prod.mk.injEq] at hn
        rw [← hn.1]
        exact ins_trans _ _ _ (mid o.augmented) (walk_ins r hr hk _ _ a hoa)

theorem observeBody_ins (r : Calls) (hr : r.ReadsOnly) (hk : r.ObservesOnly) (h h1 : Heap)
    (value : Val) (root : Bool) (res : Option Nat)
    (hob : observeBody r h value root = some (h1, res)) : h.Instruments h1 := by
  have trivial_case : ∀ g : Heap, (some (h, (none : Option Nat)) = some (g, res)) →
      h.Instruments g := by
    intro g hg
    simp only [Option.some.injEq, Prod.mk.injEq] at hg
    rw [← hg.1]; exact ins_refl h
  unfold observeBody at hob
  cases value with
  | ref a =>
    simp only at hob
    cases ho : h.objs[a]? with
    | none => rw [ho] at hob; exact trivial_case h1 hob
    | some o =>
      rw [ho] at hob
      simp only at hob
      by_cases hv : o.kind = ObjKind.vnode
      · rw [if_pos hv] at hob; exact trivial_case h1 hob
      · rw [if_neg hv] at hob
        have found_spec : ∀ (h2 : Heap) (fr : Option Nat),
            (match o.ob with
              | some b => some (h, some b)
              | none =>
                if (h.shouldObserve && !h.serverRendering &&
                    (decide (o.kind = ObjKind.array) || decide (o.kind = ObjKind.plain)) &&
                    o.extensible && !o.isVue) = true
                then (Observer.new r h a).map (fun p => (p.1, some p.2))
                else some (h, none)) = some (h2, fr) →
            h.Instruments h2 := by
          intro h2 fr hf
          cases hb : o.ob with
          | some b =>
            rw [hb] at hf
            simp only [Option.some.injEq, Prod.mk.injEq] at hf
            rw [← hf.1]; exact ins_refl h
          | none =>
            rw [hb] at hf
            simp only at hf
            split at hf
            · cases hnew : Observer.new r h a with
              | none => rw [hnew] at hf; cases hf
              | some p =>
                obtain ⟨h5, b⟩ := p
                rw [hnew] at hf
                simp only [Option.map_some', Option.some.injEq, Prod.mk.injEq] at hf
                rw [← hf.1]
                exact observerNew_ins r hr hk h h5 a b hnew
            · simp only [Option.some.injEq, Prod.mk.injEq] at hf
              rw [← hf.1]; exact ins_refl h
        split at hob
        · cases hob
        · rename_i h2 hfound
          have k := found_spec h2 none hfound
          simp only [Option.some.injEq, Prod.mk.injEq] at hob
          rw [← hob.1]; exact k
        · rename_i h2 b hfound
          have k := found_spec h2 (some b) hfound
          split at hob
          · split at hob
            · simp only [Option.some.injEq, Prod.mk.injEq] at hob
              rw [← hob.1]; exact k
            · rename_i o1 hobs
              simp only [Option.some.injEq, Prod.mk.injEq] at hob
              rw [← hob.1]
              exact ins_trans _ _ _ k
                ((ins_bump h2 b o1 (o1.vmCount + 1)).resolve_right (fun hne => hne hobs))
          · simp only [Option.some.injEq, Prod.mk.injEq] at hob
            rw [← hob.1]; exact k
  | undefined => exact trivial_case h1 hob
  | null => exact trivial_case h1 hob
  | bool b => exact trivial_case h1 hob
  | num n => exact trivial_case h1 hob
  | nan => exact trivial_case h1 hob
  | str t => exact trivial_case h1 hob

/-- An `observe` call notifies no Dep, leaves the elements and the flags of every object as
they are, and keeps every Observer. -/
theorem within_ins (depth : Nat) : (Calls.within depth).ObservesOnly := by
  induction depth with
  | zero => intro h v root h1 ob hh; simp [Calls.within] at hh
  | succ n ih =>
    intro h v root h1 ob hh
    exact observeBody_ins _ (within_readsOnly n) ih h h1 v root ob hh

/-- An object that `observe` accepts carries an Observer when the call has returned. -/
theorem observeBody_accepts (r : Calls) (h h1 : Heap) (a : Nat) (o : Obj) (root : Bool)
    (res : Option Nat) (ho : h.objs[a]? = some o) (hv : o.kind ≠ ObjKind.vnode)
    (hacc : o.ob ≠ none ∨
      (h.shouldObserve = true ∧ h.serverRendering = false ∧
        (o.kind = ObjKind.array ∨ o.kind = ObjKind.plain) ∧ o.extensible = true ∧
        o.isVue = false))
    (hob : observeBody r h (Val.ref a) root = some (h1, res)) : res ≠ none := by
  intro hres
  subst hres
  unfold observeBody at hob
  simp only [ho, if_neg hv] at hob
  cases hb : o.ob with
  | some b =>
    rw [hb] at hob
    simp only at hob
    split at hob
    · split at hob <;> simp at hob
    · simp at hob
  | none =>
    rw [hb] at hob
    rcases hacc with hacc | ⟨c1, c2, c3, c4, c5⟩
    · exact hacc hb
    · have hcond : (h.shouldObserve && !h.serverRendering &&
          (decide (o.kind = ObjKind.array) || decide (o.kind = ObjKind.plain)) &&
          o.extensible && !o.isVue) = true := by
        rcases c3 with c3 | c3 <;> simp [c1, c2, c3, c4, c5]
      simp only [hcond, if_true] at hob
      cases hnew : Observer.new r h a with
      | none => rw [hnew] at hob; simp at hob
      | some p =>
        rw [hnew] at hob
        simp only [Option.map_some'] at hob
        split at hob
        · split at hob <;> simp at hob
        · simp at hob

/-! ## The intercepted array methods (array.js) -/

theorem observeItems_keeps (r : Calls) (hk : r.KeepObservers) (items : List Val) (h h1 : Heap)
    (hw : Observer.observeItems r h items = some h1) : h.KeepsObservers h1 := by
  unfold Observer.observeItems at hw
  refine foldlM_option_rel Heap.KeepsObservers keeps_refl keeps_trans _ _ ?_ h h1 hw
  intro s v s1 _ hstep
  cases hobs : r.observe s v false with
  | none => rw [hobs] at hstep; cases hstep
  | some p =>
    rw [hobs] at hstep
    simp only [Option.map_some', Option.some.injEq] at hstep
    rw [← hstep]
    exact hk.1 _ _ _ _ _ hobs

/-- After `observeArray(inserted)` has returned, every inserted object that `observe`
accepts, or that carried an Observer before, carries one. -/
theorem observeItems_observed (depth : Nat) (items : List Val) : ∀ (h h1 : Heap),
    Observer.observeItems (Calls.within depth) h items = some h1 →
    ∀ (x : Nat) (ox : Obj), Val.ref x ∈ items → h.objs[x]? = some ox →
      ox.kind ≠ ObjKind.vnode →
      (ox.ob ≠ none ∨
        (h.shouldObserve = true ∧ h.serverRendering = false ∧
          (ox.kind = ObjKind.array ∨ ox.kind = ObjKind.plain) ∧ ox.extensible = true ∧
          ox.isVue = false)) →
      ∃ ox1 : Obj, h1.objs[x]? = some ox1 ∧ ox1.ob ≠ none := by
  induction items with
  | nil => intro h h1 _ x ox hx; cases hx
  | cons v rest ih =>
    intro h h1 hw x ox hx hox hv hacc
    have hw0 := hw
    unfold Observer.observeItems at hw
    simp only [List.foldlM_cons] at hw
    cases hstep : (Calls.within depth).observe h v false with
    | none => rw [hstep] at hw; cases hw
    | some p =>
      obtain ⟨hm, res⟩ := p
      rw [hstep] at hw
      simp only [Option.map_some'] at hw
      have hrest : Observer.observeItems (Calls.within depth) hm rest = some h1 := hw
      have ki := within_ins depth h v false hm res hstep
      have kk := (within_keeps depth).1 h v false hm res hstep
      have kk2 := observeItems_keeps _ (within_keeps depth) rest hm h1 hrest
      obtain ⟨om, hom, hbm⟩ : ∃ om : Obj, hm.objs[x]? = some om ∧
          (∀ b, ox.ob = some b → om.ob = some b) := by
        obtain ⟨om, e1, _, e3⟩ := kk x ox hox
        exact ⟨om, e1, e3⟩
      obtain ⟨om2, hom2, k1, _, k3, k4⟩ := ki.2.2.2.1 x ox hox
      rw [hom] at hom2
      simp only [Option.some.injEq] at hom2
      subst hom2
      by_cases hhead : v = Val.ref x
      · subst hhead
        cases depth with
        | zero => simp [Calls.within] at hstep
        | succ n =>
          have hres := observeBody_accepts (Calls.within n) h hm x ox false res hox hv hacc hstep
          cases res with
          | none => exact absurd rfl hres
          | some b0 =>
            obtain ⟨a1, o1, e0, e1, e2, _⟩ :=
              (observeBody_spec _ (within_readsOnly n) (within_keeps n) h hm (Val.ref x) false
                (some b0) hstep).2 b0 rfl
            simp only [Val.ref.injEq] at e0
            subst e0
            obtain ⟨o2, f1, _, f3⟩ := kk2 x o1 e1
            exact ⟨o2, f1, by rw [f3 b0 e2]; simp⟩
      · have hx2 : Val.ref x ∈ rest := by
          rcases List.mem_cons.1 hx with hx | hx
          · exact absurd hx.symm hhead
          · exact hx
        refine ih hm h1 hrest x om hx2 hom (by rw [k1]; exact hv) ?_
        rcases hacc with hacc | ⟨c1, c2, c3, c4, c5⟩
        · left
          cases hb0 : ox.ob with
          | none => exact absurd hb0 hacc
          | some b0 => rw [hbm b0 hb0]; simp
        · right
          exact ⟨by rw [ki.2.1]; exact c1, by rw [ki.2.2.1]; exact c2, by rw [k1]; exact c3,
            by rw [k3]; exact c4, by rw [k4]; exact c5⟩

/-- What a call of an intercepted method does, given that the native method and the
`observe` calls return. -/
theorem mutator_returns (depth : Nat)
    (original : Heap → Nat → List Val → Option (Heap × Val)) (method : ArrayMethod)
    (h : Heap) (a : Nat) (args : List Val) (h1 : Heap) (result : Val) (o1 : Obj) (b : Nat)
    (ob : Observer) (h2 : Heap)
    (horig : original h a args = some (h1, result))
    (ho1 : h1.objs[a]? = some o1) (hb : o1.ob = some b) (hob : h1.observers[b]? = some ob)
    (hobs : (match insertedOf method args with
      | some inserted => Observer.observeItems (Calls.within depth) h1 inserted
      | none => some h1) = some h2) :
    mutator (Calls.within depth) original method h a args
      = some ({ h2 with notified := h2.notified ++ [ob.dep] }, result) ∧
    (∃ o2 : Obj, h2.objs[a]? = some o2 ∧ o2.elems = o1.elems ∧ o2.ob = some b) ∧
    h2.notified = h1.notified ∧
    insertedOf method args =
      (if method = ArrayMethod.push ∨ method = ArrayMethod.unshift then some args
       else if method = ArrayMethod.splice then some (args.drop 2) else none) ∧
    (∀ (inserted : List Val) (x : Nat) (ox : Obj), insertedOf method args = some inserted →
      Val.ref x ∈ inserted → h1.objs[x]? = some ox → ox.kind ≠ ObjKind.vnode →
      (ox.ob ≠ none ∨
        (h1.shouldObserve = true ∧ h1.serverRendering = false ∧
          (ox.kind = ObjKind.array ∨ ox.kind = ObjKind.plain) ∧ ox.extensible = true ∧
          ox.isVue = false)) →
      ∃ ox2 : Obj, h2.objs[x]? = some ox2 ∧ ox2.ob ≠ none) := by
  have hins : h1.Instruments h2 ∧ h1.KeepsObservers h2 := by
    cases hi : insertedOf method args with
    | none =>
      rw [hi] at hobs
      simp only [Option.some.injEq] at hobs
      rw [← hobs]; exact ⟨ins_refl h1, keeps_refl h1⟩
    | some inserted =>
      rw [hi] at hobs
      exact ⟨observeItems_ins _ (within_ins depth) inserted h1 h2 hobs,
        observeItems_keeps _ (within_keeps depth) inserted h1 h2 hobs⟩
  refine ⟨?_, ?_, hins.1.1, ?_, ?_⟩
  · unfold mutator
    simp only [horig, ho1, hb, hob, Option.some_bind, hobs]
  · obtain ⟨o2, e1, _, e3, _⟩ := hins.1.2.2.2.1 a o1 ho1
    obtain ⟨o3, f1, _, f3⟩ := hins.2 a o1 ho1
    rw [e1] at f1
    simp only [Option.some.injEq] at f1
    subst f1
    exact ⟨o2, e1, e3, f3 b hb⟩
  · cases method <;> simp [insertedOf]
  · intro inserted x ox hi hx hox hv hacc
    rw [hi] at hobs
    exact observeItems_observed depth inserted h1 h2 hobs x ox hx hox hv hacc

/-- C17, as the claim states it, fails in its last clause: `observe` declines some plain
objects. `push` of a non-extensible plain object onto the observed sample array returns
the new length 4, appends the object and notifies the array's Dep once, and the object has
no `__ob__` afterwards; an extensible plain object pushed while `shouldObserve` is off has
none either. -/
theorem pushed_object_without_observer :
    (Heap.arraySample.objs[1]?).map (fun o => (o.kind, o.extensible, o.ob))
      = some (ObjKind.plain, false, none) ∧
    (mutator (Calls.within 5) (arrayProto id ArrayMethod.push) ArrayMethod.push
        Heap.arraySample 0 [Val.ref 1]).map
      (fun p => (p.2, (p.1.objs[0]?).map (fun o => o.elems), p.1.notified,
        (p.1.objs[1]?).map (fun o => o.ob)))
      = some (Val.num 4, some [Val.num 1, Val.num 2, Val.num 3, Val.ref 1], [0], some none) ∧
    (mutator (Calls.within 5) (arrayProto id ArrayMethod.push) ArrayMethod.push
        Heap.arraySampleOff 0 [Val.ref 2]).map
      (fun p => (p.2, p.1.notified, (p.1.objs[2]?).map (fun o => (o.extensible, o.ob))))
      = some (Val.num 4, [0], some (true, none)) :=
  ⟨by decide, by decide, by decide⟩

/-! ## `set` on an array: the elements -/

/-- The elements `set` leaves: the length, the element written, the elements kept. -/
theorem replaceAt_facts (l : List Val) (n : Nat) (val : Val) :
    (replaceAt l n val).length = max l.length (n + 1) ∧ (replaceAt l n val)[n]? = some val ∧
    (∀ i, i < l.length → i ≠ n → (replaceAt l n val)[i]? = l[i]?) ∧
    ((l ++ List.replicate (n - l.length) Val.undefined).length < (replaceAt l n val).length
      ↔ l.length ≤ n) := by
  generalize hp0 : l ++ List.replicate (n - l.length) Val.undefined = p
  generalize hnew0 : replaceAt l n val = new
  have hnewdef : new = p.take n ++ [val] ++ p.drop (n + min 1 (p.length - n)) := by
    rw [← hnew0, ← hp0]; rfl
  by_cases hn : n < l.length
  · have hp : p = l := by
      rw [← hp0]
      rw [Nat.sub_eq_zero_of_le (Nat.le_of_lt hn)]; simp
    have hnew : new = l.take n ++ [val] ++ l.drop (n + 1) := by
      rw [hnewdef, hp, Nat.min_eq_left (by omega)]
    have hlen : new.length = l.length := by
      rw [hnew]; simp; omega
    refine ⟨by rw [hlen]; omega, ?_, ?_, ?_⟩
    · rw [hnew, List.append_assoc, List.getElem?_append_right (by simp [Nat.min_eq_left (Nat.le_of_lt hn)])]
      simp [Nat.min_eq_left (Nat.le_of_lt hn)]
    · intro i hi hne
      rw [hnew, List.append_assoc]
      by_cases hin : i < n
      · rw [List.getElem?_append_left (by simp; omega), List.getElem?_take_of_lt hin]
      · rw [List.getElem?_append_right (by simp; omega)]
        simp only [List.length_take, Nat.min_eq_left (Nat.le_of_lt hn)]
        have : i - n = (i - n - 1) + 1 := by omega
        rw [this, List.singleton_append, List.getElem?_cons_succ, List.getElem?_drop]
        congr 1; omega
    · rw [hlen, hp]; omega
  · have hpl : p.length = n := by
      rw [← hp0]; simp; omega
    have hnew : new = p ++ [val] := by
      rw [hnewdef, List.take_of_length_le (by omega), List.drop_eq_nil_of_le (by omega)]; simp
    refine ⟨by rw [hnew]; simp [hpl]; omega, ?_, ?_, ?_⟩
    · rw [hnew, List.getElem?_append_right (by omega)]; simp [hpl]
    · intro i hi hne
      rw [hnew, List.getElem?_append_left (by omega)]
      rw [← hp0, List.getElem?_append_left hi]
    · rw [hnew]; simp [hpl]; omega


/-- A call of an intercepted method that has returned: the native method returned the
same result, the array carried an Observer, and the `observe` calls returned. -/
theorem mutator_inv (r : Calls) (original : Heap → Nat → List Val → Option (Heap × Val))
    (method : ArrayMethod) (h : Heap) (a : Nat) (args : List Val) (hf : Heap) (res : Val)
    (hm : mutator r original method h a args = some (hf, res)) :
    ∃ (h1 : Heap) (o1 : Obj) (b : Nat) (ob : Observer) (h2 : Heap),
      original h a args = some (h1, res) ∧ h1.objs[a]? = some o1 ∧ o1.ob = some b ∧
      h1.observers[b]? = some ob ∧
      (match insertedOf method args with
        | some inserted => Observer.observeItems r h1 inserted
        | none => some h1) = some h2 ∧
      hf = { h2 with notified := h2.notified ++ [ob.dep] } := by
  unfold mutator at hm
  cases horig : original h a args with
  | none => rw [horig] at hm; cases hm
  | some p =>
    obtain ⟨h1, result⟩ := p
    rw [horig] at hm
    simp only at hm
    cases ho1 : h1.objs[a]? with
    | none => rw [ho1] at hm; simp at hm
    | some o1 =>
      rw [ho1] at hm
      simp only [Option.some_bind] at hm
      cases hb : o1.ob with
      | none => rw [hb] at hm; simp at hm
      | some b =>
        rw [hb] at hm
        simp only [Option.some_bind] at hm
        cases hob : h1.observers[b]? with
        | none => rw [hob] at hm; simp at hm
        | some ob =>
          rw [hob] at hm
          simp only at hm
          split at hm
          · cases hm
          · rename_i h2 hobs
            simp only [Option.some.injEq, Prod.mk.injEq] at hm
            exact ⟨h1, o1, b, ob, h2, by rw [← hm.2], ho1, hb, hob, hobs, hm.1.symm⟩

/-! ## Properties defined by `setProp` -/

/-- After `setProp` the property is the slot given. -/
theorem lookup_setProp (props : List (String × Slot)) (key : String) (slot : Slot) :
    (setProp props key slot).lookup key = some slot := by
  unfold setProp
  split
  · rename_i hsome
    induction props with
    | nil => simp [List.lookup] at hsome
    | cons p rest ih =>
      by_cases hp : p.1 = key
      · simp only [List.map_cons, if_pos hp]
        simp [List.lookup]
      · have hne : (key == p.1) = false := by
          simp only [beq_eq_false_iff_ne, ne_eq]; exact fun hh => hp hh.symm
        have h1 : (p :: rest).lookup key = rest.lookup key := by
          obtain ⟨k, s⟩ := p
          simp only [List.lookup, hne]
        rw [h1] at hsome
        simp only [List.map_cons, hp, if_false]
        obtain ⟨k, s⟩ := p
        simp only [List.lookup, hne]
        exact ih hsome
  · rename_i hnone
    induction props with
    | nil => simp [List.lookup]
    | cons p rest ih =>
      obtain ⟨k, s⟩ := p
      by_cases hp : key = k
      · subst hp; simp [List.lookup] at hnone
      · have hne : (key == k) = false := by
          simp only [beq_eq_false_iff_ne, ne_eq]; exact hp
        simp only [List.lookup, hne] at hnone
        simp only [List.cons_append, List.lookup, hne]
        exact ih hnone


/-! ## The target stack -/

theorem targets_depend (s : World) (d : Nat) :
    (Dep.depend s d).target = s.target ∧ (Dep.depend s d).targetStack = s.targetStack := by
  unfold Dep.depend
  split
  · rename_i w _; exact ⟨target_addDep s w d, (addDep_frame s w d).2⟩
  · exact ⟨rfl, rfl⟩

theorem targets_foldl_depend (L : List Nat) : ∀ s : World,
    (L.foldl Dep.depend s).target = s.target ∧
    (L.foldl Dep.depend s).targetStack = s.targetStack := by
  induction L with
  | nil => intro s; exact ⟨rfl, rfl⟩
  | cons a L ih =>
    intro s
    simp only [List.foldl_cons]
    obtain ⟨h1, h2⟩ := ih (Dep.depend s a)
    have hstep := targets_depend s a
    exact ⟨h1.trans hstep.1, h2.trans hstep.2⟩

theorem targets_foldr_depend (L : List Nat) (s : World) :
    (L.foldr (fun d acc => Dep.depend acc d) s).target = s.target ∧
    (L.foldr (fun d acc => Dep.depend acc d) s).targetStack = s.targetStack := by
  induction L with
  | nil => exact ⟨rfl, rfl⟩
  | cons a L ih =>
    simp only [List.foldr_cons]
    exact ⟨(targets_depend _ a).1.trans ih.1, (targets_depend _ a).2.trans ih.2⟩

theorem targets_cleanupDeps (s : World) (w : Nat) :
    (Watcher.cleanupDeps s w).target = s.target ∧
    (Watcher.cleanupDeps s w).targetStack = s.targetStack := by
  unfold Watcher.cleanupDeps
  exact ⟨(removeLoop_frame w _ _ s).2.1, (removeLoop_frame w _ _ s).2.2.1⟩

theorem targets_teardown (s : World) (w : Nat) :
    (Watcher.teardown s w).target = s.target ∧
    (Watcher.teardown s w).targetStack = s.targetStack := by
  unfold Watcher.teardown
  by_cases hact : (s.watchers w).active
  · simp only [hact, if_true]
    rw [teardown_loop_eq]
    by_cases hb : (s.vms (s.watchers w).vm)._isBeingDestroyed
    · simp only [hb, Bool.not_true, Bool.false_eq_true, if_false]
      exact ⟨(removeLoop_frame w [] _ s).2.1, (removeLoop_frame w [] _ s).2.2.1⟩
    · simp only [hb, Bool.not_false, if_true]
      exact ⟨(removeLoop_frame w [] _ _).2.1, (removeLoop_frame w [] _ _).2.2.1⟩
  · simp [hact]

/-- What `get()` leaves of the target stack: the stack it found, and its top as
`Dep.target`. -/
theorem targets_get (s : World) (w : Nat) (ev : Evaluation) :
    (Watcher.get s w ev).1.targetStack = s.targetStack ∧
    (Watcher.get s w ev).1.target = (s.targetStack.head?).join := by
  obtain ⟨s3, hs3, _, _, _, e4, e5⟩ := get_fst s w ev
  rw [hs3]
  have hpush := targets_foldl_depend ev.reads (pushTarget s (some w))
  have hstack : ∀ X : World, X.targetStack = some w :: s.targetStack →
      (Watcher.cleanupDeps (popTarget X) w).targetStack = s.targetStack ∧
      (Watcher.cleanupDeps (popTarget X) w).target = (s.targetStack.head?).join := by
    intro X hX
    obtain ⟨c1, c2⟩ := targets_cleanupDeps (popTarget X) w
    rw [c1, c2]
    unfold popTarget
    simp only [hX, List.tail_cons]
    exact ⟨trivial, trivial⟩
  have h3 : s3.targetStack = some w :: s.targetStack := by rw [e5, hpush.2]; rfl
  apply hstack
  split
  · rw [(targets_foldl_depend _ s3).2, h3]
  · exact h3

theorem targets_run (s : World) (w : Nat) (ev : Evaluation)
    (htop : s.target = (s.targetStack.head?).join) :
    (Watcher.run s w ev).1.target = s.target ∧
    (Watcher.run s w ev).1.targetStack = s.targetStack := by
  obtain ⟨g1, g2⟩ := targets_get s w ev
  rw [← htop] at g2
  unfold Watcher.run
  by_cases hact : (s.watchers w).active
  · simp only [hact, if_true]
    cases hres : Watcher.get s w ev with
    | mk s1 r =>
      rw [hres] at g1 g2
      cases r with
      | error e => exact ⟨g2, g1⟩
      | ok value =>
        simp only
        split
        · exact ⟨g2, g1⟩
        · exact ⟨g2, g1⟩
  · simp [hact]

theorem targets_evaluate (s : World) (w : Nat) (ev : Evaluation)
    (htop : s.target = (s.targetStack.head?).join) :
    (Watcher.evaluate s w ev).1.target = s.target ∧
    (Watcher.evaluate s w ev).1.targetStack = s.targetStack := by
  obtain ⟨g1, g2⟩ := targets_get s w ev
  rw [← htop] at g2
  unfold Watcher.evaluate
  cases hres : Watcher.get s w ev with
  | mk s1 r =>
    rw [hres] at g1 g2
    cases r with
    | error e => exact ⟨g2, g1⟩
    | ok value => exact ⟨g2, g1⟩

theorem targets_update (s : World) (w : Nat) (ev : Evaluation)
    (htop : s.target = (s.targetStack.head?).join) :
    (Watcher.update s w ev).1.target = s.target ∧
    (Watcher.update s w ev).1.targetStack = s.targetStack := by
  unfold Watcher.update
  by_cases hl : (s.watchers w).lazy
  · simp [hl, World.setWatcher]
  · by_cases hs : (s.watchers w).sync
    · simp only [hl, hs, Bool.false_eq_true, if_false, if_true]
      exact targets_run s w ev htop
    · simp [hl, hs]

theorem targets_new (s : World) (vm : Nat) (options : Option WatcherOptions)
    (isRenderWatcher : Bool) (ev : Evaluation) (htop : s.target = (s.targetStack.head?).join) :
    (Watcher.new s vm options isRenderWatcher ev).1.target = s.target ∧
    (Watcher.new s vm options isRenderWatcher ev).1.targetStack = s.targetStack := by
  have tail : ∀ (t : World) (id : Nat), t.target = s.target → t.targetStack = s.targetStack →
      (match Watcher.get t id ev with
        | (s3, Except.error e) => ((s3, id, Except.error e) : World × Nat × Except Val Unit)
        | (s3, Except.ok value) =>
          (s3.setWatcher id { s3.watchers id with value := value }, id, Except.ok ())).1.target
        = s.target ∧
      (match Watcher.get t id ev with
        | (s3, Except.error e) => ((s3, id, Except.error e) : World × Nat × Except Val Unit)
        | (s3, Except.ok value) =>
          (s3.setWatcher id { s3.watchers id with value := value }, id, Except.ok ())).1.targetStack
        = s.targetStack := by
    intro t id h1 h2
    obtain ⟨g1, g2⟩ := targets_get t id ev
    rw [h2] at g1 g2
    rw [← htop] at g2
    cases hres : Watcher.get t id ev with
    | mk s3 r =>
      rw [hres] at g1 g2
      cases r with
      | error e => exact ⟨g2, g1⟩
      | ok value => exact ⟨g2, g1⟩
  unfold Watcher.new
  simp only
  split
  · exact ⟨rfl, rfl⟩
  · exact tail _ _ rfl rfl

/-- In every reachable state `Dep.target` is the top of `targetStack` (no watcher when the
stack is empty). -/
theorem target_is_top (s : World) (h : Reachable s) : s.target = (s.targetStack.head?).join := by
  induction h with
  | init => rfl
  | construct s vm options isRenderWatcher ev _ ih =>
    obtain ⟨a, b⟩ := targets_new s vm options isRenderWatcher ev ih
    rw [a, b]; exact ih
  | get s w ev _ _ _ => exact (targets_get s w ev).2.trans (by rw [(targets_get s w ev).1])
  | run s w ev _ _ ih =>
    obtain ⟨a, b⟩ := targets_run s w ev ih
    rw [a, b]; exact ih
  | evaluate s w ev _ _ ih =>
    obtain ⟨a, b⟩ := targets_evaluate s w ev ih
    rw [a, b]; exact ih
  | update s w ev _ _ ih =>
    obtain ⟨a, b⟩ := targets_update s w ev ih
    rw [a, b]; exact ih
  | depend s w _ _ ih =>
    obtain ⟨a, b⟩ := targets_foldr_depend (s.watchers w).deps s
    unfold Watcher.depend
    rw [a, b]; exact ih
  | cleanupDeps s w _ _ ih =>
    obtain ⟨a, b⟩ := targets_cleanupDeps s w
    rw [a, b]; exact ih
  | teardown s w _ _ ih =>
    obtain ⟨a, b⟩ := targets_teardown s w
    rw [a, b]; exact ih
  | depDepend s d _ ih =>
    obtain ⟨a, b⟩ := targets_depend s d
    rw [a, b]; exact ih
  | pushTarget s w _ _ _ => rfl
  | pushNoTarget s _ _ => rfl
  | popTarget s _ _ => rfl

/-- C23. In every reachable state, after `Watcher.get()`, whether it returned or threw,
`Dep.target` and `targetStack` are what they were before the call (the state does not tell
`null` from `undefined`: both are "no watcher"). So a `get()` nested in the evaluation of
another watcher leaves that watcher as `Dep.target`, and a `get()` started without a target
leaves none. -/
theorem get_restores_target (s : World) (w : Nat) (ev : Evaluation) (hr : Reachable s) :
    (Watcher.get s w ev).1.target = s.target ∧
    (Watcher.get s w ev).1.targetStack = s.targetStack ∧
    (∀ outer : Nat, s.target = some outer → (Watcher.get s w ev).1.target = some outer) ∧
    (s.target = none → (Watcher.get s w ev).1.target = none) := by
  have htop := target_is_top s hr
  obtain ⟨g1, g2⟩ := targets_get s w ev
  rw [← htop] at g2
  exact ⟨g2, g1, fun outer ho => g2.trans ho, fun hn => g2.trans hn⟩

/-- Witness of C23: watcher 2 is evaluated inside the evaluation of watcher 1 and its getter
throws; watcher 1 is `Dep.target` again afterwards. -/
theorem get_restores_target_witness :
    Reachable World.nested ∧ World.nested.target = some 1 ∧
    (Watcher.get World.nested 2 Evaluation.throwing).2 = Except.error (Val.str "boom") ∧
    (Watcher.get World.nested 2 Evaluation.throwing).1.target = some 1 ∧
    (Watcher.get World.nested 2 Evaluation.throwing).1.targetStack = World.nested.targetStack :=
  ⟨Reachable.pushTarget _ 1
      (Reachable.construct _ 0 none false Evaluation.first
        (Reachable.construct World.init 0 none false Evaluation.first Reachable.init))
      ⟨by decide, by decide⟩,
   rfl, rfl,
   (get_restores_target World.nested 2 Evaluation.throwing
      (Reachable.pushTarget _ 1
        (Reachable.construct _ 0 none false Evaluation.first
          (Reachable.construct World.init 0 none false Evaluation.first Reachable.init))
        ⟨by decide, by decide⟩)).2.2.1 1 rfl,
   (get_restores_target World.nested 2 Evaluation.throwing
      (Reachable.pushTarget _ 1
        (Reachable.construct _ 0 none false Evaluation.first
          (Reachable.construct World.init 0 none false Evaluation.first Reachable.init))
        ⟨by decide, by decide⟩)).2.1⟩

/-! ## A torn-down watcher -/

/-- `run()` on a watcher that is not active does nothing. -/
theorem run_of_inactive (s : World) (w : Nat) (ev : Evaluation)
    (h : (s.watchers w).active = false) : Watcher.run s w ev = (s, Except.ok ()) := by
  unfold Watcher.run
  simp [h]

/-- `update()` on a watcher that is not active: no `subs` changes, and of the watcher at
most `dirty`. -/
theorem update_of_inactive (s : World) (w : Nat) (ev : Evaluation)
    (h : (s.watchers w).active = false) :
    (Watcher.update s w ev).1.subs = s.subs ∧
    ((Watcher.update s w ev).1.watchers w).active = false ∧
    ((Watcher.update s w ev).1.watchers w).deps = (s.watchers w).deps ∧
    ((Watcher.update s w ev).1.watchers w).depIds = (s.watchers w).depIds := by
  unfold Watcher.update
  by_cases hl : (s.watchers w).lazy
  · simp [hl, h]
  · by_cases hs : (s.watchers w).sync
    · simp only [hl, hs, Bool.false_eq_true, if_false, if_true]
      rw [run_of_inactive s w ev h]
      exact ⟨rfl, h, rfl, rfl⟩
    · simp [hl, hs, h]

/-- `dep.depend()` of a Dep recorded in `depIds` of watcher `w` does not add `w` to any
`subs`, whoever `Dep.target` is. -/
theorem depend_of_recorded (s : World) (w a : Nat) (ha : a ∈ (s.watchers w).depIds) :
    (∀ d, ((Dep.depend s a).subs d).count w = (s.subs d).count w) ∧
    ((Dep.depend s a).watchers w).active = (s.watchers w).active ∧
    ((Dep.depend s a).watchers w).deps = (s.watchers w).deps ∧
    ((Dep.depend s a).watchers w).depIds = (s.watchers w).depIds := by
  unfold Dep.depend
  split
  · rename_i t _
    refine ⟨?_, ?_, ?_, ?_⟩
    · intro d
      rw [count_subs_addDep]
      by_cases htw : w = t
      · subst htw; simp [ha]
      · simp [htw]
    all_goals
      rw [watchers_addDep]
      split
      · rename_i hc; rw [← hc.1]
      · rfl
  · exact ⟨fun _ => rfl, rfl, rfl, rfl⟩

theorem depend_loop_of_recorded (w : Nat) (L : List Nat) (s : World)
    (hL : ∀ d ∈ L, d ∈ (s.watchers w).depIds) :
    (∀ d, ((L.foldr (fun d acc => Dep.depend acc d) s).subs d).count w = (s.subs d).count w) ∧
    ((L.foldr (fun d acc => Dep.depend acc d) s).watchers w).active = (s.watchers w).active ∧
    ((L.foldr (fun d acc => Dep.depend acc d) s).watchers w).deps = (s.watchers w).deps ∧
    ((L.foldr (fun d acc => Dep.depend acc d) s).watchers w).depIds = (s.watchers w).depIds := by
  induction L with
  | nil => exact ⟨fun _ => rfl, rfl, rfl, rfl⟩
  | cons a L ih =>
    obtain ⟨i1, i2, i3, i4⟩ := ih (fun d hd => hL d (List.mem_cons_of_mem _ hd))
    simp only [List.foldr_cons]
    obtain ⟨j1, j2, j3, j4⟩ := depend_of_recorded
      (L.foldr (fun d acc => Dep.depend acc d) s) w a
      (by rw [i4]; exact hL a (List.mem_cons_self _ _))
    exact ⟨fun d => (j1 d).trans (i1 d), j2.trans i2, j3.trans i3, j4.trans i4⟩

/-- A call of `update()`, `run()` or `depend()` on a watcher that is not active, with its
`deps` recorded in `depIds`, leaves it in the `subs` it was in. -/
theorem call_of_inactive (s : World) (w : Nat) (c : WatcherCall)
    (hact : (s.watchers w).active = false)
    (hrec : ∀ d ∈ (s.watchers w).deps, d ∈ (s.watchers w).depIds) :
    (∀ d, ((Watcher.call s w c).subs d).count w = (s.subs d).count w) ∧
    ((Watcher.call s w c).watchers w).active = false ∧
    (∀ d ∈ ((Watcher.call s w c).watchers w).deps, d ∈ ((Watcher.call s w c).watchers w).depIds) := by
  cases c with
  | update ev =>
    obtain ⟨u1, u2, u3, u4⟩ := update_of_inactive s w ev hact
    exact ⟨fun d => by show (((Watcher.update s w ev).1.subs d)).count w = _; rw [u1], u2,
      fun d hd => by
        show d ∈ ((Watcher.update s w ev).1.watchers w).depIds
        rw [u4]; exact hrec d (by rw [← u3]; exact hd)⟩
  | run ev =>
    show (∀ d, (((Watcher.run s w ev).1.subs d)).count w = _) ∧
      ((Watcher.run s w ev).1.watchers w).active = false ∧
      (∀ d ∈ ((Watcher.run s w ev).1.watchers w).deps, d ∈ ((Watcher.run s w ev).1.watchers w).depIds)
    rw [run_of_inactive s w ev hact]
    exact ⟨fun _ => rfl, hact, hrec⟩
  | depend =>
    obtain ⟨d1, d2, d3, d4⟩ := depend_loop_of_recorded w (s.watchers w).deps s hrec
    exact ⟨d1, d2.trans hact, fun d hd => by
      show d ∈ ((Watcher.depend s w).watchers w).depIds
      unfold Watcher.depend
      rw [d4]; exact hrec d (by
        have : d ∈ ((Watcher.depend s w).watchers w).deps := hd
        unfold Watcher.depend at this
        rw [d3] at this; exact this)⟩

theorem calls_of_inactive (w : Nat) (calls : List WatcherCall) : ∀ s : World,
    (s.watchers w).active = false →
    (∀ d ∈ (s.watchers w).deps, d ∈ (s.watchers w).depIds) →
    (∀ d, ((calls.foldl (fun acc c => Watcher.call acc w c) s).subs d).count w
      = (s.subs d).count w) ∧
    ((calls.foldl (fun acc c => Watcher.call acc w c) s).watchers w).active = false := by
  induction calls with
  | nil => intro s hact _; exact ⟨fun _ => rfl, hact⟩
  | cons c rest ih =>
    intro s hact hrec
    obtain ⟨c1, c2, c3⟩ := call_of_inactive s w c hact hrec
    obtain ⟨r1, r2⟩ := ih (Watcher.call s w c) c2 c3
    simp only [List.foldl_cons]
    exact ⟨fun d => (r1 d).trans (c1 d), r2⟩

/-- C24, as the claim states it, fails for `evaluate()`, which does not test `active`: it
calls `get()`, and `addDep` subscribes the watcher to every Dep read that is not in its
`depIds`. A lazy watcher is torn down, subscribed nowhere; `evaluate()` with a getter that
reads Deps 2 and 3 puts it into the `subs` of both, and it is still not active. A watcher
that was subscribed to Deps 1 and 2 when torn down is, after `evaluate()` with the same
getter, in the `subs` of Dep 3. -/
theorem evaluate_resubscribes_torn_down_watcher :
    (World.lazyTornDown.watchers 1).active = false ∧
    (World.lazyTornDown.subs 2, World.lazyTornDown.subs 3) = ([], []) ∧
    ((Watcher.evaluate World.lazyTornDown 1 Evaluation.sample).1.subs 2,
      (Watcher.evaluate World.lazyTornDown 1 Evaluation.sample).1.subs 3) = ([1], [1]) ∧
    ((Watcher.evaluate World.lazyTornDown 1 Evaluation.sample).1.watchers 1).active = false ∧
    ((Watcher.teardown (Watcher.new World.init 0 none false Evaluation.first).1 1).subs 1,
      (Watcher.teardown (Watcher.new World.init 0 none false Evaluation.first).1 1).subs 2,
      (Watcher.teardown (Watcher.new World.init 0 none false Evaluation.first).1 1).subs 3)
      = ([], [], []) ∧
    (Watcher.evaluate (Watcher.teardown (Watcher.new World.init 0 none false
        Evaluation.first).1 1) 1 Evaluation.sample).1.subs 3 = [1] :=
  ⟨by decide, by decide, by decide, by decide, by decide, by decide⟩

/-- C24 as amended. In a reachable state, once `teardown()` has run on a watcher, no later
call to its `update()`, `run()` or `depend()`, in any number and order, adds the watcher to
any Dep's `subs`: it is in each `subs` as often as `teardown()` left it, and stays not
active. If it was active and in the `subs` of exactly the Deps of its `deps` list when torn
down, it is in no `subs` after these calls. -/
theorem torn_down_stays_unsubscribed (s : World) (w : Nat) (hr : Reachable s)
    (calls : List WatcherCall) :
    (∀ d, ((calls.foldl (fun acc c => Watcher.call acc w c) (Watcher.teardown s w)).subs d).count w
      = ((Watcher.teardown s w).subs d).count w) ∧
    ((calls.foldl (fun acc c => Watcher.call acc w c) (Watcher.teardown s w)).watchers w).active
      = false ∧
    ((s.watchers w).active = true → (∀ d, w ∈ s.subs d ↔ d ∈ (s.watchers w).deps) →
      ∀ d, w ∉ (calls.foldl (fun acc c => Watcher.call acc w c) (Watcher.teardown s w)).subs d) := by
  have hwf := reachable_WF s hr
  have hwf2 := WF_teardown s w hwf
  obtain ⟨c1, c2⟩ := calls_of_inactive w calls (Watcher.teardown s w) (active_teardown s w)
    (fun d hd => (hwf2.2.2.1 w d).2 hd)
  refine ⟨c1, c2, ?_⟩
  intro hact hsubs d
  rw [← List.count_eq_zero, c1 d, count_subs_teardown s w w d hact]
  simp only [if_true]
  have h1 := hwf.1 w d
  by_cases hm : w ∈ s.subs d
  · have := List.count_pos_iff.2 ((hsubs d).1 hm)
    omega
  · rw [List.count_eq_zero.2 hm]
    omega

/-- Witness of C24 as amended: the watcher constructed reading Deps 1, 2, 1 is torn down,
then `update()`, `run()` and `depend()` are called on it. -/
theorem torn_down_stays_unsubscribed_witness :
    Reachable (Watcher.new World.init 0 none false Evaluation.first).1 ∧
    ∀ d, (((([WatcherCall.update Evaluation.sample, WatcherCall.run Evaluation.sample,
        WatcherCall.depend] : List WatcherCall).foldl (fun acc c => Watcher.call acc 1 c)
        (Watcher.teardown (Watcher.new World.init 0 none false Evaluation.first).1 1)).subs d).count 1
      = ((Watcher.teardown (Watcher.new World.init 0 none false Evaluation.first).1 1).subs d).count 1) :=
  ⟨Reachable.construct World.init 0 none false Evaluation.first Reachable.init,
   (torn_down_stays_unsubscribed _ 1
      (Reachable.construct World.init 0 none false Evaluation.first Reachable.init)
      [WatcherCall.update Evaluation.sample, WatcherCall.run Evaluation.sample,
        WatcherCall.depend]).1⟩

/-! ## One `nextTick` between two resets -/

/-- The first accepted `queueWatcher` call requests the flush. -/
theorem queueWatcher_first (s : Sched) (w : Nat) (hw : s.waiting = false)
    (hp : s.has w ≠ HasMark.yes) :
    (queueWatcher s w).waiting = true ∧ (queueWatcher s w).ticks = s.ticks + 1 := by
  unfold queueWatcher
  by_cases hf : s.flushing <;> simp [hp, hf, hw, Sched.setHas]

/-- Between two resets: while no flush has been requested the queue is empty and no watcher
is marked present, and `nextTick` has not been called; once one has been requested,
`nextTick` has been called exactly once. -/
theorem sinceReset_ticks (s0 : Sched) (p : Phase) (s : Sched) (h : SinceReset s0 p s) :
    (s.waiting = false → s.ticks = s0.ticks ∧ s.queue = [] ∧ ∀ w, s.has w ≠ HasMark.yes) ∧
    (s.waiting = true → s.ticks = s0.ticks + 1) := by
  have step : ∀ (t : Sched) (w : Nat),
      ((t.waiting = false → t.ticks = s0.ticks ∧ t.queue = [] ∧ ∀ w, t.has w ≠ HasMark.yes) ∧
        (t.waiting = true → t.ticks = s0.ticks + 1)) →
      ((queueWatcher t w).waiting = false →
          (queueWatcher t w).ticks = s0.ticks ∧ (queueWatcher t w).queue = [] ∧
          ∀ x, (queueWatcher t w).has x ≠ HasMark.yes) ∧
        ((queueWatcher t w).waiting = true → (queueWatcher t w).ticks = s0.ticks + 1) := by
    intro t w ih
    cases hw : t.waiting with
    | true =>
      obtain ⟨a1, a2⟩ := queueWatcher_waiting t w hw
      exact ⟨fun hh => (by rw [a1] at hh; cases hh), fun _ => (by rw [a2]; exact ih.2 hw)⟩
    | false =>
      obtain ⟨b1, _, b3⟩ := ih.1 hw
      obtain ⟨a1, a2⟩ := queueWatcher_first t w hw (b3 w)
      exact ⟨fun hh => (by rw [a1] at hh; cases hh), fun _ => (by rw [a2, b1])⟩
  induction h with
  | reset =>
    refine ⟨fun _ => ⟨rfl, rfl, fun w => ?_⟩, fun hh => ?_⟩
    · simp [resetSchedulerState]
    · simp [resetSchedulerState] at hh
  | queueIdle s w _ ih => exact step s w ih
  | flushStart s _ ih =>
    refine ⟨fun hh => ?_, fun hh => ih.2 hh⟩
    obtain ⟨a1, a2, a3⟩ := ih.1 hh
    exact ⟨a1, by show s.queue.insertionSort (· ≤ ·) = []; rw [a2]; rfl, a3⟩
  | queueBefore s w _ _ ih => exact step s w ih
  | runStart s w _ hget ih =>
    refine ⟨fun hh => ?_, fun hh => ih.2 hh⟩
    obtain ⟨_, a2, _⟩ := ih.1 hh
    rw [a2] at hget
    simp at hget
  | queueRunning s w _ ih => exact step s w ih
  | runEnd s _ ih =>
    exact ⟨fun hh => ih.1 hh, fun hh => ih.2 hh⟩

/-- C22. Between two resets of the scheduler state `nextTick(flushSchedulerQueue)` is
called at most once: in every state since the last reset (outside a flush, at the head of
the flush loop, inside a `run()`) the number of calls is that at the reset, or one more once
`waiting` is set. A `queueWatcher` call made while `waiting` is not set enqueues its
watcher, sets `waiting` and calls `nextTick`; a `queueWatcher` call made while `waiting`
is set calls no `nextTick`. -/
theorem nextTick_at_most_once (s0 : Sched) (p : Phase) (s : Sched) (h : SinceReset s0 p s) :
    s.ticks ≤ s0.ticks + 1 ∧
    (s.waiting = false → s.ticks = s0.ticks) ∧
    (s.waiting = true → s.ticks = s0.ticks + 1) ∧
    (∀ w, s.waiting = false →
      (queueWatcher s w).queue = [w] ∧ (queueWatcher s w).waiting = true ∧
      (queueWatcher s w).ticks = s.ticks + 1) ∧
    (∀ w, s.waiting = true →
      (queueWatcher s w).waiting = true ∧ (queueWatcher s w).ticks = s.ticks) := by
  obtain ⟨a1, a2⟩ := sinceReset_ticks s0 p s h
  refine ⟨?_, fun hh => (a1 hh).1, a2, ?_, fun w hh => queueWatcher_waiting s w hh⟩
  · cases hw : s.waiting with
    | true => rw [a2 hw]
    | false => rw [(a1 hw).1]; omega
  · intro w hh
    obtain ⟨_, b2, b3⟩ := a1 hh
    obtain ⟨c1, c2⟩ := queueWatcher_first s w hh (b3 w)
    refine ⟨?_, c1, c2⟩
    rw [queueWatcher_queue, if_neg (b3 w), b2]
    split
    · simp [spliceIn, scanBack]
    · rfl

/-- Witness of C22: inside the run of watcher 1, after watchers 3 and 1 were enqueued before
the flush and watcher 2 from inside the run, `nextTick` has been called once. -/
theorem nextTick_at_most_once_witness :
    SinceReset Sched.init Phase.running Sched.midFlush ∧
    Sched.midFlush.ticks ≤ Sched.init.ticks + 1 ∧
    (Sched.midFlush.waiting = true → Sched.midFlush.ticks = Sched.init.ticks + 1) :=
  ⟨SinceReset.queueRunning _ 2
      (SinceReset.runStart _ 1
        (SinceReset.flushStart _
          (SinceReset.queueIdle _ 1 (SinceReset.queueIdle _ 3 SinceReset.reset)))
        (by decide)),
   (nextTick_at_most_once Sched.init Phase.running Sched.midFlush
      (SinceReset.queueRunning _ 2
        (SinceReset.runStart _ 1
          (SinceReset.flushStart _
            (SinceReset.queueIdle _ 1 (SinceReset.queueIdle _ 3 SinceReset.reset)))
          (by decide)))).1,
   (nextTick_at_most_once Sched.init Phase.running Sched.midFlush
      (SinceReset.queueRunning _ 2
        (SinceReset.runStart _ 1
          (SinceReset.flushStart _
            (SinceReset.queueIdle _ 1 (SinceReset.queueIdle _ 3 SinceReset.reset)))
          (by decide)))).2.2.1⟩

theorem midFlush_ticks : Sched.midFlush.ticks = 1 ∧ Sched.midFlush.waiting = true := by
  decide

/-! ## A watcher re-triggered during the flush -/

/-- A `queueWatcher` call during a flush, seen from a position `k` up to just after the
cursor: the entries before `k` stay, the entries from `k` on stay behind `k`, and the
watcher is among them afterwards if it was not marked present. -/
theorem queueWatcher_keeps (s : Sched) (w k : Nat) (hf : s.flushing = true)
    (hk : k ≤ s.index + 1) (hlt : s.index < s.queue.length) :
    (queueWatcher s w).queue.take k = s.queue.take k ∧
    (∀ x ∈ s.queue.drop k, x ∈ (queueWatcher s w).queue.drop k) ∧
    (s.has w ≠ HasMark.yes → w ∈ (queueWatcher s w).queue.drop k ∧
      (queueWatcher s w).queue.length = s.queue.length + 1) := by
  by_cases hp : s.has w = HasMark.yes
  · rw [queueWatcher_of_present s w hp]
    exact ⟨rfl, fun _ hx => hx, fun hn => absurd hp hn⟩
  · have hq := queueWatcher_queue s w
    simp only [hp, hf, if_true, if_false] at hq
    have hj1 := lt_scanBack s.queue s.index w s.queue.length hlt
    have hj2 := scanBack_le s.queue s.index w s.queue.length
    have hperm := drop_spliceIn_perm s.queue (scanBack s.queue s.index w s.queue.length) k w
      (by omega) hj2
    rw [hq]
    refine ⟨?_, ?_, fun _ => ⟨?_, length_spliceIn _ _ _⟩⟩
    · unfold spliceIn
      rw [List.take_append_of_le_length (by simp; omega), List.take_take]
      congr 1
      omega
    · intro x hx
      exact hperm.mem_iff.2 (List.mem_cons_of_mem _ hx)
    · exact hperm.mem_iff.2 (List.mem_cons_self _ _)

theorem foldl_queueWatcher_keeps (reqs : List Nat) (k : Nat) : ∀ s : Sched,
    s.flushing = true → k ≤ s.index + 1 → s.index < s.queue.length →
    (reqs.foldl queueWatcher s).queue.take k = s.queue.take k ∧
    (∀ x ∈ s.queue.drop k, x ∈ (reqs.foldl queueWatcher s).queue.drop k) := by
  induction reqs with
  | nil => intro s _ _ _; exact ⟨rfl, fun _ hx => hx⟩
  | cons a l ih =>
    intro s hf hk hlt
    obtain ⟨f1, f2, _⟩ := queueWatcher_frame s a
    obtain ⟨q1, q2, _⟩ := queueWatcher_keeps s a k hf hk hlt
    have hlen := length_le_queueWatcher s a
    obtain ⟨r1, r2⟩ := ih (queueWatcher s a) (by rw [f1]; exact hf) (by rw [f2]; exact hk)
      (by rw [f2]; omega)
    simp only [List.foldl_cons]
    exact ⟨r1.trans q1, fun x hx => r2 x (q2 x hx)⟩

/-- In a reachable state a watcher marked present is among the entries still to be run. -/
theorem marked_is_pending (p : Phase) (s : Sched) (h : SchedReachable p s) :
    ∀ x, s.has x = HasMark.yes → x ∈ s.pending p := by
  have flushing_step : ∀ (t : Sched) (w k : Nat), t.flushing = true → k ≤ t.index + 1 →
      t.index < t.queue.length → (∀ x, t.has x = HasMark.yes → x ∈ t.queue.drop k) →
      ∀ x, (queueWatcher t w).has x = HasMark.yes → x ∈ (queueWatcher t w).queue.drop k := by
    intro t w k hf hk hlt hm x hx
    obtain ⟨_, q2, q3⟩ := queueWatcher_keeps t w k hf hk hlt
    rw [queueWatcher_has] at hx
    by_cases hxw : x = w
    · subst hxw
      by_cases hp : t.has x = HasMark.yes
      · exact q2 x (hm x hp)
      · exact (q3 hp).1
    · simp only [hxw, if_false] at hx
      exact q2 x (hm x hx)
  induction h with
  | init => intro x hx; simp [Sched.init] at hx
  | queueIdle s w hs ih =>
    intro x hx
    have hf : s.flushing = false := by
      cases hfl : s.flushing with
      | false => rfl
      | true => exact absurd rfl ((inv_of_reachable _ _ hs).1.1 hfl)
    obtain ⟨_, q1, h1⟩ := queueWatcher_idle s w hf
    simp only [Sched.pending] at ih ⊢
    rw [h1] at hx
    rw [q1]
    by_cases hxw : x = w
    · subst hxw
      split
      · rename_i hp; exact ih x hp
      · simp
    · simp only [hxw, if_false] at hx
      split
      · exact ih x hx
      · exact List.mem_append_left _ (ih x hx)
  | flushStart s _ ih =>
    intro x hx
    simp only [Sched.pending, flushStart, List.drop_zero] at ih ⊢
    exact (List.perm_insertionSort (· ≤ ·) s.queue).mem_iff.2 (ih x hx)
  | queueBefore s w hs hlt ih =>
    intro x hx
    have hf : s.flushing = true := (inv_of_reachable _ _ hs).1.2 (by simp)
    simp only [Sched.pending] at ih ⊢
    rw [(queueWatcher_frame s w).2.1]
    exact flushing_step s w s.index hf (by omega) hlt ih x hx
  | runStart s w _ hget ih =>
    intro x hx
    simp only [Sched.pending, Sched.setHas] at ih hx ⊢
    obtain ⟨hlt, hw⟩ := List.getElem?_eq_some_iff.1 hget
    by_cases hxw : x = w
    · simp [hxw] at hx
    · simp only [hxw, if_false] at hx
      have hmem := ih x hx
      rw [List.drop_eq_getElem_cons hlt, hw] at hmem
      rcases List.mem_cons.1 hmem with h1 | h1
      · exact absurd h1 hxw
      · exact h1
  | queueRunning s w hs ih =>
    intro x hx
    have hinv := inv_of_reachable _ _ hs
    have hf : s.flushing = true := hinv.1.2 (by simp)
    simp only [Sched.pending] at ih ⊢
    rw [(queueWatcher_frame s w).2.1]
    exact flushing_step s w (s.index + 1) hf (Nat.le_refl _) (hinv.2.1 rfl) ih x hx
  | runEnd s _ ih => intro x hx; exact ih x hx
  | flushEnd s _ _ _ => intro x hx; simp [resetSchedulerState] at hx

/-- One turn of the flush loop, seen from a position `k` up to just after the cursor. -/
theorem flushBody_keeps {ε : Type} (J : Jobs ε) (st : FlushState ε) (c k : Nat)
    (hf : st.sched.flushing = true) (hget : st.sched.queue[st.sched.index]? = some c)
    (hk : k ≤ st.sched.index + 1) :
    (flushBody J st c).sched.flushing = true ∧
    (flushBody J st c).sched.index = st.sched.index ∧
    (flushBody J st c).sched.queue.take k = st.sched.queue.take k ∧
    (∀ x ∈ st.sched.queue.drop k, x ∈ (flushBody J st c).sched.queue.drop k) := by
  obtain ⟨hlt, _⟩ := List.getElem?_eq_some_iff.1 hget
  obtain ⟨a1, a2, a3, _⟩ := foldl_queueWatcher_prefix (J.before c st.env).2 st.sched hf hlt
  obtain ⟨a5, a6⟩ := foldl_queueWatcher_keeps (J.before c st.env).2 k st.sched hf hk hlt
  have hlt2 : (((J.before c st.env).2.foldl queueWatcher st.sched).setHas c HasMark.null).index
      < (((J.before c st.env).2.foldl queueWatcher st.sched).setHas c HasMark.null).queue.length :=
    (a2.symm ▸ a3 : ((J.before c st.env).2.foldl queueWatcher st.sched).index
      < ((J.before c st.env).2.foldl queueWatcher st.sched).queue.length)
  have hk2 : k ≤ (((J.before c st.env).2.foldl queueWatcher st.sched).setHas c HasMark.null).index
      + 1 := by
    show k ≤ ((J.before c st.env).2.foldl queueWatcher st.sched).index + 1
    rw [a2]; exact hk
  obtain ⟨b1, b2, _, _⟩ := foldl_queueWatcher_prefix (J.run c (J.before c st.env).1).2
    (((J.before c st.env).2.foldl queueWatcher st.sched).setHas c HasMark.null) a1 hlt2
  obtain ⟨b5, b6⟩ := foldl_queueWatcher_keeps (J.run c (J.before c st.env).1).2 k
    (((J.before c st.env).2.foldl queueWatcher st.sched).setHas c HasMark.null) a1 hk2 hlt2
  by_cases hb : J.beforeThrows c st.env = true
  · have hbody : (flushBody J st c).sched = (J.before c st.env).2.foldl queueWatcher st.sched := by
      unfold flushBody
      simp [hb]
    rw [hbody]
    exact ⟨a1, a2, a5, a6⟩
  · rw [flushBody_of_returns J st c (by simpa using hb)]
    exact ⟨b1, b2.trans a2, b5.trans a5, fun x hx => b6 x (a6 x hx)⟩

/-- The turns of the flush loop, seen from a position `k` up to the cursor: the entries
before `k` stay, the entries from `k` on stay behind `k`. -/
theorem flushIter_keeps {ε : Type} (J : Jobs ε) (k n : Nat) : ∀ st : FlushState ε,
    st.sched.flushing = true → k ≤ st.sched.index →
    (flushIter J n st).sched.queue.take k = st.sched.queue.take k ∧
    (∀ x ∈ st.sched.queue.drop k, x ∈ (flushIter J n st).sched.queue.drop k) := by
  induction n with
  | zero => intro st _ _; exact ⟨rfl, fun _ hx => hx⟩
  | succ n ih =>
    intro st hf hk
    by_cases ht : st.thrown = true
    · rw [flushIter_of_thrown J _ st ht]
      exact ⟨rfl, fun _ hx => hx⟩
    · cases hget : st.sched.queue[st.sched.index]? with
      | none =>
        rw [flushIter_done J _ st hget]
        exact ⟨rfl, fun _ hx => hx⟩
      | some c =>
        obtain ⟨b1, b2, b3, b4⟩ := flushBody_keeps J st c k hf hget (by omega)
        by_cases hbt : (flushBody J st c).thrown = true
        · rw [flushIter_succ_thrown J n st c (by simpa using ht) hget hbt]
          exact ⟨b3, b4⟩
        · rw [flushIter_succ J n st c (by simpa using ht) hget (by simpa using hbt)]
          obtain ⟨r1, r2⟩ := ih
            { flushBody J st c with
              sched := { (flushBody J st c).sched with
                         index := (flushBody J st c).sched.index + 1 } }
            b1 (by show k ≤ (flushBody J st c).sched.index + 1; rw [b2]; omega)
          exact ⟨r1.trans b3, fun x hx => r2 x (b4 x hx)⟩

/-- Once the loop has exited, further turns do nothing. -/
theorem flushIter_add {ε : Type} (J : Jobs ε) (a b : Nat) : ∀ st : FlushState ε,
    flushIter J (a + b) st = flushIter J b (flushIter J a st) := by
  induction a with
  | zero => intro st; simp [flushIter]
  | succ a ih =>
    intro st
    rw [show a + 1 + b = (a + b) + 1 from by omega]
    cases hget : st.sched.queue[st.sched.index]? with
    | none =>
      rw [flushIter_done J _ st hget, flushIter_done J _ st hget, flushIter_done J _ st hget]
    | some c =>
      by_cases ht : st.thrown = true
      · rw [flushIter_of_thrown J _ st ht, flushIter_of_thrown J _ st ht,
          flushIter_of_thrown J _ st ht]
      · by_cases hbt : (flushBody J st c).thrown = true
        · rw [flushIter_succ_thrown J _ st c (by simpa using ht) hget hbt,
            flushIter_succ_thrown J _ st c (by simpa using ht) hget hbt,
            flushIter_of_thrown J _ _ hbt]
        · rw [flushIter_succ J _ st c (by simpa using ht) hget (by simpa using hbt),
            flushIter_succ J _ st c (by simpa using ht) hget (by simpa using hbt)]
          exact ih _

/-- The watchers run by a flush that has returned are the entries of its queue when the
loop exits. -/
theorem flush_result_ran {ε : Type} (J : Jobs ε) (fuel : Nat) (s : Sched) (e : ε)
    (r : FlushResult ε) (hr : flushSchedulerQueue J fuel s e = some r) :
    r.ran = (flushAt J s e fuel).sched.queue ∧
    (flushAt J s e fuel).sched.queue[(flushAt J s e fuel).sched.index]? = none ∧
    (flushAt J s e fuel).thrown = false := by
  unfold flushSchedulerQueue at hr
  cases hl : flushLoop J fuel { sched := flushStart s, env := e, ran := [] } with
  | none => rw [hl] at hr; cases hr
  | some st =>
    rw [hl] at hr
    simp only [Option.some.injEq] at hr
    obtain ⟨hst, hthrown, hexit⟩ := flushLoop_some J fuel _ st hl
    have hran := flushIter_ran J fuel { sched := flushStart s, env := e, ran := [] } rfl rfl
      hthrown
    unfold flushAt
    rw [← hst] at hran hexit hthrown ⊢
    subst hr
    exact ⟨by show st.ran = st.sched.queue; rw [hran, List.take_of_length_le (by omega)],
      List.getElem?_eq_none (by omega), hthrown⟩

/-- In a flush that returns no call throws: not in the first `i` turns, whatever `i`, and
not in the turn after them. -/
theorem flushAt_not_thrown {ε : Type} (J : Jobs ε) (fuel : Nat) (s : Sched) (e : ε)
    (r : FlushResult ε) (hr : flushSchedulerQueue J fuel s e = some r) (i : Nat) :
    (flushAt J s e i).thrown = false ∧
    ∀ c, (flushAt J s e i).sched.queue[(flushAt J s e i).sched.index]? = some c →
      (flushBody J (flushAt J s e i) c).thrown = false := by
  obtain ⟨_, hexit, hnt⟩ := flush_result_ran J fuel s e r hr
  have hall : ∀ j, (flushAt J s e j).thrown = false := by
    intro j
    by_cases hj : j ≤ fuel
    · by_contra hc
      have ht : (flushAt J s e j).thrown = true := by simpa using hc
      have hsplit : flushAt J s e fuel = flushAt J s e j := by
        unfold flushAt
        rw [show fuel = j + (fuel - j) from by omega, flushIter_add]
        exact flushIter_of_thrown J _ _ ht
      rw [hsplit, ht] at hnt
      cases hnt
    · have hsplit : flushAt J s e j = flushAt J s e fuel := by
        unfold flushAt
        rw [show j = fuel + (j - fuel) from by omega, flushIter_add]
        exact flushIter_done J _ _ hexit
      rw [hsplit]
      exact hnt
  refine ⟨hall i, ?_⟩
  intro c hc
  have h1 : flushAt J s e (i + 1) = flushIter J 1 (flushAt J s e i) := by
    unfold flushAt
    rw [flushIter_add]
  have h2 := hall (i + 1)
  rw [h1] at h2
  exact ((flushIter_not_thrown J 0 _ h2).2 c hc).1

/-- C21, as the claim states it, fails: `queueWatcher` for a watcher that is running, or
has run in this flush, is dropped when that watcher is already waiting behind the cursor
again. Inside the first `run()` of a flush of watcher 1, after that run has called
`queueWatcher` on watcher 1 (queue `[1, 1]`), a second call for watcher 1 leaves the queue
as it is. Inside the `run()` of watcher 5, with watcher 1 run already and re-enqueued (queue
`[1, 5, 1]`), a call for watcher 1 leaves the queue as it is. A watcher whose first run
calls `queueWatcher` on itself twice is run twice in the flush, not three times. -/
theorem second_retrigger_is_dropped :
    SchedReachable Phase.running Sched.selfRequeued ∧
    Sched.selfRequeued.queue[Sched.selfRequeued.index]? = some 1 ∧
    Sched.selfRequeued.queue = [1, 1] ∧
    (queueWatcher Sched.selfRequeued 1).queue = [1, 1] ∧
    Sched.afterRerun.queue.take Sched.afterRerun.index = [1] ∧
    Sched.afterRerun.queue = [1, 5, 1] ∧
    (queueWatcher Sched.afterRerun 1).queue = [1, 5, 1] ∧
    (flushSchedulerQueue Jobs.retriggerTwice 5 (queueWatcher Sched.init 1) 0).map
      (fun r => r.ran) = some [1, 1] :=
  ⟨SchedReachable.queueRunning _ 1
      (SchedReachable.runStart _ 1
        (SchedReachable.flushStart _ (SchedReachable.queueIdle _ 1 SchedReachable.init))
        (by decide)),
   by decide, by decide, by decide, by decide, by decide, by decide, by decide⟩

/-- In a flush that returns, after the turn of watcher `c`: the watchers run are those run
before this turn, then `c`, then a rest that holds every entry that was behind the cursor
when the turn ended. -/
theorem later_turns_run {ε : Type} (J : Jobs ε) (fuel : Nat) (s : Sched) (e : ε)
    (r : FlushResult ε) (hr : flushSchedulerQueue J fuel s e = some r) (i c : Nat)
    (hf : (flushAt J s e i).sched.flushing = true)
    (hc : (flushAt J s e i).sched.queue[(flushAt J s e i).sched.index]? = some c) :
    ∃ rest : List Nat, r.ran = (flushAt J s e i).ran ++ c :: rest ∧
      ∀ x ∈ (flushBody J (flushAt J s e i) c).sched.queue.drop ((flushAt J s e i).sched.index + 1),
        x ∈ rest := by
  obtain ⟨hrran, hexit, _⟩ := flush_result_ran J fuel s e r hr
  obtain ⟨hnti, hntb⟩ := flushAt_not_thrown J fuel s e r hr i
  have hran : (flushAt J s e i).ran
      = (flushAt J s e i).sched.queue.take (flushAt J s e i).sched.index :=
    flushIter_ran J i { sched := flushStart s, env := e, ran := [] } rfl rfl hnti
  -- the loop has not exited after `i` turns, so `i < fuel`
  have hi : i < fuel := by
    by_contra hge
    have hsplit : flushAt J s e i = flushAt J s e fuel := by
      unfold flushAt
      rw [show i = fuel + (i - fuel) from by omega, flushIter_add]
      exact flushIter_done J _ _ hexit
    rw [hsplit, hexit] at hc
    cases hc
  have hfin : flushAt J s e fuel = flushIter J (fuel - i - 1)
      { flushBody J (flushAt J s e i) c with
        sched := { (flushBody J (flushAt J s e i) c).sched with
                   index := (flushBody J (flushAt J s e i) c).sched.index + 1 } } := by
    have h1 : flushAt J s e fuel = flushIter J (fuel - i - 1 + 1) (flushAt J s e i) := by
      unfold flushAt
      rw [← flushIter_add]
      congr 1
      omega
    rw [h1]
    exact flushIter_succ J _ _ c hnti hc (hntb c hc)
  generalize flushAt J s e i = st at hc hf hran hfin ⊢
  obtain ⟨b1, b2, b3, _⟩ := flushBody_keeps J st c (st.sched.index + 1) hf hc (Nat.le_refl _)
  obtain ⟨k1, k2⟩ := flushIter_keeps J (st.sched.index + 1) (fuel - i - 1)
    { flushBody J st c with
      sched := { (flushBody J st c).sched with index := (flushBody J st c).sched.index + 1 } }
    b1 (by show st.sched.index + 1 ≤ (flushBody J st c).sched.index + 1; rw [b2])
  rw [← hfin] at k1 k2
  refine ⟨(flushAt J s e fuel).sched.queue.drop (st.sched.index + 1), ?_, k2⟩
  rw [hrran, hran]
  conv_lhs => rw [← List.take_append_drop (st.sched.index + 1) (flushAt J s e fuel).sched.queue]
  have k1' : (flushAt J s e fuel).sched.queue.take (st.sched.index + 1)
      = st.sched.queue.take (st.sched.index + 1) := k1.trans b3
  rw [k1', List.take_succ, hc]
  simp

/-- C21 as amended. In a flush, started in a reachable state, that returns: when `run()`
of the watcher `c` at the cursor is entered, its marker has just been cleared and `c` is
not behind the cursor. For each `queueWatcher` call made by that `run()`, on any watcher
`x` (the running one and those run before included): the call is accepted, `x` being
inserted behind the cursor (the queue grows by one), unless `x` is already waiting behind
the cursor; either way `x` is behind the cursor after the call, the entries up to the
cursor are unchanged, and `x` is run after this `run()` of `c` before the flush finishes.
For each `queueWatcher` call made by the `before()` hook of `c`: the call is accepted, with
`x` inserted behind the cursor, unless `x` is waiting at or behind the cursor, and `x` is
run in this turn or after it. -/
theorem retriggered_watcher_runs_again {ε : Type} (J : Jobs ε) (fuel : Nat) (s : Sched) (e : ε)
    (r : FlushResult ε) (hs : SchedReachable Phase.idle s)
    (hr : flushSchedulerQueue J fuel s e = some r) (i c : Nat)
    (hc : (flushAt J s e i).sched.queue[(flushAt J s e i).sched.index]? = some c) :
    (runStartState J (flushAt J s e i) c).has c = HasMark.null ∧
    c ∉ (runStartState J (flushAt J s e i) c).queue.drop ((flushAt J s e i).sched.index + 1) ∧
    ∃ rest : List Nat, r.ran = (flushAt J s e i).ran ++ c :: rest ∧
      (∀ (pre : List Nat) (x : Nat) (post : List Nat),
        runCalls J (flushAt J s e i) c = pre ++ x :: post →
        (x ∉ (pre.foldl queueWatcher (runStartState J (flushAt J s e i) c)).queue.drop
            ((flushAt J s e i).sched.index + 1) →
          (queueWatcher (pre.foldl queueWatcher (runStartState J (flushAt J s e i) c))
              x).queue.length
            = (pre.foldl queueWatcher (runStartState J (flushAt J s e i) c)).queue.length + 1) ∧
        x ∈ (queueWatcher (pre.foldl queueWatcher (runStartState J (flushAt J s e i) c))
            x).queue.drop ((flushAt J s e i).sched.index + 1) ∧
        (queueWatcher (pre.foldl queueWatcher (runStartState J (flushAt J s e i) c)) x).queue.take
            ((flushAt J s e i).sched.index + 1)
          = (pre.foldl queueWatcher (runStartState J (flushAt J s e i) c)).queue.take
            ((flushAt J s e i).sched.index + 1) ∧
        x ∈ rest) ∧
      (∀ (pre : List Nat) (x : Nat) (post : List Nat),
        (J.before c (flushAt J s e i).env).2 = pre ++ x :: post →
        (x ∉ (pre.foldl queueWatcher (flushAt J s e i).sched).queue.drop
            (flushAt J s e i).sched.index →
          (queueWatcher (pre.foldl queueWatcher (flushAt J s e i).sched) x).queue.length
            = (pre.foldl queueWatcher (flushAt J s e i).sched).queue.length + 1 ∧
          x ∈ (queueWatcher (pre.foldl queueWatcher (flushAt J s e i).sched) x).queue.drop
            ((flushAt J s e i).sched.index + 1)) ∧
        (queueWatcher (pre.foldl queueWatcher (flushAt J s e i).sched) x).queue.take
            ((flushAt J s e i).sched.index + 1)
          = (pre.foldl queueWatcher (flushAt J s e i).sched).queue.take
            ((flushAt J s e i).sched.index + 1) ∧
        (x = c ∨ x ∈ rest)) := by
  obtain ⟨hnti, hntb⟩ := flushAt_not_thrown J fuel s e r hr i
  have hntc := flushBody_not_thrown J _ c (hntb c hc)
  have hreach : SchedReachable Phase.head (flushAt J s e i).sched :=
    reachable_flushIter J i _ (SchedReachable.flushStart s hs) hnti
  have hinv := inv_of_reachable _ _ hreach
  have hf : (flushAt J s e i).sched.flushing = true := hinv.1.2 (by simp)
  obtain ⟨rest, hrest, hall⟩ := later_turns_run J fuel s e r hr i c hf hc
  generalize flushAt J s e i = st at hc hreach hinv hf hrest hall hntc ⊢
  obtain ⟨hlt, hcw⟩ := List.getElem?_eq_some_iff.1 hc
  -- the `before()` hook
  obtain ⟨r1, r2, _⟩ := reachable_foldl_head (J.before c st.env).2 st.sched hreach hlt
  obtain ⟨a1, _, a3, a4⟩ := foldl_queueWatcher_prefix (J.before c st.env).2 st.sched hf hlt
  have hget1 : ((J.before c st.env).2.foldl queueWatcher st.sched).queue[
      ((J.before c st.env).2.foldl queueWatcher st.sched).index]? = some c := by
    rw [r2, ← List.getElem?_take_of_lt (Nat.lt_succ_self _), a4,
      List.getElem?_take_of_lt (Nat.lt_succ_self _)]
    exact hc
  have hinv1 := inv_of_reachable _ _ r1
  -- `has[id] = null`
  have r3 := SchedReachable.runStart _ c r1 hget1
  have hidx2 : (runStartState J st c).index = st.sched.index := r2
  have hf2 : (runStartState J st c).flushing = true := a1
  have hlt2 : (runStartState J st c).index < (runStartState J st c).queue.length := by
    rw [hidx2]; exact a3
  have hnotin : c ∉ (runStartState J st c).queue.drop (st.sched.index + 1) := by
    have hnd := hinv1.2.2.1
    simp only [Sched.pending] at hnd
    rw [r2, List.drop_eq_getElem_cons a3] at hnd
    have hhead : ((J.before c st.env).2.foldl queueWatcher st.sched).queue[st.sched.index] = c := by
      have := hget1
      rw [r2, List.getElem?_eq_getElem a3] at this
      exact Option.some.inj this
    rw [hhead] at hnd
    exact (List.nodup_cons.1 hnd).1
  have hbodydef : (flushBody J st c).sched
      = (runCalls J st c).foldl queueWatcher (runStartState J st c) := by
    rw [flushBody_of_returns J st c hntc.1]
    rfl
  refine ⟨by simp [runStartState, Sched.setHas], hnotin, rest, hrest, ?_, ?_⟩
  · -- a call made by `run()`
    intro pre x post hcalls
    obtain ⟨r4, r5⟩ := reachable_foldl_running pre (runStartState J st c) r3
    have hidxT : (pre.foldl queueWatcher (runStartState J st c)).index = st.sched.index :=
      r5.trans hidx2
    have hinvT := inv_of_reachable _ _ r4
    have hfT : (pre.foldl queueWatcher (runStartState J st c)).flushing = true :=
      hinvT.1.2 (by simp)
    have hltT := hinvT.2.1 rfl
    have hpend := marked_is_pending _ _ r4 x
    simp only [Sched.pending] at hpend
    rw [hidxT] at hpend
    obtain ⟨q1, q2, q3⟩ := queueWatcher_keeps (pre.foldl queueWatcher (runStartState J st c)) x
      (st.sched.index + 1) hfT (by rw [hidxT]) hltT
    have hxin : x ∈ (queueWatcher (pre.foldl queueWatcher (runStartState J st c)) x).queue.drop
        (st.sched.index + 1) := by
      by_cases hp : (pre.foldl queueWatcher (runStartState J st c)).has x = HasMark.yes
      · exact q2 x (hpend hp)
      · exact (q3 hp).1
    obtain ⟨f1, f2, _⟩ := queueWatcher_frame (pre.foldl queueWatcher (runStartState J st c)) x
    obtain ⟨_, p2⟩ := foldl_queueWatcher_keeps post (st.sched.index + 1)
      (queueWatcher (pre.foldl queueWatcher (runStartState J st c)) x)
      (by rw [f1]; exact hfT) (by rw [f2, hidxT])
      (by rw [f2]; exact Nat.lt_of_lt_of_le hltT (length_le_queueWatcher _ _))
    have hxbody : x ∈ (flushBody J st c).sched.queue.drop (st.sched.index + 1) := by
      rw [hbodydef, hcalls, List.foldl_append, List.foldl_cons]
      exact p2 x hxin
    exact ⟨fun hx => (q3 (fun hp => hx (hpend hp))).2, hxin, q1, hall x hxbody⟩
  · -- a call made by `before()`
    intro pre x post hcalls
    obtain ⟨t1, t2, t3⟩ := reachable_foldl_head pre st.sched hreach hlt
    obtain ⟨_, _, _, t4⟩ := foldl_queueWatcher_prefix pre st.sched hf hlt
    have hinvT := inv_of_reachable _ _ t1
    have hfT : (pre.foldl queueWatcher st.sched).flushing = true := hinvT.1.2 (by simp)
    have hltT : (pre.foldl queueWatcher st.sched).index
        < (pre.foldl queueWatcher st.sched).queue.length := by rw [t2]; omega
    have hgetT : (pre.foldl queueWatcher st.sched).queue[st.sched.index]? = some c := by
      rw [← List.getElem?_take_of_lt (Nat.lt_succ_self _), t4,
        List.getElem?_take_of_lt (Nat.lt_succ_self _)]
      exact hc
    have hpend := marked_is_pending _ _ t1 x
    simp only [Sched.pending] at hpend
    rw [t2] at hpend
    obtain ⟨q1, q2, q3⟩ := queueWatcher_keeps (pre.foldl queueWatcher st.sched) x
      (st.sched.index + 1) hfT (by rw [t2]) hltT
    -- the calls after it, `has[id] = null`, and the calls of `run()`
    obtain ⟨f1, f2, _⟩ := queueWatcher_frame (pre.foldl queueWatcher st.sched) x
    obtain ⟨_, p2⟩ := foldl_queueWatcher_keeps post (st.sched.index + 1)
      (queueWatcher (pre.foldl queueWatcher st.sched) x)
      (by rw [f1]; exact hfT) (by rw [f2, t2])
      (by rw [f2]; exact Nat.lt_of_lt_of_le hltT (length_le_queueWatcher _ _))
    have hbefore : (J.before c st.env).2.foldl queueWatcher st.sched
        = post.foldl queueWatcher (queueWatcher (pre.foldl queueWatcher st.sched) x) := by
      rw [hcalls, List.foldl_append, List.foldl_cons]
    obtain ⟨_, p3⟩ := foldl_queueWatcher_keeps (runCalls J st c) (st.sched.index + 1)
      (runStartState J st c) hf2 (by rw [hidx2]) hlt2
    have hthrough : ∀ y ∈ (queueWatcher (pre.foldl queueWatcher st.sched) x).queue.drop
        (st.sched.index + 1), y ∈ rest := by
      intro y hy
      apply hall y
      rw [hbodydef]
      apply p3 y
      show y ∈ ((J.before c st.env).2.foldl queueWatcher st.sched).queue.drop (st.sched.index + 1)
      rw [hbefore]
      exact p2 y hy
    refine ⟨fun hx => ?_, q1, ?_⟩
    · have hnp : (pre.foldl queueWatcher st.sched).has x ≠ HasMark.yes := fun hp => hx (hpend hp)
      exact ⟨(q3 hnp).2, (q3 hnp).1⟩
    · by_cases hp : (pre.foldl queueWatcher st.sched).has x = HasMark.yes
      · have hmem := hpend hp
        have hlt' : st.sched.index < (pre.foldl queueWatcher st.sched).queue.length := by
          rw [← t2]; exact hltT
        rw [List.drop_eq_getElem_cons hlt'] at hmem
        have hhead : (pre.foldl queueWatcher st.sched).queue[st.sched.index] = c := by
          have := hgetT
          rw [List.getElem?_eq_getElem hlt'] at this
          exact Option.some.inj this
        rw [hhead] at hmem
        rcases List.mem_cons.1 hmem with h1 | h1
        · exact Or.inl h1
        · exact Or.inr (hthrough x (q2 x h1))
      · exact Or.inr (hthrough x (q3 hp).1)

/-- Witness of C21 as amended: the flush of watcher 1 whose first run re-triggers it
twice. -/
theorem retriggered_watcher_runs_again_witness :
    SchedReachable Phase.idle (queueWatcher Sched.init 1) ∧
    (flushAt Jobs.retriggerTwice (queueWatcher Sched.init 1) 0 0).sched.queue[
      (flushAt Jobs.retriggerTwice (queueWatcher Sched.init 1) 0 0).sched.index]? = some 1 ∧
    ∃ r : FlushResult Nat,
      flushSchedulerQueue Jobs.retriggerTwice 5 (queueWatcher Sched.init 1) 0 = some r ∧
      (runStartState Jobs.retriggerTwice
        (flushAt Jobs.retriggerTwice (queueWatcher Sched.init 1) 0 0) 1).has 1 = HasMark.null :=
  have h : (flushSchedulerQueue Jobs.retriggerTwice 5 (queueWatcher Sched.init 1) 0).isSome
      = true := by decide
  ⟨SchedReachable.queueIdle _ 1 SchedReachable.init, by decide,
   Option.get _ h, (Option.some_get h).symm,
   (retriggered_watcher_runs_again Jobs.retriggerTwice 5 (queueWatcher Sched.init 1) 0
      (Option.get _ h) (SchedReachable.queueIdle _ 1 SchedReachable.init)
      (Option.some_get h).symm 0 1 (by decide)).1⟩

/-! ## `Watcher.get` with a getter that calls back into watchers -/

/-- `Watcher.get s w ev` is `Watcher.getWith` for a getter and a `traverse` that make the
`depend()` calls of `ev` and nothing else. -/
theorem get_eq_getWith (s : World) (w : Nat) (ev : Evaluation) :
    Watcher.get s w ev = Watcher.getWith s w
      (fun t => (ev.reads.foldl Dep.depend t, ev.outcome))
      (fun v t => (ev.traverse v).foldl Dep.depend t) := by
  have h1 := (sameButDeps_foldl_depend ev.reads (pushTarget s (some w))).2.2.2.2.2 w
  have hu : ((ev.reads.foldl Dep.depend (pushTarget s (some w))).watchers w).user
      = (s.watchers w).user := h1.2.2.2.1
  have hd : ((ev.reads.foldl Dep.depend (pushTarget s (some w))).watchers w).deep
      = (s.watchers w).deep := h1.2.2.1
  unfold Watcher.get Watcher.getWith Watcher.atFinally Watcher.valueOf
  cases ho : ev.outcome with
  | ok v => simp only [hd]
  | error e =>
    by_cases hus : (s.watchers w).user = true
    · simp [hu, hd, hus]
    · simp [hu, hd, hus]

theorem undisturbed_refl (w : Nat) (s : World) : World.Undisturbed w s s :=
  ⟨rfl, rfl, rfl, rfl, rfl, rfl, fun _ => rfl⟩

theorem undisturbed_trans (w : Nat) (s t u : World) (h1 : World.Undisturbed w s t)
    (h2 : World.Undisturbed w t u) : World.Undisturbed w s u :=
  ⟨h2.1.trans h1.1, h2.2.1.trans h1.2.1, h2.2.2.1.trans h1.2.2.1,
   h2.2.2.2.1.trans h1.2.2.2.1, h2.2.2.2.2.1.trans h1.2.2.2.2.1,
   h2.2.2.2.2.2.1.trans h1.2.2.2.2.2.1, fun d => (h2.2.2.2.2.2.2 d).trans (h1.2.2.2.2.2.2 d)⟩

/-- An evaluation of watcher `w`, tracked against the set `R` of Deps already touched in
it: the `depend()` calls add their Deps, the other code changes nothing of this. -/
theorem evaluates_track (w : Nat) (D I : List Nat) (hi : ∀ d, d ∈ I ↔ d ∈ D) (s : World)
    (L : List Nat) (t : World) (h : Evaluates w s L t) :
    ∀ R : List Nat,
    s.target = some w →
    (∀ d, (s.subs d).count w ≤ 1) →
    (∀ d, w ∈ s.subs d ↔ d ∈ D ∨ d ∈ R) →
    (s.watchers w).deps = D →
    (s.watchers w).depIds = I →
    (∀ d, d ∈ (s.watchers w).newDepIds ↔ d ∈ R) →
    (∀ d, d ∈ (s.watchers w).newDeps ↔ d ∈ R) →
    t.target = some w ∧
    (∀ d, (t.subs d).count w ≤ 1) ∧
    (∀ d, w ∈ t.subs d ↔ d ∈ D ∨ d ∈ R ++ L) ∧
    (t.watchers w).deps = D ∧
    (t.watchers w).depIds = I ∧
    (∀ d, d ∈ (t.watchers w).newDepIds ↔ d ∈ R ++ L) ∧
    (∀ d, d ∈ (t.watchers w).newDeps ↔ d ∈ R ++ L) := by
  induction h with
  | done s =>
    intro R ht hc hm hd hI hn hl
    simp only [List.append_nil]
    exact ⟨ht, hc, hm, hd, hI, hn, hl⟩
  | depend s a reads t _ ih =>
    intro R ht hc hm hd hI hn hl
    have hm0 : ∀ d, w ∈ s.subs d ↔ d ∈ (s.watchers w).deps ∨ d ∈ R := by
      intro d; rw [hd]; exact hm d
    have hi0 : ∀ d, d ∈ (s.watchers w).depIds ↔ d ∈ (s.watchers w).deps := by
      intro d; rw [hd, hI]; exact hi d
    obtain ⟨t1, c1, m1, d1, i1, n1, l1⟩ := depend_step_track w a s R ht hc hm0 hi0 hn hl
    rw [hd] at m1 d1
    rw [hI] at i1
    have := ih (R ++ [a]) t1 c1 m1 d1 i1 n1 l1
    simpa [List.append_assoc] using this
  | call s s1 reads t hu _ ih =>
    intro R ht hc hm hd hI hn hl
    obtain ⟨u1, _, u3, u4, u5, u6, u7⟩ := hu
    apply ih R (u1.trans ht)
    · intro d; rw [u7]; exact hc d
    · intro d
      rw [← List.one_le_count_iff, u7, List.one_le_count_iff]
      exact hm d
    · rw [u3]; exact hd
    · rw [u5]; exact hI
    · intro d; rw [u6]; exact hn d
    · intro d; rw [u4]; exact hl d

/-- What `cleanupDeps()` leaves of a watcher whose evaluation touched the Deps `T`. -/
theorem cleanup_of_tracked (s5 : World) (w : Nat) (D T : List Nat)
    (c5 : ∀ d, (s5.subs d).count w ≤ 1)
    (m5 : ∀ d, w ∈ s5.subs d ↔ d ∈ D ∨ d ∈ T)
    (d5 : (s5.watchers w).deps = D)
    (n5 : ∀ d, d ∈ (s5.watchers w).newDepIds ↔ d ∈ T)
    (l5 : ∀ d, d ∈ (s5.watchers w).newDeps ↔ d ∈ T) :
    (∀ d, w ∈ (Watcher.cleanupDeps s5 w).subs d ↔ d ∈ T) ∧
    (∀ d, d ∈ ((Watcher.cleanupDeps s5 w).watchers w).deps ↔ d ∈ T) ∧
    (∀ d, d ∈ ((Watcher.cleanupDeps s5 w).watchers w).depIds ↔ d ∈ T) ∧
    Consistent (Watcher.cleanupDeps s5 w) w := by
  have hcount : ∀ d, ((Watcher.cleanupDeps s5 w).subs d).count w =
      if d ∈ T then (s5.subs d).count w else 0 := by
    intro d
    rw [count_subs_cleanupDeps]
    by_cases hd : d ∈ T
    · simp [hd, (n5 d).2 hd]
    · have hn : d ∉ (s5.watchers w).newDepIds := fun hh => hd ((n5 d).1 hh)
      simp only [hn, hd, not_false_eq_true, and_self, if_true, if_false]
      by_cases hD : d ∈ D
      · have h1 : 1 ≤ (s5.watchers w).deps.count d := by
          rw [d5]; exact List.one_le_count_iff.2 hD
        have := c5 d
        omega
      · have : w ∉ s5.subs d := by
          rw [m5]; rintro (hh | hh)
          · exact hD hh
          · exact hd hh
        have := List.count_eq_zero.2 this
        omega
  have hmem : ∀ d, w ∈ (Watcher.cleanupDeps s5 w).subs d ↔ d ∈ T := by
    intro d
    rw [← List.one_le_count_iff, hcount]
    by_cases hd : d ∈ T
    · simp only [hd, if_true, iff_true]
      exact List.one_le_count_iff.2 ((m5 d).2 (Or.inr hd))
    · simp [hd]
  have hdeps : ∀ d, d ∈ ((Watcher.cleanupDeps s5 w).watchers w).deps ↔ d ∈ T := by
    intro d; rw [watchers_cleanupDeps]; simpa using l5 d
  have hids : ∀ d, d ∈ ((Watcher.cleanupDeps s5 w).watchers w).depIds ↔ d ∈ T := by
    intro d; rw [watchers_cleanupDeps]; simpa using n5 d
  refine ⟨hmem, hdeps, hids, ?_, ?_, ?_, ?_, ?_⟩
  · intro d; rw [hmem, hdeps]
  · rw [watchers_cleanupDeps]; simp
  · rw [watchers_cleanupDeps]; simp
  · intro d; rw [hids, hdeps]
  · intro d
    rw [hcount]
    split
    · exact c5 d
    · exact Nat.zero_le 1

theorem getWith_fst (s : World) (w : Nat) (getter : World → World × Except Val Val)
    (traverse : Val → World → World) :
    (Watcher.getWith s w getter traverse).1 =
      Watcher.cleanupDeps (popTarget
        (if ((Watcher.atFinally s w getter).watchers w).deep
         then traverse (Watcher.valueOf (getter (pushTarget s (some w))).2)
           (Watcher.atFinally s w getter)
         else Watcher.atFinally s w getter)) w := by
  simp only [Watcher.getWith]
  cases ho : (getter (pushTarget s (some w))).2 with
  | ok v => rfl
  | error e =>
    by_cases hu : ((getter (pushTarget s (some w))).1.watchers w).user = true
    · simp only [hu, if_true]
    · simp [hu]

/-- `handleError` in the `catch` clause leaves the dependency bookkeeping alone. -/
theorem undisturbed_atFinally (s : World) (w : Nat) (getter : World → World × Except Val Val) :
    World.Undisturbed w (getter (pushTarget s (some w))).1 (Watcher.atFinally s w getter) := by
  simp only [Watcher.atFinally]
  cases ho : (getter (pushTarget s (some w))).2 with
  | ok v => exact undisturbed_refl _ _
  | error e =>
    simp only
    split
    · exact ⟨rfl, rfl, rfl, rfl, rfl, rfl, fun _ => rfl⟩
    · exact undisturbed_refl _ _

/-- What `get()` does to a consistent watcher when the code it runs leaves the dependency
bookkeeping of the watcher undisturbed between its `depend()` calls. -/
theorem getWith_of_consistent (s : World) (w : Nat) (getter : World → World × Except Val Val)
    (traverse : Val → World → World) (h : Consistent s w)
    (reads deepReads : List Nat)
    (hg : Evaluates w (pushTarget s (some w)) reads (getter (pushTarget s (some w))).1)
    (ht : ((Watcher.atFinally s w getter).watchers w).deep = true →
      Evaluates w (Watcher.atFinally s w getter) deepReads
        (traverse (Watcher.valueOf (getter (pushTarget s (some w))).2)
          (Watcher.atFinally s w getter))) :
    (∀ d, w ∈ (Watcher.getWith s w getter traverse).1.subs d ↔
      d ∈ reads ++ (if ((Watcher.atFinally s w getter).watchers w).deep then deepReads else [])) ∧
    (∀ d, d ∈ ((Watcher.getWith s w getter traverse).1.watchers w).deps ↔
      d ∈ reads ++ (if ((Watcher.atFinally s w getter).watchers w).deep then deepReads else [])) ∧
    (∀ d, d ∈ ((Watcher.getWith s w getter traverse).1.watchers w).depIds ↔
      d ∈ reads ++ (if ((Watcher.atFinally s w getter).watchers w).deep then deepReads else [])) ∧
    Consistent (Watcher.getWith s w getter traverse).1 w := by
  obtain ⟨hm, hnd, hni, hi, hc⟩ := h
  have hm0 : ∀ d, w ∈ (pushTarget s (some w)).subs d ↔ d ∈ (s.watchers w).deps ∨ d ∈ [] := by
    intro d; simpa [pushTarget] using hm d
  have hn0 : ∀ d, d ∈ ((pushTarget s (some w)).watchers w).newDepIds ↔ d ∈ ([] : List Nat) := by
    intro d; simp [pushTarget, hni]
  have hl0 : ∀ d, d ∈ ((pushTarget s (some w)).watchers w).newDeps ↔ d ∈ ([] : List Nat) := by
    intro d; simp [pushTarget, hnd]
  have hg2 : Evaluates w (pushTarget s (some w)) (reads ++ [])
      (Watcher.atFinally s w getter) := by
    have key : ∀ a L b, Evaluates w a L b → ∀ c, World.Undisturbed w b c →
        Evaluates w a (L ++ []) c := by
      intro a L b hab
      induction hab with
      | done a => intro c hbc; exact Evaluates.call _ _ _ _ hbc (Evaluates.done c)
      | depend a d L b _ ih => intro c hbc; exact Evaluates.depend _ d _ _ (ih c hbc)
      | call a a1 L b hu _ ih => intro c hbc; exact Evaluates.call _ _ _ _ hu (ih c hbc)
    exact key _ _ _ hg _ (undisturbed_atFinally s w getter)
  rw [List.append_nil] at hg2
  obtain ⟨t3, c3, m3, d3, i3, n3, l3⟩ :=
    evaluates_track w (s.watchers w).deps (s.watchers w).depIds hi _ _ _ hg2 [] rfl hc hm0 rfl rfl
      hn0 hl0
  simp only [List.nil_append] at m3 n3 l3
  rw [getWith_fst]
  by_cases hdeep : ((Watcher.atFinally s w getter).watchers w).deep = true
  · obtain ⟨_, c4, m4, d4, _, n4, l4⟩ :=
      evaluates_track w (s.watchers w).deps (s.watchers w).depIds hi _ _ _ (ht hdeep) reads
        t3 c3 m3 d3 i3 n3 l3
    simp only [hdeep, if_true]
    exact cleanup_of_tracked (popTarget (traverse
        (Watcher.valueOf (getter (pushTarget s (some w))).2) (Watcher.atFinally s w getter)))
      w (s.watchers w).deps (reads ++ deepReads) c4 m4 d4 n4 l4
  · have hdf : ((Watcher.atFinally s w getter).watchers w).deep = false := by simpa using hdeep
    simp only [hdf, Bool.false_eq_true, if_false, List.append_nil]
    exact cleanup_of_tracked (popTarget (Watcher.atFinally s w getter))
      w (s.watchers w).deps reads c3 m3 d3 n3 l3

/-! ## Calls made during an evaluation that leave the evaluated watcher undisturbed -/

/-- `dep.depend()` while `w` is not `Dep.target` leaves watcher `w` alone. -/
theorem others_depend (s : World) (d w : Nat) (ht : s.target ≠ some w) :
    (Dep.depend s d).watchers w = s.watchers w ∧
    ∀ y, ((Dep.depend s d).subs y).count w = (s.subs y).count w := by
  unfold Dep.depend
  split
  · rename_i t htar
    have hne : w ≠ t := by
      intro h; apply ht; rw [htar, h]
    refine ⟨?_, ?_⟩
    · rw [watchers_addDep]; simp [hne]
    · intro y; rw [count_subs_addDep]; simp [hne]
  · exact ⟨rfl, fun _ => rfl⟩

theorem others_foldl_depend (w : Nat) (L : List Nat) : ∀ s : World, s.target ≠ some w →
    (L.foldl Dep.depend s).watchers w = s.watchers w ∧
    ∀ y, ((L.foldl Dep.depend s).subs y).count w = (s.subs y).count w := by
  induction L with
  | nil => intro s _; exact ⟨rfl, fun _ => rfl⟩
  | cons a L ih =>
    intro s ht
    obtain ⟨a1, a2⟩ := others_depend s a w ht
    obtain ⟨b1, b2⟩ := ih (Dep.depend s a) (by rw [(targets_depend s a).1]; exact ht)
    simp only [List.foldl_cons]
    exact ⟨b1.trans a1, fun y => (b2 y).trans (a2 y)⟩

/-- `get()` of another watcher leaves watcher `w` alone. -/
theorem others_get (s : World) (v w : Nat) (ev : Evaluation) (hne : w ≠ v) :
    (Watcher.get s v ev).1.watchers w = s.watchers w ∧
    ∀ y, ((Watcher.get s v ev).1.subs y).count w = (s.subs y).count w := by
  obtain ⟨s3, h1, h2, h3, _, h5, _⟩ := get_fst s v ev
  have ht0 : (pushTarget s (some v)).target ≠ some w := by
    intro h
    have : some v = some w := h
    exact hne (Option.some.inj this).symm
  obtain ⟨f1, f2⟩ := others_foldl_depend w ev.reads (pushTarget s (some v)) ht0
  have ht3 : s3.target ≠ some w := by
    rw [h5, (targets_foldl_depend ev.reads _).1]; exact ht0
  have g1 : s3.watchers w = s.watchers w := by rw [h3]; exact f1
  have g2 : ∀ y, (s3.subs y).count w = (s.subs y).count w := by
    intro y; rw [h2]; exact f2 y
  rw [h1]
  have hmid : ∀ m : World, m.watchers w = s.watchers w →
      (∀ y, (m.subs y).count w = (s.subs y).count w) →
      (Watcher.cleanupDeps (popTarget m) v).watchers w = s.watchers w ∧
      ∀ y, ((Watcher.cleanupDeps (popTarget m) v).subs y).count w = (s.subs y).count w := by
    intro m m1 m2
    refine ⟨?_, ?_⟩
    · rw [watchers_cleanupDeps]; simp only [hne, if_false]; exact m1
    · intro y; rw [count_subs_cleanupDeps]; simp only [hne, false_and, if_false]; exact m2 y
  split
  · obtain ⟨k1, k2⟩ := others_foldl_depend w
      (ev.traverse (match ev.outcome with
        | Except.ok v => v
        | Except.error _ => Val.undefined)) s3 ht3
    exact hmid _ (k1.trans g1) (fun y => (k2 y).trans (g2 y))
  · exact hmid _ g1 g2

theorem undisturbed_of_watchers (w : Nat) (s t : World) (h1 : t.target = s.target)
    (h2 : t.targetStack = s.targetStack) (h3 : t.watchers w = s.watchers w)
    (h4 : ∀ y, (t.subs y).count w = (s.subs y).count w) : World.Undisturbed w s t :=
  ⟨h1, h2, by rw [h3], by rw [h3], by rw [h3], by rw [h3], h4⟩

/-- A nested `get()` of another watcher, with a getter that makes `depend()` calls only,
leaves the evaluated watcher undisturbed. -/
theorem undisturbed_get (s : World) (v w : Nat) (ev : Evaluation) (hne : w ≠ v)
    (htop : s.target = (s.targetStack.head?).join) :
    World.Undisturbed w s (Watcher.get s v ev).1 := by
  obtain ⟨t1, t2⟩ := targets_get s v ev
  obtain ⟨o1, o2⟩ := others_get s v w ev hne
  exact undisturbed_of_watchers w _ _ (t2.trans htop.symm) t1 o1 o2

/-- A nested `run()` of another watcher leaves the evaluated watcher undisturbed. -/
theorem undisturbed_run (s : World) (v w : Nat) (ev : Evaluation) (hne : w ≠ v)
    (htop : s.target = (s.targetStack.head?).join) :
    World.Undisturbed w s (Watcher.run s v ev).1 := by
  obtain ⟨t1, t2⟩ := targets_run s v ev htop
  have hu := undisturbed_get s v w ev hne htop
  obtain ⟨o1, o2⟩ := others_get s v w ev hne
  refine undisturbed_of_watchers w _ _ t1 t2 ?_ ?_
  · unfold Watcher.run
    split
    · cases hg : Watcher.get s v ev with
      | mk s1 r =>
        rw [hg] at o1
        cases r with
        | error e => exact o1
        | ok value =>
          simp only
          split
          · simp only [World.setWatcher, hne, if_false]; exact o1
          · exact o1
    · rfl
  · intro y
    unfold Watcher.run
    split
    · cases hg : Watcher.get s v ev with
      | mk s1 r =>
        rw [hg] at o2
        cases r with
        | error e => exact o2 y
        | ok value =>
          simp only
          split
          · exact o2 y
          · exact o2 y
    · rfl

/-- A nested `update()` of another watcher (as `dep.notify()` calls it after a write) leaves
the evaluated watcher undisturbed, also when that watcher is `sync` and runs in place. -/
theorem undisturbed_update (s : World) (v w : Nat) (ev : Evaluation) (hne : w ≠ v)
    (htop : s.target = (s.targetStack.head?).join) :
    World.Undisturbed w s (Watcher.update s v ev).1 := by
  unfold Watcher.update
  simp only
  split
  · exact undisturbed_of_watchers w _ _ rfl rfl
      (by simp only [World.setWatcher, hne, if_false]) (fun _ => rfl)
  · split
    · exact undisturbed_run s v w ev hne htop
    · exact undisturbed_of_watchers w _ _ rfl rfl rfl (fun _ => rfl)

/-- `teardown()` of another watcher leaves the evaluated watcher undisturbed. -/
theorem undisturbed_teardown (s : World) (v w : Nat) (hne : w ≠ v) :
    World.Undisturbed w s (Watcher.teardown s v) := by
  obtain ⟨t1, t2⟩ := targets_teardown s v
  by_cases hact : (s.watchers v).active = true
  · refine undisturbed_of_watchers w _ _ t1 t2 ?_ ?_
    · unfold Watcher.teardown
      simp only [hact, if_true, World.setWatcher, hne, if_false]
      rw [teardown_loop_eq, watchers_removeLoop]
      split <;> rfl
    · intro y
      rw [count_subs_teardown s v w y hact]
      simp only [hne, if_false]
  · rw [teardown_of_inactive s v (by simpa using hact)]
    exact undisturbed_refl _ _

/-- The constructor of another watcher leaves the evaluated watcher undisturbed. -/
theorem undisturbed_new (s : World) (vm : Nat) (options : Option WatcherOptions)
    (isRenderWatcher : Bool) (ev : Evaluation) (w : Nat) (hw : w ≤ s.uid)
    (htop : s.target = (s.targetStack.head?).join) :
    World.Undisturbed w s (Watcher.new s vm options isRenderWatcher ev).1 := by
  have hne : w ≠ s.uid + 1 := by omega
  obtain ⟨t1, t2⟩ := targets_new s vm options isRenderWatcher ev htop
  have tail : ∀ (t : World) (id : Nat), w ≠ id → t.watchers w = s.watchers w →
      (∀ y, (t.subs y).count w = (s.subs y).count w) →
      (match Watcher.get t id ev with
        | (s3, Except.error e) => ((s3, id, Except.error e) : World × Nat × Except Val Unit)
        | (s3, Except.ok value) =>
          (s3.setWatcher id { s3.watchers id with value := value }, id, Except.ok ())).1.watchers w
        = s.watchers w ∧
      ∀ y, ((match Watcher.get t id ev with
        | (s3, Except.error e) => ((s3, id, Except.error e) : World × Nat × Except Val Unit)
        | (s3, Except.ok value) =>
          (s3.setWatcher id { s3.watchers id with value := value }, id, Except.ok ())).1.subs
            y).count w
        = (s.subs y).count w := by
    intro t id hid h1 h2
    obtain ⟨o1, o2⟩ := others_get t id w ev hid
    cases hres : Watcher.get t id ev with
    | mk s3 r =>
      rw [hres] at o1 o2
      cases r with
      | error e => exact ⟨o1.trans h1, fun y => (o2 y).trans (h2 y)⟩
      | ok value =>
        refine ⟨?_, fun y => (o2 y).trans (h2 y)⟩
        simp only [World.setWatcher, hid, if_false]
        exact o1.trans h1
  have hpre : (Watcher.new s vm options isRenderWatcher ev).1.watchers w = s.watchers w ∧
      ∀ y, ((Watcher.new s vm options isRenderWatcher ev).1.subs y).count w
        = (s.subs y).count w := by
    unfold Watcher.new
    simp only
    split
    · exact ⟨by simp only [World.setWatcher, World.setVm, hne, if_false], fun _ => rfl⟩
    · exact tail _ _ hne (by simp only [World.setWatcher, World.setVm, hne, if_false])
        (fun _ => rfl)
  exact undisturbed_of_watchers w _ _ t1 t2 hpre.1 hpre.2

/-- Code that leaves a watcher undisturbed leaves it consistent. -/
theorem consistent_of_undisturbed (w : Nat) (s t : World) (h : Consistent s w)
    (hu : World.Undisturbed w s t) : Consistent t w := by
  obtain ⟨hm, hnd, hni, hi, hc⟩ := h
  obtain ⟨_, _, u3, u4, u5, u6, u7⟩ := hu
  refine ⟨?_, by rw [u4]; exact hnd, by rw [u6]; exact hni, ?_, ?_⟩
  · intro d
    rw [← List.one_le_count_iff, u7, List.one_le_count_iff, u3]
    exact hm d
  · intro d; rw [u5, u3]; exact hi d
  · intro d; rw [u7]; exact hc d

/-- The sync watcher constructed reading Deps 10 and 11 is consistent after its
constructor. -/
theorem syncReader_consistent : Consistent World.syncReader 1 := by
  have h0 : Consistent
      ({ (World.init.setVm 0
            { _watcher := none, _watchers := [1], _isBeingDestroyed := false }).setWatcher 1
          { Watcher.blank with active := true, sync := true } with uid := 1 } : World) 1 := by
    refine ⟨?_, rfl, rfl, ?_, ?_⟩
    · intro d; simp [World.init, World.setVm, World.setWatcher, Watcher.blank]
    · intro d; simp [World.init, World.setVm, World.setWatcher, Watcher.blank]
    · intro d; simp [World.init, World.setVm, World.setWatcher]
  exact (get_of_consistent _ 1
    { reads := [10, 11], outcome := Except.ok (Val.num 1), traverse := fun _ => [] } h0).2.2.2.2.2

/-- C1, as the claim states it, fails: a getter can re-enter `get()` of its own watcher.
Watcher 1 is `sync`, consistent and subscribed to Deps 10 and 11. Its getter reads Deps 10
and 11, writes the property of Dep 10, whose `notify()` calls `update()` of watcher 1, which
runs in place (a nested `get()` that reads Deps 10 and 11 again), and then reads Dep 12. The
nested `cleanupDeps()` empties `newDepIds`, so the `cleanupDeps()` of the outer `get()`
unsubscribes the watcher from Deps 10 and 11, whose `depend()` ran while the watcher was
`Dep.target` in this evaluation: the watcher ends up subscribed to Dep 12 only. -/
theorem reentrant_get_unsubscribes_read_deps :
    Reachable World.syncReader ∧
    (World.syncReader.watchers 1).active = true ∧
    (∀ d, 1 ∈ World.syncReader.subs d ↔ d ∈ (World.syncReader.watchers 1).deps) ∧
    (World.syncReader.watchers 1).newDeps = [] ∧
    (World.syncReader.watchers 1).newDepIds = [] ∧
    (pushTarget World.syncReader (some 1)).target = some 1 ∧
    (Dep.depend (pushTarget World.syncReader (some 1)) 10).target = some 1 ∧
    (Watcher.getWith World.syncReader 1 getterRewriting (fun _ t => t)).1.subs 10 = [] ∧
    (Watcher.getWith World.syncReader 1 getterRewriting (fun _ t => t)).1.subs 11 = [] ∧
    (Watcher.getWith World.syncReader 1 getterRewriting (fun _ t => t)).1.subs 12 = [1] ∧
    ((Watcher.getWith World.syncReader 1 getterRewriting (fun _ t => t)).1.watchers 1).deps
      = [12] :=
  ⟨Reachable.construct World.init 0 _ false _ Reachable.init, by decide,
   syncReader_consistent.1, syncReader_consistent.2.1, syncReader_consistent.2.2.1,
   by decide, by decide, by decide, by decide, by decide, by decide⟩

/-- C1 as amended. In a reachable state, for a watcher that is in the `subs` of exactly the
Deps of its `deps` list and whose `newDeps` / `newDepIds` are empty (torn down or not), and
for a getter and a `traverse` that, between their `depend()` calls, leave `Dep.target`, the
target stack, the `deps` / `newDeps` / `depIds` / `newDepIds` of the watcher and its entries
in `subs` lists as they find them (they do not re-enter `get()` of this watcher and do not
call its `cleanupDeps()` or `teardown()`): after `Watcher.get()` the watcher is in
`dep.subs` if and only if `dep.depend()` ran while the watcher was `Dep.target` during this
evaluation (`reads` in the getter, `deepReads` in `traverse` for a deep watcher), and
`deps` / `depIds` hold exactly those Deps; Deps of the previous run that were not read
again are unsubscribed, Deps newly read are subscribed, and the watcher is consistent again
for its next run. -/
theorem get_subscribes_exactly_what_was_read (s : World) (w : Nat)
    (getter : World → World × Except Val Val) (traverse : Val → World → World)
    (hr : Reachable s)
    (hsubs : ∀ d, w ∈ s.subs d ↔ d ∈ (s.watchers w).deps)
    (hnew : (s.watchers w).newDeps = [] ∧ (s.watchers w).newDepIds = [])
    (reads deepReads : List Nat)
    (hg : Evaluates w (pushTarget s (some w)) reads (getter (pushTarget s (some w))).1)
    (ht : ((Watcher.atFinally s w getter).watchers w).deep = true →
      Evaluates w (Watcher.atFinally s w getter) deepReads
        (traverse (Watcher.valueOf (getter (pushTarget s (some w))).2)
          (Watcher.atFinally s w getter))) :
    (∀ d, w ∈ (Watcher.getWith s w getter traverse).1.subs d ↔
      d ∈ reads ++ (if ((Watcher.atFinally s w getter).watchers w).deep then deepReads else [])) ∧
    (∀ d, d ∈ ((Watcher.getWith s w getter traverse).1.watchers w).deps ↔
      d ∈ reads ++ (if ((Watcher.atFinally s w getter).watchers w).deep then deepReads else [])) ∧
    (∀ d, d ∈ ((Watcher.getWith s w getter traverse).1.watchers w).depIds ↔
      d ∈ reads ++ (if ((Watcher.atFinally s w getter).watchers w).deep then deepReads else [])) ∧
    (∀ d, d ∈ (s.watchers w).deps →
      d ∉ reads ++ (if ((Watcher.atFinally s w getter).watchers w).deep then deepReads else []) →
      w ∉ (Watcher.getWith s w getter traverse).1.subs d) ∧
    (∀ d, d ∉ (s.watchers w).deps →
      d ∈ reads ++ (if ((Watcher.atFinally s w getter).watchers w).deep then deepReads else []) →
      w ∈ (Watcher.getWith s w getter traverse).1.subs d) ∧
    Consistent (Watcher.getWith s w getter traverse).1 w := by
  obtain ⟨h1, h2, h3, h4⟩ := getWith_of_consistent s w getter traverse
    (consistent_of_reachable s w hr hsubs hnew.1 hnew.2) reads deepReads hg ht
  exact ⟨h1, h2, h3, fun d _ hd hw => hd ((h1 d).1 hw), fun d _ hd => (h1 d).2 hd, h4⟩

/-- Watcher 1 (reading Deps 1 and 2) is consistent after the sync watcher 2 has been
constructed. -/
theorem withSync_consistent : Consistent World.withSync 1 :=
  consistent_of_undisturbed 1 _ _ first_constructed_consistent
    (undisturbed_new _ 0 _ false _ 1 (by decide) (by decide))

/-- Witness of C1 as amended: watcher 1, subscribed to Deps 1 and 2, re-evaluates with a
getter that reads Dep 2, writes a property the sync watcher 2 is subscribed to (watcher 2
runs in place) and reads Dep 3: watcher 1 ends up subscribed to Deps 2 and 3. -/
theorem get_subscribes_exactly_what_was_read_witness :
    Reachable World.withSync ∧
    (∀ d, 1 ∈ World.withSync.subs d ↔ d ∈ (World.withSync.watchers 1).deps) ∧
    ((World.withSync.watchers 1).newDeps = [] ∧ (World.withSync.watchers 1).newDepIds = []) ∧
    Evaluates 1 (pushTarget World.withSync (some 1)) [2, 3]
      (getterNotifying (pushTarget World.withSync (some 1))).1 ∧
    (∀ d, 1 ∈ (Watcher.getWith World.withSync 1 getterNotifying (fun _ t => t)).1.subs d ↔
      d ∈ [2, 3]) ∧
    (∀ d, d ∈ ((Watcher.getWith World.withSync 1 getterNotifying (fun _ t => t)).1.watchers
      1).deps ↔ d ∈ [2, 3]) :=
  have hreach : Reachable World.withSync :=
    Reachable.construct _ 0 _ false _
      (Reachable.construct World.init 0 none false Evaluation.first Reachable.init)
  have hev : Evaluates 1 (pushTarget World.withSync (some 1)) [2, 3]
      (getterNotifying (pushTarget World.withSync (some 1))).1 :=
    Evaluates.depend _ 2 _ _
      (Evaluates.call _ _ _ _
        (undisturbed_update (Dep.depend (pushTarget World.withSync (some 1)) 2) 2 1
          { reads := [5, 6], outcome := Except.ok (Val.num 2), traverse := fun _ => [] }
          (by decide) (by decide))
        (Evaluates.depend _ 3 _ _ (Evaluates.done _)))
  ⟨hreach, withSync_consistent.1,
   ⟨withSync_consistent.2.1, withSync_consistent.2.2.1⟩, hev,
   (get_subscribes_exactly_what_was_read World.withSync 1 getterNotifying (fun _ t => t)
      hreach withSync_consistent.1 ⟨withSync_consistent.2.1, withSync_consistent.2.2.1⟩
      [2, 3] [] hev (fun h => absurd h (by decide))).1,
   (get_subscribes_exactly_what_was_read World.withSync 1 getterNotifying (fun _ t => t)
      hreach withSync_consistent.1 ⟨withSync_consistent.2.1, withSync_consistent.2.2.1⟩
      [2, 3] [] hev (fun h => absurd h (by decide))).2.1⟩

theorem getWith_scenario :
    (Watcher.getWith World.withSync 1 getterNotifying (fun _ t => t)).1.subs 1 = [] ∧
    (Watcher.getWith World.withSync 1 getterNotifying (fun _ t => t)).1.subs 2 = [1] ∧
    (Watcher.getWith World.withSync 1 getterNotifying (fun _ t => t)).1.subs 3 = [1] ∧
    (Watcher.getWith World.withSync 1 getterNotifying (fun _ t => t)).1.subs 5 = [2] ∧
    (Watcher.getWith World.withSync 1 getterNotifying (fun _ t => t)).1.subs 6 = [2] := by
  decide

/-! ## Plain data: `observe` returns

In a state where the objects without Observer hold plain properties, `observe` returns
within a call depth above the number of those objects. -/

theorem grows_refl (skip : Option Nat) (h : Heap) : Heap.Grows skip h h :=
  ⟨rfl, fun _ _ _ ho => Or.inl ho⟩

theorem grows_of_objs_eq (skip : Option Nat) (h g : Heap) (he : g.objs = h.objs) :
    Heap.Grows skip h g :=
  ⟨by rw [he], fun a o _ ho => Or.inl (by rw [he]; exact ho)⟩

theorem grows_trans (skip : Option Nat) (h g k : Heap) (h1 : Heap.Grows skip h g)
    (h2 : Heap.Grows skip g k) : Heap.Grows skip h k := by
  refine ⟨h2.1.trans h1.1, ?_⟩
  intro a o hne ho
  rcases h1.2 a o hne ho with e | ⟨hn, o1, e1, e2⟩
  · exact h2.2 a o hne e
  · rcases h2.2 a o1 hne e1 with f | ⟨fn, _⟩
    · exact Or.inr ⟨hn, o1, f, e2⟩
    · exact absurd fn e2

theorem grows_skip (x : Option Nat) (h g : Heap) (h1 : Heap.Grows none h g) :
    Heap.Grows x h g :=
  ⟨h1.1, fun a o _ ho => h1.2 a o (by simp) ho⟩

theorem countP_le_pointwise {α : Type} (p : α → Bool) : ∀ (l1 l2 : List α),
    l1.length = l2.length →
    (∀ (i : Nat) (x y : α), l1[i]? = some x → l2[i]? = some y → p x = true → p y = true) →
    l1.countP p ≤ l2.countP p := by
  intro l1
  induction l1 with
  | nil => intro l2 _ _; simp
  | cons x l1 ih =>
    intro l2 hlen hpt
    cases l2 with
    | nil => simp at hlen
    | cons y l2 =>
      have h0 := hpt 0 x y (by simp) (by simp)
      have hrest := ih l2 (by simpa using hlen)
        (fun i a b ha hb => hpt (i + 1) a b (by simpa using ha) (by simpa using hb))
      simp only [List.countP_cons]
      by_cases hx : p x = true
      · simp only [hx, h0 hx, if_true]; omega
      · have hx0 : p x = false := by simpa using hx
        simp only [hx0, Bool.false_eq_true, if_false]
        by_cases hy : p y = true
        · simp only [hy, if_true]; omega
        · have hy0 : p y = false := by simpa using hy
          simp only [hy0, Bool.false_eq_true, if_false]; omega

theorem countP_set_lt {α : Type} (p : α → Bool) : ∀ (l : List α) (a : Nat) (o x : α),
    l[a]? = some o → p o = true → p x = false → (l.set a x).countP p + 1 = l.countP p := by
  intro l
  induction l with
  | nil => intro a o x ho; simp at ho
  | cons y l ih =>
    intro a o x ho hpo hpx
    cases a with
    | zero =>
      simp only [List.getElem?_cons_zero, Option.some.injEq] at ho
      subst ho
      simp [List.countP_cons, hpo, hpx]
    | succ a =>
      simp only [List.getElem?_cons_succ] at ho
      have := ih a o x ho hpo hpx
      simp only [List.set_cons_succ, List.countP_cons]
      omega

theorem unobserved_of_grows (skip : Option Nat) (h g : Heap) (hg : Heap.Grows skip h g)
    (hx : ∀ a, skip = some a → ∀ o1, g.objs[a]? = some o1 → o1.ob ≠ none) :
    g.unobserved ≤ h.unobserved := by
  unfold Heap.unobserved
  refine countP_le_pointwise _ _ _ hg.1 ?_
  intro i x y hx1 hy1 hpx
  have hxn : x.ob = none := by simpa using hpx
  by_cases hi : some i = skip
  · exact absurd hxn (hx i hi.symm x hx1)
  · rcases hg.2 i y hi hy1 with e | ⟨hn, o1, e1, e2⟩
    · rw [hx1] at e
      simp only [Option.some.injEq] at e
      rw [← e]; exact hpx
    · simp [hn]

theorem plainData_of_grows (skip : Option Nat) (h g : Heap) (hg : Heap.Grows skip h g)
    (hp : h.PlainData)
    (hx : ∀ a, skip = some a → ∀ o1, g.objs[a]? = some o1 → o1.ob ≠ none) :
    g.PlainData := by
  intro o1 hmem hnone
  obtain ⟨i, hi⟩ := List.mem_iff_getElem?.1 hmem
  have hlt : i < h.objs.length := by
    rw [← hg.1]; exact (List.getElem?_eq_some_iff.1 hi).1
  obtain ⟨o, ho⟩ : ∃ o, h.objs[i]? = some o := ⟨h.objs[i], List.getElem?_eq_getElem hlt⟩
  by_cases hsk : some i = skip
  · exact absurd hnone (hx i hsk.symm o1 hi)
  · rcases hg.2 i o hsk ho with e | ⟨_, o2, e1, e2⟩
    · rw [hi] at e
      simp only [Option.some.injEq] at e
      subst e
      exact hp o1 (List.mem_iff_getElem?.2 ⟨_, ho⟩) hnone
    · rw [hi] at e1
      simp only [Option.some.injEq] at e1
      subst e1
      exact absurd hnone e2

theorem plainData_of_objs_eq (h g : Heap) (he : g.objs = h.objs) (hp : h.PlainData) :
    g.PlainData := by
  unfold Heap.PlainData
  rw [he]; exact hp

theorem unobserved_of_objs_eq (h g : Heap) (he : g.objs = h.objs) :
    g.unobserved = h.unobserved := by
  unfold Heap.unobserved
  rw [he]

theorem lookup_setProp_ne (props : List (String × Slot)) (key k : String) (slot : Slot)
    (hne : k ≠ key) : (setProp props key slot).lookup k = props.lookup k := by
  have hmap : ∀ l : List (String × Slot),
      (l.map (fun p => if p.1 = key then (key, slot) else p)).lookup k = l.lookup k := by
    intro l
    induction l with
    | nil => rfl
    | cons p rest ih =>
      obtain ⟨k0, s0⟩ := p
      by_cases hp : k0 = key
      · have hb : (k == key) = false := by simpa using hne
        have e : List.map (fun p : String × Slot => if p.1 = key then (key, slot) else p)
            ((k0, s0) :: rest)
            = (key, slot) :: List.map (fun p => if p.1 = key then (key, slot) else p) rest := by
          simp [hp]
        rw [e]
        have hb0 : (k == k0) = false := by rw [hp]; exact hb
        simp only [List.lookup, hb, hb0]
        exact ih
      · have e : List.map (fun p : String × Slot => if p.1 = key then (key, slot) else p)
            ((k0, s0) :: rest)
            = (k0, s0) :: List.map (fun p => if p.1 = key then (key, slot) else p) rest := by
          simp [hp]
        rw [e]
        cases hb : (k == k0) with
        | true => simp only [List.lookup, hb]
        | false => simp only [List.lookup, hb]; exact ih
  have happ : ∀ l : List (String × Slot), (l ++ [(key, slot)]).lookup k = l.lookup k := by
    intro l
    induction l with
    | nil =>
      have hb : (k == key) = false := by simpa using hne
      simp [List.lookup, hb]
    | cons p rest ih =>
      obtain ⟨k0, s0⟩ := p
      cases hb : (k == k0) with
      | true => simp only [List.cons_append, List.lookup, hb]
      | false => simp only [List.cons_append, List.lookup, hb]; exact ih
  unfold setProp
  split
  · exact hmap _
  · exact happ _

/-- One step of `walk` on an object that carries its Observer, in a state of plain data:
`defineReactive(obj, key)` returns when the `observe` calls it makes do, and leaves the
other properties of the object and the observed objects as they were. -/
theorem defineReactive_total (r : Calls) (d : Nat)
    (Hobs : ∀ (h : Heap) (v : Val), h.PlainData → h.unobserved < d →
      ∃ (h1 : Heap) (res : Option Nat),
        r.observe h v false = some (h1, res) ∧ Heap.Grows none h h1)
    (Hget : ∀ (h : Heap) (n : Nat), ∃ (h0 : Heap) (v : Val),
      r.callGet h (Fn.user n) = some (h0, v) ∧ h0.objs = h.objs)
    (h : Heap) (a : Nat) (oa : Obj) (key : String) (s : Slot)
    (ho : h.objs[a]? = some oa) (hob : oa.ob ≠ none) (hs : oa.props.lookup key = some s)
    (hplain : s.plain = true) (hp : h.PlainData) (hu : h.unobserved < d) :
    ∃ (h1 : Heap) (oa1 : Obj), defineReactive r h a key none false = some h1 ∧
      Heap.Grows (some a) h h1 ∧ h1.objs[a]? = some oa1 ∧ oa1.ob = oa.ob ∧
      (∀ k, k ≠ key → oa1.props.lookup k = oa.props.lookup k) := by
  have ho0 : ({ h with depUid := h.depUid + 1 } : Heap).objs[a]? = some oa := ho
  -- the read of the current value
  have hread : ∃ (h2 : Heap) (v : Val),
      (if (s.getter).isNone || (s.setter).isSome
        then readProp r { h with depUid := h.depUid + 1 } a key
        else some (({ h with depUid := h.depUid + 1 } : Heap), Val.undefined)) = some (h2, v) ∧
      h2.objs = h.objs := by
    split
    · unfold readProp
      simp only [ho0, hs]
      cases s with
      | data v e c => exact ⟨_, _, rfl, rfl⟩
      | accessor g st e c =>
        cases g with
        | none => exact ⟨_, _, rfl, rfl⟩
        | some f =>
          cases f with
          | user n =>
            obtain ⟨h0, v, e1, e2⟩ := Hget { h with depUid := h.depUid + 1 } n
            exact ⟨h0, v, e1, e2⟩
          | reactive c => simp [Slot.plain] at hplain
    · exact ⟨_, _, rfl, rfl⟩
  obtain ⟨h2, v, hread, hobj2⟩ := hread
  unfold defineReactive
  simp only [Heap.newDep, ho0, hs, Option.map_some', Option.some_bind]
  by_cases hc : s.configurable = false
  · rw [if_pos (by rw [hc])]
    exact ⟨_, oa, rfl, grows_of_objs_eq _ _ _ rfl, ho0, rfl, fun _ _ => rfl⟩
  · rw [if_neg (by simpa using hc)]
    simp only [hread]
    obtain ⟨h3, childOb, hobs, hg3⟩ := Hobs h2 v (plainData_of_objs_eq h h2 hobj2 hp)
      (by rw [unobserved_of_objs_eq h h2 hobj2]; exact hu)
    simp only [Bool.false_eq_true, if_false, hobs]
    have ho2 : h2.objs[a]? = some oa := by rw [hobj2]; exact ho
    have ho3 : h3.objs[a]? = some oa := by
      rcases hg3.2 a oa (by simp) ho2 with e | ⟨hn, _⟩
      · exact e
      · exact absurd hn hob
    have hlt : a < h3.objs.length := (List.getElem?_eq_some_iff.1 ho3).1
    have ho4 : ({ h3 with closures := h3.closures ++
        [{ dep := h.depUid, val := v, childOb := childOb, getter := s.getter,
           setter := s.setter, shallow := false }] } : Heap).objs[a]? = some oa := ho3
    simp only [ho4, hs, Option.isNone_some, Bool.false_and, Bool.false_eq_true, if_false]
    generalize hslot : Slot.accessor (some (Fn.reactive h3.closures.length))
      (some (Fn.reactive h3.closures.length)) true true = slot
    refine ⟨_, { oa with props := setProp oa.props key slot }, rfl, ?_, ?_, rfl, ?_⟩
    · refine ⟨?_, ?_⟩
      · simp only [Heap.setObj, List.length_set]
        rw [hg3.1, hobj2]
      · intro x o hne hox
        have hxa : a ≠ x := fun e => hne (by rw [e])
        have hox2 : h2.objs[x]? = some o := by rw [hobj2]; exact hox
        rcases hg3.2 x o (by simp) hox2 with e | ⟨hn, o1, e1, e2⟩
        · left
          simp only [Heap.setObj, List.getElem?_set, hxa, if_false]
          exact e
        · right
          refine ⟨hn, o1, ?_, e2⟩
          simp only [Heap.setObj, List.getElem?_set, hxa, if_false]
          exact e1
    · simp [Heap.setObj, hlt]
    · intro k hk
      exact lookup_setProp_ne _ _ _ _ hk

theorem foldlM_option_total {α σ : Type} (Inv : σ → Prop) (f : σ → α → Option σ) (l : List α)
    (hf : ∀ s x, x ∈ l → Inv s → ∃ s1, f s x = some s1 ∧ Inv s1) :
    ∀ s, Inv s → ∃ s1, l.foldlM f s = some s1 ∧ Inv s1 := by
  induction l with
  | nil => intro s hs; exact ⟨s, rfl, hs⟩
  | cons x l ih =>
    intro s hs
    obtain ⟨s1, e1, i1⟩ := hf s x (List.mem_cons_self _ _) hs
    obtain ⟨s2, e2, i2⟩ := ih (fun s y hy => hf s y (List.mem_cons_of_mem _ hy)) s1 i1
    refine ⟨s2, ?_, i2⟩
    simp only [List.foldlM_cons, e1]
    exact e2

theorem lookup_of_mem_keys (l : List (String × Slot)) (k : String)
    (hk : k ∈ l.map Prod.fst) : ∃ s, l.lookup k = some s ∧ (k, s) ∈ l := by
  induction l with
  | nil => simp at hk
  | cons p rest ih =>
    obtain ⟨k0, s0⟩ := p
    cases hb : (k == k0) with
    | true =>
      have hkk : k = k0 := by simpa using hb
      exact ⟨s0, by simp only [List.lookup, hb], by rw [hkk]; exact List.mem_cons_self _ _⟩
    | false =>
      have hne : k ≠ k0 := by simpa using hb
      have hk2 : k ∈ rest.map Prod.fst := by
        simp only [List.map_cons, List.mem_cons] at hk
        rcases hk with hk | hk
        · exact absurd hk hne
        · exact hk
      obtain ⟨s, e1, e2⟩ := ih hk2
      exact ⟨s, by simp only [List.lookup, hb]; exact e1, List.mem_cons_of_mem _ e2⟩

theorem keys_sublist (o : Obj) : o.keys.Sublist (o.props.map Prod.fst) := by
  unfold Obj.keys
  generalize o.props = l
  induction l with
  | nil => exact List.Sublist.slnil
  | cons p rest ih =>
    simp only [List.filterMap_cons, List.map_cons]
    split
    · rename_i hnone
      exact List.Sublist.cons _ ih
    · rename_i x hsome
      split at hsome
      · simp only [Option.some.injEq] at hsome
        rw [← hsome]
        exact List.Sublist.cons₂ _ ih
      · cases hsome

/-- The loop of `walk` over keys that are plain properties of the object. -/
theorem walkKeys_total (r : Calls) (d : Nat)
    (Hobs : ∀ (h : Heap) (v : Val), h.PlainData → h.unobserved < d →
      ∃ (h1 : Heap) (res : Option Nat),
        r.observe h v false = some (h1, res) ∧ Heap.Grows none h h1)
    (Hget : ∀ (h : Heap) (n : Nat), ∃ (h0 : Heap) (v : Val),
      r.callGet h (Fn.user n) = some (h0, v) ∧ h0.objs = h.objs)
    (a b : Nat) : ∀ (keys : List String) (h : Heap) (oa : Obj),
    h.objs[a]? = some oa → oa.ob = some b →
    (∀ k ∈ keys, ∃ s, oa.props.lookup k = some s ∧ s.plain = true) → keys.Nodup →
    h.PlainData → h.unobserved < d →
    ∃ (h1 : Heap) (oa1 : Obj),
      keys.foldlM (fun acc key => defineReactive r acc a key none false) h = some h1 ∧
      Heap.Grows (some a) h h1 ∧ h1.objs[a]? = some oa1 ∧ oa1.ob = some b := by
  intro keys
  induction keys with
  | nil =>
    intro h oa ho hb _ _ _ _
    exact ⟨h, oa, rfl, grows_refl _ h, ho, hb⟩
  | cons k ks ih =>
    intro h oa ho hb hkeys hnd hp hu
    obtain ⟨s, hs, hpl⟩ := hkeys k (List.mem_cons_self _ _)
    obtain ⟨h1, oa1, e1, g1, ho1, hb1, hl1⟩ := defineReactive_total r d Hobs Hget h a oa k s ho
      (by rw [hb]; simp) hs hpl hp hu
    have hx : ∀ x, some a = some x → ∀ o1, h1.objs[x]? = some o1 → o1.ob ≠ none := by
      intro x hx o1 hox
      simp only [Option.some.injEq] at hx
      subst hx
      rw [ho1] at hox
      simp only [Option.some.injEq] at hox
      subst hox
      rw [hb1, hb]; simp
    have hp1 := plainData_of_grows _ h h1 g1 hp hx
    have hu1 := unobserved_of_grows _ h h1 g1 hx
    have hnd2 := List.nodup_cons.1 hnd
    obtain ⟨h2, oa2, e2, g2, ho2, hb2⟩ := ih h1 oa1 ho1 (by rw [hb1]; exact hb)
      (fun k2 hk2 => by
        obtain ⟨s2, f1, f2⟩ := hkeys k2 (List.mem_cons_of_mem _ hk2)
        refine ⟨s2, ?_, f2⟩
        rw [hl1 k2 (fun e => hnd2.1 (by rw [← e]; exact hk2))]
        exact f1)
      hnd2.2 hp1 (by omega)
    refine ⟨h2, oa2, ?_, grows_trans _ _ _ _ g1 g2, ho2, hb2⟩
    simp only [List.foldlM_cons, e1]
    exact e2

/-- `new Observer(value)` on an object without Observer, in a state of plain data, returns
when the nested `observe` calls do. -/
theorem observerNew_total (r : Calls) (d : Nat)
    (Hobs : ∀ (h : Heap) (v : Val), h.PlainData → h.unobserved < d →
      ∃ (h1 : Heap) (res : Option Nat),
        r.observe h v false = some (h1, res) ∧ Heap.Grows none h h1)
    (Hget : 0 < d → ∀ (h : Heap) (n : Nat), ∃ (h0 : Heap) (v : Val),
      r.callGet h (Fn.user n) = some (h0, v) ∧ h0.objs = h.objs)
    (h : Heap) (a : Nat) (o : Obj) (ho : h.objs[a]? = some o) (hnone : o.ob = none)
    (hp : h.PlainData) (hu : h.unobserved < d + 1) :
    ∃ (h1 : Heap) (b : Nat), Observer.new r h a = some (h1, b) ∧ Heap.Grows none h h1 := by
  have hlt : a < h.objs.length := (List.getElem?_eq_some_iff.1 ho).1
  have hplain := hp o (List.mem_iff_getElem?.2 ⟨_, ho⟩) hnone
  -- the state once `__ob__` is defined
  have mid : ∀ (aug : Bool) (h3 : Heap),
      h3.objs = h.objs.set a { o with ob := some h.observers.length, augmented := aug } →
      h3.objs[a]? = some { o with ob := some h.observers.length, augmented := aug } ∧
      h3.PlainData ∧ h3.unobserved < d ∧
      ∀ h5, Heap.Grows (some a) h3 h5 → (∃ o5 : Obj, h5.objs[a]? = some o5 ∧ o5.ob ≠ none) →
        Heap.Grows none h h5 := by
    intro aug h3 e3
    have ho3 : h3.objs[a]? = some { o with ob := some h.observers.length, augmented := aug } := by
      rw [e3]; simp [hlt]
    have g3 : Heap.Grows (some a) h h3 := by
      refine ⟨by rw [e3]; simp, ?_⟩
      intro x ox hne hox
      have hxa : a ≠ x := fun e => hne (by rw [e])
      left
      rw [e3, List.getElem?_set]
      simp only [hxa, if_false]
      exact hox
    have hx3 : ∀ x, some a = some x → ∀ o1, h3.objs[x]? = some o1 → o1.ob ≠ none := by
      intro x hx o1 hox
      simp only [Option.some.injEq] at hx
      subst hx
      rw [ho3] at hox
      simp only [Option.some.injEq] at hox
      rw [← hox]; simp
    refine ⟨ho3, plainData_of_grows _ h h3 g3 hp hx3, ?_, ?_⟩
    · have hc := countP_set_lt (fun (o : Obj) => o.ob.isNone) h.objs a o
        { o with ob := some h.observers.length, augmented := aug } ho (by simp [hnone]) (by simp)
      have : h3.unobserved + 1 = h.unobserved := by
        unfold Heap.unobserved
        rw [e3]; exact hc
      omega
    · intro h5 g5 ⟨o5, ho5, hob5⟩
      refine ⟨g5.1.trans g3.1, ?_⟩
      intro x ox _ hox
      by_cases hxa : x = a
      · subst hxa
        rw [ho] at hox
        simp only [Option.some.injEq] at hox
        subst hox
        exact Or.inr ⟨hnone, o5, ho5, hob5⟩
      · have hne : some x ≠ some a := by simpa using hxa
        rcases g3.2 x ox hne hox with e | ⟨hn, o1, e1, e2⟩
        · exact g5.2 x ox hne e
        · rcases g5.2 x o1 hne e1 with f | ⟨fn, _⟩
          · exact Or.inr ⟨hn, o1, f, e2⟩
          · exact absurd fn e2
  unfold Observer.new
  simp only [ho, Heap.newDep]
  by_cases hkind : o.kind = ObjKind.array
  · rw [if_pos hkind]
    obtain ⟨h3, hh3⟩ : ∃ h3 : Heap, h3 =
        (({ h with depUid := h.depUid + 1,
                   observers := h.observers ++ [{ value := a, dep := h.depUid, vmCount := 0 }] } :
            Heap).setObj a { o with ob := some h.observers.length, augmented := true }) :=
      ⟨_, rfl⟩
    rw [← hh3]
    obtain ⟨ho3, hp3, hu3, hfin⟩ := mid true h3 (by rw [hh3]; rfl)
    have harr : ∃ h5, Observer.observeArray r h3 a = some h5 ∧
        (Heap.Grows none h3 h5 ∧ h5.PlainData ∧ h5.unobserved < d) := by
      unfold Observer.observeArray
      simp only [ho3]
      refine foldlM_option_total
        (fun acc => Heap.Grows none h3 acc ∧ acc.PlainData ∧ acc.unobserved < d) _ _ ?_ _
        ⟨grows_refl _ _, hp3, hu3⟩
      intro acc i _ ⟨ga, pa, ua⟩
      cases hoi : acc.objs[a]? with
      | none => exact ⟨acc, rfl, ga, pa, ua⟩
      | some oi =>
        obtain ⟨h6, res, e6, g6⟩ := Hobs acc (oi.elems.getD i Val.undefined) pa ua
        refine ⟨h6, by simp only [e6, Option.map_some'], grows_trans _ _ _ _ ga g6,
          plainData_of_grows _ _ _ g6 pa (by simp), ?_⟩
        have := unobserved_of_grows _ _ _ g6 (by simp)
        omega
    obtain ⟨h5, e5, g5, _, _⟩ := harr
    rw [e5]
    refine ⟨h5, _, rfl, hfin h5 (grows_skip _ _ _ g5) ?_⟩
    rcases g5.2 a _ (by simp) ho3 with e | ⟨hn, _⟩
    · exact ⟨_, e, by simp⟩
    · simp at hn
  · rw [if_neg hkind]
    obtain ⟨h3, hh3⟩ : ∃ h3 : Heap, h3 =
        (({ h with depUid := h.depUid + 1,
                   observers := h.observers ++ [{ value := a, dep := h.depUid, vmCount := 0 }] } :
            Heap).setObj a { o with ob := some h.observers.length }) :=
      ⟨_, rfl⟩
    rw [← hh3]
    obtain ⟨ho3, hp3, hu3, hfin⟩ := mid o.augmented h3 (by rw [hh3]; rfl)
    have hobj : ({ o with ob := some h.observers.length, augmented := o.augmented } : Obj)
        = { o with ob := some h.observers.length } := rfl
    rw [hobj] at ho3
    have hwalk : ∃ (h5 : Heap) (o5 : Obj), Observer.walk r h3 a = some h5 ∧
        Heap.Grows (some a) h3 h5 ∧
        h5.objs[a]? = some o5 ∧ o5.ob = some h.observers.length := by
      unfold Observer.walk
      simp only [ho3]
      refine walkKeys_total r d Hobs (Hget (by omega)) a h.observers.length _ _ _ ho3 rfl ?_ ?_ hp3 hu3
      · intro k hk
        have hk2 : k ∈ o.props.map Prod.fst :=
          (keys_sublist { o with ob := some h.observers.length }).subset hk
        obtain ⟨s, e1, e2⟩ := lookup_of_mem_keys o.props k hk2
        exact ⟨s, e1, hplain.1 (k, s) e2⟩
      · exact (keys_sublist { o with ob := some h.observers.length }).nodup hplain.2.1
    obtain ⟨h5, o5, e5, g5, ho5, hb5⟩ := hwalk
    rw [e5]
    exact ⟨h5, _, rfl, hfin h5 g5 ⟨o5, ho5, by rw [hb5]; simp⟩⟩

/-- `observe` of any value returns in a state of plain data, when the nested calls do. -/
theorem observeBody_total (r : Calls) (d : Nat)
    (Hobs : ∀ (h : Heap) (v : Val), h.PlainData → h.unobserved < d →
      ∃ (h1 : Heap) (res : Option Nat),
        r.observe h v false = some (h1, res) ∧ Heap.Grows none h h1)
    (Hget : 0 < d → ∀ (h : Heap) (n : Nat), ∃ (h0 : Heap) (v : Val),
      r.callGet h (Fn.user n) = some (h0, v) ∧ h0.objs = h.objs)
    (h : Heap) (v : Val) (root : Bool) (hp : h.PlainData) (hu : h.unobserved < d + 1) :
    ∃ (h1 : Heap) (res : Option Nat),
      observeBody r h v root = some (h1, res) ∧ Heap.Grows none h h1 := by
  have tail : ∀ (h1 : Heap) (b : Nat), Heap.Grows none h h1 →
      ∃ (h2 : Heap) (res : Option Nat),
        (if root = true then
          match h1.observers[b]? with
          | none => some (h1, some b)
          | some o1 =>
            some ({ h1 with observers := h1.observers.set b { o1 with vmCount := o1.vmCount + 1 } },
              some b)
        else some (h1, some b)) = some (h2, res) ∧ Heap.Grows none h h2 := by
    intro h1 b g1
    split
    · split
      · exact ⟨_, _, rfl, g1⟩
      · exact ⟨_, _, rfl, grows_trans _ _ _ _ g1 (grows_of_objs_eq _ _ _ rfl)⟩
    · exact ⟨_, _, rfl, g1⟩
  cases v with
  | ref a =>
    cases ho : h.objs[a]? with
    | none => simp only [observeBody, ho]; exact ⟨h, none, rfl, grows_refl _ h⟩
    | some o =>
      by_cases hk : o.kind = ObjKind.vnode
      · simp only [observeBody, ho, if_pos hk]; exact ⟨h, none, rfl, grows_refl _ h⟩
      · cases hb : o.ob with
        | some b =>
          simp only [observeBody, ho, if_neg hk, hb]
          exact tail h b (grows_refl _ h)
        | none =>
          by_cases hcond : (h.shouldObserve && !h.serverRendering &&
              (decide (o.kind = ObjKind.array) || decide (o.kind = ObjKind.plain)) &&
              o.extensible && !o.isVue) = true
          · obtain ⟨h1, b, e1, g1⟩ := observerNew_total r d Hobs Hget h a o ho hb hp hu
            simp only [observeBody, ho, if_neg hk, hb, hcond, if_true, e1, Option.map_some']
            exact tail h1 b g1
          · simp only [observeBody, ho, if_neg hk, hb, hcond, if_false]
            exact ⟨h, none, rfl, grows_refl _ h⟩
  | undefined => exact ⟨h, none, rfl, grows_refl _ h⟩
  | null => exact ⟨h, none, rfl, grows_refl _ h⟩
  | bool b => exact ⟨h, none, rfl, grows_refl _ h⟩
  | num n => exact ⟨h, none, rfl, grows_refl _ h⟩
  | nan => exact ⟨h, none, rfl, grows_refl _ h⟩
  | str t => exact ⟨h, none, rfl, grows_refl _ h⟩

/-- In a state of plain data, `observe` returns within a call depth above the number of
objects without Observer; it adds no object, leaves every object that carried an Observer
as it was, and every other object as it was or with an Observer. -/
theorem observe_total (d : Nat) : ∀ (h : Heap) (v : Val) (root : Bool),
    h.PlainData → h.unobserved < d →
    ∃ (h1 : Heap) (res : Option Nat),
      (Calls.within d).observe h v root = some (h1, res) ∧ Heap.Grows none h h1 := by
  induction d with
  | zero => intro h v root _ hu; omega
  | succ d ih =>
    intro h v root hp hu
    refine observeBody_total (Calls.within d) d (fun h v => ih h v false) ?_ h v root hp hu
    intro hd h0 n
    cases d with
    | zero => omega
    | succ d0 => exact ⟨_, _, rfl, rfl⟩

/-- In a state of plain data, `observeArray(inserted)` returns within a call depth above the
number of objects without Observer. -/
theorem observeItems_total (d : Nat) (items : List Val) (h : Heap) (hp : h.PlainData)
    (hu : h.unobserved < d) :
    ∃ h1 : Heap, Observer.observeItems (Calls.within d) h items = some h1 ∧
      Heap.Grows none h h1 := by
  unfold Observer.observeItems
  obtain ⟨h1, e1, g1, _, _⟩ := foldlM_option_total
    (fun acc => Heap.Grows none h acc ∧ acc.PlainData ∧ acc.unobserved < d)
    (fun acc v => ((Calls.within d).observe acc v false).map Prod.fst) items
    (fun acc v _ ⟨ga, pa, ua⟩ => by
      obtain ⟨h6, res, e6, g6⟩ := observe_total d acc v false pa ua
      refine ⟨h6, by simp only [e6, Option.map_some'], grows_trans _ _ _ _ ga g6,
        plainData_of_grows _ _ _ g6 pa (by simp), ?_⟩
      have := unobserved_of_grows _ _ _ g6 (by simp)
      omega)
    h ⟨grows_refl _ h, hp, hu⟩
  exact ⟨h1, e1, g1⟩

/-- The native `splice(key, 1, val)` that `set` reaches, after `target.length` was set: it
returns when the array is writable, the new length `max(length, key + 1)` is an array
length, and the array is extensible or `key` inside it, and throws otherwise. It leaves the
array with the elements of `replaceAt` and allocates the array of removed elements. -/
theorem arrayProto_splice_at (sorted : List Val → List Val) (h : Heap) (target : Nat) (o : Obj)
    (n : Nat) (val : Val) (ho : h.objs[target]? = some o) :
    arrayProto sorted ArrayMethod.splice
      (h.setObj target
        { o with elems := o.elems ++ List.replicate (n - o.elems.length) Val.undefined })
      target [Val.num n, Val.num 1, val] =
    if o.writable = true ∧ (o.extensible = true ∨ n < o.elems.length) ∧
        max o.elems.length (n + 1) ≤ maxArrayLength
    then some
      ({ h with objs := h.objs.set target { o with elems := replaceAt o.elems n val } ++
          [Obj.arrayOf
            (((o.elems ++ List.replicate (n - o.elems.length) Val.undefined).drop n).take
              (min 1 ((o.elems ++ List.replicate (n - o.elems.length) Val.undefined).length - n)))] },
       Val.ref h.objs.length)
    else none := by
  have hlt : target < h.objs.length := (List.getElem?_eq_some_iff.1 ho).1
  have hget : (h.setObj target
      { o with elems := o.elems ++ List.replicate (n - o.elems.length) Val.undefined }).objs[target]?
      = some { o with elems := o.elems ++ List.replicate (n - o.elems.length) Val.undefined } := by
    simp [Heap.setObj, hlt]
  have hstart : relativeStart (toInteger (Val.num (n : Int)))
      (o.elems ++ List.replicate (n - o.elems.length) Val.undefined).length = n := by
    have ht : toInteger (Val.num (n : Int)) = (n : Int) := rfl
    rw [ht]
    unfold relativeStart
    rw [if_neg (by omega)]
    simp only [Int.toNat_ofNat, List.length_append, List.length_replicate]
    omega
  have hone : (toInteger (Val.num 1)).toNat = 1 := rfl
  have hdrop : List.drop 2 [Val.num (n : Int), Val.num 1, val] = [val] := rfl
  have hnew : List.take n (o.elems ++ List.replicate (n - o.elems.length) Val.undefined) ++ [val] ++
      List.drop (n + min 1 ((o.elems ++ List.replicate (n - o.elems.length) Val.undefined).length - n))
        (o.elems ++ List.replicate (n - o.elems.length) Val.undefined) = replaceAt o.elems n val := rfl
  obtain ⟨f1, _, _, f4⟩ := replaceAt_facts o.elems n val
  have hpadlen : (o.elems ++ List.replicate (n - o.elems.length) Val.undefined).length
      = max o.elems.length n := by
    simp only [List.length_append, List.length_replicate]; omega
  unfold arrayProto
  rw [hget]
  simp only [hstart, hone, hdrop, hnew, Bool.true_and]
  by_cases hw : o.writable = true
  · have hw1 : (!o.writable) = false := by simp [hw]
    rw [if_neg (by simp [hw])]
    rw [if_neg (by
      simp only [Bool.and_eq_true, decide_eq_true_eq, not_and]
      intro hh; rw [f1, hpadlen] at hh; omega)]
    by_cases hgrow : o.extensible = true ∨ n < o.elems.length
    · rw [if_neg (by
        simp only [Bool.and_eq_true, decide_eq_true_eq, Bool.not_eq_true', not_and]
        intro hh hext
        rcases hgrow with hg | hg
        · rw [hg] at hext; cases hext
        · have := f4.1 hh; omega)]
      by_cases hmax : max o.elems.length (n + 1) ≤ maxArrayLength
      · rw [if_neg (by rw [f1]; omega), if_pos ⟨hw, hgrow, hmax⟩]
        simp [Heap.setObj, List.set_set]
      · rw [if_pos (by rw [f1]; omega), if_neg (fun hh => hmax hh.2.2)]
    · rw [if_pos (by
        simp only [Bool.and_eq_true, decide_eq_true_eq, Bool.not_eq_true']
        refine ⟨f4.2 (by omega), ?_⟩
        cases he : o.extensible with
        | true => exact absurd (Or.inl he) hgrow
        | false => rfl)]
      rw [if_neg (fun hh => hgrow hh.2.1)]
  · rw [if_pos (by simpa using hw), if_neg (fun hh => hw hh.1)]

theorem countP_set_same {α : Type} (p : α → Bool) : ∀ (l : List α) (a : Nat) (o x : α),
    l[a]? = some o → p x = p o → (l.set a x).countP p = l.countP p := by
  intro l
  induction l with
  | nil => intro a o x ho; simp at ho
  | cons y l ih =>
    intro a o x ho hpx
    cases a with
    | zero =>
      simp only [List.getElem?_cons_zero, Option.some.injEq] at ho
      subst ho
      simp [List.countP_cons, hpx]
    | succ a =>
      simp only [List.getElem?_cons_succ] at ho
      have := ih a o x ho hpx
      simp only [List.set_cons_succ, List.countP_cons]
      omega

/-- A native array method that has changed the elements of the array and allocated one new
array leaves plain data plain, with one more object without Observer. -/
theorem plainData_splice (h : Heap) (target : Nat) (o : Obj) (elems removed : List Val)
    (ho : h.objs[target]? = some o) (g : Heap)
    (hg : g.objs = h.objs.set target { o with elems := elems } ++ [Obj.arrayOf removed]) :
    (h.PlainData → g.PlainData) ∧ g.unobserved = h.unobserved + 1 := by
  constructor
  · intro hp o1 hmem hnone
    rw [hg] at hmem
    rcases List.mem_append.1 hmem with hm | hm
    · rcases List.mem_or_eq_of_mem_set hm with hm | hm
      · exact hp o1 hm hnone
      · have hin := hp o (List.mem_iff_getElem?.2 ⟨_, ho⟩) (by rw [hm] at hnone; exact hnone)
        rw [hm]; exact hin
    · simp only [List.mem_singleton] at hm
      rw [hm]
      exact ⟨(by intro p hp; cases hp), (by simp [Obj.arrayOf]), rfl, rfl⟩
  · unfold Heap.unobserved
    rw [hg, List.countP_append,
      countP_set_same (fun (o : Obj) => o.ob.isNone) h.objs target o { o with elems := elems } ho rfl]
    rfl

/-! ## The intercepted array methods: result, notification, inserted elements -/

/-- C17 as amended. An intercepted method (`push`, `pop`, `shift`, `unshift`, `splice`,
`sort`, `reverse`) called with any arguments on an array that carries an Observer `ob` when
the native method has returned `result`. Whenever the `observe` calls made return, the call
returns `result`, leaves the array with the elements the native method gave it, calls
`notify()` on `ob.dep` exactly once and notifies nothing else, and has passed to `observe`
every inserted element (all arguments of `push` / `unshift`, the arguments from the third on
of `splice`, none for the others), so that an inserted object which `observe` accepts (an
extensible plain object or array not flagged `_isVue` and without `__ob__`, with
`shouldObserve` on and no server rendering) or which carried an Observer already carries one
afterwards. The `observe` calls do return, and with them the call, when the objects without
Observer hold plain data and the call depth exceeds their number. -/
theorem mutator_notifies_and_observes (depth : Nat)
    (original : Heap → Nat → List Val → Option (Heap × Val)) (method : ArrayMethod)
    (h : Heap) (a : Nat) (args : List Val) (h1 : Heap) (result : Val) (o1 : Obj) (b : Nat)
    (ob : Observer)
    (horig : original h a args = some (h1, result))
    (ho1 : h1.objs[a]? = some o1) (hb : o1.ob = some b) (hob : h1.observers[b]? = some ob) :
    (∀ h2 : Heap,
      (match insertedOf method args with
        | some inserted => Observer.observeItems (Calls.within depth) h1 inserted
        | none => some h1) = some h2 →
      mutator (Calls.within depth) original method h a args
        = some ({ h2 with notified := h2.notified ++ [ob.dep] }, result) ∧
      (∃ o2 : Obj, h2.objs[a]? = some o2 ∧ o2.elems = o1.elems ∧ o2.ob = some b) ∧
      h2.notified = h1.notified ∧
      insertedOf method args =
        (if method = ArrayMethod.push ∨ method = ArrayMethod.unshift then some args
         else if method = ArrayMethod.splice then some (args.drop 2) else none) ∧
      (∀ (inserted : List Val) (x : Nat) (ox : Obj), insertedOf method args = some inserted →
        Val.ref x ∈ inserted → h1.objs[x]? = some ox → ox.kind ≠ ObjKind.vnode →
        (ox.ob ≠ none ∨
          (h1.shouldObserve = true ∧ h1.serverRendering = false ∧
            (ox.kind = ObjKind.array ∨ ox.kind = ObjKind.plain) ∧ ox.extensible = true ∧
            ox.isVue = false ∧ ox.props.lookup "_isVue" = none ∧
            ox.props.lookup "__ob__" = none)) →
        ∃ ox2 : Obj, h2.objs[x]? = some ox2 ∧ ox2.ob ≠ none)) ∧
    (h1.PlainData → h1.unobserved < depth →
      ∃ h2 : Heap,
        (match insertedOf method args with
          | some inserted => Observer.observeItems (Calls.within depth) h1 inserted
          | none => some h1) = some h2 ∧
        mutator (Calls.within depth) original method h a args
          = some ({ h2 with notified := h2.notified ++ [ob.dep] }, result)) := by
  constructor
  · intro h2 hobs
    obtain ⟨m1, m2, m3, m4, m5⟩ :=
      mutator_returns depth original method h a args h1 result o1 b ob h2 horig ho1 hb hob hobs
    refine ⟨m1, m2, m3, m4, ?_⟩
    intro inserted x ox hi hx hox hv hacc
    refine m5 inserted x ox hi hx hox hv ?_
    rcases hacc with hacc | ⟨c1, c2, c3, c4, c5, _, _⟩
    · exact Or.inl hacc
    · exact Or.inr ⟨c1, c2, c3, c4, c5⟩
  · intro hp hd
    have hret : ∃ h2 : Heap,
        (match insertedOf method args with
          | some inserted => Observer.observeItems (Calls.within depth) h1 inserted
          | none => some h1) = some h2 := by
      cases insertedOf method args with
      | none => exact ⟨h1, rfl⟩
      | some inserted =>
        obtain ⟨h2, e, _⟩ := observeItems_total depth inserted h1 hp hd
        exact ⟨h2, e⟩
    obtain ⟨h2, e⟩ := hret
    exact ⟨h2, e,
      (mutator_returns depth original method h a args h1 result o1 b ob h2 horig ho1 hb hob e).1⟩

/-- Witness of C17 as amended: `push(obj)` on the observed sample array `[1, 2, 3]`, for the
plain object `obj = { a: 1 }`: the call returns the new length 4, the array holds `obj` as
its last element and keeps its Observer, and `obj` carries an Observer. -/
theorem mutator_notifies_and_observes_witness :
    ∃ h2 : Heap,
      mutator (Calls.within 5) (arrayProto id ArrayMethod.push) ArrayMethod.push
          Heap.arrayAndObject 0 [Val.ref 1]
        = some ({ h2 with notified := h2.notified ++ [0] }, Val.num 4) ∧
      (∃ o2 : Obj, h2.objs[0]? = some o2 ∧
        o2.elems = [Val.num 1, Val.num 2, Val.num 3, Val.ref 1] ∧ o2.ob = some 0) ∧
      ∃ ox2 : Obj, h2.objs[1]? = some ox2 ∧ ox2.ob ≠ none := by
  have T := mutator_notifies_and_observes 5 (arrayProto id ArrayMethod.push) ArrayMethod.push
    Heap.arrayAndObject 0 [Val.ref 1] Heap.objectPushed (Val.num 4)
    { Obj.arrayOf [Val.num 1, Val.num 2, Val.num 3, Val.ref 1] with
      ob := some 0, augmented := true }
    0 { value := 0, dep := 0, vmCount := 0 } rfl (by decide) rfl (by decide)
  obtain ⟨h2, e, _⟩ := T.2 (by decide) (by decide)
  obtain ⟨m1, m2, _, _, m5⟩ := T.1 h2 e
  exact ⟨h2, m1, m2,
    m5 [Val.ref 1] 1 (Obj.plainOf [("a", Val.num 1)]) rfl (by simp) (by decide) (by decide)
      (Or.inr ⟨by decide, by decide, Or.inr rfl, rfl, rfl, by decide, by decide⟩)⟩

theorem mutator_scenario :
    (mutator (Calls.within 5) (arrayProto id ArrayMethod.push) ArrayMethod.push
        Heap.arrayAndObject 0 [Val.ref 1]).map
      (fun p => (p.2, (p.1.objs[0]?).map (fun o => o.elems), p.1.notified))
      = some (Val.num 4, some [Val.num 1, Val.num 2, Val.num 3, Val.ref 1], [0]) ∧
    (mutator (Calls.within 5) (arrayProto id ArrayMethod.push) ArrayMethod.push
        Heap.arrayAndObject 0 [Val.ref 1]).map
      (fun p => (p.1.objs[1]?).map (fun o => (o.ob, o.props.lookup "a")))
      = some (some (some 1,
          some (Slot.accessor (some (Fn.reactive 0)) (some (Fn.reactive 0)) true true))) :=
  ⟨by decide, by decide⟩

/-! ## `set` on an array with an index -/

/-- `set` on an array with a valid array index: the code of index.js 229-233. -/
theorem set_index_eq (r : Calls) (sorted : List Val → List Val) (h : Heap) (target : Nat)
    (o : Obj) (n : Nat) (val : Val) (ho : h.objs[target]? = some o)
    (hk : o.kind = ObjKind.array) :
    set r sorted h target (Key.index n) val =
      if (!o.writable) = true then none
      else if maxArrayLength < max o.elems.length n then none
      else if (o.props.lookup "splice").isSome = true then none
      else
        (if o.augmented = true
          then mutator r (arrayProto sorted ArrayMethod.splice) ArrayMethod.splice
            (h.setObj target
              { o with elems := o.elems ++ List.replicate (n - o.elems.length) Val.undefined })
            target [Val.num n, Val.num 1, val]
          else arrayProto sorted ArrayMethod.splice
            (h.setObj target
              { o with elems := o.elems ++ List.replicate (n - o.elems.length) Val.undefined })
            target [Val.num n, Val.num 1, val]).map (fun p => (p.1, val)) := by
  unfold set
  simp only [ho, hk, if_true]

/-- `set` with an index of `2^32 - 1` or more throws on an array: the assignment to `length`
or the `length` that `splice` sets is no array length. -/
theorem set_index_out_of_range (r : Calls) (sorted : List Val → List Val) (h : Heap)
    (target : Nat) (o : Obj) (n : Nat) (val : Val) (ho : h.objs[target]? = some o)
    (hk : o.kind = ObjKind.array) (hn : maxArrayLength ≤ n) :
    set r sorted h target (Key.index n) val = none := by
  have hnat := arrayProto_splice_at sorted h target o n val ho
  rw [if_neg (fun hh => by have := hh.2.2; omega)] at hnat
  rw [set_index_eq r sorted h target o n val ho hk]
  split
  · rfl
  · split
    · rfl
    · split
      · rfl
      · rw [hnat]
        unfold mutator
        rw [hnat]
        split <;> rfl

/-- C15, as the claim states it, fails where the platform refuses a write or `splice` is not
the array's method: `set` throws. On the observed sample array `[1, 2, 3]` the key
`4294967295` is a valid array index for `isValidArrayIndex`, and the `length` it asks for is
no array length. On a frozen array `[1, 2, 3]` the assignment to `length` throws, on a
non-extensible one the new element at index 3. An own property `splice` hides the method.
After `set(arr, "__ob__", 5)` the intercepted `splice` finds no Observer in `__ob__`. -/
theorem set_index_refused :
    set (Calls.within 5) id Heap.arraySample 0 (Key.index 4294967295) (Val.str "x") = none ∧
    (set (Calls.within 5) id (Heap.arrayWith false false false []) 0 (Key.index 1)
      (Val.str "x")).isNone = true ∧
    (set (Calls.within 5) id (Heap.arrayWith false true true []) 0 (Key.index 3)
      (Val.str "x")).isNone = true ∧
    (set (Calls.within 5) id
      (Heap.arrayWith true true true [("splice", Slot.data (Val.num 0) true true)]) 0
      (Key.index 1) (Val.str "x")).isNone = true ∧
    (Heap.observerOverwritten.objs[0]?).map
      (fun o => (o.kind, o.ob, o.augmented, o.props.lookup "__ob__"))
      = some (ObjKind.array, none, true, some (Slot.data (Val.num 5) false true)) ∧
    (set (Calls.within 5) id Heap.observerOverwritten 0 (Key.index 1) (Val.str "x")).isNone
      = true :=
  ⟨set_index_out_of_range (Calls.within 5) id Heap.arraySample 0
      { Obj.arrayOf [Val.num 1, Val.num 2, Val.num 3] with ob := some 0, augmented := true }
      4294967295 (Val.str "x") (by decide) rfl (by decide),
   by decide, by decide, by decide, by decide, by decide⟩

/-- C15 as amended. For an array target and a valid array index `n`: whenever
`set(target, n, val)` returns, it returns `val` and leaves `target[n] === val`,
`target.length` equal to `max(old length, n + 1)` and every other index below the old length
holding its old element. It returns when the platform accepts the writes (the array is
writable, the new length is at most `2^32 - 1`, and the array is extensible or `n` inside
it) and `target.splice` is the array's method: no own property hides it and, where it is the
intercepted one, the array carries its Observer; the `observe` call on `val` returns when
the objects without Observer hold plain data and the call depth exceeds their number by
two. -/
theorem set_array_index (depth : Nat) (sorted : List Val → List Val) (h : Heap) (target : Nat)
    (o : Obj) (n : Nat) (val : Val) (ho : h.objs[target]? = some o)
    (hk : o.kind = ObjKind.array) :
    (∀ (h1 : Heap) (res : Val),
      set (Calls.within depth) sorted h target (Key.index n) val = some (h1, res) →
      res = val ∧ ∃ o1 : Obj, h1.objs[target]? = some o1 ∧
        o1.elems.length = max o.elems.length (n + 1) ∧ o1.elems[n]? = some val ∧
        (∀ i, i < o.elems.length → i ≠ n → o1.elems[i]? = o.elems[i]?)) ∧
    (o.writable = true → max o.elems.length (n + 1) ≤ maxArrayLength →
      (o.extensible = true ∨ n < o.elems.length) → o.props.lookup "splice" = none →
      (o.augmented = true →
        (∃ (b : Nat) (ob : Observer), o.ob = some b ∧ h.observers[b]? = some ob) ∧
        h.PlainData ∧ h.unobserved + 2 ≤ depth) →
      ∃ h1 : Heap, set (Calls.within depth) sorted h target (Key.index n) val = some (h1, val)) := by
  have hnat := arrayProto_splice_at sorted h target o n val ho
  have hlt : target < h.objs.length := (List.getElem?_eq_some_iff.1 ho).1
  obtain ⟨f1, f2, f3, _⟩ := replaceAt_facts o.elems n val
  -- the state the native `splice` leaves
  have hmidobj : ∀ removed : List Val,
      ({ h with objs := h.objs.set target { o with elems := replaceAt o.elems n val } ++
          [Obj.arrayOf removed] } : Heap).objs[target]?
        = some { o with elems := replaceAt o.elems n val } := by
    intro removed
    show (h.objs.set target { o with elems := replaceAt o.elems n val } ++
      [Obj.arrayOf removed])[target]? = _
    rw [List.getElem?_append_left (by simp [hlt])]
    simp [hlt]
  rw [set_index_eq (Calls.within depth) sorted h target o n val ho hk]
  constructor
  · intro h1 res hres
    split at hres
    · cases hres
    · split at hres
      · cases hres
      · split at hres
        · cases hres
        · by_cases hc : o.writable = true ∧ (o.extensible = true ∨ n < o.elems.length) ∧
              max o.elems.length (n + 1) ≤ maxArrayLength
          · rw [if_pos hc] at hnat
            by_cases haug : o.augmented = true
            · rw [if_pos haug] at hres
              cases hm : mutator (Calls.within depth) (arrayProto sorted ArrayMethod.splice)
                  ArrayMethod.splice
                  (h.setObj target
                    { o with elems := o.elems ++ List.replicate (n - o.elems.length) Val.undefined })
                  target [Val.num n, Val.num 1, val] with
              | none => rw [hm] at hres; cases hres
              | some p =>
                obtain ⟨hf, r0⟩ := p
                rw [hm] at hres
                simp only [Option.map_some', Option.some.injEq, Prod.mk.injEq] at hres
                obtain ⟨e1, e2⟩ := hres
                subst e1
                obtain ⟨hmid, o1, b, ob, h2, g1, g2, g3, g4, g5, g6⟩ :=
                  mutator_inv _ _ _ _ _ _ _ _ hm
                rw [hnat] at g1
                simp only [Option.some.injEq, Prod.mk.injEq] at g1
                have hins : hmid.Instruments h2 :=
                  observeItems_ins _ (within_ins depth) _ hmid h2 g5
                obtain ⟨o2, k1, _, k3, _⟩ := hins.2.2.2.1 target o1 g2
                have ho1 : o1 = { o with elems := replaceAt o.elems n val } := by
                  rw [← g1.1, hmidobj] at g2
                  simp only [Option.some.injEq] at g2
                  exact g2.symm
                refine ⟨e2.symm, o2, by rw [g6]; exact k1, ?_, ?_, ?_⟩
                · rw [k3, ho1]; exact f1
                · rw [k3, ho1]; exact f2
                · intro i hi hne; rw [k3, ho1]; exact f3 i hi hne
            · rw [if_neg haug, hnat] at hres
              simp only [Option.map_some', Option.some.injEq, Prod.mk.injEq] at hres
              obtain ⟨e1, e2⟩ := hres
              subst e1
              exact ⟨e2.symm, _, hmidobj _, f1, f2, f3⟩
          · rw [if_neg hc] at hnat
            rw [hnat] at hres
            by_cases haug : o.augmented = true
            · rw [if_pos haug] at hres
              unfold mutator at hres
              rw [hnat] at hres
              simp at hres
            · rw [if_neg haug] at hres
              simp at hres
  · intro hw hmax hgrow hsplice hobserved
    rw [if_pos ⟨hw, hgrow, hmax⟩] at hnat
    rw [if_neg (by simp [hw]), if_neg (by omega), if_neg (by simp [hsplice])]
    by_cases haug : o.augmented = true
    · rw [if_pos haug]
      obtain ⟨⟨b, ob, hb, hob⟩, hp, hd⟩ := hobserved haug
      obtain ⟨hp1, hu1⟩ := plainData_splice h target o (replaceAt o.elems n val)
        (((o.elems ++ List.replicate (n - o.elems.length) Val.undefined).drop n).take
          (min 1 ((o.elems ++ List.replicate (n - o.elems.length) Val.undefined).length - n)))
        ho
        { h with objs := h.objs.set target { o with elems := replaceAt o.elems n val } ++
          [Obj.arrayOf
            (((o.elems ++ List.replicate (n - o.elems.length) Val.undefined).drop n).take
              (min 1 ((o.elems ++ List.replicate (n - o.elems.length) Val.undefined).length - n)))] }
        rfl
      obtain ⟨h2, e, _⟩ := observeItems_total depth [val] _ (hp1 hp) (by rw [hu1]; omega)
      obtain ⟨m1, _⟩ := mutator_returns depth (arrayProto sorted ArrayMethod.splice)
        ArrayMethod.splice _ target [Val.num n, Val.num 1, val] _ _ _ b ob h2 hnat
        (hmidobj _) hb hob e
      rw [m1]
      exact ⟨_, rfl⟩
    · rw [if_neg haug, hnat]
      exact ⟨_, rfl⟩

/-- Witness of C15 as amended: `set(arr, 5, obj)` on the observed sample array `[1, 2, 3]`,
for the plain object `obj = { a: 1 }`. -/
theorem set_array_index_witness :
    Heap.arrayAndObject.objs[0]? = some
      { Obj.arrayOf [Val.num 1, Val.num 2, Val.num 3] with ob := some 0, augmented := true } ∧
    ∃ h1 : Heap, set (Calls.within 5) id Heap.arrayAndObject 0 (Key.index 5) (Val.ref 1)
      = some (h1, Val.ref 1) :=
  ⟨by decide,
   (set_array_index 5 id Heap.arrayAndObject 0
      { Obj.arrayOf [Val.num 1, Val.num 2, Val.num 3] with ob := some 0, augmented := true }
      5 (Val.ref 1) (by decide) rfl).2 rfl (by decide) (Or.inl rfl) rfl
      (fun _ => ⟨⟨0, { value := 0, dep := 0, vmCount := 0 }, rfl, by decide⟩,
        by decide, by decide⟩)⟩

theorem set_array_index_scenario :
    (set (Calls.within 5) id Heap.arraySample 0 (Key.index 5) (Val.str "x")).map
      (fun p => (p.2, (p.1.objs[0]?).map (fun o => o.elems), p.1.notified))
      = some (Val.str "x",
          some [Val.num 1, Val.num 2, Val.num 3, Val.undefined, Val.undefined, Val.str "x"],
          [0]) ∧
    (set (Calls.within 5) id Heap.arraySample 0 (Key.index 1) (Val.str "x")).map
      (fun p => (p.2, (p.1.objs[0]?).map (fun o => o.elems), p.1.notified))
      = some (Val.str "x", some [Val.num 1, Val.str "x", Val.num 3], [0]) ∧
    (set (Calls.within 5) id Heap.arrayAndObject 0 (Key.index 5) (Val.ref 1)).map
      (fun p => (p.2, (p.1.objs[0]?).map (fun o => o.elems), p.1.notified,
        (p.1.objs[1]?).map (fun o => o.ob)))
      = some (Val.ref 1,
          some [Val.num 1, Val.num 2, Val.num 3, Val.undefined, Val.undefined, Val.ref 1],
          [0], some (some 1)) :=
  ⟨by decide, by decide, by decide⟩

/-! ## `set` with a key that is no property of the target -/

/-- The read of a property that is unset calls no getter and gives a falsy value. -/
theorem readProp_unset (r : Calls) (h : Heap) (a : Nat) (o : Obj) (key : String)
    (ho : h.objs[a]? = some o) (hu : o.unset key = true) :
    ∃ v : Val, readProp r h a key = some (h, v) ∧ truthy v = false := by
  unfold readProp
  unfold Obj.unset at hu
  simp only [ho]
  cases hl : o.props.lookup key with
  | none => exact ⟨Val.undefined, rfl, rfl⟩
  | some s =>
    rw [hl] at hu
    cases s with
    | data v e c => exact ⟨v, rfl, by simpa using hu⟩
    | accessor g st e c => simp at hu

/-- `defineReactive(obj, key, val)` for a key that is not a property of `obj`: when it
returns, `obj[key]` is an accessor pair of a new closure that holds `val` under a new Dep;
it returns when `obj` is extensible and the `observe` call on `val` returns. -/
theorem defineReactive_new_key (r : Calls) (hk : r.ObservesOnly) (h : Heap) (a : Nat)
    (o : Obj) (key : String) (v : Val) (ho : h.objs[a]? = some o)
    (hkey : o.props.lookup key = none) :
    (∀ h1, defineReactive r h a key (some v) false = some h1 →
      ∃ (o1 : Obj) (c : Nat) (cl : Closure), h1.objs[a]? = some o1 ∧
        o1.props.lookup key
          = some (Slot.accessor (some (Fn.reactive c)) (some (Fn.reactive c)) true true) ∧
        h1.closures[c]? = some cl ∧ cl.val = v ∧ cl.dep = h.depUid ∧ cl.getter = none ∧
        cl.setter = none) ∧
    (o.extensible = true → (r.observe h.newDep.1 v false).isSome = true →
      ∃ h1, defineReactive r h a key (some v) false = some h1) := by
  have ho0 : ({ h with depUid := h.depUid + 1 } : Heap).objs[a]? = some o := ho
  constructor
  · intro h1 hd
    unfold defineReactive at hd
    simp only [Heap.newDep, ho0, hkey, Option.map_none', Option.bind_none] at hd
    simp only [reduceCtorEq, if_false] at hd
    cases hobs : r.observe { h with depUid := h.depUid + 1 } v false with
    | none => rw [hobs] at hd; simp at hd
    | some p =>
      obtain ⟨h3, childOb⟩ := p
      rw [hobs] at hd
      simp only [Bool.false_eq_true, if_false] at hd
      have hins := hk _ _ _ _ _ hobs
      obtain ⟨o4, ho4, _, _, _, _⟩ := hins.2.2.2.1 a o ho0
      have ho4c : ({ h3 with closures := h3.closures ++
          [{ dep := h.depUid, val := v, childOb := childOb, getter := none, setter := none,
             shallow := false }] } : Heap).objs[a]? = some o4 := ho4
      simp only [ho4c] at hd
      split at hd
      · cases hd
      · simp only [Option.some.injEq] at hd
        have hlt : a < h3.objs.length := (List.getElem?_eq_some_iff.1 ho4).1
        generalize hslot : Slot.accessor (some (Fn.reactive h3.closures.length))
          (some (Fn.reactive h3.closures.length)) true true = slot at hd
        refine ⟨{ o4 with props := setProp o4.props key slot },
          h3.closures.length,
          { dep := h.depUid, val := v, childOb := childOb, getter := none, setter := none,
            shallow := false },
          ?_, ?_, ?_, rfl, rfl, rfl, rfl⟩
        · rw [← hd]; simp [Heap.setObj, hlt]
        · rw [← hslot]; exact lookup_setProp o4.props key _
        · rw [← hd]; simp [Heap.setObj]
  · intro hext hsome
    cases hobs : r.observe h.newDep.1 v false with
    | none => rw [hobs] at hsome; cases hsome
    | some p =>
      obtain ⟨h3, childOb⟩ := p
      have hobs0 : r.observe { h with depUid := h.depUid + 1 } v false = some (h3, childOb) := hobs
      have hins := hk _ _ _ _ _ hobs0
      obtain ⟨o4, ho4, _, _, hx4, _⟩ := hins.2.2.2.1 a o ho0
      have ho4c : ({ h3 with closures := h3.closures ++
          [{ dep := h.depUid, val := v, childOb := childOb, getter := none, setter := none,
             shallow := false }] } : Heap).objs[a]? = some o4 := ho4
      unfold defineReactive
      simp only [Heap.newDep, ho0, hkey, Option.map_none', Option.bind_none]
      simp only [reduceCtorEq, if_false, hobs0, Bool.false_eq_true, ho4c]
      have hx : o4.extensible = true := by rw [hx4]; exact hext
      simp [hx]

/-- For a target that is not an array, a key that is no own property does not pass the
test `key in target && !(key in Object.prototype)` of index.js 238. -/
theorem hasProperty_of_not_own (o : Obj) (k : String) (hkind : o.kind ≠ ObjKind.array)
    (hown : hasOwn o k = false) :
    (hasProperty o k && !decide (k ∈ objectPrototypeKeys)) = false := by
  unfold hasProperty
  rw [hown]
  simp only [hkind, decide_False, Bool.false_and, Bool.or_false, Bool.false_or]
  cases decide (k ∈ objectPrototypeKeys) <;> rfl

/-- `set` for a key that is no own property of a target that is not an array and not
flagged `_isVue`: the code from index.js 244 on, for a target that carries an Observer. -/
theorem set_new_key_tracked (r : Calls) (sorted : List Val → List Val) (h : Heap)
    (target : Nat) (o : Obj) (key : Key) (val : Val) (x : Observer)
    (ho : h.objs[target]? = some o) (hkind : o.kind ≠ ObjKind.array)
    (hkey : hasOwn o key.propertyName = false) (hvue : o.isVue = false)
    (hflag : o.unset "_isVue" = true)
    (hob : o.ob.bind (fun b => h.observers[b]?) = some x) :
    set r sorted h target key val =
      if x.vmCount ≠ 0 then some (h, val)
      else
        match defineReactive r h x.value key.propertyName (some val) false with
        | none => none
        | some h1 => some ({ h1 with notified := h1.notified ++ [x.dep] }, val) := by
  obtain ⟨v, hread, hv⟩ := readProp_unset r h target o "_isVue" ho hflag
  have hro : readOb r h target = some (h, ObRead.observer x) := by
    unfold readOb
    simp only [ho, hob]
  have hri : readIsVue r h target = some (h, false) := by
    unfold readIsVue
    simp only [ho, hvue, Bool.false_eq_true, if_false, hread, Option.map_some', hv]
  have hin := hasProperty_of_not_own o key.propertyName hkind hkey
  unfold set
  rw [ho]
  cases key <;> simp only [hkind, if_false, hin, Bool.false_eq_true, hro, hri, Bool.false_or] <;>
    simp

/-- The same for a target whose `__ob__` is unset: the assignment `target[key] = val`. -/
theorem set_new_key_untracked (r : Calls) (sorted : List Val → List Val) (h : Heap)
    (target : Nat) (o : Obj) (key : Key) (val : Val)
    (ho : h.objs[target]? = some o) (hkind : o.kind ≠ ObjKind.array)
    (hkey : hasOwn o key.propertyName = false) (hvue : o.isVue = false)
    (hflag : o.unset "_isVue" = true) (hnone : o.ob = none) (hunset : o.unset "__ob__" = true) :
    set r sorted h target key val =
      (assignProp r h target key.propertyName val).map (fun h1 => (h1, val)) ∧
    assignProp r h target key.propertyName val =
      if key.propertyName = "__proto__" then
        match val with
        | Val.ref _ => none
        | Val.null => none
        | _ => some h
      else if o.extensible
      then some (h.setObj target
        { o with props := o.props ++ [(key.propertyName, Slot.data val true true)] })
      else none := by
  obtain ⟨v, hread, hv⟩ := readProp_unset r h target o "_isVue" ho hflag
  obtain ⟨v2, hread2, hv2⟩ := readProp_unset r h target o "__ob__" ho hunset
  have hro : readOb r h target = some (h, ObRead.other v2) := by
    unfold readOb
    simp only [ho, hnone, Option.none_bind, hread2, Option.map_some']
  have hri : readIsVue r h target = some (h, false) := by
    unfold readIsVue
    simp only [ho, hvue, Bool.false_eq_true, if_false, hread, Option.map_some', hv]
  have hlook : o.props.lookup key.propertyName = none := by
    unfold hasOwn at hkey
    simp only [Bool.or_eq_false_iff] at hkey
    simpa using hkey.1.1.1
  have hin := hasProperty_of_not_own o key.propertyName hkind hkey
  constructor
  · unfold set
    rw [ho]
    cases key <;>
      simp only [hkind, if_false, hin, Bool.false_eq_true, hro, hri, hv2, Bool.not_false,
        if_true]
  · have hsp : setProp o.props key.propertyName (Slot.data val true true)
        = o.props ++ [(key.propertyName, Slot.data val true true)] := by
      unfold setProp
      simp [hlook]
    unfold assignProp
    simp only [ho, hnone, hvue, hkind, hlook, hsp]
    simp

/-- C16, as the claim states it, fails: `set` returns early, doing nothing, for a target
that is a Vue instance or the root data of one (`ob.vmCount` is not 0). The observed sample
object at address 0 is root data and carries an Observer: `set(target, "k", 1)` returns 1,
installs no property `k`, creates no closure and notifies no Dep. The object flagged
`_isVue` carries no Observer: `set(target, "k", 1)` returns 1 and assigns nothing. A
target whose `__ob__` holds a truthy value that is no Observer, here `{ __ob__: 1 }`, is not
tracked, but `set(target, "k", 1)` takes `__ob__` for an Observer and throws in
`defineReactive(ob.value, ...)`. And on a target that is not extensible, here the plain
object without Observer at address 1 of the array sample, the assignment of the new
property throws. -/
theorem set_skips_root_data_and_instances :
    (Heap.observedSample.objs[0]?).map (fun o => (o.kind, o.ob, o.props.lookup "k"))
      = some (ObjKind.plain, some 0, none) ∧
    (Heap.observedSample.observers[0]?).map (fun x => x.vmCount) = some 1 ∧
    (set (Calls.within 5) id Heap.observedSample 0 (Key.name "k") (Val.num 1)).map
      (fun p => (p.2, p.1.notified, (p.1.objs[0]?).map (fun o => o.props.lookup "k"),
        p.1.closures.length, Heap.observedSample.closures.length))
      = some (Val.num 1, [], some none, 3, 3) ∧
    (Heap.vueInstance.objs[0]?).map (fun o => (o.kind, o.isVue, o.ob, o.props.lookup "k"))
      = some (ObjKind.plain, true, none, none) ∧
    (set (Calls.within 5) id Heap.vueInstance 0 (Key.name "k") (Val.num 1)).map
      (fun p => (p.2, (p.1.objs[0]?).map (fun o => o.props.lookup "k")))
      = some (Val.num 1, some none) ∧
    (set (Calls.within 5) id
      { Heap.empty with objs := [Obj.plainOf [("__ob__", Val.num 1)]] } 0 (Key.name "k")
      (Val.num 1)).isNone = true ∧
    (Heap.arraySample.objs[1]?).map (fun o => (o.kind, o.extensible, o.ob, o.props.lookup "k"))
      = some (ObjKind.plain, false, none, none) ∧
    (set (Calls.within 5) id Heap.arraySample 1 (Key.name "k") (Val.num 1)).isNone = true :=
  ⟨by decide, by decide, by decide, by decide, by decide, by decide, by decide, by decide⟩

/-- C16 as amended. For a target that is not an array, not a Vue instance (`_isVue` is
unset) and not root data (`ob.vmCount` is 0), and a key that is no own property of it (so
that the test of index.js 238 fails: the key is in `Object.prototype` when it is in the
target). If the target carries an Observer `ob` (of this target): whenever `set` returns, it returns
`val`, has called `defineReactive(target, key, val)`, which left `key` as an accessor pair of
a new closure holding `val`, and has called `notify()` on `ob.dep` exactly once and on no
other Dep; it returns when the target is extensible and the `observe` call on `val` returns,
which it does when the objects without Observer hold plain data and the call depth exceeds
their number. If the target carries no Observer and its `__ob__` is unset: `set` assigns
`target[key] = val`, which adds `key` as a plain data property holding `val`, changes
nothing else and notifies no Dep, and returns `val` (and throws when the target is not
extensible); for the key `__proto__` the assignment calls the setter of `Object.prototype`,
which ignores a `val` that is neither an object nor `null`. -/
theorem set_new_property (depth : Nat) (sorted : List Val → List Val) (h : Heap) (target : Nat)
    (o : Obj) (key : Key) (val : Val) (ho : h.objs[target]? = some o)
    (hkind : o.kind ≠ ObjKind.array) (hkey : hasOwn o key.propertyName = false)
    (hvue : o.isVue = false) (hflag : o.unset "_isVue" = true)
    (hroot : ∀ (b : Nat) (x : Observer), o.ob = some b → h.observers[b]? = some x →
      x.vmCount = 0) :
    (∀ (b : Nat) (x : Observer), o.ob = some b → h.observers[b]? = some x → x.value = target →
      (∀ (h1 : Heap) (res : Val),
        set (Calls.within depth) sorted h target key val = some (h1, res) →
        res = val ∧ h1.notified = h.notified ++ [x.dep] ∧
        (∃ h2 : Heap, defineReactive (Calls.within depth) h target key.propertyName (some val)
            false = some h2 ∧ h1 = { h2 with notified := h2.notified ++ [x.dep] }) ∧
        ∃ (o1 : Obj) (c : Nat) (cl : Closure), h1.objs[target]? = some o1 ∧
          o1.props.lookup key.propertyName
            = some (Slot.accessor (some (Fn.reactive c)) (some (Fn.reactive c)) true true) ∧
          h1.closures[c]? = some cl ∧ cl.val = val ∧ cl.getter = none ∧ cl.setter = none) ∧
      (o.extensible = true → h.PlainData → h.unobserved < depth →
        ∃ h1 : Heap, set (Calls.within depth) sorted h target key val = some (h1, val))) ∧
    (o.ob = none → o.unset "__ob__" = true →
      (key.propertyName ≠ "__proto__" →
        set (Calls.within depth) sorted h target key val =
          if o.extensible
          then some (h.setObj target
            { o with props := o.props ++ [(key.propertyName, Slot.data val true true)] }, val)
          else none) ∧
      (key.propertyName = "__proto__" → isObject val = false → val ≠ Val.null →
        set (Calls.within depth) sorted h target key val = some (h, val))) := by
  have hlook : o.props.lookup key.propertyName = none := by
    unfold hasOwn at hkey
    simp only [Bool.or_eq_false_iff] at hkey
    simpa using hkey.1.1.1
  constructor
  · intro b x hb hx hval
    have hob : o.ob.bind (fun b => h.observers[b]?) = some x := by rw [hb]; exact hx
    have hset := set_new_key_tracked (Calls.within depth) sorted h target o key val x ho hkind
      hkey hvue hflag hob
    rw [if_neg (by rw [hroot b x hb hx]; simp), hval] at hset
    obtain ⟨d1, d2⟩ := defineReactive_new_key (Calls.within depth) (within_ins depth) h target o
      key.propertyName val ho hlook
    constructor
    · intro h1 res hres
      rw [hset] at hres
      cases hd : defineReactive (Calls.within depth) h target key.propertyName (some val) false with
      | none => rw [hd] at hres; cases hres
      | some h2 =>
        rw [hd] at hres
        simp only [Option.some.injEq, Prod.mk.injEq] at hres
        obtain ⟨e1, e2⟩ := hres
        have hins := defineReactive_ins _ (within_readsOnly depth) (within_ins depth) h h2 target
          key.propertyName (some val) false hd
        obtain ⟨o1, c, cl, q1, q2, q3, q4, _, q6, q7⟩ := d1 h2 hd
        refine ⟨e2.symm, ?_, ⟨h2, rfl, e1.symm⟩, o1, c, cl, ?_, q2, ?_, q4, q6, q7⟩
        · rw [← e1]; show h2.notified ++ [x.dep] = _; rw [hins.1]
        · rw [← e1]; exact q1
        · rw [← e1]; exact q3
    · intro hext hp hd
      obtain ⟨h3, res, e3, _⟩ := observe_total depth h.newDep.1 val false
        (plainData_of_objs_eq h _ rfl hp)
        (by have e := unobserved_of_objs_eq h h.newDep.1 rfl; omega)
      obtain ⟨h2, hdef⟩ := d2 hext (by
        show ((Calls.within depth).observe h.newDep.1 val false).isSome = true
        rw [e3]; rfl)
      rw [hset, hdef]
      exact ⟨_, rfl⟩
  · intro hnone hunset
    obtain ⟨e1, e2⟩ := set_new_key_untracked (Calls.within depth) sorted h target o key val ho
      hkind hkey hvue hflag hnone hunset
    rw [e1, e2]
    constructor
    · intro hne
      rw [if_neg hne]
      split <;> rfl
    · intro heq hobj hnull
      rw [if_pos heq]
      cases val with
      | ref a => simp [isObject] at hobj
      | null => exact absurd rfl hnull
      | undefined => rfl
      | bool b => rfl
      | num n => rfl
      | nan => rfl
      | str t => rfl

/-- Witness of C16 as amended: the inner object of the observed sample (address 1, Observer
1, not root data) gets the new key `k`. -/
theorem set_new_property_witness :
    Heap.observedSample.objs[1]? = some
      { kind := ObjKind.plain, extensible := true, isVue := false, ob := some 1,
        augmented := false,
        props := [("c", Slot.accessor (some (Fn.reactive 1)) (some (Fn.reactive 1)) true true)],
        elems := [] } ∧
    Heap.observedSample.observers[1]? = some { value := 1, dep := 3, vmCount := 0 } ∧
    ∃ h1 : Heap, set (Calls.within 5) id Heap.observedSample 1 (Key.name "k") (Val.ref 0)
      = some (h1, Val.ref 0) :=
  ⟨by decide, by decide,
   ((set_new_property 5 id Heap.observedSample 1
      { kind := ObjKind.plain, extensible := true, isVue := false, ob := some 1,
        augmented := false,
        props := [("c", Slot.accessor (some (Fn.reactive 1)) (some (Fn.reactive 1)) true true)],
        elems := [] }
      (Key.name "k") (Val.ref 0) (by decide) (by decide) (by decide) rfl (by decide)
      (fun b x hb hx => by
        have hobs : Heap.observedSample.observers[1]? = some { value := 1, dep := 3, vmCount := 0 } := by
          decide
        cases hb
        rw [hobs] at hx
        cases hx
        rfl)).1 1 { value := 1, dep := 3, vmCount := 0 } rfl (by decide) rfl).2 rfl
      (by decide) (by decide)⟩

theorem set_new_property_scenario :
    (set (Calls.within 5) id Heap.observedSample 1 (Key.name "k") (Val.num 1)).map
      (fun p => (p.2, p.1.notified, (p.1.objs[1]?).map (fun o => o.props.lookup "k")))
      = some (Val.num 1, [3],
          some (some (Slot.accessor (some (Fn.reactive 3)) (some (Fn.reactive 3)) true true))) ∧
    (set (Calls.within 5) id Heap.observedSample 1 (Key.name "k") (Val.num 1)).map
      (fun p => (p.1.closures[3]?).map (fun (cl : Closure) => (cl.val, cl.dep)))
      = some (some (Val.num 1, 5)) ∧
    (set (Calls.within 5) id Heap.sample 0 (Key.name "k") (Val.num 1)).map
      (fun p => (p.2, p.1.notified, (p.1.objs[0]?).map (fun o => o.props.lookup "k")))
      = some (Val.num 1, [], some (some (Slot.data (Val.num 1) true true))) ∧
    (set (Calls.within 5) id Heap.observedSample 1 (Key.name "__ob__") (Val.num 1)).map
      (fun p => (p.2, p.1.notified, (p.1.objs[1]?).map (fun o => o.ob), p.1.closures.length,
        Heap.observedSample.closures.length))
      = some (Val.num 1, [], some none, 3, 3) ∧
    (set (Calls.within 5) id Heap.observedSample 1 (Key.name "__ob__") (Val.num 1)).map
      (fun p => (p.1.objs[1]?).map (fun o => o.props.lookup "__ob__"))
      = some (some (some (Slot.data (Val.num 1) false true))) ∧
    (set (Calls.within 5) id Heap.sample 0 (Key.name "__proto__") (Val.num 1)).map
      (fun p => (p.2, (p.1.objs[0]?).map (fun o => o.props.lookup "__proto__")))
      = some (Val.num 1, some none) :=
  ⟨by decide, by decide, by decide, by decide, by decide, by decide⟩

theorem set_named_keys_scenario :
    (set (Calls.within 5) id Heap.arraySample 0 (Key.name "length") (Val.num 1)).map
      (fun p => (p.2, (p.1.objs[0]?).map (fun o => o.elems), p.1.notified))
      = some (Val.num 1, some [Val.num 1], []) ∧
    (set (Calls.within 5) id Heap.arraySample 0 (Key.name "length") (Val.num 4294967296)).isNone
      = true ∧
    (set (Calls.within 5) id Heap.arraySample 0 (Key.name "push") (Val.num 1)).map
      (fun p => (p.2, (p.1.objs[0]?).map (fun o => o.props.lookup "push"), p.1.notified))
      = some (Val.num 1, some (some (Slot.data (Val.num 1) true true)), []) ∧
    (set (Calls.within 5) id Heap.arraySample 0 (Key.name "size") (Val.num 1)).map
      (fun p => (p.2, (p.1.objs[0]?).map (fun o => o.props.lookup "size"), p.1.notified))
      = some (Val.num 1,
          some (some (Slot.accessor (some (Fn.reactive 0)) (some (Fn.reactive 0)) true true)),
          [0]) ∧
    (set (Calls.within 5) id Heap.vueInstance 0 (Key.name "_isVue") (Val.bool false)).map
      (fun p => (p.2, (p.1.objs[0]?).map (fun o => (o.isVue, o.props.lookup "_isVue"))))
      = some (Val.bool false, some (false, some (Slot.data (Val.bool false) true true))) ∧
    (set (Calls.within 5) id (Heap.arrayWith false false false []) 0 (Key.name "length")
      (Val.num 3)).isNone = true :=
  ⟨by decide, by decide, by decide, by decide, by decide, by decide⟩

end Vue
